import Mathlib

/-!
# Station MAC (`sta-wifi-mac.cc`): association state machine and trigger-cycle contention

A shallow embedding of `ns3::StaWifiMac`.  The station object, the simulator's
event list, the static per-RU "report transmitted" flags and the log of calls
made to collaborators are carried in one record, and every member function of
the source becomes a function on that record.
-/

namespace ns3

/-- Modelled from the spec: simulated time of the timer service ("provides current
simulated time"); the class `Time` is not part of the source file.  A signed count
of microseconds. -/
abbrev Time := Int

/-- Modelled from the spec: the constructor `MicroSeconds` of the absent class `Time`. -/
def MicroSeconds (us : Int) : Time := us

/-- Modelled from the spec: the accessor `Time::GetMicroSeconds` of the absent class `Time`. -/
def GetMicroSeconds (t : Time) : Int := t

/-- Modelled from the spec: a station or coordinator address (`Mac48Address`, absent),
as the 48-bit number it encodes. -/
abbrev Mac48Address := Nat

/-- Modelled from the spec: the broadcast address `Mac48Address::GetBroadcast ()`,
the "broadcast entry" of a trigger signal. -/
def GetBroadcast : Mac48Address := 0xFFFFFFFFFFFF

/-- The enumeration `MacState` of the association state machine. -/
inductive MacState
  | ASSOCIATED
  | WAIT_PROBE_RESP
  | WAIT_ASSOC_RESP
  | BEACON_MISSED
  | REFUSED
  deriving DecidableEq, Repr

/-- The member functions that the source hands to `Simulator::Schedule`. -/
inductive Callback
  | TryToEnsureAssociated
  | ProbeRequestTimeout
  | AssocRequestTimeout
  | MissedBeacons
  | StopMuMode
  | CheckAndCancel (ru : Nat)
  | SendTriggerFrameResp (ru : Nat)
  | CancelExpiredEvents
  | UpdateBsrTx (ru : Nat)
  | NotifyMaybeCcaBusyStartNow (ru : Nat) (duration : Time)
  deriving DecidableEq, Repr

/-- Modelled from the spec: one pending entry of the timer service ("schedule a callback
after a delay, cancellable"): its registration number, its absolute firing time and
the callback it runs. -/
structure Event where
  uid : Nat
  ts : Time
  cb : Callback
  deriving DecidableEq, Repr

/-- Modelled from the spec: a timer handle (`EventId`): `none` is the default-constructed
handle, `some uid` names the registration it was returned for. -/
abbrev EventId := Option Nat

/-- The access categories indexing the EDCA queues. -/
inductive AcIndex
  | AC_BE
  | AC_BK
  | AC_VI
  | AC_VO
  deriving DecidableEq, Repr

/-- The transmission queues a frame can be handed to. -/
inductive TxQueue
  | dca
  | edca (ac : AcIndex)
  | dcaMu (ru : Nat)
  | edcaMu (ru : Nat) (ac : AcIndex)
  deriving DecidableEq, Repr

/-- Calls made to collaborators, in the order they are made. -/
inductive Effect
  | assocLogger (bssid : Mac48Address)
  | deAssocLogger (bssid : Mac48Address)
  | linkUp
  | linkDown
  | NotifyTxDrop (packet : Nat)
  | NotifyRxDrop (packet : Nat)
  | QueueProbeRequest
  | QueueAssocRequest (bssid : Mac48Address)
  | Queue (q : TxQueue) (packet : Nat) (dest : Mac48Address)
  | QueueButDontSend (q : TxQueue) (packet : Nat) (dest : Mac48Address)
  | ForwardUp (packet : Nat) (src : Mac48Address) (dst : Mac48Address)
  | DeaggregateAmsduAndForward (packet : Nat)
  | ConfigureContentionWindow (cwMin : Nat) (cwMax : Nat)
  | QueueTFResp (ru : Nat) (bsr : Nat)
  | UpdateBusyDuration (ru : Nat)
  | StartAccessIfNeeded (ru : Nat) (ac : AcIndex)
  | DoRestartAccessTimeoutIfNeeded (ru : Nat)
  | SetMuEdca (ru : Nat) (ac : AcIndex)
  | DcfNotifyMaybeCcaBusyStartNow (duration : Time)
  | DcfMuNotifyMaybeCcaBusyStartNow (ru : Nat) (duration : Time)
  | CancelTFRespIfNotSent (ru : Nat)
  | NotifyTfRespAccess (ru : Nat)
  | DcaMuStopMuMode (ru : Nat)
  | EdcaMuStopMuMode (ru : Nat) (ac : AcIndex)
  | RegularWifiMacReceive (packet : Nat)
  deriving DecidableEq, Repr

/-- Modelled from the spec: a network name (`Ssid`, absent); the empty name is the
broadcast (wildcard) name. -/
abbrev Ssid := List Nat

/-- Modelled from the spec: the rate set carried by a management frame (`SupportedRates`,
absent), as the two tables its queries answer from. -/
structure SupportedRates where
  selectorRates : List Nat
  supportedRates : List Nat
  deriving DecidableEq, Repr

/-- Modelled from the spec: one transmission mode of the PHY (`WifiMode`, absent). -/
structure WifiMode where
  erpOfdm : Bool
  dataRate : Nat
  deriving DecidableEq, Repr

/-- Modelled from the spec: the body of a beacon or probe response (the classes
`MgtBeaconHeader` and `MgtProbeResponseHeader`, absent), as the answers of the getters
the station reads. -/
structure MgtProbeResponseHeader where
  ssid : Ssid
  rates : SupportedRates
  beaconIntervalUs : Nat
  shortPreamble : Bool
  shortSlotTime : Bool
  barkerPreambleMode : Bool
  deriving DecidableEq, Repr

/-- Modelled from the spec: the body of an association response (`MgtAssocResponseHeader`,
absent), as the answers of the getters the station reads. -/
structure MgtAssocResponseHeader where
  statusSuccess : Bool
  rates : SupportedRates
  shortPreamble : Bool
  shortSlotTime : Bool
  barkerPreambleMode : Bool
  deriving DecidableEq, Repr

/-- Modelled from the spec: the body of a trigger signal or trigger-cycle beacon
(`MgtTFHeader`, `MgtTFBeaconHeader`, absent): "duration, uplink/downlink flag, mapping
from station address to assigned RU", the mapping in iteration order. -/
structure MgtTFHeader where
  ruAllocations : List (Mac48Address × Nat)
  uplinkFlag : Nat
  tfDuration : Nat
  deriving DecidableEq, Repr

/-- Modelled from the spec: a packet, as what the station can read from it: an identity
for the drop and forwarding notifications, its QoS tag, the duration the lower layer
computes for it, and the management body each `RemoveHeader` would yield. -/
structure Packet where
  uid : Nat
  qosTid : Nat
  tfBeaconDuration : Time
  beacon : MgtProbeResponseHeader
  probeResp : MgtProbeResponseHeader
  assocResp : MgtAssocResponseHeader
  tf : MgtTFHeader
  tfBeacon : MgtTFHeader
  deriving DecidableEq, Repr

/-- Modelled from the spec: the frame classes told apart by the `Is...` tests of
`WifiMacHeader` (absent); control frames are excluded by the assertion that opens
`Receive`. -/
inductive WifiMacType
  | DATA
  | QOSDATA
  | PROBE_REQ
  | ASSOC_REQ
  | TF_BEACON
  | BSR_ACK
  | TF
  | BEACON
  | PROBE_RESP
  | ASSOC_RESP
  | OTHER
  deriving DecidableEq, Repr

/-- Modelled from the spec: a MAC header (`WifiMacHeader`, absent), as the answers of the
getters the station reads. -/
structure WifiMacHeader where
  type : WifiMacType
  addr1 : Mac48Address
  addr2 : Mac48Address
  addr3 : Mac48Address
  addr1IsGroup : Bool
  fromDs : Bool
  toDs : Bool
  qosAmsdu : Bool
  deriving DecidableEq, Repr

/-- The station, together with the simulator, the static flags and the effect log. -/
structure StaWifiMac where
  -- timer service
  now : Time
  events : List Event
  nextUid : Nat
  -- static members shared by all stations
  m_bsrTx0 : Bool
  m_bsrTx1 : Bool
  m_bsrTx2 : Bool
  m_bsrTx3 : Bool
  m_bsrTx4 : Bool
  m_bsrTx5 : Bool
  m_bsrTx6 : Bool
  m_bsrTx7 : Bool
  m_bsrTx8 : Bool
  -- log of calls to collaborators
  trace : List Effect
  -- configuration and state kept by the base class and the lower layers
  address : Mac48Address
  bssid : Mac48Address
  ssid : Ssid
  m_qosSupported : Bool
  m_htSupported : Bool
  m_vhtSupported : Bool
  m_heSupported : Bool
  m_erpSupported : Bool
  linkUpIsNull : Bool
  bssMembershipSelectors : List Nat
  modes : List WifiMode
  shortSlotTimeEnabled : Bool
  shortPreambleEnabled : Bool
  slot : Time
  sifs : Time
  muMode : Bool
  ruBits : Nat
  tfDuration : Nat
  tfCw : Nat
  tfCwMin : Nat
  tfCwMax : Nat
  maxTfSlots : Nat
  bsr : Nat
  -- attributes
  m_probeRequestTimeout : Time
  m_assocRequestTimeout : Time
  m_maxMissedBeacons : Nat
  m_activeProbing : Bool
  -- association state machine
  m_state : MacState
  m_probeRequestEvent : EventId
  m_assocRequestEvent : EventId
  m_beaconWatchdog : EventId
  m_beaconWatchdogEnd : Time
  -- trigger-cycle contention
  m_muUlModeEnd : Time
  m_muDlModeEnd : Time
  m_muUlFlag : Nat
  m_muModeToStart : Bool
  m_noSlots : Nat
  m_updatedOnce : Bool
  m_firstTf : Bool
  m_bsrAckRecvd : Bool
  m_lastTfTxStart : Time
  m_lastTfRespRecv : Time
  m_triggerFrameRespEvent : EventId
  m_cancelEvent : EventId
  m_muModeExpireEvent : EventId
  deriving Repr

/-- Modelled from the spec: whether a handle is expired with respect to the list of
pending events: it is the default handle, or no pending event carries its
registration number. -/
def expiredIn (events : List Event) (id : EventId) : Bool :=
  match id with
  | none => true
  | some u => !(events.any fun e => e.uid == u)

/-- Modelled from the spec: the list of pending events once a handle is cancelled. -/
def cancelIn (events : List Event) (id : EventId) : List Event :=
  match id with
  | none => events
  | some u => events.filter fun e => e.uid != u

/-- The list of pending events after the idiom "cancel the handle if it is running". -/
def eventsAfterCancel (events : List Event) (id : EventId) : List Event :=
  if !(expiredIn events id) then cancelIn events id else events

namespace StaWifiMac

/-- Append one call to the effect log. -/
def emit (s : StaWifiMac) (e : Effect) : StaWifiMac :=
  { s with trace := s.trace ++ [e] }

/-- Modelled from the spec: `EventId::IsExpired`: a handle is expired when it is the
default one, or its event was cancelled or has already run. -/
def IsExpired (s : StaWifiMac) (id : EventId) : Bool :=
  expiredIn s.events id

/-- Modelled from the spec: `EventId::IsRunning`, the negation of `IsExpired`. -/
def IsRunning (s : StaWifiMac) (id : EventId) : Bool :=
  !(s.IsExpired id)

/-- Modelled from the spec: `EventId::Cancel`: the event will not run; "canceling an
already-fired event is a no-op". -/
def Cancel (s : StaWifiMac) (id : EventId) : StaWifiMac :=
  { s with events := cancelIn s.events id }

/-- Modelled from the spec: `Simulator::Schedule (delay, callback)`: registers the callback
at `now + delay` behind the events already registered; the new handle is `some uid`
for the registration number used. -/
def Schedule (s : StaWifiMac) (delay : Time) (cb : Callback) : StaWifiMac :=
  { s with events := s.events ++ [⟨s.nextUid, s.now + delay, cb⟩], nextUid := s.nextUid + 1 }

/-- Modelled from the spec: `Simulator::GetDelayLeft`: zero for an expired handle, else
the time left until the event fires. -/
def GetDelayLeft (s : StaWifiMac) (id : EventId) : Time :=
  match id with
  | none => 0
  | some u =>
    match s.events.find? fun e => e.uid == u with
    | none => 0
    | some e => e.ts - s.now

/-- The accessor `GetBssid` of the base class. -/
def GetBssid (s : StaWifiMac) : Mac48Address := s.bssid

/-- `StaWifiMac::SetState`. -/
def SetState (s : StaWifiMac) (value : MacState) : StaWifiMac :=
  let s1 :=
    if value = MacState.ASSOCIATED ∧ s.m_state ≠ MacState.ASSOCIATED then
      s.emit (Effect.assocLogger s.GetBssid)
    else if value ≠ MacState.ASSOCIATED ∧ s.m_state = MacState.ASSOCIATED then
      s.emit (Effect.deAssocLogger s.GetBssid)
    else s
  { s1 with m_state := value }

/-- Append several calls to the effect log, in order. -/
def emitAll (s : StaWifiMac) (es : List Effect) : StaWifiMac :=
  { s with trace := s.trace ++ es }

/-- The accessor `GetAddress` of the base class. -/
def GetAddress (s : StaWifiMac) : Mac48Address := s.address

/-- The accessor `SetBssid` of the base class. -/
def SetBssid (s : StaWifiMac) (a : Mac48Address) : StaWifiMac := { s with bssid := a }

/-- The accessor `SetSlot` of the base class. -/
def SetSlot (s : StaWifiMac) (t : Time) : StaWifiMac := { s with slot := t }

/-- `StaWifiMac::SendProbeRequest`: the probe request goes to the DCF queue, a running
probe retry timer is cancelled and a new one is scheduled. -/
def SendProbeRequest (s : StaWifiMac) : StaWifiMac :=
  let s1 := s.emit Effect.QueueProbeRequest
  let s2 := if s1.IsRunning s1.m_probeRequestEvent then s1.Cancel s1.m_probeRequestEvent else s1
  { s2.Schedule s2.m_probeRequestTimeout Callback.ProbeRequestTimeout with
    m_probeRequestEvent := some s2.nextUid }

/-- `StaWifiMac::SendAssociationRequest`: the association request goes to the DCF queue,
a running association retry timer is cancelled and a new one is scheduled. -/
def SendAssociationRequest (s : StaWifiMac) : StaWifiMac :=
  let s1 := s.emit (Effect.QueueAssocRequest s.GetBssid)
  let s2 := if s1.IsRunning s1.m_assocRequestEvent then s1.Cancel s1.m_assocRequestEvent else s1
  { s2.Schedule s2.m_assocRequestTimeout Callback.AssocRequestTimeout with
    m_assocRequestEvent := some s2.nextUid }

/-- `StaWifiMac::TryToEnsureAssociated` (re-evaluation). -/
def TryToEnsureAssociated (s : StaWifiMac) : StaWifiMac :=
  match s.m_state with
  | MacState.ASSOCIATED => s
  | MacState.WAIT_PROBE_RESP => s
  | MacState.BEACON_MISSED =>
    let s1 := s.emit Effect.linkDown
    if s1.m_activeProbing then
      (s1.SetState MacState.WAIT_PROBE_RESP).SendProbeRequest
    else s1
  | MacState.WAIT_ASSOC_RESP => s
  | MacState.REFUSED => s

/-- `StaWifiMac::StartActiveAssociation`. -/
def StartActiveAssociation (s : StaWifiMac) : StaWifiMac :=
  s.TryToEnsureAssociated

/-- `StaWifiMac::SetActiveProbing`. -/
def SetActiveProbing (s : StaWifiMac) (enable : Bool) : StaWifiMac :=
  let s1 :=
    if enable then s.Schedule 0 Callback.TryToEnsureAssociated
    else s.Cancel s.m_probeRequestEvent
  { s1 with m_activeProbing := enable }

/-- `StaWifiMac::AssocRequestTimeout`. -/
def AssocRequestTimeout (s : StaWifiMac) : StaWifiMac :=
  (s.SetState MacState.WAIT_ASSOC_RESP).SendAssociationRequest

/-- `StaWifiMac::ProbeRequestTimeout`. -/
def ProbeRequestTimeout (s : StaWifiMac) : StaWifiMac :=
  (s.SetState MacState.WAIT_PROBE_RESP).SendProbeRequest

/-- `StaWifiMac::MissedBeacons`, the callback of the beacon watchdog. -/
def MissedBeacons (s : StaWifiMac) : StaWifiMac :=
  if s.m_beaconWatchdogEnd > s.now then
    let s1 := if s.IsRunning s.m_beaconWatchdog then s.Cancel s.m_beaconWatchdog else s
    { s1.Schedule (s1.m_beaconWatchdogEnd - s1.now) Callback.MissedBeacons with
      m_beaconWatchdog := some s1.nextUid }
  else
    (s.SetState MacState.BEACON_MISSED).TryToEnsureAssociated

/-- `StaWifiMac::RestartBeaconWatchdog`. -/
def RestartBeaconWatchdog (s : StaWifiMac) (delay : Time) : StaWifiMac :=
  let s1 := { s with m_beaconWatchdogEnd := max (s.now + delay) s.m_beaconWatchdogEnd }
  if s1.GetDelayLeft s1.m_beaconWatchdog < delay ∧ s1.IsExpired s1.m_beaconWatchdog = true then
    { s1.Schedule delay Callback.MissedBeacons with m_beaconWatchdog := some s1.nextUid }
  else s1

/-- `StaWifiMac::IsAssociated`. -/
def IsAssociated (s : StaWifiMac) : Bool :=
  s.m_state == MacState.ASSOCIATED

/-- `StaWifiMac::IsWaitAssocResp`. -/
def IsWaitAssocResp (s : StaWifiMac) : Bool :=
  s.m_state == MacState.WAIT_ASSOC_RESP

/-- Modelled from the spec: `QosUtilsMapTidToAc` (absent): "a TID of zero will map to
AC_BE"; the other traffic identifiers follow the usual table. -/
def QosUtilsMapTidToAc (tid : Nat) : AcIndex :=
  if tid = 0 ∨ tid = 3 then AcIndex.AC_BE
  else if tid = 1 ∨ tid = 2 then AcIndex.AC_BK
  else if tid = 4 ∨ tid = 5 then AcIndex.AC_VI
  else if tid = 6 ∨ tid = 7 then AcIndex.AC_VO
  else AcIndex.AC_BE

/-- Modelled from the spec: `Seconds` of the absent class `Time`, in microseconds. -/
def Seconds (n : Int) : Time := 1000000 * n

/-- Reduction of a value to an unsigned 32-bit integer. -/
def toUint32 (x : Int) : Nat := (x % 4294967296).toNat

/-- Reduction of a value to a signed 32-bit integer (`int`). -/
def toInt32 (x : Int) : Int := (x + 2147483648) % 4294967296 - 2147483648

/-- Modelled from the spec: `UniformRandomVariable::GetInteger (lo, hi)` ("draw OBO
uniformly from [0, window-1]"): the raw draw `u` of the generator is an input. -/
def GetInteger (u : Nat) (lo hi : Nat) : Nat := lo + u % (hi - lo + 1)

/-- `StaWifiMac::UpdateBsrTx` (static). -/
def UpdateBsrTx (s : StaWifiMac) (ru : Nat) : StaWifiMac :=
  if ru = 0 then { s with m_bsrTx0 := true }
  else if ru = 1 then { s with m_bsrTx1 := true }
  else if ru = 2 then { s with m_bsrTx2 := true }
  else if ru = 3 then { s with m_bsrTx3 := true }
  else if ru = 4 then { s with m_bsrTx4 := true }
  else if ru = 5 then { s with m_bsrTx5 := true }
  else if ru = 6 then { s with m_bsrTx6 := true }
  else if ru = 7 then { s with m_bsrTx7 := true }
  else if ru = 8 then { s with m_bsrTx8 := true }
  else s

/-- `StaWifiMac::ResetBsrTx` (static). -/
def ResetBsrTx (s : StaWifiMac) : StaWifiMac :=
  { s with
    m_bsrTx0 := false, m_bsrTx1 := false, m_bsrTx2 := false,
    m_bsrTx3 := false, m_bsrTx4 := false, m_bsrTx5 := false,
    m_bsrTx6 := false, m_bsrTx7 := false, m_bsrTx8 := false }

/-- `StaWifiMac::GetBsrTx` (static). -/
def GetBsrTx (s : StaWifiMac) (ru : Nat) : Bool :=
  if ru = 0 then s.m_bsrTx0
  else if ru = 1 then s.m_bsrTx1
  else if ru = 2 then s.m_bsrTx2
  else if ru = 3 then s.m_bsrTx3
  else if ru = 4 then s.m_bsrTx4
  else if ru = 5 then s.m_bsrTx5
  else if ru = 6 then s.m_bsrTx6
  else if ru = 7 then s.m_bsrTx7
  else if ru = 8 then s.m_bsrTx8
  else false

/-- The accessor `GetRuBits` of the base class. -/
def GetRuBits (s : StaWifiMac) : Nat := s.ruBits

/-- `StaWifiMac::TriggerFrameRespAccess`. -/
def TriggerFrameRespAccess (s : StaWifiMac) : StaWifiMac :=
  (s.Schedule (MicroSeconds 1) (Callback.NotifyMaybeCcaBusyStartNow s.GetRuBits (Seconds 1))).emit
    (Effect.NotifyTfRespAccess s.GetRuBits)

/-- `StaWifiMac::UpdateSlots`: `nus` is an `int`, `nIntSlots` and `m_noSlots` are
unsigned 32-bit, the quotient and remainder are those of C++ (truncating). -/
def UpdateSlots (s : StaWifiMac) (ru : Nat) : StaWifiMac :=
  if ru = s.GetRuBits ∧ s.m_noSlots ≠ 0 ∧ s.m_updatedOnce = false then
    let s1 := s.Cancel s.m_cancelEvent
    let nus0 : Int := toInt32 (GetMicroSeconds (s1.now - s1.m_lastTfRespRecv))
    let nus : Int :=
      if Int.tmod nus0 (GetMicroSeconds s1.slot) ≠ 0 then
        toInt32 (nus0 - GetMicroSeconds s1.sifs)
      else nus0
    let nIntSlots : Nat := toUint32 (Int.tdiv nus (GetMicroSeconds s1.slot))
    { s1 with
      m_noSlots := toUint32 ((s1.m_noSlots : Int) - (nIntSlots : Int)),
      m_updatedOnce := true }
  else s

/-- `StaWifiMac::CheckAndCancel`. -/
def CheckAndCancel (s : StaWifiMac) (ru : Nat) : StaWifiMac :=
  if s.GetBsrTx ru then
    s.Cancel s.m_triggerFrameRespEvent
  else
    s.Schedule (MicroSeconds 1) (Callback.UpdateBsrTx ru)

/-- `StaWifiMac::CancelExpiredEvents`. -/
def CancelExpiredEvents (s : StaWifiMac) : StaWifiMac :=
  let s1 := s.emit (Effect.CancelTFRespIfNotSent s.GetRuBits)
  if !(s1.GetBsrTx s1.GetRuBits) then
    { s1 with
      m_noSlots := toUint32 ((s1.m_noSlots : Int) - (toUint32 ((s1.maxTfSlots : Int) - 1) : Int)) }
  else s1

/-- `StaWifiMac::SendTriggerFrameResp`. -/
def SendTriggerFrameResp (s : StaWifiMac) (ru : Nat) : StaWifiMac :=
  s.emitAll [Effect.QueueTFResp ru s.bsr, Effect.UpdateBusyDuration ru,
    Effect.StartAccessIfNeeded ru AcIndex.AC_BE, Effect.DoRestartAccessTimeoutIfNeeded ru]

/-- `StaWifiMac::PrepareForTx`. -/
def PrepareForTx (s : StaWifiMac) : StaWifiMac :=
  s.emitAll
    (((List.range 8).map fun ac => Effect.SetMuEdca s.GetRuBits (QosUtilsMapTidToAc ac)) ++
      [Effect.UpdateBusyDuration s.GetRuBits] ++
      ((List.range 8).map fun i => Effect.StartAccessIfNeeded s.GetRuBits (QosUtilsMapTidToAc i)))

/-- `StaWifiMac::StopMuMode`. -/
def StopMuMode (s : StaWifiMac) : StaWifiMac :=
  ({ s with muMode := false }).emitAll
    ((List.range 9).flatMap fun ru =>
      [Effect.DcaMuStopMuMode ru, Effect.DcfMuNotifyMaybeCcaBusyStartNow ru (Seconds 1)] ++
        ((List.range 8).map fun ac => Effect.EdcaMuStopMuMode ru (QosUtilsMapTidToAc ac)))

/-- `StaWifiMac::Enqueue`. -/
def Enqueue (s : StaWifiMac) (packet : Packet) (dest : Mac48Address) : StaWifiMac :=
  if !s.IsAssociated then
    (s.emit (Effect.NotifyTxDrop packet.uid)).TryToEnsureAssociated
  else
    let tid : Nat :=
      if s.m_qosSupported then (if packet.qosTid > 7 then 0 else packet.qosTid) else 0
    if s.muMode then
      if s.m_qosSupported then
        s.emit (Effect.Queue (TxQueue.edcaMu s.GetRuBits AcIndex.AC_BE) packet.uid dest)
      else
        s.emit (Effect.Queue (TxQueue.dcaMu s.GetRuBits) packet.uid dest)
    else if s.m_muModeToStart then
      if s.m_qosSupported then
        s.emit (Effect.QueueButDontSend (TxQueue.edcaMu s.GetRuBits AcIndex.AC_BE) packet.uid dest)
      else
        s.emit (Effect.QueueButDontSend (TxQueue.dcaMu s.GetRuBits) packet.uid dest)
    else
      let s1 := s.emitAll ((List.range 9).map fun i =>
        Effect.QueueButDontSend (TxQueue.edcaMu i AcIndex.AC_BE) packet.uid dest)
      if s1.m_qosSupported then
        s1.emit (Effect.Queue TxQueue.dca packet.uid dest)
      else
        s1.emit (Effect.Queue (TxQueue.edca (QosUtilsMapTidToAc tid)) packet.uid dest)

/-- Modelled from the spec: `SupportedRates::IsBssMembershipSelectorRate` (absent). -/
def IsBssMembershipSelectorRate (r : SupportedRates) (selector : Nat) : Bool :=
  r.selectorRates.contains selector

/-- Modelled from the spec: `SupportedRates::IsSupportedRate` (absent). -/
def IsSupportedRate (r : SupportedRates) (rate : Nat) : Bool :=
  r.supportedRates.contains rate

/-- Modelled from the spec: `Ssid::IsBroadcast` (absent): the wildcard name. -/
def SsidIsBroadcast (a : Ssid) : Bool := a.isEmpty

/-- Modelled from the spec: `Ssid::IsEqual` (absent). -/
def SsidIsEqual (a b : Ssid) : Bool := a == b

/-- The loop of `Receive` that looks for an ERP-OFDM mode among the supported rates. -/
def isErpAllowed (s : StaWifiMac) (rates : SupportedRates) : Bool :=
  s.modes.any fun mode => mode.erpOfdm && IsSupportedRate rates mode.dataRate

/-- The trigger-cycle-beacon branch of `Receive`: the loop over the RU allocations. -/
def tfBeaconLoop (s : StaWifiMac) : List (Mac48Address × Nat) → StaWifiMac
  | [] => s
  | (a, ru) :: rest =>
    tfBeaconLoop (if a = s.GetAddress then { s with ruBits := ru } else s) rest

/-- The trigger branch of `Receive`: what is done for a broadcast allocation entry. -/
def tfBroadcastEntry (s : StaWifiMac) : StaWifiMac :=
  let s1 := { s with m_lastTfRespRecv := s.now, m_muModeToStart := true }
  let s2 :=
    if s1.m_noSlots < s1.maxTfSlots then
      let s3 := s1.Schedule ((s1.m_noSlots : Int) * s1.slot) (Callback.CheckAndCancel s1.GetRuBits)
      { s3.Schedule ((s3.m_noSlots : Int) * s3.slot) (Callback.SendTriggerFrameResp s3.GetRuBits) with
        m_triggerFrameRespEvent := some s3.nextUid }
    else s1
  s2.Schedule ((s2.maxTfSlots : Int) * s2.slot + s2.sifs) Callback.CancelExpiredEvents

/-- The trigger branch of `Receive`: the loop over the RU allocations; the flag tells
whether the loop left `Receive` through its `return`. -/
def tfAllocLoop (s : StaWifiMac) (ulFlag : Nat) : List (Mac48Address × Nat) → StaWifiMac × Bool
  | [] => (s, false)
  | (a, ru) :: rest =>
    if a = s.GetAddress ∧ ulFlag ≠ 0 then
      let s1 := ({ s with muMode := true, ruBits := ru }).PrepareForTx
      (s1.Schedule (MicroSeconds 17) (Callback.NotifyMaybeCcaBusyStartNow s1.GetRuBits (Seconds 1)),
        true)
    else
      tfAllocLoop (if a = GetBroadcast then s.tfBroadcastEntry else s) ulFlag rest

/-- The trigger branch of `Receive`: the update of the contention window and the draw
of a new OBO; `rv` is the raw draw of the random variable. -/
def tfDraw (s : StaWifiMac) (rv : Nat) : StaWifiMac :=
  let s1 :=
    if s.m_firstTf then
      { s with m_firstTf := false, m_noSlots := GetInteger rv 0 (toUint32 ((s.tfCw : Int) - 1)) }
    else if s.m_noSlots = 0 then
      let s2 :=
        if !s.m_bsrAckRecvd then
          let s3 := { s with tfCw := toUint32 (2 * (s.tfCw : Int)) }
          if s3.tfCw > s3.tfCwMax then { s3 with tfCw := s3.tfCwMax } else s3
        else s
      { s2 with m_noSlots := GetInteger rv 0 (toUint32 ((s2.tfCw : Int) - 1)) }
    else s
  if s1.m_bsrAckRecvd then { s1 with m_bsrAckRecvd := false } else s1

/-- The trigger branch of `Receive`, up to the loop over the RU allocations. -/
def tfStart (s : StaWifiMac) (packet : Packet) (rv : Nat) : StaWifiMac :=
  let s1 := { s.ResetBsrTx with m_updatedOnce := false, m_lastTfTxStart := packet.tfBeaconDuration }
  let s2 := { s1 with m_muUlFlag := packet.tf.uplinkFlag, tfDuration := packet.tf.tfDuration }
  let s3 := { s2 with m_muDlModeEnd := (s2.tfDuration : Int) * s2.slot - s2.m_lastTfTxStart }
  let s4 := s3.emit (Effect.DcfNotifyMaybeCcaBusyStartNow s3.m_muDlModeEnd)
  let s5 := { s4.Schedule s4.m_muDlModeEnd Callback.StopMuMode with
              m_muModeExpireEvent := some s4.nextUid }
  s5.tfDraw rv

/-- The beacon branch of `Receive`: whether the beacon is accepted (`goodBeacon`). -/
def goodBeacon (s : StaWifiMac) (beacon : MgtProbeResponseHeader) (hdr : WifiMacHeader) : Bool :=
  let g1 := SsidIsBroadcast s.ssid || SsidIsEqual beacon.ssid s.ssid
  let bssMembershipSelectorMatch :=
    s.bssMembershipSelectors.any fun selector => IsBssMembershipSelectorRate beacon.rates selector
  let g2 :=
    if s.bssMembershipSelectors.length > 0 ∧ bssMembershipSelectorMatch = false then false else g1
  if (s.IsWaitAssocResp || s.IsAssociated) ∧ hdr.addr3 ≠ s.GetBssid then false else g2

/-- The watchdog delay the station computes from a beacon interval,
`MicroSeconds (interval * m_maxMissedBeacons)`: the product is taken in unsigned 64-bit
arithmetic. -/
def watchdogDelay (s : StaWifiMac) (beaconIntervalUs : Nat) : Time :=
  MicroSeconds (((beaconIntervalUs * s.m_maxMissedBeacons) % 18446744073709551616 : Nat) : Int)

/-- The beacon branch of `Receive`: what is done for an accepted beacon (the body of
`if (goodBeacon)`). -/
def beaconAccept (s : StaWifiMac) (beacon : MgtProbeResponseHeader) (hdr : WifiMacHeader) :
    StaWifiMac :=
  let delay := s.watchdogDelay beacon.beaconIntervalUs
  let s2 := (s.RestartBeaconWatchdog delay).SetBssid hdr.addr3
  let isShortPreambleEnabled :=
    if s2.m_erpSupported then beacon.shortPreamble && !beacon.barkerPreambleMode
    else beacon.shortPreamble
  let s3 :=
    if s2.m_erpSupported then
      (if beacon.shortSlotTime then s2.SetSlot (MicroSeconds 13) else s2.SetSlot (MicroSeconds 20))
    else s2
  { s3 with shortPreambleEnabled := isShortPreambleEnabled,
            shortSlotTimeEnabled := beacon.shortSlotTime }

/-- The beacon branch of `Receive`. -/
def receiveBeacon (s : StaWifiMac) (packet : Packet) (hdr : WifiMacHeader) : StaWifiMac :=
  let beacon := packet.beacon
  let good := s.goodBeacon beacon hdr
  let s1 := if good then s.beaconAccept beacon hdr else s
  if good ∧ s1.m_state = MacState.BEACON_MISSED then
    (s1.SetState MacState.WAIT_ASSOC_RESP).SendAssociationRequest
  else s1

/-- The part of `Receive` shared by the probe-response and association-response
branches: the slot and contention window chosen from the ERP information. -/
def erpUpdate (s : StaWifiMac) (rates : SupportedRates) : StaWifiMac :=
  if s.m_erpSupported then
    if !(s.isErpAllowed rates) then
      (s.SetSlot (MicroSeconds 20)).emit (Effect.ConfigureContentionWindow 31 1023)
    else
      (if s.shortSlotTimeEnabled then s.SetSlot (MicroSeconds 13)
       else s.SetSlot (MicroSeconds 20)).emit (Effect.ConfigureContentionWindow 15 1023)
  else s

/-- The value of `isShortPreambleEnabled` after the ERP information was read. -/
def erpShortPreamble (s : StaWifiMac) (rates : SupportedRates) (shortPreamble barker : Bool) :
    Bool :=
  if s.m_erpSupported then
    (if !(s.isErpAllowed rates) then shortPreamble else shortPreamble && !barker)
  else shortPreamble

/-- The probe-response branch of `Receive`. -/
def receiveProbeResp (s : StaWifiMac) (packet : Packet) (hdr : WifiMacHeader) : StaWifiMac :=
  if s.m_state = MacState.WAIT_PROBE_RESP then
    let probeResp := packet.probeResp
    if !(SsidIsEqual probeResp.ssid s.ssid) then s
    else if s.bssMembershipSelectors.any fun selector => !(IsSupportedRate probeResp.rates selector)
    then s
    else
      let s1 := s.erpUpdate probeResp.rates
      let s2 := { s1 with
        shortPreambleEnabled :=
          s.erpShortPreamble probeResp.rates probeResp.shortPreamble probeResp.barkerPreambleMode,
        shortSlotTimeEnabled := probeResp.shortSlotTime }
      let s3 := s2.SetBssid hdr.addr3
      let delay := s3.watchdogDelay probeResp.beaconIntervalUs
      let s4 := s3.RestartBeaconWatchdog delay
      let s5 := if s4.IsRunning s4.m_probeRequestEvent then s4.Cancel s4.m_probeRequestEvent else s4
      (s5.SetState MacState.WAIT_ASSOC_RESP).SendAssociationRequest
  else s

/-- The association-response branch of `Receive`. -/
def receiveAssocResp (s : StaWifiMac) (packet : Packet) (_hdr : WifiMacHeader) : StaWifiMac :=
  if s.m_state = MacState.WAIT_ASSOC_RESP then
    let assocResp := packet.assocResp
    let s1 := if s.IsRunning s.m_assocRequestEvent then s.Cancel s.m_assocRequestEvent else s
    if assocResp.statusSuccess then
      let s2 := s1.SetState MacState.ASSOCIATED
      let s3 := s2.erpUpdate assocResp.rates
      let s4 := { s3 with
        shortPreambleEnabled :=
          s2.erpShortPreamble assocResp.rates assocResp.shortPreamble assocResp.barkerPreambleMode,
        shortSlotTimeEnabled := assocResp.shortSlotTime }
      if !s4.linkUpIsNull then s4.emit Effect.linkUp else s4
    else
      s1.SetState MacState.REFUSED
  else s

/-- The data branch of `Receive`. -/
def receiveData (s : StaWifiMac) (packet : Packet) (hdr : WifiMacHeader) : StaWifiMac :=
  if !s.IsAssociated then s.emit (Effect.NotifyRxDrop packet.uid)
  else if !(hdr.fromDs && !hdr.toDs) then s.emit (Effect.NotifyRxDrop packet.uid)
  else if hdr.addr2 ≠ s.GetBssid then s.emit (Effect.NotifyRxDrop packet.uid)
  else if hdr.type = WifiMacType.QOSDATA then
    if hdr.qosAmsdu then s.emit (Effect.DeaggregateAmsduAndForward packet.uid)
    else s.emit (Effect.ForwardUp packet.uid hdr.addr3 hdr.addr1)
  else s.emit (Effect.ForwardUp packet.uid hdr.addr3 hdr.addr1)

/-- `StaWifiMac::Receive`; `rv` is the raw draw the trigger branch takes from its random
variable.  The calls that only fill the rate and capability tables of the station
manager and the EDCA parameters of the single-user queues are left out: nothing in
this file reads them back. -/
def Receive (s : StaWifiMac) (packet : Packet) (hdr : WifiMacHeader) (rv : Nat) : StaWifiMac :=
  if hdr.addr3 = s.GetAddress then s
  else if hdr.addr1 ≠ s.GetAddress ∧ hdr.addr1IsGroup = false then
    s.emit (Effect.NotifyRxDrop packet.uid)
  else
    match hdr.type with
    | WifiMacType.DATA => s.receiveData packet hdr
    | WifiMacType.QOSDATA => s.receiveData packet hdr
    | WifiMacType.PROBE_REQ => s.emit (Effect.NotifyRxDrop packet.uid)
    | WifiMacType.ASSOC_REQ => s.emit (Effect.NotifyRxDrop packet.uid)
    | WifiMacType.TF_BEACON =>
      (({ s with tfDuration := packet.tfBeacon.tfDuration }).tfBeaconLoop
        packet.tfBeacon.ruAllocations).emit (Effect.RegularWifiMacReceive packet.uid)
    | WifiMacType.BSR_ACK =>
      let s1 := { s with m_bsrAckRecvd := true, muMode := true }
      let s2 := ({ s1 with tfCw := s1.tfCwMin }).PrepareForTx
      (s2.Schedule (MicroSeconds 17)
        (Callback.NotifyMaybeCcaBusyStartNow s2.GetRuBits (Seconds 1))).emit
        (Effect.RegularWifiMacReceive packet.uid)
    | WifiMacType.TF =>
      let r := (s.tfStart packet rv).tfAllocLoop packet.tf.uplinkFlag packet.tf.ruAllocations
      if r.2 then r.1 else r.1.emit (Effect.RegularWifiMacReceive packet.uid)
    | WifiMacType.BEACON => s.receiveBeacon packet hdr
    | WifiMacType.PROBE_RESP => s.receiveProbeResp packet hdr
    | WifiMacType.ASSOC_RESP => s.receiveAssocResp packet hdr
    | WifiMacType.OTHER => s.emit (Effect.RegularWifiMacReceive packet.uid)

/-- Modelled from the spec: the timer service running one callback. -/
def Dispatch (s : StaWifiMac) : Callback → StaWifiMac
  | Callback.TryToEnsureAssociated => s.TryToEnsureAssociated
  | Callback.ProbeRequestTimeout => s.ProbeRequestTimeout
  | Callback.AssocRequestTimeout => s.AssocRequestTimeout
  | Callback.MissedBeacons => s.MissedBeacons
  | Callback.StopMuMode => s.StopMuMode
  | Callback.CheckAndCancel ru => s.CheckAndCancel ru
  | Callback.SendTriggerFrameResp ru => s.SendTriggerFrameResp ru
  | Callback.CancelExpiredEvents => s.CancelExpiredEvents
  | Callback.UpdateBsrTx ru => s.UpdateBsrTx ru
  | Callback.NotifyMaybeCcaBusyStartNow ru d => s.emit (Effect.DcfMuNotifyMaybeCcaBusyStartNow ru d)

/-- Modelled from the spec: the timer service firing the pending event `e`: the clock
moves to the event's time, the event leaves the event list (its handle is expired
from now on) and its callback runs. -/
def Fire (s : StaWifiMac) (e : Event) : StaWifiMac :=
  Dispatch { s with now := e.ts, events := s.events.filter fun x => x.uid != e.uid } e.cb

/-- Modelled from the spec: the timer service firing the pending event registered under
`uid`.  Nothing happens when no such event is pending. -/
def Invoke (s : StaWifiMac) (uid : Nat) : StaWifiMac :=
  match s.events.find? fun e => e.uid == uid with
  | none => s
  | some e => s.Fire e

/-- `StaWifiMac::StaWifiMac`: the station as the constructor leaves it, at the start of
a simulation (nothing scheduled, static flags at their initial value `false`).  The
record `cfg` supplies what the constructor does not set: the attributes and the
state of the base class. -/
def init (cfg : StaWifiMac) : StaWifiMac :=
  { cfg with
    events := [], trace := [],
    m_bsrTx0 := false, m_bsrTx1 := false, m_bsrTx2 := false,
    m_bsrTx3 := false, m_bsrTx4 := false, m_bsrTx5 := false,
    m_bsrTx6 := false, m_bsrTx7 := false, m_bsrTx8 := false,
    m_state := MacState.BEACON_MISSED,
    m_probeRequestEvent := none, m_assocRequestEvent := none, m_beaconWatchdog := none,
    m_beaconWatchdogEnd := Seconds 0,
    muMode := false,
    m_muUlModeEnd := Seconds 0, m_muDlModeEnd := Seconds 0,
    m_noSlots := 0, m_updatedOnce := false, m_firstTf := true, m_bsrAckRecvd := true,
    m_triggerFrameRespEvent := none, m_cancelEvent := none, m_muModeExpireEvent := none }

/-- The pending events that run the given callback, in registration order. -/
def pending (s : StaWifiMac) (cb : Callback) : List Event :=
  s.events.filter fun e => e.cb == cb

/-- Well-formedness of the timer bookkeeping, an invariant of the timer service and of
the retry timers: registration numbers in the event list are below the next one to
be handed out, and every pending probe (association) retry event is the one the
station's probe (association) handle names. -/
def TimersWF (s : StaWifiMac) : Prop :=
  (∀ e ∈ s.events, e.uid < s.nextUid) ∧
  (∀ e ∈ s.events, e.cb = Callback.ProbeRequestTimeout → s.m_probeRequestEvent = some e.uid) ∧
  (∀ e ∈ s.events, e.cb = Callback.AssocRequestTimeout → s.m_assocRequestEvent = some e.uid)

instance (s : StaWifiMac) : Decidable s.TimersWF := by
  unfold TimersWF; infer_instance

end StaWifiMac

/-- Recogniser of the "associated" notification. -/
def Effect.isAssoc : Effect → Bool
  | Effect.assocLogger _ => true
  | _ => false

/-- Recogniser of the "disassociated" notification. -/
def Effect.isDeAssoc : Effect → Bool
  | Effect.deAssocLogger _ => true
  | _ => false

/-- Recogniser of a probe request handed to the DCF queue. -/
def Effect.isProbeRequest : Effect → Bool
  | Effect.QueueProbeRequest => true
  | _ => false

/-- Recogniser of an association request handed to the DCF queue. -/
def Effect.isAssocRequest : Effect → Bool
  | Effect.QueueAssocRequest _ => true
  | _ => false

/-- The calls logged between an earlier station record and a later one. -/
def emitted (s s' : StaWifiMac) : List Effect :=
  s'.trace.drop s.trace.length

/-- A sample configuration: station address 1, network name [1, 2, 3], active
probing enabled, probe and association timeouts of 50 ms and 500 ms, ten missed
beacons tolerated, a link-up callback set. -/
def sampleCfg : StaWifiMac :=
  { now := 0, events := [], nextUid := 0,
    m_bsrTx0 := false, m_bsrTx1 := false, m_bsrTx2 := false,
    m_bsrTx3 := false, m_bsrTx4 := false, m_bsrTx5 := false,
    m_bsrTx6 := false, m_bsrTx7 := false, m_bsrTx8 := false,
    trace := [],
    address := 1, bssid := 0, ssid := [1, 2, 3],
    m_qosSupported := false, m_htSupported := false, m_vhtSupported := false,
    m_heSupported := false, m_erpSupported := false, linkUpIsNull := false,
    bssMembershipSelectors := [], modes := [],
    shortSlotTimeEnabled := false, shortPreambleEnabled := false,
    slot := 13, sifs := 16, muMode := false, ruBits := 0, tfDuration := 0,
    tfCw := 15, tfCwMin := 15, tfCwMax := 1023, maxTfSlots := 16, bsr := 0,
    m_probeRequestTimeout := 50000, m_assocRequestTimeout := 500000,
    m_maxMissedBeacons := 10, m_activeProbing := true,
    m_state := MacState.BEACON_MISSED,
    m_probeRequestEvent := none, m_assocRequestEvent := none, m_beaconWatchdog := none,
    m_beaconWatchdogEnd := 0,
    m_muUlModeEnd := 0, m_muDlModeEnd := 0, m_muUlFlag := 0, m_muModeToStart := false,
    m_noSlots := 0, m_updatedOnce := false, m_firstTf := true, m_bsrAckRecvd := true,
    m_lastTfTxStart := 0, m_lastTfRespRecv := 0,
    m_triggerFrameRespEvent := none, m_cancelEvent := none, m_muModeExpireEvent := none }

/-- The sample station as its constructor leaves it. -/
def sampleSta : StaWifiMac := StaWifiMac.init sampleCfg

/-- A sample management body announcing the sample network with a beacon interval of
102400 microseconds. -/
def sampleBody : MgtProbeResponseHeader :=
  { ssid := [1, 2, 3], rates := ⟨[], []⟩, beaconIntervalUs := 102400,
    shortPreamble := false, shortSlotTime := false, barkerPreambleMode := false }

/-- A sample packet: beacon and probe-response bodies for the sample network, and an
association response carrying the given status. -/
def samplePacket (success : Bool) : Packet :=
  { uid := 7, qosTid := 0, tfBeaconDuration := 0,
    beacon := sampleBody, probeResp := sampleBody,
    assocResp := ⟨success, ⟨[], []⟩, false, false, false⟩,
    tf := ⟨[], 0, 0⟩, tfBeacon := ⟨[], 0, 0⟩ }

/-- A sample header of the given frame class, sent by the coordinator with address 2
to the sample station. -/
def sampleHdr (t : WifiMacType) : WifiMacHeader :=
  { type := t, addr1 := 1, addr2 := 2, addr3 := 2, addr1IsGroup := false,
    fromDs := true, toDs := false, qosAmsdu := false }

/-- The sample station after it started probing. -/
def sampleProbing : StaWifiMac := sampleSta.StartActiveAssociation

/-- The sample station after a probe response of the sample coordinator arrived, 1 ms
after it started probing. -/
def sampleWaitAssoc : StaWifiMac :=
  ({ sampleProbing with now := 1000 }).Receive (samplePacket false)
    (sampleHdr WifiMacType.PROBE_RESP) 0

/-- The sample station after the coordinator refused the association, 1 ms later. -/
def sampleRefused : StaWifiMac :=
  ({ sampleWaitAssoc with now := 2000 }).Receive (samplePacket false)
    (sampleHdr WifiMacType.ASSOC_RESP) 0

/-- The sample station after the coordinator accepted the association instead. -/
def sampleAssociated : StaWifiMac :=
  ({ sampleWaitAssoc with now := 2000 }).Receive (samplePacket true)
    (sampleHdr WifiMacType.ASSOC_RESP) 0


/-- Recogniser of the link-up signal. -/
def Effect.isLinkUp : Effect → Bool
  | Effect.linkUp => true
  | _ => false

/-- Recogniser of the link-down signal. -/
def Effect.isLinkDown : Effect → Bool
  | Effect.linkDown => true
  | _ => false

/-- The calls `erpUpdate` logs. -/
def erpEffects (s : StaWifiMac) (rates : SupportedRates) : List Effect :=
  if s.m_erpSupported then
    (if !(s.isErpAllowed rates) then [Effect.ConfigureContentionWindow 31 1023]
     else [Effect.ConfigureContentionWindow 15 1023])
  else []

/-- The slot duration `erpUpdate` leaves. -/
def erpSlot (s : StaWifiMac) (rates : SupportedRates) : Time :=
  if s.m_erpSupported then
    (if !(s.isErpAllowed rates) then MicroSeconds 20
     else if s.shortSlotTimeEnabled then MicroSeconds 13 else MicroSeconds 20)
  else s.slot

/-- The calls the association-response branch logs on a success status. -/
def assocSuccessEffects (s : StaWifiMac) (rates : SupportedRates) : List Effect :=
  [Effect.assocLogger s.bssid] ++ erpEffects s rates ++
    (if s.linkUpIsNull then [] else [Effect.linkUp])


/-- The condition under which `RestartBeaconWatchdog` schedules the watchdog anew. -/
def watchdogRearms (s : StaWifiMac) (delay : Time) : Prop :=
  s.GetDelayLeft s.m_beaconWatchdog < delay ∧ s.IsExpired s.m_beaconWatchdog = true

instance (s : StaWifiMac) (delay : Time) : Decidable (watchdogRearms s delay) := by
  unfold watchdogRearms; infer_instance



/-- The sample station with active probing disabled, after a beacon of the sample
coordinator moved it to WaitAssociationResponse and the coordinator refused it. -/
def samplePassiveRefused : StaWifiMac :=
  ({ (({ StaWifiMac.init { sampleCfg with m_activeProbing := false } with now := 1000 }).Receive
      (samplePacket false) (sampleHdr WifiMacType.BEACON) 0) with now := 2000 }).Receive
    (samplePacket false) (sampleHdr WifiMacType.ASSOC_RESP) 0

/-- Recogniser of a transmit-drop notification. -/
def Effect.isTxDrop : Effect → Bool
  | Effect.NotifyTxDrop _ => true
  | _ => false

/-- Recogniser of a frame handed to a transmission queue on behalf of `Enqueue`. -/
def Effect.isQueued : Effect → Bool
  | Effect.Queue _ _ _ => true
  | Effect.QueueButDontSend _ _ _ => true
  | _ => false

/-- The calls re-evaluation logs. -/
def reevaluationEffects (s : StaWifiMac) : List Effect :=
  if s.m_state = MacState.BEACON_MISSED then
    (if s.m_activeProbing then [Effect.linkDown, Effect.QueueProbeRequest] else [Effect.linkDown])
  else []


/-- The states reachable through `RestartBeaconWatchdog` and `MissedBeacons`: from the
station as constructed, the watchdog is re-armed at clock values that do not run
backwards and do not pass a pending watchdog event, and a pending watchdog event is
fired by the timer service at its time. -/
inductive WatchdogReachable : StaWifiMac → Prop
  | init (cfg : StaWifiMac) : WatchdogReachable (StaWifiMac.init cfg)
  | restart (s : StaWifiMac) (t delay : Time) :
      WatchdogReachable s → s.now ≤ t →
      (∀ e ∈ s.pending Callback.MissedBeacons, t ≤ e.ts) →
      WatchdogReachable (({ s with now := t }).RestartBeaconWatchdog delay)
  | fire (s : StaWifiMac) (e : Event) :
      WatchdogReachable s → e ∈ s.pending Callback.MissedBeacons → s.now ≤ e.ts →
      WatchdogReachable (s.Fire e)

/-- The sample station after the watchdog was re-armed with a delay of 10 at time 0 and
again with a delay of 10 at time 5. -/
def sampleRearmedTwice : StaWifiMac :=
  ({ (({ sampleSta with now := 0 }).RestartBeaconWatchdog 10) with now := 5 }).RestartBeaconWatchdog 10

/-- The notification `SetState` logs, if any. -/
def setStateEffects (s : StaWifiMac) (value : MacState) : List Effect :=
  if value = MacState.ASSOCIATED ∧ s.m_state ≠ MacState.ASSOCIATED then
    [Effect.assocLogger s.bssid]
  else if value ≠ MacState.ASSOCIATED ∧ s.m_state = MacState.ASSOCIATED then
    [Effect.deAssocLogger s.bssid]
  else []


/-- A step of a run of the beacon watchdog: a re-arm with some delay at some clock
value, or the timer service firing an event. -/
inductive WatchdogOp
  | rearm (t delay : Time)
  | fire (e : Event)
  deriving DecidableEq, Repr

/-- The station after a run of re-arms and event firings. -/
def runWatchdog (s : StaWifiMac) : List WatchdogOp → StaWifiMac
  | [] => s
  | WatchdogOp.rearm t delay :: ops =>
    runWatchdog (({ s with now := t }).RestartBeaconWatchdog delay) ops
  | WatchdogOp.fire e :: ops => runWatchdog (s.Fire e) ops


/-- The stimuli a station reacts to: the clock advancing, the timer service firing a
pending event, a received frame, an outbound packet, and the two calls that start or
configure probing. -/
inductive Stimulus
  | advance (t : Time)
  | fire (e : Event)
  | receive (packet : Packet) (hdr : WifiMacHeader) (rv : Nat)
  | enqueue (packet : Packet) (dest : Mac48Address)
  | startActiveAssociation
  | setActiveProbing (enable : Bool)
  deriving DecidableEq, Repr

/-- The station's reaction to a stimulus. -/
def step (s : StaWifiMac) : Stimulus → StaWifiMac
  | Stimulus.advance t => { s with now := t }
  | Stimulus.fire e => s.Fire e
  | Stimulus.receive packet hdr rv => s.Receive packet hdr rv
  | Stimulus.enqueue packet dest => s.Enqueue packet dest
  | Stimulus.startActiveAssociation => s.StartActiveAssociation
  | Stimulus.setActiveProbing enable => s.SetActiveProbing enable

/-- Whether a stimulus can occur in a state: the clock does not run backwards and does
not pass a pending event, and the timer service fires the earliest pending event
(registration order breaking ties). -/
def enabled (s : StaWifiMac) : Stimulus → Prop
  | Stimulus.advance t => s.now ≤ t ∧ ∀ e ∈ s.events, t ≤ e.ts
  | Stimulus.fire e =>
    e ∈ s.events ∧ s.now ≤ e.ts ∧
      ∀ x ∈ s.events, e.ts < x.ts ∨ (e.ts = x.ts ∧ e.uid ≤ x.uid)
  | _ => True

/-- The states a station reaches from its construction. -/
inductive Reachable : StaWifiMac → Prop
  | init (cfg : StaWifiMac) : Reachable (StaWifiMac.init cfg)
  | step (s : StaWifiMac) (st : Stimulus) : Reachable s → enabled s st → Reachable (step s st)

/-- The relation between a state and a later one in which the retry handles are the
same and every pending event either was pending before or is a newly registered event
that is not a retry event. -/
def Extends (s s' : StaWifiMac) : Prop :=
  s.nextUid ≤ s'.nextUid ∧
  s'.m_probeRequestEvent = s.m_probeRequestEvent ∧
  s'.m_assocRequestEvent = s.m_assocRequestEvent ∧
  ∀ e ∈ s'.events, e ∈ s.events ∨
    (s.nextUid ≤ e.uid ∧ e.uid < s'.nextUid ∧ e.cb ≠ Callback.ProbeRequestTimeout ∧
      e.cb ≠ Callback.AssocRequestTimeout)


/-- The probe-response branch of `Receive` for an accepted response: the station just
before `SetState (WAIT_ASSOC_RESP)`. -/
def StaWifiMac.probeRespAccept (s : StaWifiMac) (packet : Packet) (hdr : WifiMacHeader) : StaWifiMac :=
  let probeResp := packet.probeResp
  let s1 := s.erpUpdate probeResp.rates
  let s2 := { s1 with
    shortPreambleEnabled :=
      s.erpShortPreamble probeResp.rates probeResp.shortPreamble probeResp.barkerPreambleMode,
    shortSlotTimeEnabled := probeResp.shortSlotTime }
  let s3 := s2.SetBssid hdr.addr3
  let delay := s3.watchdogDelay probeResp.beaconIntervalUs
  let s4 := s3.RestartBeaconWatchdog delay
  if s4.IsRunning s4.m_probeRequestEvent then s4.Cancel s4.m_probeRequestEvent else s4

/-- The watchdog event `RestartBeaconWatchdog` registers, if it registers one. -/
def watchdogEvents (s : StaWifiMac) (delay : Time) : List Event :=
  if watchdogRearms s delay then [⟨s.nextUid, s.now + delay, Callback.MissedBeacons⟩] else []

/-- Whether `Receive` lets a frame past its address filter: the frame was not sent by the
station, and it is addressed to the station or to a group. -/
def passesAddressFilter (s : StaWifiMac) (hdr : WifiMacHeader) : Prop :=
  hdr.addr3 ≠ s.address ∧ (hdr.addr1 = s.address ∨ hdr.addr1IsGroup = true)

instance (s : StaWifiMac) (hdr : WifiMacHeader) : Decidable (passesAddressFilter s hdr) := by
  unfold passesAddressFilter; infer_instance


/-- The sample station probing, one millisecond later. -/
def sampleProbingLater : StaWifiMac := { sampleProbing with now := 1000 }


/-- The contention window `tfDraw` leaves. -/
def StaWifiMac.cwAfterDraw (s : StaWifiMac) : Nat :=
  if s.m_firstTf = false ∧ s.m_noSlots = 0 ∧ s.m_bsrAckRecvd = false then
    (if toUint32 (2 * (s.tfCw : Int)) > s.tfCwMax then s.tfCwMax
     else toUint32 (2 * (s.tfCw : Int)))
  else s.tfCw

/-- The OBO counter `tfDraw` leaves; `rv` is the raw draw of the random variable. -/
def StaWifiMac.slotsAfterDraw (s : StaWifiMac) (rv : Nat) : Nat :=
  if s.m_firstTf = true ∨ s.m_noSlots = 0 then
    GetInteger rv 0 (toUint32 ((s.cwAfterDraw : Int) - 1))
  else s.m_noSlots

/-- The fields of the trigger-cycle contention that only the window update, the OBO draw
and the report acknowledgment write: they agree in the two station records. -/
def SameContention (s s' : StaWifiMac) : Prop :=
  s'.tfCw = s.tfCw ∧ s'.tfCwMin = s.tfCwMin ∧ s'.tfCwMax = s.tfCwMax ∧
  s'.m_noSlots = s.m_noSlots ∧ s'.m_firstTf = s.m_firstTf ∧
  s'.m_bsrAckRecvd = s.m_bsrAckRecvd

/-- The station after it received the given frames in order, each with the raw draw its
trigger branch would take. -/
def receiveAll (s : StaWifiMac) (fs : List (Packet × WifiMacHeader × Nat)) : StaWifiMac :=
  fs.foldl (fun st f => st.Receive f.1 f.2.1 f.2.2) s

/-- A sample trigger packet with the given allocation map and uplink flag, announcing a
cycle of 40 slots. -/
def sampleTf (alloc : List (Mac48Address × Nat)) (ulFlag : Nat) : Packet :=
  { samplePacket false with tf := ⟨alloc, ulFlag, 40⟩ }

/-- A sample header of the given frame class, sent by the coordinator with address 2
to the broadcast address. -/
def sampleGroupHdr (t : WifiMacType) : WifiMacHeader :=
  { type := t, addr1 := GetBroadcast, addr2 := 2, addr3 := 2, addr1IsGroup := true,
    fromDs := true, toDs := false, qosAmsdu := false }

/-- The sample station constructed with the contention window and both its bounds at
2147483648. -/
def sampleWideSta : StaWifiMac :=
  StaWifiMac.init
    { sampleCfg with tfCw := 2147483648, tfCwMin := 2147483648, tfCwMax := 2147483648 }


/-- The sample station constructed with a contention window of 2147483648 and bounds
15 and 4294967295. -/
def sampleHalfSta : StaWifiMac :=
  StaWifiMac.init { sampleCfg with tfCw := 2147483648, tfCwMin := 15, tfCwMax := 4294967295 }

/-- The sample station constructed with a contention window of 15 and both bounds 0. -/
def sampleZeroMaxSta : StaWifiMac :=
  StaWifiMac.init { sampleCfg with tfCw := 15, tfCwMin := 0, tfCwMax := 0 }


/-- Recogniser of the two contention callbacks of a trigger cycle: the cancel-check
and the candidate report transmission. -/
def Callback.isContention : Callback → Bool
  | Callback.CheckAndCancel _ => true
  | Callback.SendTriggerFrameResp _ => true
  | _ => false

/-- The pending cancel-checks and candidate report transmissions, in registration
order. -/
def StaWifiMac.contentionEvents (s : StaWifiMac) : List Event :=
  s.events.filter fun e => e.cb.isContention


/-- The sample station with an OBO of 3 (max-slots is 16) and all shared flags false. -/
def sampleLowObo : StaWifiMac := { sampleSta with m_noSlots := 3 }

/-- The number of slots `UpdateSlots` subtracts, as an integer: with
`e = now - m_lastTfRespRecv`, `e / slot` when `e` is a multiple of the slot duration
and `(e - sifs) / slot` otherwise, the quotient truncated towards zero. -/
def StaWifiMac.elapsedSlots (s : StaWifiMac) : Int :=
  if Int.tmod (s.now - s.m_lastTfRespRecv) s.slot = 0 then
    Int.tdiv (s.now - s.m_lastTfRespRecv) s.slot
  else Int.tdiv (s.now - s.m_lastTfRespRecv - s.sifs) s.slot

/-- The sample station with an OBO of 1, 26 microseconds (two slots of 13) after the
last trigger receipt. -/
def sampleTwoSlotsLate : StaWifiMac := { sampleSta with m_noSlots := 1, now := 26 }


/-- Recogniser of a receive-drop notification. -/
def Effect.isRxDrop : Effect → Bool
  | Effect.NotifyRxDrop _ => true
  | _ => false

/-- A sample packet whose probe-response body announces another network, [9]. -/
def sampleForeignPacket : Packet :=
  { samplePacket false with probeResp := { sampleBody with ssid := [9] } }


/-- Recogniser of a cancel-check. -/
def Callback.isCheck : Callback → Bool
  | Callback.CheckAndCancel _ => true
  | _ => false

/-- Recogniser of a candidate report transmission. -/
def Callback.isTx : Callback → Bool
  | Callback.SendTriggerFrameResp _ => true
  | _ => false

/-- The state all stations of one simulation share: the clock and the registration
counter of the simulator and the static `m_bsrTx` flags of `StaWifiMac`. -/
structure Shared where
  now : Time
  nextUid : Nat
  m_bsrTx0 : Bool
  m_bsrTx1 : Bool
  m_bsrTx2 : Bool
  m_bsrTx3 : Bool
  m_bsrTx4 : Bool
  m_bsrTx5 : Bool
  m_bsrTx6 : Bool
  m_bsrTx7 : Bool
  m_bsrTx8 : Bool
  deriving DecidableEq, Repr

/-- The shared part of a station record. -/
def StaWifiMac.shared (s : StaWifiMac) : Shared :=
  { now := s.now, nextUid := s.nextUid,
    m_bsrTx0 := s.m_bsrTx0, m_bsrTx1 := s.m_bsrTx1, m_bsrTx2 := s.m_bsrTx2,
    m_bsrTx3 := s.m_bsrTx3, m_bsrTx4 := s.m_bsrTx4, m_bsrTx5 := s.m_bsrTx5,
    m_bsrTx6 := s.m_bsrTx6, m_bsrTx7 := s.m_bsrTx7, m_bsrTx8 := s.m_bsrTx8 }

/-- A station record seen with the given shared part. -/
def StaWifiMac.withShared (s : StaWifiMac) (h : Shared) : StaWifiMac :=
  { s with
    now := h.now, nextUid := h.nextUid,
    m_bsrTx0 := h.m_bsrTx0, m_bsrTx1 := h.m_bsrTx1, m_bsrTx2 := h.m_bsrTx2,
    m_bsrTx3 := h.m_bsrTx3, m_bsrTx4 := h.m_bsrTx4, m_bsrTx5 := h.m_bsrTx5,
    m_bsrTx6 := h.m_bsrTx6, m_bsrTx7 := h.m_bsrTx7, m_bsrTx8 := h.m_bsrTx8 }

/-- The static flag of an RU, read from the shared part (`StaWifiMac::GetBsrTx`). -/
def Shared.GetBsrTx (h : Shared) (ru : Nat) : Bool :=
  if ru = 0 then h.m_bsrTx0
  else if ru = 1 then h.m_bsrTx1
  else if ru = 2 then h.m_bsrTx2
  else if ru = 3 then h.m_bsrTx3
  else if ru = 4 then h.m_bsrTx4
  else if ru = 5 then h.m_bsrTx5
  else if ru = 6 then h.m_bsrTx6
  else if ru = 7 then h.m_bsrTx7
  else if ru = 8 then h.m_bsrTx8
  else false

/-- Several stations in one simulation: the shared part, the station records (each
holds its own pending events; its copy of the shared part is overwritten whenever the
station runs) and the list of the events fired so far, oldest first, each with the
index of the station it belongs to. -/
structure World where
  shared : Shared
  stas : List StaWifiMac
  log : List (Nat × Event)

/-- Station `i` runs `f` on the shared part as it stands and leaves it updated. -/
def World.act (w : World) (i : Nat) (f : StaWifiMac → StaWifiMac) : World :=
  match w.stas[i]? with
  | none => w
  | some s =>
    { w with
      shared := (f (s.withShared w.shared)).shared,
      stas := w.stas.set i (f (s.withShared w.shared)) }

/-- The pending events of the stations, each with the index of its station, counting
from `i`. -/
def pendingFrom : Nat → List StaWifiMac → List (Nat × Event)
  | _, [] => []
  | i, s :: rest => s.events.map (fun e => (i, e)) ++ pendingFrom (i + 1) rest

/-- Modelled from the spec: the order in which the simulator runs events: by time, and
by registration number among events of the same time. -/
def Event.notAfter (e e' : Event) : Bool :=
  decide (e.ts < e'.ts) || (decide (e.ts = e'.ts) && decide (e.uid ≤ e'.uid))

/-- Modelled from the spec: the event the simulator runs next. -/
def earliest : List (Nat × Event) → Option (Nat × Event)
  | [] => none
  | x :: xs =>
    match earliest xs with
    | none => some x
    | some y => if x.2.notAfter y.2 then some x else some y

/-- The simulator fires the pending event `e` of station `i`. -/
def World.fire (w : World) (i : Nat) (e : Event) : World :=
  { w.act i (fun s => s.Fire e) with log := w.log ++ [(i, e)] }

/-- Modelled from the spec: one step of the simulator: the next event is fired; nothing
happens when no event is pending. -/
def World.step (w : World) : World :=
  match earliest (pendingFrom 0 w.stas) with
  | none => w
  | some x => w.fire x.1 x.2

/-- Modelled from the spec: the simulator run for at most `n` events. -/
def World.run : Nat → World → World
  | 0, w => w
  | n + 1, w => World.run n w.step

/-- The first `k` stations receive the frame at the current time, station `i` with raw
draw `rv i`. -/
def World.receiveUpTo (packet : Packet) (hdr : WifiMacHeader) (rv : Nat → Nat) :
    Nat → World → World
  | 0, w => w
  | k + 1, w =>
    (World.receiveUpTo packet hdr rv k w).act k (fun s => s.Receive packet hdr (rv k))

/-- Every station receives the frame at the current time, station `i` with raw draw
`rv i`. -/
def World.receive (w : World) (packet : Packet) (hdr : WifiMacHeader) (rv : Nat → Nat) :
    World :=
  World.receiveUpTo packet hdr rv w.stas.length w

/-- The events of station `i` fired so far that ran a candidate report transmission. -/
def World.transmissions (w : World) (i : Nat) : List Event :=
  (w.log.filter fun p => decide (p.1 = i) && p.2.cb.isTx).map Prod.snd

/-- The events of station `i` fired so far that ran a cancel-check. -/
def World.checks (w : World) (i : Nat) : List Event :=
  (w.log.filter fun p => decide (p.1 = i) && p.2.cb.isCheck).map Prod.snd

/-- A sample world: two stations, with addresses 1 and 4, both on RU 3, as their
constructors leave them (slot 13 microseconds, max-slots 16, window 15). -/
def sampleWorld : World :=
  { shared := (StaWifiMac.init sampleCfg).shared,
    stas := [StaWifiMac.init { sampleCfg with ruBits := 3 },
             StaWifiMac.init { sampleCfg with ruBits := 3, address := 4 }],
    log := [] }


/-- Recogniser of a flag update. -/
def Callback.isUpdate : Callback → Bool
  | Callback.UpdateBsrTx _ => true
  | _ => false

/-- The OBO station `i` holds once it has received a trigger with raw draw `rv i` (0
when there is no station `i`). -/
def World.obo (w : World) (rv : Nat → Nat) (i : Nat) : Nat :=
  match w.stas[i]? with
  | some s => s.slotsAfterDraw (rv i)
  | none => 0

/-- Raw draws that give the first station OBO 2 and every other station OBO 5 at their
first trigger (window 15). -/
def sampleDraws : Nat → Nat := fun i => if i = 0 then 2 else 5


/-- The sample station with active probing disabled, as its constructor leaves it, one
millisecond into the simulation. -/
def samplePassive : StaWifiMac :=
  { StaWifiMac.init { sampleCfg with m_activeProbing := false } with now := 1000 }


/-- The nine static `m_bsrTx` flags of a station record, in RU order. -/
def StaWifiMac.bsrTx (s : StaWifiMac) : List Bool :=
  [s.m_bsrTx0, s.m_bsrTx1, s.m_bsrTx2, s.m_bsrTx3, s.m_bsrTx4, s.m_bsrTx5, s.m_bsrTx6,
    s.m_bsrTx7, s.m_bsrTx8]


/-- The sample station with an OBO of 5, one microsecond after the last trigger
receipt. -/
def sampleJustAfterTrigger : StaWifiMac := { sampleSta with m_noSlots := 5, now := 1 }

/-- The sample station with an OBO of 2, 39 microseconds (three slots of 13) after the
last trigger receipt. -/
def sampleThreeSlotsLate : StaWifiMac := { sampleSta with m_noSlots := 2, now := 39 }

/-- The sample station with an OBO of 4, 39 microseconds (three slots of 13) after the
last trigger receipt. -/
def sampleThreeSlotsIn : StaWifiMac := { sampleSta with m_noSlots := 4, now := 39 }


instance (s : StaWifiMac) : (st : Stimulus) → Decidable (enabled s st)
  | Stimulus.advance t =>
    inferInstanceAs (Decidable (s.now ≤ t ∧ ∀ e ∈ s.events, t ≤ e.ts))
  | Stimulus.fire e =>
    inferInstanceAs (Decidable (e ∈ s.events ∧ s.now ≤ e.ts ∧
      ∀ x ∈ s.events, e.ts < x.ts ∨ (e.ts = x.ts ∧ e.uid ≤ x.uid)))
  | Stimulus.receive _ _ _ => isTrue trivial
  | Stimulus.enqueue _ _ => isTrue trivial
  | Stimulus.startActiveAssociation => isTrue trivial
  | Stimulus.setActiveProbing _ => isTrue trivial

/-- The station after the given stimuli, in order, when each of them can occur in the
state it meets. -/
def runStimuli (s : StaWifiMac) : List Stimulus → Option StaWifiMac
  | [] => some s
  | st :: rest => if enabled s st then runStimuli (step s st) rest else none

/-- A run in which the coordinator falls silent after its probe response and is heard
again later.  The station starts probing at time 0; the probe response arrives after
1 ms; no association response comes, the association retry timer fires twice; the
beacon watchdog fires at 1.025 s and the station probes again, the probe retry timer
firing every 50 ms; the association retry timer, still pending, fires at 1.501 s; the
association response arrives at 1.51 s. -/
def staleProbeRun : List Stimulus :=
  [Stimulus.startActiveAssociation,
    Stimulus.advance 1000,
    Stimulus.receive (samplePacket true) (sampleHdr WifiMacType.PROBE_RESP) 0,
    Stimulus.fire ⟨2, 501000, Callback.AssocRequestTimeout⟩,
    Stimulus.fire ⟨3, 1001000, Callback.AssocRequestTimeout⟩,
    Stimulus.fire ⟨1, 1025000, Callback.MissedBeacons⟩,
    Stimulus.fire ⟨5, 1075000, Callback.ProbeRequestTimeout⟩,
    Stimulus.fire ⟨6, 1125000, Callback.ProbeRequestTimeout⟩,
    Stimulus.fire ⟨7, 1175000, Callback.ProbeRequestTimeout⟩,
    Stimulus.fire ⟨8, 1225000, Callback.ProbeRequestTimeout⟩,
    Stimulus.fire ⟨9, 1275000, Callback.ProbeRequestTimeout⟩,
    Stimulus.fire ⟨10, 1325000, Callback.ProbeRequestTimeout⟩,
    Stimulus.fire ⟨11, 1375000, Callback.ProbeRequestTimeout⟩,
    Stimulus.fire ⟨12, 1425000, Callback.ProbeRequestTimeout⟩,
    Stimulus.fire ⟨13, 1475000, Callback.ProbeRequestTimeout⟩,
    Stimulus.fire ⟨4, 1501000, Callback.AssocRequestTimeout⟩,
    Stimulus.advance 1510000,
    Stimulus.receive (samplePacket true) (sampleHdr WifiMacType.ASSOC_RESP) 0]

/-- The sample station at the end of that run. -/
def sampleStaleProbe : StaWifiMac := (runStimuli sampleSta staleProbeRun).getD sampleSta


/-- Bookkeeping of one station during a trigger cycle on RU `ru` in which its
cancel-check is due at `Ti`: `n` is the shared registration counter, `E` the pending
events of the station, `hp`, `ha` and `hw` its probe, association and watchdog handles.
Registration numbers are below the counter and pairwise different, and so are the
numbers the handles name; every pending cancel-check is for `ru` and due at `Ti`, every
pending flag update is for `ru` and due one microsecond later, none of them is named by
a handle; every pending cycle-end check is due more than one microsecond after `Ti`. -/
def CycleGuard (ru : Nat) (Ti : Time) (n : Nat) (E : List Event) (hp ha hw : EventId) : Prop :=
  (∀ e ∈ E, e.uid < n) ∧ (E.map Event.uid).Nodup ∧
  (∀ u, hp = some u ∨ ha = some u ∨ hw = some u → u < n) ∧
  (∀ e ∈ E, e.cb.isCheck = true → e.cb = Callback.CheckAndCancel ru ∧ e.ts = Ti) ∧
  (∀ e ∈ E, e.cb.isUpdate = true → e.cb = Callback.UpdateBsrTx ru ∧ e.ts = Ti + 1) ∧
  (∀ e ∈ E, e.cb.isCheck = true ∨ e.cb.isUpdate = true →
    hp ≠ some e.uid ∧ ha ≠ some e.uid ∧ hw ≠ some e.uid) ∧
  (∀ e ∈ E, e.cb = Callback.CancelExpiredEvents → Ti + 1 < e.ts)

/-- The flag of RU `ru` is set or about to be: the station's cancel-check is pending,
or the flag is set, or the station's flag update is pending. -/
def CycleLive (ru : Nat) (flag : Bool) (E : List Event) : Prop :=
  (∃ e ∈ E, e.cb = Callback.CheckAndCancel ru) ∨ flag = true ∨
    ∃ e ∈ E, e.cb = Callback.UpdateBsrTx ru

/-- The invariant of one station between a trigger and its cycle-end check: the station
is on RU `ru`, its bookkeeping is in order and the flag of the RU is set or about to
be; `n` is the shared registration counter and `flag` the shared flag of the RU. -/
def CycleEnd (ru : Nat) (Ti : Time) (n : Nat) (flag : Bool) (s : StaWifiMac) : Prop :=
  s.ruBits = ru ∧
  CycleGuard ru Ti n s.events s.m_probeRequestEvent s.m_assocRequestEvent s.m_beaconWatchdog ∧
  CycleLive ru flag s.events

/-- What a timer callback of the association machine does to the timer bookkeeping:
nothing, or it cancels one of the three handles if it is running, registers one event
that is no cancel-check, no flag update and no cycle-end check under the next
registration number, and lets handles name the new event. -/
def TimerStep (s s' : StaWifiMac) : Prop :=
  (s'.events = s.events ∧ s'.nextUid = s.nextUid ∧
    s'.m_probeRequestEvent = s.m_probeRequestEvent ∧
    s'.m_assocRequestEvent = s.m_assocRequestEvent ∧
    s'.m_beaconWatchdog = s.m_beaconWatchdog) ∨
  ∃ hd t cb,
    (hd = s.m_probeRequestEvent ∨ hd = s.m_assocRequestEvent ∨ hd = s.m_beaconWatchdog) ∧
    cb.isCheck = false ∧ cb.isUpdate = false ∧ cb ≠ Callback.CancelExpiredEvents ∧
    s'.events = eventsAfterCancel s.events hd ++ [⟨s.nextUid, t, cb⟩] ∧
    s'.nextUid = s.nextUid + 1 ∧
    (s'.m_probeRequestEvent = s.m_probeRequestEvent ∨
      s'.m_probeRequestEvent = some s.nextUid) ∧
    (s'.m_assocRequestEvent = s.m_assocRequestEvent ∨
      s'.m_assocRequestEvent = some s.nextUid) ∧
    (s'.m_beaconWatchdog = s.m_beaconWatchdog ∨ s'.m_beaconWatchdog = some s.nextUid)

/-- A sample world with one station whose slot lasts one microsecond, with a SIFS of
zero and max-slots 3, as its constructor leaves it. -/
def sampleTightWorld : World :=
  { shared := (StaWifiMac.init sampleCfg).shared,
    stas := [StaWifiMac.init { sampleCfg with slot := 1, sifs := 0, maxTfSlots := 3 }],
    log := [] }

/-- A station between a trigger and its cycle-end check: at most one cycle-end check is
pending, and as long as one is pending the OBO is `obo`. -/
def CycleOne (obo : Nat) (s : StaWifiMac) : Prop :=
  (∀ e ∈ s.events, ∀ e2 ∈ s.events, e.cb = Callback.CancelExpiredEvents →
    e2.cb = Callback.CancelExpiredEvents → e = e2) ∧
  ((∃ e ∈ s.events, e.cb = Callback.CancelExpiredEvents) → s.m_noSlots = obo)


/-- Recogniser of the callbacks of a trigger cycle: the cancel-check, the candidate
report transmission, the flag update and the cycle-end check. -/
def Callback.isCycle : Callback → Bool
  | Callback.CheckAndCancel _ => true
  | Callback.SendTriggerFrameResp _ => true
  | Callback.UpdateBsrTx _ => true
  | Callback.CancelExpiredEvents => true
  | _ => false

/-- Recogniser of a report handed to the EDCA queue of an RU (`QueueTFResp`). -/
def Effect.isTfResp : Effect → Bool
  | Effect.QueueTFResp _ _ => true
  | _ => false

/-- The reports the station handed to the EDCA queues of the RUs so far, oldest first. -/
def StaWifiMac.tfResps (s : StaWifiMac) : List Effect :=
  s.trace.filter Effect.isTfResp

/-- What a reaction of the station does to one of its timer handles when the shared
registration counter goes from `n` to `n'`: the handle stays, or it names a
registration made in between. -/
def HandleStep (n n' : Nat) (h h' : EventId) : Prop :=
  h' = h ∨ ∃ u, h' = some u ∧ n ≤ u ∧ u < n'

/-- What a reaction of the station that neither processes a trigger nor runs a callback
of the trigger cycle does.  The clock, the static flags, the OBO, the handle of the
candidate transmission and the reports handed to the queues stay.  The registration
counter does not decrease; every pending event was pending before or is registered
under a number used in between and is no callback of the cycle; an event that is no
longer pending was named by the probe, association or watchdog handle; registration
numbers stay pairwise different; and each of the three handles stays or names a
registration made in between. -/
def OffCycle (s s' : StaWifiMac) : Prop :=
  s'.now = s.now ∧ s'.bsrTx = s.bsrTx ∧ s'.m_noSlots = s.m_noSlots ∧
  s'.m_triggerFrameRespEvent = s.m_triggerFrameRespEvent ∧
  s'.tfResps = s.tfResps ∧
  s.nextUid ≤ s'.nextUid ∧
  (∀ e ∈ s'.events, e ∈ s.events ∨
    (s.nextUid ≤ e.uid ∧ e.uid < s'.nextUid ∧ e.cb.isCycle = false)) ∧
  (∀ e ∈ s.events, e ∈ s'.events ∨ s.nextUid ≤ e.uid ∨
    s.m_probeRequestEvent = some e.uid ∨ s.m_assocRequestEvent = some e.uid ∨
    s.m_beaconWatchdog = some e.uid) ∧
  ((∀ e ∈ s.events, e.uid < s.nextUid) → (s.events.map Event.uid).Nodup →
    (s'.events.map Event.uid).Nodup) ∧
  HandleStep s.nextUid s'.nextUid s.m_probeRequestEvent s'.m_probeRequestEvent ∧
  HandleStep s.nextUid s'.nextUid s.m_assocRequestEvent s'.m_assocRequestEvent ∧
  HandleStep s.nextUid s'.nextUid s.m_beaconWatchdog s'.m_beaconWatchdog

/-- Whether a stimulus makes the station process a trigger: it is a received frame of
class TF that passes the address filter of `Receive`. -/
def processesTrigger (s : StaWifiMac) : Stimulus → Prop
  | Stimulus.receive _ hdr _ => hdr.type = WifiMacType.TF ∧ passesAddressFilter s hdr
  | _ => False

instance (s : StaWifiMac) : (st : Stimulus) → Decidable (processesTrigger s st)
  | Stimulus.advance _ => isFalse id
  | Stimulus.fire _ => isFalse id
  | Stimulus.receive _ hdr _ =>
    inferInstanceAs (Decidable (hdr.type = WifiMacType.TF ∧ passesAddressFilter s hdr))
  | Stimulus.enqueue _ _ => isFalse id
  | Stimulus.startActiveAssociation => isFalse id
  | Stimulus.setActiveProbing _ => isFalse id

/-- The stimuli that reach a station from outside the timer service: a received frame,
an outbound packet and the two calls that start or configure probing. -/
def Stimulus.external : Stimulus → Bool
  | Stimulus.advance _ => false
  | Stimulus.fire _ => false
  | _ => true

/-- Modelled from the spec: what can happen next in a simulation of several stations:
the simulator runs the next event, the clock advances while nothing is due, or a
stimulus from outside the timer service reaches one station. -/
inductive Move
  | run
  | advance (t : Time)
  | act (i : Nat) (st : Stimulus)
  deriving DecidableEq, Repr

/-- The world after a move. -/
def World.move (w : World) : Move → World
  | Move.run => w.step
  | Move.advance t => { w with shared := { w.shared with now := t } }
  | Move.act i st => w.act i (fun s => ns3.step s st)

/-- Modelled from the spec: whether a move can occur: the clock does not run backwards
and does not pass a pending event, and what reaches a station comes from outside the
timer service. -/
def Move.enabled (w : World) : Move → Prop
  | Move.run => True
  | Move.advance t => w.shared.now ≤ t ∧ ∀ x ∈ pendingFrom 0 w.stas, t ≤ x.2.ts
  | Move.act _ st => st.external = true

instance (w : World) : (m : Move) → Decidable (m.enabled w)
  | Move.run => isTrue trivial
  | Move.advance t =>
    inferInstanceAs (Decidable (w.shared.now ≤ t ∧ ∀ x ∈ pendingFrom 0 w.stas, t ≤ x.2.ts))
  | Move.act _ st => inferInstanceAs (Decidable (st.external = true))

/-- The world after the given moves, in order. -/
def World.moves (w : World) (ms : List Move) : World :=
  ms.foldl World.move w

/-- A run of moves each of which can occur in the world it meets and satisfies the
condition `ok` there. -/
def World.Allowed (ok : World → Move → Prop) : World → List Move → Prop
  | _, [] => True
  | w, m :: ms => m.enabled w ∧ ok w m ∧ World.Allowed ok (w.move m) ms

instance World.decAllowed (ok : World → Move → Prop) [∀ w m, Decidable (ok w m)] :
    (w : World) → (ms : List Move) → Decidable (World.Allowed ok w ms)
  | _, [] => isTrue trivial
  | w, m :: ms =>
    have := World.decAllowed ok (w.move m) ms
    inferInstanceAs (Decidable (m.enabled w ∧ ok w m ∧ World.Allowed ok (w.move m) ms))

/-- Whether a cancel-check of station `i` is pending. -/
def World.checkPending (w : World) (i : Nat) : Bool :=
  match w.stas[i]? with
  | none => false
  | some s => s.events.any fun e => e.cb.isCheck

/-- What is asked of a move between the trigger of station `i` and its cycle-end check.
Station `i` itself processes no further trigger and no stimulus changes its RU.  When
`free` is false, another station processes a trigger only while a cancel-check of
station `i` is still pending. -/
def World.sparesCycle (i : Nat) (free : Bool) (w : World) : Move → Prop
  | Move.act j st =>
    ∀ sj ∈ (w.stas[j]?).toList,
      (j = i → ¬ processesTrigger sj st ∧
        (ns3.step (sj.withShared w.shared) st).ruBits = sj.ruBits) ∧
      (j ≠ i → processesTrigger sj st → free = true ∨ w.checkPending i = true)
  | _ => True

instance (i : Nat) (free : Bool) (w : World) : (m : Move) → Decidable (w.sparesCycle i free m)
  | Move.run => isTrue trivial
  | Move.advance _ => isTrue trivial
  | Move.act j st =>
    inferInstanceAs (Decidable (∀ sj ∈ (w.stas[j]?).toList,
      (j = i → ¬ processesTrigger sj st ∧
        (ns3.step (sj.withShared w.shared) st).ruBits = sj.ruBits) ∧
      (j ≠ i → processesTrigger sj st → free = true ∨ w.checkPending i = true)))

/-- Whether a timer handle is the default one or names a registration number below
`n`. -/
def handleBelow (n : Nat) (h : EventId) : Prop :=
  match h with
  | none => True
  | some u => u < n

instance (n : Nat) (h : EventId) : Decidable (handleBelow n h) := by
  unfold handleBelow
  cases h <;> infer_instance

/-- Well-formedness of the timer bookkeeping of a station with respect to the
registration counter of the simulator: the registration numbers of its pending events
are below the counter and pairwise different, and so are the numbers its probe,
association and watchdog handles name. -/
def StaWifiMac.Booked (s : StaWifiMac) : Prop :=
  (∀ e ∈ s.events, e.uid < s.nextUid) ∧ (s.events.map Event.uid).Nodup ∧
  handleBelow s.nextUid s.m_probeRequestEvent ∧ handleBelow s.nextUid s.m_assocRequestEvent ∧
  handleBelow s.nextUid s.m_beaconWatchdog

instance (s : StaWifiMac) : Decidable s.Booked := by
  unfold StaWifiMac.Booked
  infer_instance

/-- A header of the given frame class, sent by the coordinator with address 2 to the
station with address `a` alone. -/
def sampleHdrTo (a : Mac48Address) (t : WifiMacType) : WifiMacHeader :=
  { type := t, addr1 := a, addr2 := 2, addr3 := 2, addr1IsGroup := false,
    fromDs := true, toDs := false, qosAmsdu := false }

/-- A run in the sample world (two stations on RU 3).  The first station processes a
trigger with a broadcast entry at time 0 and draws OBO 0; its cancel-check, its
transmission and its flag update run; at 2 microseconds the second station processes a
trigger addressed to it alone, whose allocation map is empty. -/
def lateTriggerRun : List Move :=
  [Move.act 0 (Stimulus.receive (sampleTf [(GetBroadcast, 0)] 1)
      (sampleGroupHdr WifiMacType.TF) 0),
    Move.run, Move.run, Move.run,
    Move.advance 2,
    Move.act 1 (Stimulus.receive (sampleTf [] 1) (sampleHdrTo 4 WifiMacType.TF) 0)]

/-- A run in the sample world (two stations on RU 3).  The first station processes a
trigger with a broadcast entry at time 0 and draws OBO 2; the second station processes
the same trigger right after it and draws OBO 5; the clock advances to 10 microseconds,
a beacon of the sample network reaches the first station, and the simulator runs four
events. -/
def sampleCycleRun : List Move :=
  [Move.act 1 (Stimulus.receive (sampleTf [(GetBroadcast, 0)] 1)
      (sampleGroupHdr WifiMacType.TF) 5),
    Move.advance 10,
    Move.act 0 (Stimulus.receive (samplePacket false) (sampleGroupHdr WifiMacType.BEACON) 0),
    Move.run, Move.run, Move.run, Move.run]

/-- Bookkeeping of the pending events `E` of a station during a trigger cycle: `n` is
the shared registration counter, `hp`, `ha` and `hw` are the probe, association and
watchdog handles of the station.  Registration numbers are below the counter and
pairwise different, and so are the numbers the handles name; no handle names a pending
cancel-check, candidate transmission or flag update. -/
def RaceBase (n : Nat) (E : List Event) (hp ha hw : EventId) : Prop :=
  (∀ e ∈ E, e.uid < n) ∧ (E.map Event.uid).Nodup ∧
  (∀ u, hp = some u ∨ ha = some u ∨ hw = some u → u < n) ∧
  (∀ e ∈ E, e.cb.isCheck = true ∨ e.cb.isTx = true ∨ e.cb.isUpdate = true →
    hp ≠ some e.uid ∧ ha ≠ some e.uid ∧ hw ≠ some e.uid)

/-- A station whose cancel-check, due at `Ti`, has not run yet: the check and the
candidate transmission are among its pending events `E` and are the only ones, the
handle `m_triggerFrameRespEvent` names the transmission, no flag update is pending,
nothing ran and no report was handed to a queue since the trigger (`chks`, `txs` and
`resp` are `cb0`, `tb0` and `base`);
the clock has not passed `Ti`; if the flag is set already, `Ti` is after the earliest
check time `Tstar`. -/
def RaceWaiting (ru : Nat) (Tstar Ti now : Time) (flag : Bool) (chks txs cb0 tb0 : List Event)
    (resp base : List Effect) (E : List Event) (handle : EventId) : Prop :=
  ∃ c x, c < x ∧ handle = some x ∧
    (⟨c, Ti, Callback.CheckAndCancel ru⟩ : Event) ∈ E ∧
    (⟨x, Ti, Callback.SendTriggerFrameResp ru⟩ : Event) ∈ E ∧
    (∀ e ∈ E, e.cb.isCheck = true → e.uid = c) ∧
    (∀ e ∈ E, e.cb.isTx = true → e.uid = x) ∧
    (∀ e ∈ E, e.cb.isUpdate = false) ∧
    chks = cb0 ∧ txs = tb0 ∧ resp = base ∧ (flag = true → Tstar < Ti) ∧ now ≤ Ti

/-- A station whose cancel-check ran at the earliest check time `Tstar` and found the
flag false: the flag is set or its update is pending for `Tstar + 1`; the candidate
transmission is pending for `Tstar` and the clock has not passed `Tstar`, or it ran at
`Tstar` and handed exactly one report to the queue of RU `ru`. -/
def RaceWon (ru : Nat) (Tstar Ti now : Time) (flag : Bool) (chks txs cb0 tb0 : List Event)
    (resp base : List Effect) (E : List Event) : Prop :=
  Ti = Tstar ∧ (∃ c, chks = cb0 ++ [⟨c, Tstar, Callback.CheckAndCancel ru⟩]) ∧
    (∀ e ∈ E, e.cb.isCheck = false) ∧
    (∀ e ∈ E, e.cb.isUpdate = true → e.cb = Callback.UpdateBsrTx ru ∧ e.ts = Tstar + 1) ∧
    (flag = true ∨ ∃ e ∈ E, e.cb.isUpdate = true) ∧
    ((∃ x, (⟨x, Tstar, Callback.SendTriggerFrameResp ru⟩ : Event) ∈ E ∧
        (∀ e ∈ E, e.cb.isTx = true → e.uid = x) ∧ txs = tb0 ∧ resp = base ∧ now ≤ Tstar) ∨
     ((∀ e ∈ E, e.cb.isTx = false) ∧
        (∃ x, txs = tb0 ++ [⟨x, Tstar, Callback.SendTriggerFrameResp ru⟩]) ∧
        ∃ b, resp = base ++ [Effect.QueueTFResp ru b]))

/-- A station whose cancel-check ran after the earliest check time, found the flag set
and cancelled the candidate transmission: no cancel-check, transmission or flag update
is pending, no transmission ran and no report was handed to a queue. -/
def RaceLost (ru : Nat) (Tstar Ti : Time) (chks txs cb0 tb0 : List Event)
    (resp base : List Effect) (E : List Event) : Prop :=
  Tstar < Ti ∧ (∃ c, chks = cb0 ++ [⟨c, Ti, Callback.CheckAndCancel ru⟩]) ∧
    (∀ e ∈ E, e.cb.isCheck = false ∧ e.cb.isTx = false ∧ e.cb.isUpdate = false) ∧
    txs = tb0 ∧ resp = base

/-- The invariant of a contending station during a trigger cycle on RU `ru`, in which
the earliest cancel-check is due at `Tstar` and the station's own at `Ti`: `now` is the
clock, `n` the shared registration counter, `flag` the shared flag of the RU, `chks`
and `txs` the cancel-checks and candidate transmissions of the station that ran so far,
`cb0` and `tb0` those that had run when the trigger arrived, `resp` the reports it
handed to the queues so far and `base` those it had handed over when the trigger
arrived, `E` its pending events, `handle` its
`m_triggerFrameRespEvent`, and `hp`, `ha`, `hw` its probe, association and watchdog
handles. -/
def RaceCore (ru : Nat) (Tstar Ti now : Time) (n : Nat) (flag : Bool)
    (chks txs cb0 tb0 : List Event) (resp base : List Effect) (E : List Event)
    (handle hp ha hw : EventId) : Prop :=
  RaceBase n E hp ha hw ∧ (Ti = Tstar ∨ Tstar + 2 ≤ Ti) ∧
  (RaceWaiting ru Tstar Ti now flag chks txs cb0 tb0 resp base E handle ∨
    RaceWon ru Tstar Ti now flag chks txs cb0 tb0 resp base E ∨
    RaceLost ru Tstar Ti chks txs cb0 tb0 resp base E)

/-- The invariant of a contending station, read from its record as seen with the shared
part. -/
def RaceSta (ru : Nat) (Tstar Ti : Time) (base : List Effect) (cb0 tb0 chks txs : List Event)
    (s : StaWifiMac) : Prop :=
  RaceCore ru Tstar Ti s.now s.nextUid (s.GetBsrTx ru) chks txs cb0 tb0 s.tfResps base s.events
    s.m_triggerFrameRespEvent s.m_probeRequestEvent s.m_assocRequestEvent s.m_beaconWatchdog

/-- A station that stands by during a trigger cycle on RU `ru`: none of its pending
events is a cancel-check or a flag update for that RU. -/
def Bystander (ru : Nat) (E : List Event) : Prop :=
  ∀ e ∈ E, e.cb ≠ Callback.CheckAndCancel ru ∧ e.cb ≠ Callback.UpdateBsrTx ru

instance (ru : Nat) (E : List Event) : Decidable (Bystander ru E) := by
  unfold Bystander
  infer_instance

/-- The invariant of a trigger cycle on RU `ru`: `c i` tells whether station `i`
contends, `T i` is the time at which the cancel-check of a contending station `i` is
due, `Tstar` the earliest of these times, `base i` the reports station `i` had handed to
the queues when the trigger arrived and `w0` the world in which it arrived.  Every
contending station satisfies the invariant of a contending station; every other station
stands by. -/
def RaceInv (ru : Nat) (Tstar : Time) (T : Nat → Time) (base : Nat → List Effect)
    (c : Nat → Bool) (w0 w : World) : Prop :=
  (∃ j, j < w.stas.length ∧ c j = true ∧ T j = Tstar) ∧
  ∀ i s, w.stas[i]? = some s →
    (c i = true →
      RaceSta ru Tstar (T i) (base i) (w0.checks i) (w0.transmissions i) (w.checks i)
        (w.transmissions i) (s.withShared w.shared)) ∧
    (c i = false → Bystander ru s.events)

/-- What is asked of a move during one trigger cycle: no station processes a further
trigger. -/
def World.noTrigger (w : World) : Move → Prop
  | Move.act j st => ∀ sj ∈ (w.stas[j]?).toList, ¬ processesTrigger sj st
  | _ => True

instance (w : World) : (m : Move) → Decidable (w.noTrigger m)
  | Move.run => isTrue trivial
  | Move.advance _ => isTrue trivial
  | Move.act j st =>
    inferInstanceAs (Decidable (∀ sj ∈ (w.stas[j]?).toList, ¬ processesTrigger sj st))

/-- Whether station `i` contends on RU `ru` for a trigger with header `hdr`, taking the
raw draw `rv i`: the frame passes its address filter, it is on RU `ru` and the OBO it
holds after the draw is below its max-slots, so that the broadcast entry makes it
register a cancel-check and a candidate transmission for that RU. -/
def World.contender (w : World) (ru : Nat) (hdr : WifiMacHeader) (rv : Nat → Nat)
    (i : Nat) : Bool :=
  match w.stas[i]? with
  | some s =>
    decide (passesAddressFilter s hdr ∧ s.ruBits = ru ∧ s.slotsAfterDraw (rv i) < s.maxTfSlots)
  | none => false

/-- Stations about to go through one trigger cycle on RU `ru`, for the trigger `packet`
with header `hdr`; station `i` will take the raw draw `rv i`.  Every station that
contends on RU `ru` has its timer bookkeeping well-formed and no cancel-check, candidate
transmission or flag update pending, its slot duration is `slot`, and if the trigger is
an uplink trigger no entry of the allocation map names it.  Every other station (on
another RU, not reached by the frame, or with an OBO of max-slots or more) has no
cancel-check and no flag update for RU `ru` pending. -/
def World.Contends (w : World) (ru : Nat) (slot : Time) (packet : Packet)
    (hdr : WifiMacHeader) (rv : Nat → Nat) : Prop :=
  ∀ p ∈ w.stas.enum,
    (w.contender ru hdr rv p.1 = true →
      (p.2.withShared w.shared).Booked ∧
      (∀ e ∈ p.2.events, e.cb.isCheck = false ∧ e.cb.isTx = false ∧ e.cb.isUpdate = false) ∧
      p.2.slot = slot ∧
      (∀ x ∈ packet.tf.ruAllocations, x.1 = p.2.address → packet.tf.uplinkFlag = 0)) ∧
    (w.contender ru hdr rv p.1 = false → Bystander ru p.2.events)

instance (w : World) (ru : Nat) (slot : Time) (packet : Packet) (hdr : WifiMacHeader)
    (rv : Nat → Nat) : Decidable (w.Contends ru slot packet hdr rv) := by
  unfold World.Contends
  infer_instance

/-- The reports station `i` handed to the queues of the RUs so far (none when there is
no station `i`). -/
def World.reports (w : World) (i : Nat) : List Effect :=
  match w.stas[i]? with
  | some s => s.tfResps
  | none => []

/-- A sample world with three stations as their constructors leave them: two on RU 3,
with addresses 1 and 4, and one on RU 5, with address 6 (slot 13 microseconds,
max-slots 16, window 15). -/
def sampleMixedWorld : World :=
  { shared := (StaWifiMac.init sampleCfg).shared,
    stas := [StaWifiMac.init { sampleCfg with ruBits := 3 },
             StaWifiMac.init { sampleCfg with ruBits := 3, address := 4 },
             StaWifiMac.init { sampleCfg with ruBits := 5, address := 6 }],
    log := [] }

/-- A run in the sample world of three stations that leaves the two stations on RU 3
associated with a beacon watchdog pending: both start probing, a probe response reaches
each of them after 1 ms, an accepting association response after 2 ms and a beacon of
the sample network after 3 ms.  The station on RU 5 stays as it is. -/
def sampleAssocRun : List Move :=
  [Move.act 0 Stimulus.startActiveAssociation,
    Move.act 1 Stimulus.startActiveAssociation,
    Move.advance 1000,
    Move.act 0 (Stimulus.receive (samplePacket false) (sampleHdrTo 1 WifiMacType.PROBE_RESP) 0),
    Move.act 1 (Stimulus.receive (samplePacket false) (sampleHdrTo 4 WifiMacType.PROBE_RESP) 0),
    Move.advance 2000,
    Move.act 0 (Stimulus.receive (samplePacket true) (sampleHdrTo 1 WifiMacType.ASSOC_RESP) 0),
    Move.act 1 (Stimulus.receive (samplePacket true) (sampleHdrTo 4 WifiMacType.ASSOC_RESP) 0),
    Move.advance 3000,
    Move.act 0 (Stimulus.receive (samplePacket false) (sampleGroupHdr WifiMacType.BEACON) 0),
    Move.act 1 (Stimulus.receive (samplePacket false) (sampleGroupHdr WifiMacType.BEACON) 0)]

/-- The sample world of three stations after the two stations on RU 3 associated: the
clock shows 3 ms and each of the two has its beacon watchdog pending. -/
def sampleBusyWorld : World := sampleMixedWorld.moves sampleAssocRun

/-- A run of one trigger cycle in the sample world after association, trigger at 3000
microseconds, the stations drawing OBO 2, 5 and 5: the simulator runs three events
(cancel-check and transmission of the first station at 3026, its flag update at 3027),
the clock advances to 3030, a beacon reaches the second station, the simulator runs
three more events (the cancel-check of the second station, the cancel-check and the
transmission of the third station, on RU 5, all at 3065) and the clock advances to
3066. -/
def sampleContentionRun : List Move :=
  [Move.run, Move.run, Move.run, Move.advance 3030,
    Move.act 1 (Stimulus.receive (samplePacket false) (sampleGroupHdr WifiMacType.BEACON) 0),
    Move.run, Move.run, Move.run, Move.advance 3066]

/-- The worlds a simulation reaches.  It starts with stations as their constructors
leave them, nothing fired yet, whatever the shared part shows; then moves follow, each
of them enabled: the simulator runs the next event, the clock advances up to the next
pending event, or a station receives a frame, is handed a packet or is told to probe. -/
inductive World.Reachable : World → Prop
  | init (h : Shared) (cfgs : List StaWifiMac) :
      World.Reachable ⟨h, cfgs.map StaWifiMac.init, []⟩
  | move (w : World) (m : Move) : World.Reachable w → m.enabled w →
      World.Reachable (w.move m)

/-- C1: for every current association state and every target state `v`, `SetState v`
fires the "associated" notification exactly once iff `v` is Associated and the current
state is not, fires the "disassociated" notification exactly once iff `v` is not
Associated and the current state is, fires neither otherwise, logs nothing else, and
always leaves the state equal to `v`. -/
theorem C1_SetState_notifications (s : StaWifiMac) (v : MacState) :
    (s.SetState v).m_state = v ∧
    (s.SetState v).trace = s.trace ++ emitted s (s.SetState v) ∧
    (emitted s (s.SetState v)).countP Effect.isAssoc =
      (if v = MacState.ASSOCIATED ∧ s.m_state ≠ MacState.ASSOCIATED then 1 else 0) ∧
    (emitted s (s.SetState v)).countP Effect.isDeAssoc =
      (if v ≠ MacState.ASSOCIATED ∧ s.m_state = MacState.ASSOCIATED then 1 else 0) ∧
    (∀ e ∈ emitted s (s.SetState v), e.isAssoc = true ∨ e.isDeAssoc = true) := by
  unfold StaWifiMac.SetState emitted
  by_cases hv : v = MacState.ASSOCIATED <;> by_cases hs : s.m_state = MacState.ASSOCIATED <;>
    simp [hv, hs, StaWifiMac.emit, Effect.isAssoc, Effect.isDeAssoc]

/-- C2: in the states WaitProbeResponse, WaitAssociationResponse and Refused, invoking
re-evaluation any number of times returns the station record unchanged: the same
association state, event list (no timer armed or cancelled), handles, watchdog
deadline and effect log (nothing sent, no notification, no link-down). -/
theorem C2_reevaluation_noop (s : StaWifiMac) (n : Nat)
    (h : s.m_state = MacState.WAIT_PROBE_RESP ∨ s.m_state = MacState.WAIT_ASSOC_RESP ∨
      s.m_state = MacState.REFUSED) :
    StaWifiMac.TryToEnsureAssociated^[n] s = s := by
  have h1 : s.TryToEnsureAssociated = s := by
    unfold StaWifiMac.TryToEnsureAssociated
    rcases h with h | h | h <;> simp [h]
  exact Function.iterate_fixed h1 n

/-- The idiom "cancel the handle if it is running" only touches the event list. -/
theorem cancel_if_running_eq (s : StaWifiMac) (id : EventId) :
    (if s.IsRunning id then s.Cancel id else s) =
      { s with events := eventsAfterCancel s.events id } := by
  unfold eventsAfterCancel StaWifiMac.IsRunning StaWifiMac.IsExpired
  split <;> rfl

/-- Cancelling removes events, it adds none. -/
theorem mem_of_mem_eventsAfterCancel (events : List Event) (id : EventId) (e : Event)
    (h : e ∈ eventsAfterCancel events id) : e ∈ events := by
  unfold eventsAfterCancel at h
  split at h
  · cases id with
    | none => exact h
    | some u => exact (List.mem_filter.mp h).1
  · exact h

/-- After "cancel the handle if it is running" no pending event carries the
registration number the handle names. -/
theorem uid_ne_of_mem_eventsAfterCancel (events : List Event) (u : Nat) (e : Event)
    (h : e ∈ eventsAfterCancel events (some u)) : e.uid ≠ u := by
  unfold eventsAfterCancel at h
  split at h
  · simpa [cancelIn] using (List.mem_filter.mp h).2
  · rename_i hrun
    intro hu
    simp [expiredIn] at hrun
    exact hrun e h hu

/-- Events under other registration numbers survive "cancel the handle if it is
running". -/
theorem mem_eventsAfterCancel_of_ne (events : List Event) (id : EventId) (e : Event)
    (h : e ∈ events) (hne : id ≠ some e.uid) : e ∈ eventsAfterCancel events id := by
  unfold eventsAfterCancel
  split
  · cases id with
    | none => exact h
    | some u =>
      refine List.mem_filter.mpr ⟨h, ?_⟩
      have : e.uid ≠ u := fun hu => hne (by rw [hu])
      simpa using this
  · exact h

/-- What `SendProbeRequest` does, as one record update. -/
theorem SendProbeRequest_eq (s : StaWifiMac) :
    s.SendProbeRequest =
      { s with
        trace := s.trace ++ [Effect.QueueProbeRequest],
        events := eventsAfterCancel s.events s.m_probeRequestEvent ++
          [⟨s.nextUid, s.now + s.m_probeRequestTimeout, Callback.ProbeRequestTimeout⟩],
        nextUid := s.nextUid + 1,
        m_probeRequestEvent := some s.nextUid } := by
  unfold StaWifiMac.SendProbeRequest
  simp only [cancel_if_running_eq]
  rfl

/-- What `SendAssociationRequest` does, as one record update. -/
theorem SendAssociationRequest_eq (s : StaWifiMac) :
    s.SendAssociationRequest =
      { s with
        trace := s.trace ++ [Effect.QueueAssocRequest s.bssid],
        events := eventsAfterCancel s.events s.m_assocRequestEvent ++
          [⟨s.nextUid, s.now + s.m_assocRequestTimeout, Callback.AssocRequestTimeout⟩],
        nextUid := s.nextUid + 1,
        m_assocRequestEvent := some s.nextUid } := by
  unfold StaWifiMac.SendAssociationRequest
  simp only [cancel_if_running_eq]
  rfl

/-- In a well-formed station no probe retry event is left pending once the probe handle
has been cancelled. -/
theorem pending_probe_after_cancel (s : StaWifiMac) (hwf : s.TimersWF) :
    (eventsAfterCancel s.events s.m_probeRequestEvent).filter
      (fun e => e.cb == Callback.ProbeRequestTimeout) = [] := by
  obtain ⟨_, hp, _⟩ := hwf
  rw [List.filter_eq_nil_iff]
  intro e he hcb
  have hcb' : e.cb = Callback.ProbeRequestTimeout := by simpa using hcb
  have hid := hp e (mem_of_mem_eventsAfterCancel s.events _ e he) hcb'
  rw [hid] at he
  exact uid_ne_of_mem_eventsAfterCancel s.events e.uid e he rfl

/-- The event registered last under a fresh number is the one found under it. -/
theorem find_fresh (l : List Event) (e : Event) (hfresh : ∀ x ∈ l, x.uid < e.uid) :
    List.find? (fun x => x.uid == e.uid) (l ++ [e]) = some e := by
  induction l with
  | nil => simp
  | cons a l ih =>
    have ha : a.uid ≠ e.uid := Nat.ne_of_lt (hfresh a (List.mem_cons_self _ _))
    have hl : ∀ x ∈ l, x.uid < e.uid := fun x hx => hfresh x (List.mem_cons_of_mem _ hx)
    have hb : (a.uid == e.uid) = false := by simpa using ha
    simp [List.find?, hb, ih hl]

/-- Removing the event registered last under a fresh number leaves the others. -/
theorem filter_fresh (l : List Event) (e : Event) (hfresh : ∀ x ∈ l, x.uid < e.uid) :
    List.filter (fun x => x.uid != e.uid) (l ++ [e]) = l := by
  rw [List.filter_append]
  have h1 : List.filter (fun x => x.uid != e.uid) l = l := by
    rw [List.filter_eq_self]
    intro x hx
    have : x.uid ≠ e.uid := Nat.ne_of_lt (hfresh x hx)
    simpa using this
  simp [h1]

/-- A list without pending events of some callback keeps none after a cancellation. -/
theorem filter_cb_eventsAfterCancel_nil (l : List Event) (id : EventId) (cb : Callback)
    (h : l.filter (fun e => e.cb == cb) = []) :
    (eventsAfterCancel l id).filter (fun e => e.cb == cb) = [] := by
  rw [List.filter_eq_nil_iff] at h ⊢
  intro e he
  exact h e (mem_of_mem_eventsAfterCancel l id e he)

/-- C3: for a station in BeaconMissed whose timer bookkeeping is well-formed (as it is in
every state reached from construction, `TimersWF_of_Reachable`), re-evaluation with
active probing enabled moves the state to WaitProbeResponse, logs exactly one probe
request, and leaves exactly one probe retry event pending, at `now + m_probeRequestTimeout`
(an earlier one is cancelled), named by the probe handle; firing that event next moves
the clock to that time, logs exactly one more probe request and nothing else, keeps the
state WaitProbeResponse and leaves exactly one probe retry event pending, one timeout
later.  With active probing disabled, re-evaluation keeps the state BeaconMissed, logs
no probe or association request and leaves the event list and the handles unchanged. -/
theorem C3_beacon_missed_reevaluation (s : StaWifiMac)
    (hs : s.m_state = MacState.BEACON_MISSED) (hwf : s.TimersWF) :
    (s.m_activeProbing = true →
      s.TryToEnsureAssociated.m_state = MacState.WAIT_PROBE_RESP ∧
      s.TryToEnsureAssociated.trace = s.trace ++ emitted s s.TryToEnsureAssociated ∧
      (emitted s s.TryToEnsureAssociated).countP Effect.isProbeRequest = 1 ∧
      s.TryToEnsureAssociated.pending Callback.ProbeRequestTimeout =
        [⟨s.nextUid, s.now + s.m_probeRequestTimeout, Callback.ProbeRequestTimeout⟩] ∧
      s.TryToEnsureAssociated.m_probeRequestEvent = some s.nextUid ∧
      s.TryToEnsureAssociated.IsRunning (some s.nextUid) = true ∧
      (s.TryToEnsureAssociated.Invoke s.nextUid).now = s.now + s.m_probeRequestTimeout ∧
      (s.TryToEnsureAssociated.Invoke s.nextUid).m_state = MacState.WAIT_PROBE_RESP ∧
      (s.TryToEnsureAssociated.Invoke s.nextUid).trace =
        s.TryToEnsureAssociated.trace ++ [Effect.QueueProbeRequest] ∧
      (s.TryToEnsureAssociated.Invoke s.nextUid).pending Callback.ProbeRequestTimeout =
        [⟨s.nextUid + 1, s.now + s.m_probeRequestTimeout + s.m_probeRequestTimeout,
          Callback.ProbeRequestTimeout⟩]) ∧
    (s.m_activeProbing = false →
      s.TryToEnsureAssociated.m_state = MacState.BEACON_MISSED ∧
      s.TryToEnsureAssociated.trace = s.trace ++ emitted s s.TryToEnsureAssociated ∧
      (emitted s s.TryToEnsureAssociated).countP Effect.isProbeRequest = 0 ∧
      (emitted s s.TryToEnsureAssociated).countP Effect.isAssocRequest = 0 ∧
      s.TryToEnsureAssociated.events = s.events ∧
      s.TryToEnsureAssociated.m_probeRequestEvent = s.m_probeRequestEvent ∧
      s.TryToEnsureAssociated.m_assocRequestEvent = s.m_assocRequestEvent ∧
      s.TryToEnsureAssociated.m_beaconWatchdog = s.m_beaconWatchdog) := by
  have hc := pending_probe_after_cancel s hwf
  constructor
  · intro hap
    have h1 : s.TryToEnsureAssociated =
        { s with
          m_state := MacState.WAIT_PROBE_RESP,
          trace := s.trace ++ [Effect.linkDown, Effect.QueueProbeRequest],
          events := eventsAfterCancel s.events s.m_probeRequestEvent ++
            [⟨s.nextUid, s.now + s.m_probeRequestTimeout, Callback.ProbeRequestTimeout⟩],
          nextUid := s.nextUid + 1,
          m_probeRequestEvent := some s.nextUid } := by
      unfold StaWifiMac.TryToEnsureAssociated
      simp only [hs]
      simp [StaWifiMac.emit, hap, hs, StaWifiMac.SetState, SendProbeRequest_eq]
    have hfresh : ∀ x ∈ eventsAfterCancel s.events s.m_probeRequestEvent,
        x.uid < (⟨s.nextUid, s.now + s.m_probeRequestTimeout,
          Callback.ProbeRequestTimeout⟩ : Event).uid :=
      fun x hx => hwf.1 x (mem_of_mem_eventsAfterCancel _ _ x hx)
    have hfind := find_fresh _ _ hfresh
    have hfilter := filter_fresh _ _ hfresh
    have hc2 := filter_cb_eventsAfterCancel_nil _ (some s.nextUid) _ hc
    have h2 : s.TryToEnsureAssociated.Invoke s.nextUid =
        { s with
          now := s.now + s.m_probeRequestTimeout,
          m_state := MacState.WAIT_PROBE_RESP,
          trace := s.trace ++ [Effect.linkDown, Effect.QueueProbeRequest] ++
            [Effect.QueueProbeRequest],
          events :=
            eventsAfterCancel (eventsAfterCancel s.events s.m_probeRequestEvent)
              (some s.nextUid) ++
            [⟨s.nextUid + 1, s.now + s.m_probeRequestTimeout + s.m_probeRequestTimeout,
              Callback.ProbeRequestTimeout⟩],
          nextUid := s.nextUid + 1 + 1,
          m_probeRequestEvent := some (s.nextUid + 1) } := by
      rw [h1]
      unfold StaWifiMac.Invoke
      simp only [hfind, StaWifiMac.Fire, hfilter]
      simp [StaWifiMac.Dispatch, StaWifiMac.ProbeRequestTimeout, StaWifiMac.SetState,
        SendProbeRequest_eq]
    rw [h2, h1]
    refine ⟨rfl, ?_, ?_, ?_, rfl, ?_, rfl, rfl, rfl, ?_⟩
    · simp [emitted]
    · simp [emitted, Effect.isProbeRequest]
    · simp [StaWifiMac.pending, List.filter_append, hc]
    · simp [StaWifiMac.IsRunning, StaWifiMac.IsExpired, expiredIn]
    · simp [StaWifiMac.pending, List.filter_append, hc2]
  · intro hap
    have h1 : s.TryToEnsureAssociated = s.emit Effect.linkDown := by
      unfold StaWifiMac.TryToEnsureAssociated
      simp [hs, hap, StaWifiMac.emit]
    rw [h1]
    simp [StaWifiMac.emit, emitted, Effect.isProbeRequest, Effect.isAssocRequest, hs]

/-- Witness of C2: three re-evaluations of the sample station in Refused. -/
theorem C2_reevaluation_noop_witness :
    sampleRefused.m_state = MacState.REFUSED ∧
    StaWifiMac.TryToEnsureAssociated^[3] sampleRefused = sampleRefused :=
  ⟨by decide, C2_reevaluation_noop sampleRefused 3 (by decide)⟩

/-- Witness of C3: the sample station, freshly constructed with active probing. -/
theorem C3_beacon_missed_reevaluation_witness :
    sampleSta.m_state = MacState.BEACON_MISSED ∧ sampleSta.TimersWF ∧
    sampleSta.m_activeProbing = true ∧
    (sampleSta.TryToEnsureAssociated.Invoke sampleSta.nextUid).pending
        Callback.ProbeRequestTimeout =
      [⟨sampleSta.nextUid + 1,
        sampleSta.now + sampleSta.m_probeRequestTimeout + sampleSta.m_probeRequestTimeout,
        Callback.ProbeRequestTimeout⟩] :=
  ⟨by decide, by decide, by decide,
    ((C3_beacon_missed_reevaluation sampleSta (by decide) (by decide)).1 (by decide)).2.2.2.2.2.2.2.2.2⟩

/-- Cancelling a handle that is running leaves it expired. -/
theorem expiredIn_eventsAfterCancel (events : List Event) (id : EventId) :
    expiredIn (eventsAfterCancel events id) id = true := by
  cases id with
  | none => rfl
  | some u =>
    simp only [expiredIn, Bool.not_eq_true', List.any_eq_false]
    intro e he
    have := uid_ne_of_mem_eventsAfterCancel events u e he
    simpa using this

/-- In a well-formed station no association retry event is left pending once the
association handle has been cancelled. -/
theorem pending_assoc_after_cancel (s : StaWifiMac) (hwf : s.TimersWF) :
    (eventsAfterCancel s.events s.m_assocRequestEvent).filter
      (fun e => e.cb == Callback.AssocRequestTimeout) = [] := by
  obtain ⟨_, _, hp⟩ := hwf
  rw [List.filter_eq_nil_iff]
  intro e he hcb
  have hcb' : e.cb = Callback.AssocRequestTimeout := by simpa using hcb
  have hid := hp e (mem_of_mem_eventsAfterCancel s.events _ e he) hcb'
  rw [hid] at he
  exact uid_ne_of_mem_eventsAfterCancel s.events e.uid e he rfl

/-- What `erpUpdate` does, as one record update. -/
theorem erpUpdate_eq (s : StaWifiMac) (rates : SupportedRates) :
    s.erpUpdate rates =
      { s with slot := erpSlot s rates, trace := s.trace ++ erpEffects s rates } := by
  unfold StaWifiMac.erpUpdate erpEffects erpSlot
  by_cases h1 : s.m_erpSupported = true
  · simp only [if_pos h1]
    by_cases h2 : (!s.isErpAllowed rates) = true
    · simp only [if_pos h2]; rfl
    · simp only [if_neg h2]
      by_cases h3 : s.shortSlotTimeEnabled = true
      · simp only [if_pos h3]; rfl
      · simp only [if_neg h3]; rfl
  · simp only [if_neg h1, List.append_nil]

/-- The calls `erpUpdate` logs are neither notifications nor requests nor link signals. -/
theorem erpEffects_counts (s : StaWifiMac) (rates : SupportedRates) :
    (erpEffects s rates).countP Effect.isAssoc = 0 ∧
    (erpEffects s rates).countP Effect.isDeAssoc = 0 ∧
    (erpEffects s rates).countP Effect.isLinkUp = 0 ∧
    (erpEffects s rates).countP Effect.isLinkDown = 0 ∧
    (erpEffects s rates).countP Effect.isProbeRequest = 0 ∧
    (erpEffects s rates).countP Effect.isAssocRequest = 0 := by
  unfold erpEffects
  cases s.m_erpSupported <;> cases s.isErpAllowed rates <;>
    simp [Effect.isAssoc, Effect.isDeAssoc, Effect.isLinkUp, Effect.isLinkDown,
      Effect.isProbeRequest, Effect.isAssocRequest]

/-- The association-response branch in WaitAssociationResponse, as one record update. -/
theorem receiveAssocResp_eq (s : StaWifiMac) (packet : Packet) (hdr : WifiMacHeader)
    (hs : s.m_state = MacState.WAIT_ASSOC_RESP) :
    s.receiveAssocResp packet hdr =
      if packet.assocResp.statusSuccess then
        { s with
          events := eventsAfterCancel s.events s.m_assocRequestEvent,
          m_state := MacState.ASSOCIATED,
          trace := s.trace ++ assocSuccessEffects s packet.assocResp.rates,
          slot := erpSlot s packet.assocResp.rates,
          shortPreambleEnabled :=
            s.erpShortPreamble packet.assocResp.rates packet.assocResp.shortPreamble
              packet.assocResp.barkerPreambleMode,
          shortSlotTimeEnabled := packet.assocResp.shortSlotTime }
      else
        { s with
          events := eventsAfterCancel s.events s.m_assocRequestEvent,
          m_state := MacState.REFUSED } := by
  unfold StaWifiMac.receiveAssocResp
  simp only [hs, if_true, cancel_if_running_eq]
  by_cases hst : packet.assocResp.statusSuccess = true
  · simp only [if_pos hst, erpUpdate_eq]
    have hne : ¬ (MacState.WAIT_ASSOC_RESP = MacState.ASSOCIATED) := by decide
    by_cases hl : s.linkUpIsNull = true
    · have hl' : ¬ ((!s.linkUpIsNull) = true) := by simp [hl]
      simp only [StaWifiMac.SetState, hs, StaWifiMac.emit, StaWifiMac.GetBssid,
        assocSuccessEffects, if_pos hl, if_neg hl', ne_eq, not_true_eq_false, not_false_eq_true,
        and_self, if_true, hne, List.append_nil, List.append_assoc]
      rfl
    · have hl' : (!s.linkUpIsNull) = true := by simpa using hl
      simp only [StaWifiMac.SetState, hs, StaWifiMac.emit, StaWifiMac.GetBssid,
        assocSuccessEffects, if_neg hl, if_pos hl', ne_eq, not_true_eq_false, not_false_eq_true,
        and_self, if_true, hne, List.append_nil, List.append_assoc]
      rfl
  · simp only [if_neg hst]
    simp [StaWifiMac.SetState, hs]

/-- C4: handling of an association response.  In WaitAssociationResponse, for a
response that passes the address filter of `Receive`, the association retry timer is
cancelled (its handle is expired, and in a well-formed station no association retry
event stays pending); a success status moves the state to Associated, fires the
"associated" notification exactly once and signals link-up exactly once when a
link-up callback is set (not at all when none is set); any other status moves the
state to Refused with no "associated" notification and no link-up.  In every other
state an association response leaves the association state, the event list, the
three timer handles and the watchdog deadline unchanged. -/
theorem C4_association_response (s : StaWifiMac) (packet : Packet) (hdr : WifiMacHeader)
    (rv : Nat) (ht : hdr.type = WifiMacType.ASSOC_RESP) :
    (s.m_state = MacState.WAIT_ASSOC_RESP → hdr.addr3 ≠ s.address →
      (hdr.addr1 = s.address ∨ hdr.addr1IsGroup = true) →
      (s.Receive packet hdr rv).events = eventsAfterCancel s.events s.m_assocRequestEvent ∧
      (s.Receive packet hdr rv).m_assocRequestEvent = s.m_assocRequestEvent ∧
      (s.Receive packet hdr rv).IsRunning (s.Receive packet hdr rv).m_assocRequestEvent = false ∧
      (s.TimersWF → (s.Receive packet hdr rv).pending Callback.AssocRequestTimeout = []) ∧
      (s.Receive packet hdr rv).trace = s.trace ++ emitted s (s.Receive packet hdr rv) ∧
      (packet.assocResp.statusSuccess = true →
        (s.Receive packet hdr rv).m_state = MacState.ASSOCIATED ∧
        (emitted s (s.Receive packet hdr rv)).countP Effect.isAssoc = 1 ∧
        (emitted s (s.Receive packet hdr rv)).countP Effect.isLinkUp =
          (if s.linkUpIsNull then 0 else 1)) ∧
      (packet.assocResp.statusSuccess = false →
        (s.Receive packet hdr rv).m_state = MacState.REFUSED ∧
        (emitted s (s.Receive packet hdr rv)).countP Effect.isAssoc = 0 ∧
        (emitted s (s.Receive packet hdr rv)).countP Effect.isLinkUp = 0)) ∧
    (s.m_state ≠ MacState.WAIT_ASSOC_RESP →
      (s.Receive packet hdr rv).m_state = s.m_state ∧
      (s.Receive packet hdr rv).events = s.events ∧
      (s.Receive packet hdr rv).m_probeRequestEvent = s.m_probeRequestEvent ∧
      (s.Receive packet hdr rv).m_assocRequestEvent = s.m_assocRequestEvent ∧
      (s.Receive packet hdr rv).m_beaconWatchdog = s.m_beaconWatchdog ∧
      (s.Receive packet hdr rv).m_beaconWatchdogEnd = s.m_beaconWatchdogEnd) := by
  constructor
  · intro hs h3 h1
    have hr : s.Receive packet hdr rv = s.receiveAssocResp packet hdr := by
      unfold StaWifiMac.Receive
      have h1' : ¬ (hdr.addr1 ≠ s.GetAddress ∧ hdr.addr1IsGroup = false) := by
        rintro ⟨ha, hg⟩
        rcases h1 with h | h
        · exact ha h
        · simp [hg] at h
      simp [StaWifiMac.GetAddress, h3, ht]
      intro ha hg
      exact absurd ⟨ha, hg⟩ h1'
    rw [hr]
    have hexp := expiredIn_eventsAfterCancel s.events s.m_assocRequestEvent
    have hcnt := erpEffects_counts s packet.assocResp.rates
    have hwfp : s.TimersWF → (eventsAfterCancel s.events s.m_assocRequestEvent).filter
        (fun e => e.cb == Callback.AssocRequestTimeout) = [] :=
      pending_assoc_after_cancel s
    rw [receiveAssocResp_eq s packet hdr hs]
    cases hst : packet.assocResp.statusSuccess
    · simp [StaWifiMac.IsRunning, StaWifiMac.IsExpired, hexp, StaWifiMac.pending, emitted]
      exact fun hwf => by simpa using hwfp hwf
    · cases hl : s.linkUpIsNull <;>
        simp [StaWifiMac.IsRunning, StaWifiMac.IsExpired, hexp, StaWifiMac.pending, emitted,
          assocSuccessEffects, hl, hcnt, Effect.isAssoc, Effect.isLinkUp] <;>
        exact fun hwf => by simpa using hwfp hwf
  · intro hs
    unfold StaWifiMac.Receive
    by_cases h3 : hdr.addr3 = s.GetAddress
    · simp [h3]
    · by_cases h1 : hdr.addr1 ≠ s.GetAddress ∧ hdr.addr1IsGroup = false
      · simp [h3, h1, StaWifiMac.emit]
      · simp [h3, h1, ht, StaWifiMac.receiveAssocResp, hs]

/-- Witness of C4: the sample station in WaitAssociationResponse receives a success. -/
theorem C4_association_response_witness :
    (sampleHdr WifiMacType.ASSOC_RESP).type = WifiMacType.ASSOC_RESP ∧
    (({ sampleWaitAssoc with now := 2000 }).Receive (samplePacket true)
      (sampleHdr WifiMacType.ASSOC_RESP) 0).m_state = MacState.ASSOCIATED :=
  ⟨rfl, (((C4_association_response ({ sampleWaitAssoc with now := 2000 }) (samplePacket true)
    (sampleHdr WifiMacType.ASSOC_RESP) 0 rfl).1 (by decide) (by decide)
    (by decide)).2.2.2.2.2.1 (by decide)).1⟩

/-- What `RestartBeaconWatchdog` does, as one record update. -/
theorem RestartBeaconWatchdog_eq (s : StaWifiMac) (delay : Time) :
    s.RestartBeaconWatchdog delay =
      { s with
        m_beaconWatchdogEnd := max (s.now + delay) s.m_beaconWatchdogEnd,
        events := s.events ++
          (if watchdogRearms s delay then [⟨s.nextUid, s.now + delay, Callback.MissedBeacons⟩]
           else []),
        nextUid := if watchdogRearms s delay then s.nextUid + 1 else s.nextUid,
        m_beaconWatchdog :=
          if watchdogRearms s delay then some s.nextUid else s.m_beaconWatchdog } := by
  unfold StaWifiMac.RestartBeaconWatchdog
  by_cases h : watchdogRearms s delay
  · have h' : StaWifiMac.GetDelayLeft
        { s with m_beaconWatchdogEnd := max (s.now + delay) s.m_beaconWatchdogEnd }
        s.m_beaconWatchdog < delay ∧
        StaWifiMac.IsExpired
          { s with m_beaconWatchdogEnd := max (s.now + delay) s.m_beaconWatchdogEnd }
          s.m_beaconWatchdog = true := h
    simp only [if_pos h, if_pos h']
    rfl
  · have h' : ¬ (StaWifiMac.GetDelayLeft
        { s with m_beaconWatchdogEnd := max (s.now + delay) s.m_beaconWatchdogEnd }
        s.m_beaconWatchdog < delay ∧
        StaWifiMac.IsExpired
          { s with m_beaconWatchdogEnd := max (s.now + delay) s.m_beaconWatchdogEnd }
          s.m_beaconWatchdog = true) := h
    simp only [if_neg h, if_neg h', List.append_nil]

/-- What is done for an accepted beacon, as one record update of the station after the
watchdog was re-armed. -/
theorem beaconAccept_eq (s : StaWifiMac) (beacon : MgtProbeResponseHeader)
    (hdr : WifiMacHeader) :
    s.beaconAccept beacon hdr =
      { s.RestartBeaconWatchdog (s.watchdogDelay beacon.beaconIntervalUs) with
        bssid := hdr.addr3,
        slot :=
          if s.m_erpSupported then
            (if beacon.shortSlotTime then MicroSeconds 13 else MicroSeconds 20)
          else s.slot,
        shortPreambleEnabled :=
          if s.m_erpSupported then beacon.shortPreamble && !beacon.barkerPreambleMode
          else beacon.shortPreamble,
        shortSlotTimeEnabled := beacon.shortSlotTime } := by
  unfold StaWifiMac.beaconAccept
  simp only [RestartBeaconWatchdog_eq, StaWifiMac.SetBssid, StaWifiMac.SetSlot]
  by_cases he : s.m_erpSupported = true
  · by_cases hsl : beacon.shortSlotTime = true
    · simp only [if_pos he, if_pos hsl]
    · simp only [if_pos he, if_neg hsl]
  · simp only [if_neg he]

/-- The beacon branch outside BeaconMissed: the association state, the effect log and the
retry handles stay, and the event list gains at most a watchdog event. -/
theorem receiveBeacon_of_not_missed (s : StaWifiMac) (packet : Packet) (hdr : WifiMacHeader)
    (hs : s.m_state ≠ MacState.BEACON_MISSED) :
    (s.receiveBeacon packet hdr).m_state = s.m_state ∧
    (s.receiveBeacon packet hdr).trace = s.trace ∧
    (s.receiveBeacon packet hdr).m_probeRequestEvent = s.m_probeRequestEvent ∧
    (s.receiveBeacon packet hdr).m_assocRequestEvent = s.m_assocRequestEvent ∧
    (s.receiveBeacon packet hdr).events = s.events ++
      (if s.goodBeacon packet.beacon hdr = true ∧
          watchdogRearms s (s.watchdogDelay packet.beacon.beaconIntervalUs) then
        [⟨s.nextUid, s.now + s.watchdogDelay packet.beacon.beaconIntervalUs,
          Callback.MissedBeacons⟩]
      else []) := by
  unfold StaWifiMac.receiveBeacon
  by_cases hg : s.goodBeacon packet.beacon hdr = true
  · simp only [hg, if_true, beaconAccept_eq, RestartBeaconWatchdog_eq, true_and]
    simp [hs]
  · simp [hg, hs]

/-- C5: in Refused, processing any beacon (whatever its sender, network name, rate set
and beacon interval) leaves the state Refused, logs no association or probe request,
and arms no retry timer: the pending probe and association retry events and the two
retry handles are as before. -/
theorem C5_refused_ignores_beacon (s : StaWifiMac) (packet : Packet) (hdr : WifiMacHeader)
    (rv : Nat) (hs : s.m_state = MacState.REFUSED) (ht : hdr.type = WifiMacType.BEACON) :
    (s.Receive packet hdr rv).m_state = MacState.REFUSED ∧
    (s.Receive packet hdr rv).trace = s.trace ++ emitted s (s.Receive packet hdr rv) ∧
    (emitted s (s.Receive packet hdr rv)).countP Effect.isAssocRequest = 0 ∧
    (emitted s (s.Receive packet hdr rv)).countP Effect.isProbeRequest = 0 ∧
    (s.Receive packet hdr rv).pending Callback.ProbeRequestTimeout =
      s.pending Callback.ProbeRequestTimeout ∧
    (s.Receive packet hdr rv).pending Callback.AssocRequestTimeout =
      s.pending Callback.AssocRequestTimeout ∧
    (s.Receive packet hdr rv).m_probeRequestEvent = s.m_probeRequestEvent ∧
    (s.Receive packet hdr rv).m_assocRequestEvent = s.m_assocRequestEvent := by
  have hne : s.m_state ≠ MacState.BEACON_MISSED := by rw [hs]; decide
  obtain ⟨h1, h2, h3, h4, h5⟩ := receiveBeacon_of_not_missed s packet hdr hne
  unfold StaWifiMac.Receive
  by_cases ha : hdr.addr3 = s.GetAddress
  · simp [ha, hs, emitted]
  · by_cases hb : hdr.addr1 ≠ s.GetAddress ∧ hdr.addr1IsGroup = false
    · simp [ha, hb, hs, emitted, StaWifiMac.emit, StaWifiMac.pending, Effect.isAssocRequest,
        Effect.isProbeRequest]
    · simp only [if_neg ha, if_neg hb, ht]
      refine ⟨by rw [h1, hs], ?_, ?_, ?_, ?_, ?_, h3, h4⟩
      · simp [emitted, h2]
      · simp [emitted, h2]
      · simp [emitted, h2]
      · unfold StaWifiMac.pending
        rw [h5, List.filter_append]
        split <;> simp
      · unfold StaWifiMac.pending
        rw [h5, List.filter_append]
        split <;> simp

/-- Witness of C5: the sample station, refused by its coordinator, receives a beacon
of that coordinator one millisecond later. -/
theorem C5_refused_ignores_beacon_witness :
    sampleRefused.m_state = MacState.REFUSED ∧
    (sampleHdr WifiMacType.BEACON).type = WifiMacType.BEACON ∧
    (({ sampleRefused with now := 3000 }).Receive (samplePacket false)
      (sampleHdr WifiMacType.BEACON) 0).m_state = MacState.REFUSED :=
  ⟨by decide, rfl,
    (C5_refused_ignores_beacon ({ sampleRefused with now := 3000 }) (samplePacket false)
      (sampleHdr WifiMacType.BEACON) 0 (by decide) rfl).1⟩

/-- C6 (the code at the failing input): the sample station reaches Refused with the
beacon watchdog, armed by the probe response, still pending; when that watchdog fires,
`MissedBeacons` moves the station out of Refused and a probe request is sent.  With
active probing disabled the watchdog moves the refused station to BeaconMissed, and the
next beacon makes it send an association request. -/
theorem C6_refused_left_by_watchdog :
    sampleRefused.m_state = MacState.REFUSED ∧
    sampleRefused.events = [⟨1, 1025000, Callback.MissedBeacons⟩] ∧
    (sampleRefused.Invoke 1).m_state = MacState.WAIT_PROBE_RESP ∧
    emitted sampleRefused (sampleRefused.Invoke 1) =
      [Effect.linkDown, Effect.QueueProbeRequest] ∧
    samplePassiveRefused.m_state = MacState.REFUSED ∧
    samplePassiveRefused.events = [⟨0, 1025000, Callback.MissedBeacons⟩] ∧
    (samplePassiveRefused.Invoke 0).m_state = MacState.BEACON_MISSED ∧
    ((samplePassiveRefused.Invoke 0).Receive (samplePacket false)
      (sampleHdr WifiMacType.BEACON) 0).m_state = MacState.WAIT_ASSOC_RESP ∧
    emitted samplePassiveRefused ((samplePassiveRefused.Invoke 0).Receive (samplePacket false)
      (sampleHdr WifiMacType.BEACON) 0) = [Effect.linkDown, Effect.QueueAssocRequest 2] := by
  decide

/-- The effect log after re-evaluation. -/
theorem TryToEnsureAssociated_trace (s : StaWifiMac) :
    s.TryToEnsureAssociated.trace = s.trace ++ reevaluationEffects s := by
  unfold StaWifiMac.TryToEnsureAssociated reevaluationEffects
  cases hs : s.m_state <;> simp
  by_cases ha : s.m_activeProbing = true
  · simp [ha, StaWifiMac.emit, StaWifiMac.SetState, SendProbeRequest_eq, hs]
  · simp [ha, StaWifiMac.emit]

/-- Re-evaluation logs neither drop notifications nor queued packets. -/
theorem reevaluationEffects_counts (s : StaWifiMac) :
    (reevaluationEffects s).countP Effect.isTxDrop = 0 ∧
    (reevaluationEffects s).countP Effect.isQueued = 0 := by
  unfold reevaluationEffects
  by_cases hb : s.m_state = MacState.BEACON_MISSED <;>
    by_cases ha : s.m_activeProbing = true <;>
    simp [hb, ha, Effect.isTxDrop, Effect.isQueued]

/-- C7: `Enqueue` gates on association.  In every state other than Associated it logs
the transmit-drop notification of the packet, then performs re-evaluation, so that
exactly one transmit-drop notification is logged and the packet is handed to no
transmission queue; in Associated no drop notification is logged, the packet is handed
to a transmission queue, and the association state and the event list are unchanged. -/
theorem C7_enqueue_gates_on_association (s : StaWifiMac) (packet : Packet)
    (dest : Mac48Address) :
    (s.m_state ≠ MacState.ASSOCIATED →
      s.Enqueue packet dest =
        (s.emit (Effect.NotifyTxDrop packet.uid)).TryToEnsureAssociated ∧
      (s.Enqueue packet dest).trace = s.trace ++ emitted s (s.Enqueue packet dest) ∧
      (emitted s (s.Enqueue packet dest)).head? = some (Effect.NotifyTxDrop packet.uid) ∧
      (emitted s (s.Enqueue packet dest)).countP Effect.isTxDrop = 1 ∧
      (emitted s (s.Enqueue packet dest)).countP Effect.isQueued = 0) ∧
    (s.m_state = MacState.ASSOCIATED →
      (s.Enqueue packet dest).trace = s.trace ++ emitted s (s.Enqueue packet dest) ∧
      (emitted s (s.Enqueue packet dest)).countP Effect.isTxDrop = 0 ∧
      (∃ q, Effect.Queue q packet.uid dest ∈ emitted s (s.Enqueue packet dest) ∨
        Effect.QueueButDontSend q packet.uid dest ∈ emitted s (s.Enqueue packet dest)) ∧
      (∀ e ∈ emitted s (s.Enqueue packet dest), e.isQueued = true) ∧
      (s.Enqueue packet dest).m_state = MacState.ASSOCIATED ∧
      (s.Enqueue packet dest).events = s.events) := by
  constructor
  · intro hs
    have h1 : s.Enqueue packet dest =
        (s.emit (Effect.NotifyTxDrop packet.uid)).TryToEnsureAssociated := by
      unfold StaWifiMac.Enqueue
      simp [StaWifiMac.IsAssociated, hs]
    have h2 := TryToEnsureAssociated_trace (s.emit (Effect.NotifyTxDrop packet.uid))
    rw [h1]
    have h3 := reevaluationEffects_counts (s.emit (Effect.NotifyTxDrop packet.uid))
    have h4 : emitted s (s.emit (Effect.NotifyTxDrop packet.uid)).TryToEnsureAssociated =
        Effect.NotifyTxDrop packet.uid ::
          reevaluationEffects (s.emit (Effect.NotifyTxDrop packet.uid)) := by
      rw [emitted, h2]
      simp [StaWifiMac.emit]
    rw [h4]
    refine ⟨rfl, ?_, rfl, ?_, ?_⟩
    · rw [h2]
      simp [StaWifiMac.emit]
    · simp [List.countP_cons, h3.1, Effect.isTxDrop]
    · simp [List.countP_cons, h3.2, Effect.isQueued]
  · intro hs
    unfold StaWifiMac.Enqueue
    simp only [StaWifiMac.IsAssociated, hs, beq_self_eq_true, Bool.not_true, Bool.false_eq_true,
      if_false]
    by_cases hm : s.muMode = true <;> by_cases hq : s.m_qosSupported = true <;>
      by_cases ht : s.m_muModeToStart = true <;>
      simp [hm, hq, ht, hs, emitted, StaWifiMac.emit, StaWifiMac.emitAll, Effect.isTxDrop,
        Effect.isQueued, List.countP_eq_zero] <;>
      (rintro e (⟨a, _, rfl⟩ | rfl) <;> rfl)

/-- The deadline `RestartBeaconWatchdog` leaves. -/
theorem RestartBeaconWatchdog_end (s : StaWifiMac) (delay : Time) :
    (s.RestartBeaconWatchdog delay).m_beaconWatchdogEnd =
      max (s.now + delay) s.m_beaconWatchdogEnd := by
  rw [RestartBeaconWatchdog_eq]

/-- Arithmetic of two successive maxima. -/
theorem max_max_comm_aux (a b c : Int) : max b (max a c) = max (max a c) (max b c) := by
  omega

/-- A later candidate absorbs an earlier one. -/
theorem max_absorb_aux (a b c : Int) (h : a ≤ b) : max b (max a c) = max b c := by
  omega

/-- A maximum equals its first argument exactly when the second is not larger. -/
theorem max_eq_left_iff_aux (b m : Int) : max b m = b ↔ m ≤ b := by
  omega

/-- C8: re-arming the beacon watchdog never shortens its deadline.  For every station
(so for every clock value and previous deadline) and every delay `d`,
`RestartBeaconWatchdog d` leaves the deadline equal to `max (now + d) D`, which is at
least `D`.  For a re-arm with delay `d1` followed, at a clock value `t2` not earlier,
by a re-arm with delay `d2 > d1`, the resulting deadline is the later of the deadlines
the two re-arms compute, it is at least the deadline after the first re-arm, it equals
`max (t2 + d2) D`, and it equals `t2 + d2` exactly when that is not earlier than the
deadline after the first re-arm. -/
theorem C8_watchdog_deadline_never_shortened (s : StaWifiMac) (d d1 d2 t2 : Time) :
    ((s.RestartBeaconWatchdog d).m_beaconWatchdogEnd = max (s.now + d) s.m_beaconWatchdogEnd ∧
      s.m_beaconWatchdogEnd ≤ (s.RestartBeaconWatchdog d).m_beaconWatchdogEnd) ∧
    (d1 < d2 → s.now ≤ t2 →
      (({ s.RestartBeaconWatchdog d1 with now := t2 }).RestartBeaconWatchdog
          d2).m_beaconWatchdogEnd =
        max (s.RestartBeaconWatchdog d1).m_beaconWatchdogEnd
          (({ s with now := t2 }).RestartBeaconWatchdog d2).m_beaconWatchdogEnd ∧
      (s.RestartBeaconWatchdog d1).m_beaconWatchdogEnd ≤
        (({ s.RestartBeaconWatchdog d1 with now := t2 }).RestartBeaconWatchdog
          d2).m_beaconWatchdogEnd ∧
      (({ s.RestartBeaconWatchdog d1 with now := t2 }).RestartBeaconWatchdog
          d2).m_beaconWatchdogEnd = max (t2 + d2) s.m_beaconWatchdogEnd ∧
      ((({ s.RestartBeaconWatchdog d1 with now := t2 }).RestartBeaconWatchdog
          d2).m_beaconWatchdogEnd = t2 + d2 ↔
        (s.RestartBeaconWatchdog d1).m_beaconWatchdogEnd ≤ t2 + d2)) := by
  have e1 := RestartBeaconWatchdog_end s d
  have e2 := RestartBeaconWatchdog_end s d1
  have e3 := RestartBeaconWatchdog_end ({ s.RestartBeaconWatchdog d1 with now := t2 }) d2
  have e4 := RestartBeaconWatchdog_end ({ s with now := t2 }) d2
  rw [e1, e3, e4, e2]
  refine ⟨⟨rfl, le_max_right _ _⟩, ?_⟩
  intro hd ht
  have h12 : s.now + d1 ≤ t2 + d2 := add_le_add ht (le_of_lt hd)
  exact ⟨max_max_comm_aux _ _ _, le_max_right _ _, max_absorb_aux _ _ _ h12,
    max_eq_left_iff_aux _ _⟩

/-- What `SetState` does, as one record update. -/
theorem SetState_eq (s : StaWifiMac) (value : MacState) :
    s.SetState value =
      { s with m_state := value, trace := s.trace ++ setStateEffects s value } := by
  unfold StaWifiMac.SetState setStateEffects
  by_cases h1 : value = MacState.ASSOCIATED ∧ s.m_state ≠ MacState.ASSOCIATED
  · simp only [if_pos h1]; rfl
  · simp only [if_neg h1]
    by_cases h2 : value ≠ MacState.ASSOCIATED ∧ s.m_state = MacState.ASSOCIATED
    · simp only [if_pos h2]; rfl
    · simp only [if_neg h2, List.append_nil]

/-- What re-evaluation does, as record updates. -/
theorem TryToEnsureAssociated_eq (s : StaWifiMac) :
    s.TryToEnsureAssociated =
      if s.m_state = MacState.BEACON_MISSED then
        (if s.m_activeProbing = true then
          { s with
            m_state := MacState.WAIT_PROBE_RESP,
            trace := s.trace ++ [Effect.linkDown, Effect.QueueProbeRequest],
            events := eventsAfterCancel s.events s.m_probeRequestEvent ++
              [⟨s.nextUid, s.now + s.m_probeRequestTimeout, Callback.ProbeRequestTimeout⟩],
            nextUid := s.nextUid + 1,
            m_probeRequestEvent := some s.nextUid }
        else { s with trace := s.trace ++ [Effect.linkDown] })
      else s := by
  unfold StaWifiMac.TryToEnsureAssociated
  cases hs : s.m_state <;> simp only [reduceCtorEq, if_false, if_true]
  by_cases ha : s.m_activeProbing = true
  · have ha' : (s.emit Effect.linkDown).m_activeProbing = true := ha
    simp only [if_pos ha, if_pos ha', SetState_eq, SendProbeRequest_eq, setStateEffects,
      StaWifiMac.emit, hs, reduceCtorEq, false_and, and_false, if_false, List.append_nil,
      List.append_assoc, List.singleton_append]
  · have ha' : ¬ (s.emit Effect.linkDown).m_activeProbing = true := ha
    simp only [if_neg ha, if_neg ha', StaWifiMac.emit, hs]

/-- What `MissedBeacons` does before the deadline, as one record update. -/
theorem MissedBeacons_eq_of_lt (s : StaWifiMac) (h : s.now < s.m_beaconWatchdogEnd) :
    s.MissedBeacons =
      { s with
        events := eventsAfterCancel s.events s.m_beaconWatchdog ++
          [⟨s.nextUid, s.m_beaconWatchdogEnd, Callback.MissedBeacons⟩],
        nextUid := s.nextUid + 1,
        m_beaconWatchdog := some s.nextUid } := by
  unfold StaWifiMac.MissedBeacons
  have h' : s.m_beaconWatchdogEnd > s.now := h
  simp only [if_pos h', cancel_if_running_eq, StaWifiMac.Schedule]
  have e : s.now + (s.m_beaconWatchdogEnd - s.now) = s.m_beaconWatchdogEnd :=
    add_sub_cancel _ _
  rw [e]

/-- What `MissedBeacons` does at or after the deadline. -/
theorem MissedBeacons_eq_of_le (s : StaWifiMac) (h : s.m_beaconWatchdogEnd ≤ s.now) :
    s.MissedBeacons = (s.SetState MacState.BEACON_MISSED).TryToEnsureAssociated := by
  unfold StaWifiMac.MissedBeacons
  have h' : ¬ s.m_beaconWatchdogEnd > s.now := not_lt.mpr h
  simp only [if_neg h']

/-- What re-evaluation does to the watchdog: the deadline stays and the events it adds are
not watchdog events. -/
theorem TryToEnsureAssociated_watchdog (s : StaWifiMac) :
    s.TryToEnsureAssociated.m_beaconWatchdogEnd = s.m_beaconWatchdogEnd ∧
    ∀ e ∈ s.TryToEnsureAssociated.events, e.cb = Callback.MissedBeacons → e ∈ s.events := by
  rw [TryToEnsureAssociated_eq]
  by_cases hs : s.m_state = MacState.BEACON_MISSED
  · by_cases ha : s.m_activeProbing = true
    · simp only [if_pos hs, if_pos ha, true_and]
      intro e he hcb
      rcases List.mem_append.mp he with h | h
      · exact mem_of_mem_eventsAfterCancel _ _ _ h
      · simp only [List.mem_singleton] at h
        rw [h] at hcb
        cases hcb
    · simp only [if_pos hs, if_neg ha, true_and]
      exact fun e he _ => he
  · simp only [if_neg hs, true_and]
    exact fun e he _ => he

/-- What `MissedBeacons` does to the watchdog: the deadline stays, and a pending watchdog
event afterwards was pending before or is the one rescheduled at the deadline. -/
theorem MissedBeacons_watchdog (s : StaWifiMac) :
    s.MissedBeacons.m_beaconWatchdogEnd = s.m_beaconWatchdogEnd ∧
    ∀ e ∈ s.MissedBeacons.events, e.cb = Callback.MissedBeacons →
      e ∈ s.events ∨ e.ts = s.m_beaconWatchdogEnd := by
  by_cases h : s.now < s.m_beaconWatchdogEnd
  · rw [MissedBeacons_eq_of_lt s h]
    refine ⟨rfl, ?_⟩
    intro e he _
    rcases List.mem_append.mp he with h1 | h1
    · exact Or.inl (mem_of_mem_eventsAfterCancel _ _ _ h1)
    · right
      simp only [List.mem_singleton] at h1
      rw [h1]
  · rw [MissedBeacons_eq_of_le s (not_lt.mp h)]
    obtain ⟨h1, h2⟩ := TryToEnsureAssociated_watchdog (s.SetState MacState.BEACON_MISSED)
    rw [SetState_eq] at h1 h2
    rw [SetState_eq]
    exact ⟨h1, fun e he hcb => Or.inl (h2 e he hcb)⟩

/-- C9 (as stated, refuted): the sample station, re-armed with a delay of 10 at time 0 and
again with a delay of 10 at time 5, is reachable through `RestartBeaconWatchdog`; its
watchdog handle is running and names the pending event scheduled for time 10, while
the watchdog deadline is 15: the pending timer fires before the deadline. -/
theorem C9_pending_watchdog_before_deadline :
    WatchdogReachable sampleRearmedTwice ∧
    sampleRearmedTwice.pending Callback.MissedBeacons = [⟨0, 10, Callback.MissedBeacons⟩] ∧
    sampleRearmedTwice.m_beaconWatchdog = some 0 ∧
    sampleRearmedTwice.IsRunning sampleRearmedTwice.m_beaconWatchdog = true ∧
    sampleRearmedTwice.m_beaconWatchdogEnd = 15 ∧
    ¬ (sampleRearmedTwice.m_beaconWatchdogEnd ≤
        (⟨0, 10, Callback.MissedBeacons⟩ : Event).ts) := by
  refine ⟨?_, by decide, by decide, by decide, by decide, by decide⟩
  exact WatchdogReachable.restart _ 5 10
    (WatchdogReachable.restart _ 0 10 (WatchdogReachable.init sampleCfg) (by decide) (by decide))
    (by decide) (by decide)

/-- C9 (amended): in every state reachable through `RestartBeaconWatchdog` and
`MissedBeacons`, every pending watchdog event is scheduled to fire at or before the
current watchdog deadline. -/
theorem C9_pending_watchdog_not_after_deadline (s : StaWifiMac) (h : WatchdogReachable s) :
    ∀ e ∈ s.pending Callback.MissedBeacons, e.ts ≤ s.m_beaconWatchdogEnd := by
  have key : ∀ e ∈ s.events, e.cb = Callback.MissedBeacons → e.ts ≤ s.m_beaconWatchdogEnd := by
    induction h with
    | init cfg =>
      intro e he
      simp [StaWifiMac.init] at he
    | restart s t delay _ _ _ ih =>
      rw [RestartBeaconWatchdog_eq]
      intro e he hcb
      rcases List.mem_append.mp he with h1 | h1
      · exact le_trans (ih e h1 hcb) (le_max_right _ _)
      · by_cases hr : watchdogRearms ({ s with now := t }) delay
        · simp only [if_pos hr, List.mem_singleton] at h1
          rw [h1]
          exact le_max_left _ _
        · simp only [if_neg hr, List.not_mem_nil] at h1
    | fire s e _ he _ ih =>
      have hcb : e.cb = Callback.MissedBeacons := by
        have := (List.mem_filter.mp he).2
        simpa using this
      unfold StaWifiMac.Fire
      rw [hcb]
      simp only [StaWifiMac.Dispatch]
      obtain ⟨h1, h2⟩ := MissedBeacons_watchdog
        { s with now := e.ts, events := s.events.filter fun x => x.uid != e.uid }
      rw [h1]
      intro x hx hxcb
      rcases h2 x hx hxcb with h3 | h3
      · exact ih x (List.mem_filter.mp h3).1 hxcb
      · rw [h3]
  intro e he
  have hm := List.mem_filter.mp he
  exact key e hm.1 (by simpa using hm.2)

/-- Witness of C9 (amended): the sample station re-armed twice; its pending watchdog
event, scheduled for time 10, is not after the deadline. -/
theorem C9_pending_watchdog_not_after_deadline_witness :
    WatchdogReachable sampleRearmedTwice ∧
    (⟨0, 10, Callback.MissedBeacons⟩ : Event) ∈
      sampleRearmedTwice.pending Callback.MissedBeacons ∧
    (⟨0, 10, Callback.MissedBeacons⟩ : Event).ts ≤ sampleRearmedTwice.m_beaconWatchdogEnd :=
  ⟨WatchdogReachable.restart _ 5 10
      (WatchdogReachable.restart _ 0 10 (WatchdogReachable.init sampleCfg) (by decide)
        (by decide))
      (by decide) (by decide),
    by decide,
    C9_pending_watchdog_not_after_deadline sampleRearmedTwice
      (WatchdogReachable.restart _ 5 10
        (WatchdogReachable.restart _ 0 10 (WatchdogReachable.init sampleCfg) (by decide)
          (by decide))
        (by decide) (by decide))
      ⟨0, 10, Callback.MissedBeacons⟩ (by decide)⟩

/-- No callback of the timer service changes the watchdog deadline. -/
theorem Dispatch_end (s : StaWifiMac) (cb : Callback) :
    (s.Dispatch cb).m_beaconWatchdogEnd = s.m_beaconWatchdogEnd := by
  cases cb with
  | TryToEnsureAssociated => exact (TryToEnsureAssociated_watchdog s).1
  | ProbeRequestTimeout =>
    simp only [StaWifiMac.Dispatch, StaWifiMac.ProbeRequestTimeout, SetState_eq,
      SendProbeRequest_eq]
  | AssocRequestTimeout =>
    simp only [StaWifiMac.Dispatch, StaWifiMac.AssocRequestTimeout, SetState_eq,
      SendAssociationRequest_eq]
  | MissedBeacons => exact (MissedBeacons_watchdog s).1
  | StopMuMode => rfl
  | CheckAndCancel ru =>
    simp only [StaWifiMac.Dispatch, StaWifiMac.CheckAndCancel]
    split <;> rfl
  | SendTriggerFrameResp ru => rfl
  | CancelExpiredEvents =>
    simp only [StaWifiMac.Dispatch, StaWifiMac.CancelExpiredEvents]
    split <;> rfl
  | UpdateBsrTx ru =>
    simp only [StaWifiMac.Dispatch, StaWifiMac.UpdateBsrTx,
      apply_ite StaWifiMac.m_beaconWatchdogEnd, ite_self]
  | NotifyMaybeCcaBusyStartNow ru d => rfl

/-- Along a run of re-arms and event firings the deadline never decreases, and it ends
at or after the deadline `t + delay` of every re-arm of the run. -/
theorem runWatchdog_end (ops : List WatchdogOp) :
    ∀ s : StaWifiMac,
      s.m_beaconWatchdogEnd ≤ (runWatchdog s ops).m_beaconWatchdogEnd ∧
      ∀ t delay, WatchdogOp.rearm t delay ∈ ops →
        t + delay ≤ (runWatchdog s ops).m_beaconWatchdogEnd := by
  induction ops with
  | nil =>
    intro s
    exact ⟨le_refl _, fun t delay h => absurd h (List.not_mem_nil _)⟩
  | cons op ops ih =>
    intro s
    cases op with
    | rearm t0 d0 =>
      obtain ⟨h1, h2⟩ := ih (({ s with now := t0 }).RestartBeaconWatchdog d0)
      have he := RestartBeaconWatchdog_end ({ s with now := t0 }) d0
      have hl : t0 + d0 ≤ (({ s with now := t0 }).RestartBeaconWatchdog d0).m_beaconWatchdogEnd := by
        rw [he]; exact le_max_left _ _
      have hr : s.m_beaconWatchdogEnd ≤
          (({ s with now := t0 }).RestartBeaconWatchdog d0).m_beaconWatchdogEnd := by
        rw [he]; exact le_max_right _ _
      refine ⟨le_trans hr h1, ?_⟩
      intro t delay hmem
      rcases List.mem_cons.mp hmem with h | h
      · cases h
        exact le_trans hl h1
      · exact h2 t delay h
    | fire e =>
      obtain ⟨h1, h2⟩ := ih (s.Fire e)
      have he : (s.Fire e).m_beaconWatchdogEnd = s.m_beaconWatchdogEnd := by
        unfold StaWifiMac.Fire
        rw [Dispatch_end]
      refine ⟨by rw [← he]; exact h1, ?_⟩
      intro t delay hmem
      rcases List.mem_cons.mp hmem with h | h
      · cases h
      · exact h2 t delay h

/-- C10: watchdog firing.  When `MissedBeacons` runs strictly before the deadline, the
association state and the effect log are unchanged (no notification), the watchdog
handle names a new event scheduled exactly at the deadline, and that event is the only
pending watchdog event when none was pending.  When it runs at or after the deadline in
Associated, it performs `SetState (BEACON_MISSED)` and re-evaluation: the state leaves
Associated, the "disassociated" notification and the link-down signal are logged exactly
once each, and the station ends in WaitProbeResponse with exactly one probe request
logged if active probing is enabled, otherwise in BeaconMissed with none.  Consequently,
after any run of re-arms and event firings, a watchdog event whose firing takes the
station out of Associated fires at or after the initial deadline and at or after the
deadline `t + delay` of every re-arm of the run. -/
theorem C10_watchdog_firing (s : StaWifiMac) :
    (s.now < s.m_beaconWatchdogEnd →
      s.MissedBeacons.m_state = s.m_state ∧
      s.MissedBeacons.trace = s.trace ∧
      s.MissedBeacons.m_beaconWatchdogEnd = s.m_beaconWatchdogEnd ∧
      s.MissedBeacons.m_beaconWatchdog = some s.nextUid ∧
      s.MissedBeacons.events = eventsAfterCancel s.events s.m_beaconWatchdog ++
        [⟨s.nextUid, s.m_beaconWatchdogEnd, Callback.MissedBeacons⟩] ∧
      (s.pending Callback.MissedBeacons = [] →
        s.MissedBeacons.pending Callback.MissedBeacons =
          [⟨s.nextUid, s.m_beaconWatchdogEnd, Callback.MissedBeacons⟩])) ∧
    (s.m_beaconWatchdogEnd ≤ s.now → s.m_state = MacState.ASSOCIATED →
      s.MissedBeacons = (s.SetState MacState.BEACON_MISSED).TryToEnsureAssociated ∧
      s.MissedBeacons.m_state ≠ MacState.ASSOCIATED ∧
      s.MissedBeacons.trace = s.trace ++ emitted s s.MissedBeacons ∧
      (emitted s s.MissedBeacons).countP Effect.isDeAssoc = 1 ∧
      (emitted s s.MissedBeacons).countP Effect.isLinkDown = 1 ∧
      (s.m_activeProbing = true →
        s.MissedBeacons.m_state = MacState.WAIT_PROBE_RESP ∧
        (emitted s s.MissedBeacons).countP Effect.isProbeRequest = 1) ∧
      (s.m_activeProbing = false →
        s.MissedBeacons.m_state = MacState.BEACON_MISSED ∧
        (emitted s s.MissedBeacons).countP Effect.isProbeRequest = 0)) ∧
    (∀ (ops : List WatchdogOp) (e : Event),
      (runWatchdog s ops).m_state = MacState.ASSOCIATED →
      e.cb = Callback.MissedBeacons →
      ((runWatchdog s ops).Fire e).m_state ≠ MacState.ASSOCIATED →
      s.m_beaconWatchdogEnd ≤ e.ts ∧
      ∀ t delay, WatchdogOp.rearm t delay ∈ ops → t + delay ≤ e.ts) := by
  refine ⟨?_, ?_, ?_⟩
  · intro h
    rw [MissedBeacons_eq_of_lt s h]
    refine ⟨rfl, rfl, rfl, rfl, rfl, ?_⟩
    intro hp
    have := filter_cb_eventsAfterCancel_nil s.events s.m_beaconWatchdog Callback.MissedBeacons hp
    simp [StaWifiMac.pending, List.filter_append, this]
  · intro h hs
    have h1 := MissedBeacons_eq_of_le s h
    have h2 : s.MissedBeacons =
        if s.m_activeProbing = true then
          { s with
            m_state := MacState.WAIT_PROBE_RESP,
            trace := s.trace ++ [Effect.deAssocLogger s.bssid] ++
              [Effect.linkDown, Effect.QueueProbeRequest],
            events := eventsAfterCancel s.events s.m_probeRequestEvent ++
              [⟨s.nextUid, s.now + s.m_probeRequestTimeout, Callback.ProbeRequestTimeout⟩],
            nextUid := s.nextUid + 1,
            m_probeRequestEvent := some s.nextUid }
        else
          { s with
            m_state := MacState.BEACON_MISSED,
            trace := s.trace ++ [Effect.deAssocLogger s.bssid] ++ [Effect.linkDown] } := by
      rw [h1, SetState_eq, TryToEnsureAssociated_eq]
      simp only [setStateEffects, hs, reduceCtorEq, false_and, if_false, ne_eq,
        not_false_eq_true, and_self, if_true]
    refine ⟨h1, ?_⟩
    rw [h2]
    by_cases ha : s.m_activeProbing = true
    · simp [ha, emitted, Effect.isDeAssoc, Effect.isLinkDown, Effect.isProbeRequest]
    · simp [ha, emitted, Effect.isDeAssoc, Effect.isLinkDown, Effect.isProbeRequest]
  · intro ops e hs hcb hleave
    obtain ⟨h1, h2⟩ := runWatchdog_end ops s
    have hle : (runWatchdog s ops).m_beaconWatchdogEnd ≤ e.ts := by
      by_contra hlt
      have hlt' : e.ts < (runWatchdog s ops).m_beaconWatchdogEnd := not_le.mp hlt
      apply hleave
      unfold StaWifiMac.Fire
      rw [hcb]
      simp only [StaWifiMac.Dispatch]
      rw [MissedBeacons_eq_of_lt _ hlt']
      exact hs
    exact ⟨le_trans h1 hle, fun t delay hm => le_trans (h2 t delay hm) hle⟩

/-- Every state extends itself. -/
theorem Extends.refl (s : StaWifiMac) : Extends s s :=
  ⟨le_refl _, rfl, rfl, fun _ he => Or.inl he⟩

/-- Extension is transitive. -/
theorem Extends.trans {a b c : StaWifiMac} (h1 : Extends a b) (h2 : Extends b c) :
    Extends a c := by
  obtain ⟨n1, p1, a1, e1⟩ := h1
  obtain ⟨n2, p2, a2, e2⟩ := h2
  refine ⟨le_trans n1 n2, by rw [p2, p1], by rw [a2, a1], ?_⟩
  intro e he
  rcases e2 e he with h | ⟨hl, hu, hp, ha⟩
  · rcases e1 e h with h' | ⟨hl', hu', hp', ha'⟩
    · exact Or.inl h'
    · exact Or.inr ⟨hl', lt_of_lt_of_le hu' n2, hp', ha'⟩
  · exact Or.inr ⟨le_trans n1 hl, hu, hp, ha⟩

/-- A state with the same timer bookkeeping extends the earlier one. -/
theorem Extends.of_eq {s s' : StaWifiMac} (he : s'.events = s.events)
    (hn : s'.nextUid = s.nextUid) (hp : s'.m_probeRequestEvent = s.m_probeRequestEvent)
    (ha : s'.m_assocRequestEvent = s.m_assocRequestEvent) : Extends s s' :=
  ⟨le_of_eq hn.symm, hp, ha, fun _ h => Or.inl (he ▸ h)⟩

/-- Well-formed timer bookkeeping is kept by an extension. -/
theorem TimersWF_of_Extends {s s' : StaWifiMac} (h : Extends s s') (hwf : s.TimersWF) :
    s'.TimersWF := by
  obtain ⟨hn, hp, ha, he⟩ := h
  obtain ⟨w1, w2, w3⟩ := hwf
  refine ⟨?_, ?_, ?_⟩
  · intro e hmem
    rcases he e hmem with h | ⟨_, hu, _, _⟩
    · exact lt_of_lt_of_le (w1 e h) hn
    · exact hu
  · intro e hmem hcb
    rcases he e hmem with h | ⟨_, _, hne, _⟩
    · rw [hp]; exact w2 e h hcb
    · exact absurd hcb hne
  · intro e hmem hcb
    rcases he e hmem with h | ⟨_, _, _, hne⟩
    · rw [ha]; exact w3 e h hcb
    · exact absurd hcb hne

/-- Logging a call extends the state. -/
theorem Extends_emit (s : StaWifiMac) (e : Effect) : Extends s (s.emit e) :=
  Extends.of_eq rfl rfl rfl rfl

/-- Logging calls extends the state. -/
theorem Extends_emitAll (s : StaWifiMac) (es : List Effect) : Extends s (s.emitAll es) :=
  Extends.of_eq rfl rfl rfl rfl

/-- Cancelling a handle extends the state. -/
theorem Extends_Cancel (s : StaWifiMac) (id : EventId) : Extends s (s.Cancel id) := by
  refine ⟨le_refl _, rfl, rfl, ?_⟩
  intro e he
  left
  cases id with
  | none => exact he
  | some u => exact (List.mem_filter.mp he).1

/-- Scheduling a callback that is not a retry timeout extends the state. -/
theorem Extends_Schedule (s : StaWifiMac) (delay : Time) (cb : Callback)
    (h1 : cb ≠ Callback.ProbeRequestTimeout) (h2 : cb ≠ Callback.AssocRequestTimeout) :
    Extends s (s.Schedule delay cb) := by
  refine ⟨Nat.le_succ _, rfl, rfl, ?_⟩
  intro e he
  rcases List.mem_append.mp he with h | h
  · exact Or.inl h
  · right
    simp only [List.mem_singleton] at h
    rw [h]
    exact ⟨le_refl _, Nat.lt_succ_self _, h1, h2⟩

/-- `SetState` extends the state. -/
theorem Extends_SetState (s : StaWifiMac) (v : MacState) : Extends s (s.SetState v) := by
  rw [SetState_eq]
  exact Extends.of_eq rfl rfl rfl rfl

/-- `RestartBeaconWatchdog` extends the state. -/
theorem Extends_RestartBeaconWatchdog (s : StaWifiMac) (delay : Time) :
    Extends s (s.RestartBeaconWatchdog delay) := by
  rw [RestartBeaconWatchdog_eq]
  by_cases h : watchdogRearms s delay
  · simp only [if_pos h]
    refine ⟨Nat.le_succ _, rfl, rfl, ?_⟩
    intro e he
    rcases List.mem_append.mp he with h' | h'
    · exact Or.inl h'
    · right
      simp only [List.mem_singleton] at h'
      rw [h']
      exact ⟨le_refl _, Nat.lt_succ_self _, by simp, by simp⟩
  · simp only [if_neg h, List.append_nil]
    exact Extends.of_eq rfl rfl rfl rfl

/-- `SendProbeRequest` keeps the timer bookkeeping well-formed. -/
theorem TimersWF_SendProbeRequest (s : StaWifiMac) (hwf : s.TimersWF) :
    s.SendProbeRequest.TimersWF := by
  have hc := pending_probe_after_cancel s hwf
  rw [List.filter_eq_nil_iff] at hc
  obtain ⟨w1, _, w3⟩ := hwf
  rw [SendProbeRequest_eq]
  refine ⟨?_, ?_, ?_⟩
  · intro e he
    rcases List.mem_append.mp he with h | h
    · exact Nat.lt_succ_of_lt (w1 e (mem_of_mem_eventsAfterCancel _ _ _ h))
    · simp only [List.mem_singleton] at h
      rw [h]
      exact Nat.lt_succ_self _
  · intro e he hcb
    rcases List.mem_append.mp he with h | h
    · exact absurd (by simpa using hcb) (hc e h)
    · simp only [List.mem_singleton] at h
      rw [h]
  · intro e he hcb
    rcases List.mem_append.mp he with h | h
    · exact w3 e (mem_of_mem_eventsAfterCancel _ _ _ h) hcb
    · simp only [List.mem_singleton] at h
      rw [h] at hcb
      cases hcb

/-- `SendAssociationRequest` keeps the timer bookkeeping well-formed. -/
theorem TimersWF_SendAssociationRequest (s : StaWifiMac) (hwf : s.TimersWF) :
    s.SendAssociationRequest.TimersWF := by
  have hc := pending_assoc_after_cancel s hwf
  rw [List.filter_eq_nil_iff] at hc
  obtain ⟨w1, w2, _⟩ := hwf
  rw [SendAssociationRequest_eq]
  refine ⟨?_, ?_, ?_⟩
  · intro e he
    rcases List.mem_append.mp he with h | h
    · exact Nat.lt_succ_of_lt (w1 e (mem_of_mem_eventsAfterCancel _ _ _ h))
    · simp only [List.mem_singleton] at h
      rw [h]
      exact Nat.lt_succ_self _
  · intro e he hcb
    rcases List.mem_append.mp he with h | h
    · exact w2 e (mem_of_mem_eventsAfterCancel _ _ _ h) hcb
    · simp only [List.mem_singleton] at h
      rw [h] at hcb
      cases hcb
  · intro e he hcb
    rcases List.mem_append.mp he with h | h
    · exact absurd (by simpa using hcb) (hc e h)
    · simp only [List.mem_singleton] at h
      rw [h]

/-- Re-evaluation keeps the timer bookkeeping well-formed. -/
theorem TimersWF_TryToEnsureAssociated (s : StaWifiMac) (hwf : s.TimersWF) :
    s.TryToEnsureAssociated.TimersWF := by
  unfold StaWifiMac.TryToEnsureAssociated
  cases hs : s.m_state <;> simp only <;> try exact hwf
  have h1 : (s.emit Effect.linkDown).TimersWF := hwf
  split
  · exact TimersWF_SendProbeRequest _ (TimersWF_of_Extends (Extends_SetState _ _) h1)
  · exact h1

/-- `ProbeRequestTimeout` keeps the timer bookkeeping well-formed. -/
theorem TimersWF_ProbeRequestTimeout (s : StaWifiMac) (hwf : s.TimersWF) :
    s.ProbeRequestTimeout.TimersWF :=
  TimersWF_SendProbeRequest _ (TimersWF_of_Extends (Extends_SetState _ _) hwf)

/-- `AssocRequestTimeout` keeps the timer bookkeeping well-formed. -/
theorem TimersWF_AssocRequestTimeout (s : StaWifiMac) (hwf : s.TimersWF) :
    s.AssocRequestTimeout.TimersWF :=
  TimersWF_SendAssociationRequest _ (TimersWF_of_Extends (Extends_SetState _ _) hwf)

/-- The idiom "cancel the handle if it is running" extends the state. -/
theorem Extends_cancel_if_running (s : StaWifiMac) (id : EventId) :
    Extends s (if s.IsRunning id then s.Cancel id else s) := by
  split
  · exact Extends_Cancel s id
  · exact Extends.refl s

/-- `MissedBeacons` keeps the timer bookkeeping well-formed. -/
theorem TimersWF_MissedBeacons (s : StaWifiMac) (hwf : s.TimersWF) :
    s.MissedBeacons.TimersWF := by
  by_cases h : s.now < s.m_beaconWatchdogEnd
  · rw [MissedBeacons_eq_of_lt s h]
    refine TimersWF_of_Extends ?_ hwf
    refine ⟨Nat.le_succ _, rfl, rfl, ?_⟩
    intro e he
    rcases List.mem_append.mp he with h1 | h1
    · exact Or.inl (mem_of_mem_eventsAfterCancel _ _ _ h1)
    · right
      simp only [List.mem_singleton] at h1
      rw [h1]
      exact ⟨le_refl _, Nat.lt_succ_self _, by simp, by simp⟩
  · rw [MissedBeacons_eq_of_le s (not_lt.mp h)]
    exact TimersWF_TryToEnsureAssociated _ (TimersWF_of_Extends (Extends_SetState _ _) hwf)

/-- `UpdateBsrTx` extends the state. -/
theorem Extends_UpdateBsrTx (s : StaWifiMac) (ru : Nat) : Extends s (s.UpdateBsrTx ru) := by
  apply Extends.of_eq <;>
    simp only [StaWifiMac.UpdateBsrTx, apply_ite StaWifiMac.events,
      apply_ite StaWifiMac.nextUid, apply_ite StaWifiMac.m_probeRequestEvent,
      apply_ite StaWifiMac.m_assocRequestEvent, ite_self]

/-- `CheckAndCancel` extends the state. -/
theorem Extends_CheckAndCancel (s : StaWifiMac) (ru : Nat) :
    Extends s (s.CheckAndCancel ru) := by
  unfold StaWifiMac.CheckAndCancel
  split
  · exact Extends_Cancel _ _
  · exact Extends_Schedule _ _ _ (by simp) (by simp)

/-- `CancelExpiredEvents` extends the state. -/
theorem Extends_CancelExpiredEvents (s : StaWifiMac) : Extends s s.CancelExpiredEvents := by
  unfold StaWifiMac.CancelExpiredEvents
  simp only
  split <;> exact Extends.of_eq rfl rfl rfl rfl

/-- Every callback of the timer service keeps the timer bookkeeping well-formed. -/
theorem TimersWF_Dispatch (s : StaWifiMac) (cb : Callback) (hwf : s.TimersWF) :
    (s.Dispatch cb).TimersWF := by
  cases cb with
  | TryToEnsureAssociated => exact TimersWF_TryToEnsureAssociated s hwf
  | ProbeRequestTimeout => exact TimersWF_ProbeRequestTimeout s hwf
  | AssocRequestTimeout => exact TimersWF_AssocRequestTimeout s hwf
  | MissedBeacons => exact TimersWF_MissedBeacons s hwf
  | StopMuMode => exact TimersWF_of_Extends (Extends.of_eq rfl rfl rfl rfl) hwf
  | CheckAndCancel ru => exact TimersWF_of_Extends (Extends_CheckAndCancel s ru) hwf
  | SendTriggerFrameResp ru => exact TimersWF_of_Extends (Extends_emitAll s _) hwf
  | CancelExpiredEvents => exact TimersWF_of_Extends (Extends_CancelExpiredEvents s) hwf
  | UpdateBsrTx ru => exact TimersWF_of_Extends (Extends_UpdateBsrTx s ru) hwf
  | NotifyMaybeCcaBusyStartNow ru d => exact TimersWF_of_Extends (Extends_emit s _) hwf

/-- The timer service firing an event keeps the timer bookkeeping well-formed. -/
theorem TimersWF_Fire (s : StaWifiMac) (e : Event) (hwf : s.TimersWF) :
    (s.Fire e).TimersWF := by
  unfold StaWifiMac.Fire
  apply TimersWF_Dispatch
  refine TimersWF_of_Extends ?_ hwf
  exact ⟨le_refl _, rfl, rfl, fun x hx => Or.inl (List.mem_filter.mp hx).1⟩

/-- The data branch of `Receive` extends the state. -/
theorem Extends_receiveData (s : StaWifiMac) (packet : Packet) (hdr : WifiMacHeader) :
    Extends s (s.receiveData packet hdr) := by
  unfold StaWifiMac.receiveData
  repeat' split
  all_goals exact Extends_emit _ _

/-- The loop of the trigger-cycle-beacon branch extends the state. -/
theorem Extends_tfBeaconLoop (l : List (Mac48Address × Nat)) :
    ∀ s : StaWifiMac, Extends s (s.tfBeaconLoop l) := by
  induction l with
  | nil => exact fun s => Extends.refl s
  | cons p l ih =>
    intro s
    obtain ⟨a, ru⟩ := p
    unfold StaWifiMac.tfBeaconLoop
    refine Extends.trans ?_ (ih _)
    split
    · exact Extends.of_eq rfl rfl rfl rfl
    · exact Extends.refl s

/-- A state whose event list is the earlier one followed by newly registered events
that are not retry events extends the earlier state. -/
theorem Extends_of_events_append (s s' : StaWifiMac) (l : List Event)
    (he : s'.events = s.events ++ l) (hn : s.nextUid ≤ s'.nextUid)
    (hp : s'.m_probeRequestEvent = s.m_probeRequestEvent)
    (ha : s'.m_assocRequestEvent = s.m_assocRequestEvent)
    (hl : ∀ e ∈ l, s.nextUid ≤ e.uid ∧ e.uid < s'.nextUid ∧
      e.cb ≠ Callback.ProbeRequestTimeout ∧ e.cb ≠ Callback.AssocRequestTimeout) :
    Extends s s' := by
  refine ⟨hn, hp, ha, ?_⟩
  intro e hmem
  rw [he] at hmem
  rcases List.mem_append.mp hmem with h | h
  · exact Or.inl h
  · exact Or.inr (hl e h)

/-- What is done for a broadcast allocation entry extends the state. -/
theorem Extends_tfBroadcastEntry (s : StaWifiMac) : Extends s s.tfBroadcastEntry := by
  by_cases h : s.m_noSlots < s.maxTfSlots
  · refine Extends_of_events_append s _
      [⟨s.nextUid, s.now + (s.m_noSlots : Int) * s.slot, Callback.CheckAndCancel s.ruBits⟩,
       ⟨s.nextUid + 1, s.now + (s.m_noSlots : Int) * s.slot,
         Callback.SendTriggerFrameResp s.ruBits⟩,
       ⟨s.nextUid + 1 + 1, s.now + ((s.maxTfSlots : Int) * s.slot + s.sifs),
         Callback.CancelExpiredEvents⟩] ?_ ?_ ?_ ?_ ?_
    · simp [StaWifiMac.tfBroadcastEntry, StaWifiMac.Schedule, h, StaWifiMac.GetRuBits]
    · simp only [StaWifiMac.tfBroadcastEntry, StaWifiMac.Schedule, h, if_true]
      omega
    · simp [StaWifiMac.tfBroadcastEntry, StaWifiMac.Schedule, h]
    · simp [StaWifiMac.tfBroadcastEntry, StaWifiMac.Schedule, h]
    · intro e he
      simp only [List.mem_cons, List.mem_singleton, List.not_mem_nil, or_false] at he
      rcases he with h1 | h1 | h1 <;> rw [h1] <;>
        simp only [StaWifiMac.tfBroadcastEntry, StaWifiMac.Schedule, h, if_true, ne_eq,
          reduceCtorEq, not_false_eq_true, and_true] <;>
        omega
  · refine Extends_of_events_append s _
      [⟨s.nextUid, s.now + ((s.maxTfSlots : Int) * s.slot + s.sifs),
         Callback.CancelExpiredEvents⟩] ?_ ?_ ?_ ?_ ?_
    · simp [StaWifiMac.tfBroadcastEntry, StaWifiMac.Schedule, h]
    · simp [StaWifiMac.tfBroadcastEntry, StaWifiMac.Schedule, h]
    · simp [StaWifiMac.tfBroadcastEntry, StaWifiMac.Schedule, h]
    · simp [StaWifiMac.tfBroadcastEntry, StaWifiMac.Schedule, h]
    · intro e he
      simp only [List.mem_singleton] at he
      rw [he]
      simp [StaWifiMac.tfBroadcastEntry, StaWifiMac.Schedule, h]

/-- The loop of the trigger branch extends the state. -/
theorem Extends_tfAllocLoop (ulFlag : Nat) (l : List (Mac48Address × Nat)) :
    ∀ s : StaWifiMac, Extends s (s.tfAllocLoop ulFlag l).1 := by
  induction l with
  | nil => exact fun s => Extends.refl s
  | cons p l ih =>
    intro s
    obtain ⟨a, ru⟩ := p
    unfold StaWifiMac.tfAllocLoop
    by_cases hc : a = s.GetAddress ∧ ulFlag ≠ 0
    · simp only [if_pos hc]
      refine Extends_of_events_append s _
        [⟨s.nextUid, s.now + MicroSeconds 17,
          Callback.NotifyMaybeCcaBusyStartNow ru (StaWifiMac.Seconds 1)⟩] ?_ ?_ ?_ ?_ ?_
      · simp [StaWifiMac.Schedule, StaWifiMac.PrepareForTx, StaWifiMac.emitAll,
          StaWifiMac.GetRuBits]
      · simp [StaWifiMac.Schedule, StaWifiMac.PrepareForTx, StaWifiMac.emitAll]
      · simp [StaWifiMac.Schedule, StaWifiMac.PrepareForTx, StaWifiMac.emitAll]
      · simp [StaWifiMac.Schedule, StaWifiMac.PrepareForTx, StaWifiMac.emitAll]
      · intro e he
        simp only [List.mem_singleton] at he
        rw [he]
        simp [StaWifiMac.Schedule, StaWifiMac.PrepareForTx, StaWifiMac.emitAll]
    · simp only [if_neg hc]
      by_cases hb : a = GetBroadcast
      · simp only [if_pos hb]
        exact Extends.trans (Extends_tfBroadcastEntry s) (ih _)
      · simp only [if_neg hb]
        exact ih s

/-- The window update and OBO draw of the trigger branch extend the state. -/
theorem Extends_tfDraw (s : StaWifiMac) (rv : Nat) : Extends s (s.tfDraw rv) := by
  unfold StaWifiMac.tfDraw
  simp only
  repeat' split
  all_goals exact Extends.of_eq rfl rfl rfl rfl

/-- The start of the trigger branch extends the state. -/
theorem Extends_tfStart (s : StaWifiMac) (packet : Packet) (rv : Nat) :
    Extends s (s.tfStart packet rv) := by
  unfold StaWifiMac.tfStart
  simp only
  refine Extends.trans ?_ (Extends_tfDraw _ rv)
  refine Extends_of_events_append s _
    [⟨s.nextUid, s.now + ((packet.tf.tfDuration : Int) * s.slot - packet.tfBeaconDuration),
      Callback.StopMuMode⟩] ?_ ?_ ?_ ?_ ?_
  · simp [StaWifiMac.Schedule, StaWifiMac.emit, StaWifiMac.ResetBsrTx]
  · simp [StaWifiMac.Schedule, StaWifiMac.emit, StaWifiMac.ResetBsrTx]
  · simp [StaWifiMac.Schedule, StaWifiMac.emit, StaWifiMac.ResetBsrTx]
  · simp [StaWifiMac.Schedule, StaWifiMac.emit, StaWifiMac.ResetBsrTx]
  · intro e he
    simp only [List.mem_singleton] at he
    rw [he]
    simp [StaWifiMac.Schedule, StaWifiMac.emit, StaWifiMac.ResetBsrTx]

/-- The ERP update extends the state. -/
theorem Extends_erpUpdate (s : StaWifiMac) (rates : SupportedRates) :
    Extends s (s.erpUpdate rates) := by
  rw [erpUpdate_eq]
  exact Extends.of_eq rfl rfl rfl rfl

/-- The association-response branch extends the state. -/
theorem Extends_receiveAssocResp (s : StaWifiMac) (packet : Packet) (hdr : WifiMacHeader) :
    Extends s (s.receiveAssocResp packet hdr) := by
  by_cases hs : s.m_state = MacState.WAIT_ASSOC_RESP
  · rw [receiveAssocResp_eq s packet hdr hs]
    split <;>
      exact ⟨le_refl _, rfl, rfl, fun e he => Or.inl (mem_of_mem_eventsAfterCancel _ _ _ he)⟩
  · unfold StaWifiMac.receiveAssocResp
    simp only [if_neg hs]
    exact Extends.refl s

/-- What is done for an accepted beacon extends the state. -/
theorem Extends_beaconAccept (s : StaWifiMac) (beacon : MgtProbeResponseHeader)
    (hdr : WifiMacHeader) : Extends s (s.beaconAccept beacon hdr) := by
  rw [beaconAccept_eq]
  exact Extends.trans (Extends_RestartBeaconWatchdog s _) (Extends.of_eq rfl rfl rfl rfl)

/-- The beacon branch keeps the timer bookkeeping well-formed. -/
theorem TimersWF_receiveBeacon (s : StaWifiMac) (packet : Packet) (hdr : WifiMacHeader)
    (hwf : s.TimersWF) : (s.receiveBeacon packet hdr).TimersWF := by
  unfold StaWifiMac.receiveBeacon
  simp only
  by_cases hg : s.goodBeacon packet.beacon hdr = true
  · simp only [hg, if_true, true_and]
    have hmid : (s.beaconAccept packet.beacon hdr).TimersWF :=
      TimersWF_of_Extends (Extends_beaconAccept s _ _) hwf
    split
    · exact TimersWF_SendAssociationRequest _ (TimersWF_of_Extends (Extends_SetState _ _) hmid)
    · exact hmid
  · simp only [hg, Bool.false_eq_true, if_false, false_and]
    exact hwf

/-- The probe-response branch keeps the timer bookkeeping well-formed. -/
theorem TimersWF_receiveProbeResp (s : StaWifiMac) (packet : Packet) (hdr : WifiMacHeader)
    (hwf : s.TimersWF) : (s.receiveProbeResp packet hdr).TimersWF := by
  unfold StaWifiMac.receiveProbeResp
  simp only
  split
  · split
    · exact hwf
    · split
      · exact hwf
      · apply TimersWF_SendAssociationRequest
        refine TimersWF_of_Extends ?_ hwf
        refine Extends.trans ?_ (Extends_SetState _ _)
        refine Extends.trans ?_ (Extends_cancel_if_running _ _)
        refine Extends.trans ?_ (Extends_RestartBeaconWatchdog _ _)
        refine Extends.trans (Extends_erpUpdate s packet.probeResp.rates) ?_
        exact Extends.of_eq rfl rfl rfl rfl
  · exact hwf

/-- `Receive` keeps the timer bookkeeping well-formed. -/
theorem TimersWF_Receive (s : StaWifiMac) (packet : Packet) (hdr : WifiMacHeader) (rv : Nat)
    (hwf : s.TimersWF) : (s.Receive packet hdr rv).TimersWF := by
  unfold StaWifiMac.Receive
  split
  · exact hwf
  · split
    · exact TimersWF_of_Extends (Extends_emit _ _) hwf
    · cases hdr.type with
      | DATA => exact TimersWF_of_Extends (Extends_receiveData _ _ _) hwf
      | QOSDATA => exact TimersWF_of_Extends (Extends_receiveData _ _ _) hwf
      | PROBE_REQ => exact TimersWF_of_Extends (Extends_emit _ _) hwf
      | ASSOC_REQ => exact TimersWF_of_Extends (Extends_emit _ _) hwf
      | TF_BEACON =>
        refine TimersWF_of_Extends ?_ hwf
        refine Extends.trans ?_ (Extends_emit _ _)
        refine Extends.trans ?_ (Extends_tfBeaconLoop _ _)
        exact Extends.of_eq rfl rfl rfl rfl
      | BSR_ACK =>
        refine TimersWF_of_Extends ?_ hwf
        simp only
        refine Extends.trans ?_ (Extends_emit _ _)
        refine Extends.trans ?_ (Extends_Schedule _ _ _ (by simp) (by simp))
        exact Extends.of_eq rfl rfl rfl rfl
      | TF =>
        refine TimersWF_of_Extends ?_ hwf
        simp only
        have h1 := Extends.trans (Extends_tfStart s packet rv)
          (Extends_tfAllocLoop packet.tf.uplinkFlag packet.tf.ruAllocations (s.tfStart packet rv))
        split
        · exact h1
        · exact Extends.trans h1 (Extends_emit _ _)
      | BEACON => exact TimersWF_receiveBeacon s packet hdr hwf
      | PROBE_RESP => exact TimersWF_receiveProbeResp s packet hdr hwf
      | ASSOC_RESP => exact TimersWF_of_Extends (Extends_receiveAssocResp _ _ _) hwf
      | OTHER => exact TimersWF_of_Extends (Extends_emit _ _) hwf

/-- `Enqueue` keeps the timer bookkeeping well-formed. -/
theorem TimersWF_Enqueue (s : StaWifiMac) (packet : Packet) (dest : Mac48Address)
    (hwf : s.TimersWF) : (s.Enqueue packet dest).TimersWF := by
  unfold StaWifiMac.Enqueue
  split
  · exact TimersWF_TryToEnsureAssociated _ (TimersWF_of_Extends (Extends_emit _ _) hwf)
  · refine TimersWF_of_Extends ?_ hwf
    simp only
    repeat' split
    all_goals first
      | exact Extends_emit _ _
      | exact Extends.trans (Extends_emitAll _ _) (Extends_emit _ _)

/-- `SetActiveProbing` keeps the timer bookkeeping well-formed. -/
theorem TimersWF_SetActiveProbing (s : StaWifiMac) (enable : Bool) (hwf : s.TimersWF) :
    (s.SetActiveProbing enable).TimersWF := by
  unfold StaWifiMac.SetActiveProbing
  simp only
  refine TimersWF_of_Extends ?_ hwf
  cases enable with
  | true =>
    exact Extends.trans (Extends_Schedule s 0 Callback.TryToEnsureAssociated (by simp) (by simp))
      (Extends.of_eq rfl rfl rfl rfl)
  | false =>
    exact Extends.trans (Extends_Cancel s s.m_probeRequestEvent) (Extends.of_eq rfl rfl rfl rfl)

/-- The timer bookkeeping is well-formed in every state a station reaches from its
construction. -/
theorem TimersWF_of_Reachable (s : StaWifiMac) (h : Reachable s) : s.TimersWF := by
  induction h with
  | init cfg =>
    refine ⟨?_, ?_, ?_⟩ <;> intro e he <;> simp [StaWifiMac.init] at he
  | step s st _ _ ih =>
    cases st with
    | advance t => exact TimersWF_of_Extends (Extends.of_eq rfl rfl rfl rfl) ih
    | fire e => exact TimersWF_Fire s e ih
    | receive packet hdr rv => exact TimersWF_Receive s packet hdr rv ih
    | enqueue packet dest => exact TimersWF_Enqueue s packet dest ih
    | startActiveAssociation => exact TimersWF_TryToEnsureAssociated s ih
    | setActiveProbing enable => exact TimersWF_SetActiveProbing s enable ih

/-- What `Receive` does with a frame that passes the address filter: the branch of the
frame class. -/
theorem Receive_of_passes (s : StaWifiMac) (packet : Packet) (hdr : WifiMacHeader) (rv : Nat)
    (hp : passesAddressFilter s hdr) :
    s.Receive packet hdr rv =
      match hdr.type with
      | WifiMacType.DATA => s.receiveData packet hdr
      | WifiMacType.QOSDATA => s.receiveData packet hdr
      | WifiMacType.PROBE_REQ => s.emit (Effect.NotifyRxDrop packet.uid)
      | WifiMacType.ASSOC_REQ => s.emit (Effect.NotifyRxDrop packet.uid)
      | WifiMacType.TF_BEACON =>
        (({ s with tfDuration := packet.tfBeacon.tfDuration }).tfBeaconLoop
          packet.tfBeacon.ruAllocations).emit (Effect.RegularWifiMacReceive packet.uid)
      | WifiMacType.BSR_ACK =>
        let s1 := { s with m_bsrAckRecvd := true, muMode := true }
        let s2 := ({ s1 with tfCw := s1.tfCwMin }).PrepareForTx
        (s2.Schedule (MicroSeconds 17)
          (Callback.NotifyMaybeCcaBusyStartNow s2.GetRuBits (StaWifiMac.Seconds 1))).emit
          (Effect.RegularWifiMacReceive packet.uid)
      | WifiMacType.TF =>
        let r := (s.tfStart packet rv).tfAllocLoop packet.tf.uplinkFlag packet.tf.ruAllocations
        if r.2 then r.1 else r.1.emit (Effect.RegularWifiMacReceive packet.uid)
      | WifiMacType.BEACON => s.receiveBeacon packet hdr
      | WifiMacType.PROBE_RESP => s.receiveProbeResp packet hdr
      | WifiMacType.ASSOC_RESP => s.receiveAssocResp packet hdr
      | WifiMacType.OTHER => s.emit (Effect.RegularWifiMacReceive packet.uid) := by
  obtain ⟨h3, h1⟩ := hp
  have h1' : ¬ (hdr.addr1 ≠ s.GetAddress ∧ hdr.addr1IsGroup = false) := by
    rintro ⟨ha, hg⟩
    rcases h1 with h | h
    · exact ha h
    · rw [hg] at h; cases h
  have h3' : ¬ hdr.addr3 = s.GetAddress := h3
  unfold StaWifiMac.Receive
  rw [if_neg h3', if_neg h1']

/-- What `Receive` does with a frame that does not pass the address filter: nothing for
a frame sent by the station itself, a drop notification otherwise. -/
theorem Receive_of_not_passes (s : StaWifiMac) (packet : Packet) (hdr : WifiMacHeader)
    (rv : Nat) (hp : ¬ passesAddressFilter s hdr) :
    s.Receive packet hdr rv =
      if hdr.addr3 = s.address then s else s.emit (Effect.NotifyRxDrop packet.uid) := by
  unfold StaWifiMac.Receive
  by_cases h3 : hdr.addr3 = s.address
  · have h3' : hdr.addr3 = s.GetAddress := h3
    rw [if_pos h3', if_pos h3]
  · have h3' : ¬ hdr.addr3 = s.GetAddress := h3
    have h1 : hdr.addr1 ≠ s.GetAddress ∧ hdr.addr1IsGroup = false := by
      constructor
      · intro ha
        exact hp ⟨h3, Or.inl ha⟩
      · cases hg : hdr.addr1IsGroup
        · rfl
        · exact absurd ⟨h3, Or.inr hg⟩ hp
    rw [if_neg h3', if_pos h1, if_neg h3]

/-- What the accepted part of the probe-response branch does before the state change, as
one record update. -/
theorem probeRespAccept_eq (s : StaWifiMac) (packet : Packet) (hdr : WifiMacHeader) :
    s.probeRespAccept packet hdr =
      { s with
        slot := erpSlot s packet.probeResp.rates,
        trace := s.trace ++ erpEffects s packet.probeResp.rates,
        shortPreambleEnabled :=
          s.erpShortPreamble packet.probeResp.rates packet.probeResp.shortPreamble
            packet.probeResp.barkerPreambleMode,
        shortSlotTimeEnabled := packet.probeResp.shortSlotTime,
        bssid := hdr.addr3,
        m_beaconWatchdogEnd :=
          max (s.now + s.watchdogDelay packet.probeResp.beaconIntervalUs) s.m_beaconWatchdogEnd,
        events := eventsAfterCancel
          (s.events ++ watchdogEvents s (s.watchdogDelay packet.probeResp.beaconIntervalUs))
          s.m_probeRequestEvent,
        nextUid :=
          if watchdogRearms s (s.watchdogDelay packet.probeResp.beaconIntervalUs) then
            s.nextUid + 1
          else s.nextUid,
        m_beaconWatchdog :=
          if watchdogRearms s (s.watchdogDelay packet.probeResp.beaconIntervalUs) then
            some s.nextUid
          else s.m_beaconWatchdog } := by
  unfold StaWifiMac.probeRespAccept
  simp only [erpUpdate_eq, StaWifiMac.SetBssid, RestartBeaconWatchdog_eq, cancel_if_running_eq]
  rfl

/-- The probe-response branch for an accepted response. -/
theorem receiveProbeResp_accept (s : StaWifiMac) (packet : Packet) (hdr : WifiMacHeader)
    (hs : s.m_state = MacState.WAIT_PROBE_RESP)
    (hssid : StaWifiMac.SsidIsEqual packet.probeResp.ssid s.ssid = true)
    (hsel : ∀ selector ∈ s.bssMembershipSelectors,
      StaWifiMac.IsSupportedRate packet.probeResp.rates selector = true) :
    s.receiveProbeResp packet hdr =
      ((s.probeRespAccept packet hdr).SetState MacState.WAIT_ASSOC_RESP).SendAssociationRequest := by
  have h1 : ¬ ((!StaWifiMac.SsidIsEqual packet.probeResp.ssid s.ssid) = true) := by
    rw [hssid]; decide
  have h2 : ¬ ((s.bssMembershipSelectors.any fun selector =>
      !(StaWifiMac.IsSupportedRate packet.probeResp.rates selector)) = true) := by
    intro h
    obtain ⟨x, hx, hx2⟩ := List.any_eq_true.mp h
    rw [hsel x hx] at hx2
    cases hx2
  unfold StaWifiMac.receiveProbeResp StaWifiMac.probeRespAccept
  simp only [if_pos hs, if_neg h1, if_neg h2]

/-- The accepted part of the probe-response branch extends the state. -/
theorem Extends_probeRespAccept (s : StaWifiMac) (packet : Packet) (hdr : WifiMacHeader) :
    Extends s (s.probeRespAccept packet hdr) := by
  unfold StaWifiMac.probeRespAccept
  simp only
  refine Extends.trans ?_ (Extends_cancel_if_running _ _)
  refine Extends.trans ?_ (Extends_RestartBeaconWatchdog _ _)
  refine Extends.trans (Extends_erpUpdate s packet.probeResp.rates) ?_
  exact Extends.of_eq rfl rfl rfl rfl

/-- After the accepted part of the probe-response branch no probe retry event is pending
in a well-formed station. -/
theorem probeRespAccept_no_probe (s : StaWifiMac) (packet : Packet) (hdr : WifiMacHeader)
    (hwf : s.TimersWF) :
    (s.probeRespAccept packet hdr).events.filter
      (fun e => e.cb == Callback.ProbeRequestTimeout) = [] := by
  have hq : ({ s with
      events := s.events ++
        watchdogEvents s (s.watchdogDelay packet.probeResp.beaconIntervalUs),
      nextUid :=
        if watchdogRearms s (s.watchdogDelay packet.probeResp.beaconIntervalUs) then
          s.nextUid + 1
        else s.nextUid } : StaWifiMac).TimersWF := by
    refine TimersWF_of_Extends ?_ hwf
    refine Extends_of_events_append s _ _ rfl ?_ rfl rfl ?_
    · show s.nextUid ≤ if _ then s.nextUid + 1 else s.nextUid
      split
      · exact Nat.le_succ _
      · exact Nat.le_refl _
    · intro e he
      unfold watchdogEvents at he
      by_cases hr : watchdogRearms s (s.watchdogDelay packet.probeResp.beaconIntervalUs)
      · simp only [if_pos hr, List.mem_singleton] at he
        rw [he]
        simp [hr]
      · simp only [if_neg hr, List.not_mem_nil] at he
  have := pending_probe_after_cancel _ hq
  rw [probeRespAccept_eq]
  exact this

/-- C11: handling of a probe response.  In WaitProbeResponse, a probe response that passes
the address filter of `Receive`, carries the configured network name and whose rate set
contains every BSS membership selector of the station moves the state to
WaitAssociationResponse and logs exactly one association request and no probe request;
in a station with well-formed timer bookkeeping it leaves no probe retry event pending
and exactly one association retry event, at `now + m_assocRequestTimeout`, named by the
association handle.  A probe response for a different network name leaves the state, the
event list, the three handles and the watchdog deadline unchanged; so does a probe
response in every state other than WaitProbeResponse.  In both of these cases no request
is logged. -/
theorem C11_probe_response (s : StaWifiMac) (packet : Packet) (hdr : WifiMacHeader)
    (rv : Nat) (ht : hdr.type = WifiMacType.PROBE_RESP) :
    (s.m_state = MacState.WAIT_PROBE_RESP → passesAddressFilter s hdr →
      StaWifiMac.SsidIsEqual packet.probeResp.ssid s.ssid = true →
      (∀ selector ∈ s.bssMembershipSelectors,
        StaWifiMac.IsSupportedRate packet.probeResp.rates selector = true) →
      (s.Receive packet hdr rv).m_state = MacState.WAIT_ASSOC_RESP ∧
      (s.Receive packet hdr rv).trace = s.trace ++ emitted s (s.Receive packet hdr rv) ∧
      (emitted s (s.Receive packet hdr rv)).countP Effect.isAssocRequest = 1 ∧
      (emitted s (s.Receive packet hdr rv)).countP Effect.isProbeRequest = 0 ∧
      (s.TimersWF →
        (s.Receive packet hdr rv).pending Callback.ProbeRequestTimeout = [] ∧
        ∃ u, (s.Receive packet hdr rv).pending Callback.AssocRequestTimeout =
            [⟨u, s.now + s.m_assocRequestTimeout, Callback.AssocRequestTimeout⟩] ∧
          (s.Receive packet hdr rv).m_assocRequestEvent = some u)) ∧
    ((s.m_state ≠ MacState.WAIT_PROBE_RESP ∨
        StaWifiMac.SsidIsEqual packet.probeResp.ssid s.ssid = false) →
      (s.Receive packet hdr rv).m_state = s.m_state ∧
      (s.Receive packet hdr rv).events = s.events ∧
      (s.Receive packet hdr rv).m_probeRequestEvent = s.m_probeRequestEvent ∧
      (s.Receive packet hdr rv).m_assocRequestEvent = s.m_assocRequestEvent ∧
      (s.Receive packet hdr rv).m_beaconWatchdog = s.m_beaconWatchdog ∧
      (s.Receive packet hdr rv).m_beaconWatchdogEnd = s.m_beaconWatchdogEnd ∧
      (s.Receive packet hdr rv).trace = s.trace ++ emitted s (s.Receive packet hdr rv) ∧
      (emitted s (s.Receive packet hdr rv)).countP Effect.isAssocRequest = 0 ∧
      (emitted s (s.Receive packet hdr rv)).countP Effect.isProbeRequest = 0) := by
  constructor
  · intro hs hp hssid hsel
    have hr : s.Receive packet hdr rv =
        ((s.probeRespAccept packet hdr).SetState
          MacState.WAIT_ASSOC_RESP).SendAssociationRequest := by
      rw [Receive_of_passes s packet hdr rv hp, ht]
      exact receiveProbeResp_accept s packet hdr hs hssid hsel
    have hpe := probeRespAccept_eq s packet hdr
    have hcnt := erpEffects_counts s packet.probeResp.rates
    have hst : setStateEffects (s.probeRespAccept packet hdr) MacState.WAIT_ASSOC_RESP = [] := by
      unfold setStateEffects
      rw [hpe]
      simp [hs]
    rw [hr, SendAssociationRequest_eq, SetState_eq, hst]
    refine ⟨rfl, ?_, ?_, ?_, ?_⟩
    · rw [hpe]; simp [emitted]
    · rw [hpe]; simp [emitted, hcnt, Effect.isAssocRequest]
    · rw [hpe]; simp [emitted, hcnt, Effect.isProbeRequest]
    · intro hwf
      have hwfp : (s.probeRespAccept packet hdr).TimersWF :=
        TimersWF_of_Extends (Extends_probeRespAccept s packet hdr) hwf
      have h1 := probeRespAccept_no_probe s packet hdr hwf
      have h2 := pending_assoc_after_cancel _ hwfp
      have h3 := filter_cb_eventsAfterCancel_nil (s.probeRespAccept packet hdr).events
        (s.probeRespAccept packet hdr).m_assocRequestEvent Callback.ProbeRequestTimeout h1
      refine ⟨?_, (s.probeRespAccept packet hdr).nextUid, ?_, rfl⟩
      · simp only [StaWifiMac.pending, List.filter_append]
        rw [h3]
        simp
      · simp only [StaWifiMac.pending, List.filter_append]
        rw [h2]
        have e1 : (s.probeRespAccept packet hdr).now = s.now := by rw [hpe]
        have e2 : (s.probeRespAccept packet hdr).m_assocRequestTimeout =
            s.m_assocRequestTimeout := by rw [hpe]
        simp [e1, e2]
  · intro hcase
    by_cases hp : passesAddressFilter s hdr
    · have hr : s.Receive packet hdr rv = s := by
        rw [Receive_of_passes s packet hdr rv hp, ht]
        unfold StaWifiMac.receiveProbeResp
        rcases hcase with h | h
        · simp only [if_neg h]
        · by_cases hs : s.m_state = MacState.WAIT_PROBE_RESP
          · simp [hs, h]
          · simp only [if_neg hs]
      rw [hr]
      simp [emitted]
    · rw [Receive_of_not_passes s packet hdr rv hp]
      split <;> simp [emitted, StaWifiMac.emit, Effect.isAssocRequest, Effect.isProbeRequest]

/-- Witness of C11: the sample station, probing, receives the probe response of the
sample coordinator. -/
theorem C11_probe_response_witness :
    (sampleHdr WifiMacType.PROBE_RESP).type = WifiMacType.PROBE_RESP ∧
    sampleProbingLater.m_state = MacState.WAIT_PROBE_RESP ∧
    (sampleProbingLater.Receive (samplePacket false) (sampleHdr WifiMacType.PROBE_RESP)
      0).m_state = MacState.WAIT_ASSOC_RESP :=
  ⟨rfl, by decide,
    ((C11_probe_response sampleProbingLater (samplePacket false)
      (sampleHdr WifiMacType.PROBE_RESP) 0 rfl).1 (by decide) (by decide) (by decide)
      (by decide)).1⟩

/-- The window update and OBO draw of the trigger branch, as one record update. -/
theorem tfDraw_eq (s : StaWifiMac) (rv : Nat) :
    s.tfDraw rv = { s with
      m_firstTf := false, tfCw := s.cwAfterDraw, m_noSlots := s.slotsAfterDraw rv,
      m_bsrAckRecvd := false } := by
  cases s
  simp only [StaWifiMac.tfDraw, StaWifiMac.cwAfterDraw, StaWifiMac.slotsAfterDraw]
  split_ifs <;> simp_all

/-- The start of the trigger branch, as one record update. -/
theorem tfStart_eq (s : StaWifiMac) (packet : Packet) (rv : Nat) :
    s.tfStart packet rv = { s with
      m_bsrTx0 := false, m_bsrTx1 := false, m_bsrTx2 := false,
      m_bsrTx3 := false, m_bsrTx4 := false, m_bsrTx5 := false,
      m_bsrTx6 := false, m_bsrTx7 := false, m_bsrTx8 := false,
      m_updatedOnce := false, m_lastTfTxStart := packet.tfBeaconDuration,
      m_muUlFlag := packet.tf.uplinkFlag, tfDuration := packet.tf.tfDuration,
      m_muDlModeEnd := (packet.tf.tfDuration : Int) * s.slot - packet.tfBeaconDuration,
      trace := s.trace ++ [Effect.DcfNotifyMaybeCcaBusyStartNow
        ((packet.tf.tfDuration : Int) * s.slot - packet.tfBeaconDuration)],
      events := s.events ++ [⟨s.nextUid,
        s.now + ((packet.tf.tfDuration : Int) * s.slot - packet.tfBeaconDuration),
        Callback.StopMuMode⟩],
      nextUid := s.nextUid + 1,
      m_muModeExpireEvent := some s.nextUid,
      m_firstTf := false, tfCw := s.cwAfterDraw, m_noSlots := s.slotsAfterDraw rv,
      m_bsrAckRecvd := false } := by
  unfold StaWifiMac.tfStart
  simp only
  rw [tfDraw_eq]
  rfl

theorem SameContention_refl (s : StaWifiMac) : SameContention s s :=
  ⟨rfl, rfl, rfl, rfl, rfl, rfl⟩

theorem SameContention_trans {a b c : StaWifiMac} (h1 : SameContention a b)
    (h2 : SameContention b c) : SameContention a c := by
  unfold SameContention at h1 h2 ⊢
  refine ⟨?_, ?_, ?_, ?_, ?_, ?_⟩
  · rw [h2.1, h1.1]
  · rw [h2.2.1, h1.2.1]
  · rw [h2.2.2.1, h1.2.2.1]
  · rw [h2.2.2.2.1, h1.2.2.2.1]
  · rw [h2.2.2.2.2.1, h1.2.2.2.2.1]
  · rw [h2.2.2.2.2.2, h1.2.2.2.2.2]

/-- What is done for a broadcast allocation entry writes no contention field. -/
theorem SameContention_tfBroadcastEntry (s : StaWifiMac) :
    SameContention s s.tfBroadcastEntry := by
  unfold StaWifiMac.tfBroadcastEntry
  simp only
  split <;> exact ⟨rfl, rfl, rfl, rfl, rfl, rfl⟩

/-- The loop over the RU allocations writes no contention field. -/
theorem SameContention_tfAllocLoop (ulFlag : Nat) (alloc : List (Mac48Address × Nat)) :
    ∀ s : StaWifiMac, SameContention s (s.tfAllocLoop ulFlag alloc).1 := by
  induction alloc with
  | nil => intro s; exact SameContention_refl s
  | cons x rest ih =>
    intro s
    obtain ⟨a, ru⟩ := x
    unfold StaWifiMac.tfAllocLoop
    by_cases h : a = s.GetAddress ∧ ulFlag ≠ 0
    · simp only [if_pos h]
      exact ⟨rfl, rfl, rfl, rfl, rfl, rfl⟩
    · simp only [if_neg h]
      by_cases hb : a = GetBroadcast
      · simp only [if_pos hb]
        exact SameContention_trans (SameContention_tfBroadcastEntry s) (ih _)
      · simp only [if_neg hb]
        exact ih s

/-- The contention fields after a trigger that reaches the trigger branch of `Receive`. -/
theorem Receive_TF_contention (s : StaWifiMac) (packet : Packet) (hdr : WifiMacHeader)
    (rv : Nat) (ht : hdr.type = WifiMacType.TF) (hp : passesAddressFilter s hdr) :
    (s.Receive packet hdr rv).tfCw = s.cwAfterDraw ∧
    (s.Receive packet hdr rv).tfCwMin = s.tfCwMin ∧
    (s.Receive packet hdr rv).tfCwMax = s.tfCwMax ∧
    (s.Receive packet hdr rv).m_noSlots = s.slotsAfterDraw rv ∧
    (s.Receive packet hdr rv).m_firstTf = false ∧
    (s.Receive packet hdr rv).m_bsrAckRecvd = false := by
  rw [Receive_of_passes s packet hdr rv hp, ht]
  have h := SameContention_tfAllocLoop packet.tf.uplinkFlag packet.tf.ruAllocations
    (s.tfStart packet rv)
  have he := tfStart_eq s packet rv
  obtain ⟨h1, h2, h3, h4, h5, h6⟩ := h
  have e1 : (s.tfStart packet rv).tfCw = s.cwAfterDraw := by rw [he]
  have e2 : (s.tfStart packet rv).tfCwMin = s.tfCwMin := by rw [he]
  have e3 : (s.tfStart packet rv).tfCwMax = s.tfCwMax := by rw [he]
  have e4 : (s.tfStart packet rv).m_noSlots = s.slotsAfterDraw rv := by rw [he]
  have e5 : (s.tfStart packet rv).m_firstTf = false := by rw [he]
  have e6 : (s.tfStart packet rv).m_bsrAckRecvd = false := by rw [he]
  simp only
  split
  · exact ⟨h1.trans e1, h2.trans e2, h3.trans e3, h4.trans e4, h5.trans e5, h6.trans e6⟩
  · exact ⟨h1.trans e1, h2.trans e2, h3.trans e3, h4.trans e4, h5.trans e5, h6.trans e6⟩

/-- The contention fields after a report acknowledgment that reaches its branch of
`Receive`. -/
theorem Receive_BSR_ACK_contention (s : StaWifiMac) (packet : Packet) (hdr : WifiMacHeader)
    (rv : Nat) (ht : hdr.type = WifiMacType.BSR_ACK) (hp : passesAddressFilter s hdr) :
    (s.Receive packet hdr rv).tfCw = s.tfCwMin ∧
    (s.Receive packet hdr rv).tfCwMin = s.tfCwMin ∧
    (s.Receive packet hdr rv).tfCwMax = s.tfCwMax ∧
    (s.Receive packet hdr rv).m_noSlots = s.m_noSlots ∧
    (s.Receive packet hdr rv).m_firstTf = s.m_firstTf ∧
    (s.Receive packet hdr rv).m_bsrAckRecvd = true := by
  rw [Receive_of_passes s packet hdr rv hp, ht]
  exact ⟨rfl, rfl, rfl, rfl, rfl, rfl⟩

/-- A frame that does not pass the address filter of `Receive` writes no contention
field. -/
theorem SameContention_Receive_of_not_passes (s : StaWifiMac) (packet : Packet)
    (hdr : WifiMacHeader) (rv : Nat) (hp : ¬ passesAddressFilter s hdr) :
    SameContention s (s.Receive packet hdr rv) := by
  rw [Receive_of_not_passes s packet hdr rv hp]
  split <;> exact ⟨rfl, rfl, rfl, rfl, rfl, rfl⟩

/-- Reduction to 32 bits leaves a natural number below 2^32 unchanged. -/
theorem toUint32_natCast (n : Nat) (h : n < 4294967296) :
    StaWifiMac.toUint32 (n : Int) = n := by
  unfold StaWifiMac.toUint32
  have : ((n : Int) % 4294967296) = (n : Int) := Int.emod_eq_of_lt (by omega) (by omega)
  rw [this]
  simp

/-- Reduction to 32 bits of the double of a natural number below 2^31. -/
theorem toUint32_double (n : Nat) (h : n < 2147483648) :
    StaWifiMac.toUint32 (2 * (n : Int)) = 2 * n := by
  have := toUint32_natCast (2 * n) (by omega)
  rw [← this]
  congr 1

/-- Reduction to 32 bits of the predecessor of a positive natural number below 2^32. -/
theorem toUint32_pred (n : Nat) (h1 : 1 ≤ n) (h : n < 4294967296) :
    StaWifiMac.toUint32 ((n : Int) - 1) = n - 1 := by
  have := toUint32_natCast (n - 1) (by omega)
  rw [← this]
  congr 1
  omega

/-- With a window of at most cwMax < 2^31, the window after a doubling draw is
min (2 * window, cwMax). -/
theorem cwAfterDraw_double (s : StaWifiMac) (hf : s.m_firstTf = false) (hn : s.m_noSlots = 0)
    (ha : s.m_bsrAckRecvd = false) (hw : s.tfCw < 2147483648) :
    s.cwAfterDraw = min (2 * s.tfCw) s.tfCwMax := by
  unfold StaWifiMac.cwAfterDraw
  rw [if_pos ⟨hf, hn, ha⟩, toUint32_double s.tfCw hw]
  split <;> omega

/-- The window stays within its bounds through the window update of a trigger. -/
theorem cwAfterDraw_bounds (s : StaWifiMac) (hmax : s.tfCwMax < 2147483648)
    (h1 : s.tfCwMin ≤ s.tfCw) (h2 : s.tfCw ≤ s.tfCwMax) :
    s.tfCwMin ≤ s.cwAfterDraw ∧ s.cwAfterDraw ≤ s.tfCwMax := by
  unfold StaWifiMac.cwAfterDraw
  split
  · rw [toUint32_double s.tfCw (by omega)]
    split <;> omega
  · exact ⟨h1, h2⟩

/-- One trigger or report acknowledgment keeps the bounds of the window and, when
cwMax < 2^31, keeps the window within them. -/
theorem Receive_window_step (s : StaWifiMac) (packet : Packet) (hdr : WifiMacHeader)
    (rv : Nat) (ht : hdr.type = WifiMacType.TF ∨ hdr.type = WifiMacType.BSR_ACK)
    (hmax : s.tfCwMax < 2147483648) (h1 : s.tfCwMin ≤ s.tfCw) (h2 : s.tfCw ≤ s.tfCwMax) :
    (s.Receive packet hdr rv).tfCwMin = s.tfCwMin ∧
    (s.Receive packet hdr rv).tfCwMax = s.tfCwMax ∧
    s.tfCwMin ≤ (s.Receive packet hdr rv).tfCw ∧
    (s.Receive packet hdr rv).tfCw ≤ s.tfCwMax := by
  by_cases hp : passesAddressFilter s hdr
  · rcases ht with ht | ht
    · obtain ⟨e1, e2, e3, _⟩ := Receive_TF_contention s packet hdr rv ht hp
      have hb := cwAfterDraw_bounds s hmax h1 h2
      rw [e1]
      exact ⟨e2, e3, hb.1, hb.2⟩
    · obtain ⟨e1, e2, e3, _⟩ := Receive_BSR_ACK_contention s packet hdr rv ht hp
      rw [e1]
      exact ⟨e2, e3, le_refl _, h1.trans h2⟩
  · obtain ⟨e1, e2, e3, _⟩ := SameContention_Receive_of_not_passes s packet hdr rv hp
    rw [e1]
    exact ⟨e2, e3, h1, h2⟩

/-- Any sequence of triggers and report acknowledgments keeps the bounds of the window
and, when cwMax < 2^31, keeps the window within them. -/
theorem receiveAll_window (fs : List (Packet × WifiMacHeader × Nat)) :
    ∀ s : StaWifiMac,
      (∀ f ∈ fs, f.2.1.type = WifiMacType.TF ∨ f.2.1.type = WifiMacType.BSR_ACK) →
      s.tfCwMax < 2147483648 → s.tfCwMin ≤ s.tfCw → s.tfCw ≤ s.tfCwMax →
      (receiveAll s fs).tfCwMin = s.tfCwMin ∧ (receiveAll s fs).tfCwMax = s.tfCwMax ∧
      s.tfCwMin ≤ (receiveAll s fs).tfCw ∧ (receiveAll s fs).tfCw ≤ s.tfCwMax := by
  induction fs with
  | nil => intro s _ _ h1 h2; exact ⟨rfl, rfl, h1, h2⟩
  | cons f rest ih =>
    intro s hfs hmax h1 h2
    obtain ⟨a1, a2, a3, a4⟩ := Receive_window_step s f.1 f.2.1 f.2.2
      (hfs f (List.mem_cons_self _ _)) hmax h1 h2
    have hrest := ih (s.Receive f.1 f.2.1 f.2.2)
      (fun g hg => hfs g (List.mem_cons_of_mem _ hg))
      (by rw [a2]; exact hmax) (by rw [a1]; exact a3) (by rw [a2]; exact a4)
    rw [a1, a2] at hrest
    exact hrest

/-- C12 as stated fails: the sample station constructed with window = cwMin = cwMax =
2147483648 (a 32-bit unsigned value) receives two triggers with an empty allocation
map, the raw draw being 0 both times; the first draws OBO 0, the second doubles the
window, which wraps to 0 and is below cwMin. -/
theorem C12_window_wraps_below_cwMin :
    sampleWideSta.tfCwMin ≤ sampleWideSta.tfCwMax ∧
    sampleWideSta.tfCwMin ≤ sampleWideSta.tfCw ∧
    sampleWideSta.tfCw ≤ sampleWideSta.tfCwMax ∧
    sampleWideSta.tfCwMax < 4294967296 ∧
    (receiveAll sampleWideSta
      [(sampleTf [] 1, sampleGroupHdr WifiMacType.TF, 0)]).m_noSlots = 0 ∧
    (receiveAll sampleWideSta
      [(sampleTf [] 1, sampleGroupHdr WifiMacType.TF, 0),
       (sampleTf [] 1, sampleGroupHdr WifiMacType.TF, 0)]).tfCw = 0 ∧
    ¬ (sampleWideSta.tfCwMin ≤ (receiveAll sampleWideSta
      [(sampleTf [] 1, sampleGroupHdr WifiMacType.TF, 0),
       (sampleTf [] 1, sampleGroupHdr WifiMacType.TF, 0)]).tfCw) := by
  refine ⟨by decide, by decide, by decide, by decide, by decide, by decide, by decide⟩

/-- C12 (amended): for every configuration with cwMin ≤ cwMax < 2^31 and every finite
sequence of triggers and report acknowledgments handed to `Receive`, starting from a
window in [cwMin, cwMax], the window is in [cwMin, cwMax] after every frame of the
sequence; a trigger that doubles the window (not the first one, OBO = 0, no
acknowledgment since the previous trigger) leaves min (2 * window, cwMax); a report
acknowledgment sets the window to exactly cwMin. -/
theorem C12_window_within_bounds (s : StaWifiMac) (fs : List (Packet × WifiMacHeader × Nat))
    (_hc : s.tfCwMin ≤ s.tfCwMax) (hmax : s.tfCwMax < 2147483648)
    (h1 : s.tfCwMin ≤ s.tfCw) (h2 : s.tfCw ≤ s.tfCwMax)
    (hfs : ∀ f ∈ fs, f.2.1.type = WifiMacType.TF ∨ f.2.1.type = WifiMacType.BSR_ACK) :
    (∀ n, s.tfCwMin ≤ (receiveAll s (fs.take n)).tfCw ∧
      (receiveAll s (fs.take n)).tfCw ≤ s.tfCwMax) ∧
    (∀ packet hdr rv, hdr.type = WifiMacType.TF → passesAddressFilter s hdr →
      s.m_firstTf = false → s.m_noSlots = 0 → s.m_bsrAckRecvd = false →
      (s.Receive packet hdr rv).tfCw = min (2 * s.tfCw) s.tfCwMax ∧
      (s.Receive packet hdr rv).tfCw ≤ s.tfCwMax) ∧
    (∀ packet hdr rv, hdr.type = WifiMacType.BSR_ACK → passesAddressFilter s hdr →
      (s.Receive packet hdr rv).tfCw = s.tfCwMin) := by
  refine ⟨?_, ?_, ?_⟩
  · intro n
    have h := receiveAll_window (fs.take n) s
      (fun f hf => hfs f (List.mem_of_mem_take hf)) hmax h1 h2
    exact ⟨h.2.2.1, h.2.2.2⟩
  · intro packet hdr rv ht hp hf hn ha
    obtain ⟨e1, _⟩ := Receive_TF_contention s packet hdr rv ht hp
    rw [e1, cwAfterDraw_double s hf hn ha (by omega)]
    exact ⟨rfl, Nat.min_le_right _ _⟩
  · intro packet hdr rv ht hp
    exact (Receive_BSR_ACK_contention s packet hdr rv ht hp).1

/-- Witness of C12: the sample station (cwMin 15, cwMax 1023) receives a trigger, a
report acknowledgment and a second trigger. -/
theorem C12_window_within_bounds_witness :
    sampleSta.tfCwMin ≤ sampleSta.tfCwMax ∧ sampleSta.tfCwMax < 2147483648 ∧
    sampleSta.tfCwMin ≤ sampleSta.tfCw ∧ sampleSta.tfCw ≤ sampleSta.tfCwMax ∧
    ∀ n, sampleSta.tfCwMin ≤ (receiveAll sampleSta
        ([(sampleTf [] 1, sampleGroupHdr WifiMacType.TF, 0),
          (sampleTf [] 1, sampleGroupHdr WifiMacType.BSR_ACK, 0),
          (sampleTf [] 1, sampleGroupHdr WifiMacType.TF, 0)].take n)).tfCw ∧
      (receiveAll sampleSta
        ([(sampleTf [] 1, sampleGroupHdr WifiMacType.TF, 0),
          (sampleTf [] 1, sampleGroupHdr WifiMacType.BSR_ACK, 0),
          (sampleTf [] 1, sampleGroupHdr WifiMacType.TF, 0)].take n)).tfCw ≤
        sampleSta.tfCwMax :=
  ⟨by decide, by decide, by decide, by decide,
    (C12_window_within_bounds sampleSta
      [(sampleTf [] 1, sampleGroupHdr WifiMacType.TF, 0),
       (sampleTf [] 1, sampleGroupHdr WifiMacType.BSR_ACK, 0),
       (sampleTf [] 1, sampleGroupHdr WifiMacType.TF, 0)]
      (by decide) (by decide) (by decide) (by decide) (by decide)).1⟩

/-- A draw in [0, w - 1] for a window 1 ≤ w < 2^32. -/
theorem GetInteger_window (rv w : Nat) (h1 : 1 ≤ w) (h2 : w < 4294967296) :
    StaWifiMac.GetInteger rv 0 (StaWifiMac.toUint32 ((w : Int) - 1)) =
      StaWifiMac.GetInteger rv 0 (w - 1) ∧
    StaWifiMac.GetInteger rv 0 (w - 1) < w := by
  rw [toUint32_pred w h1 h2]
  refine ⟨rfl, ?_⟩
  unfold StaWifiMac.GetInteger
  have : w - 1 - 0 + 1 = w := by omega
  rw [this, Nat.zero_add]
  exact Nat.mod_lt _ (by omega)

/-- A report acknowledgment leaves the address of the station unchanged. -/
theorem Receive_BSR_ACK_address (s : StaWifiMac) (packet : Packet) (hdr : WifiMacHeader)
    (rv : Nat) (ht : hdr.type = WifiMacType.BSR_ACK) :
    (s.Receive packet hdr rv).address = s.address := by
  by_cases hp : passesAddressFilter s hdr
  · rw [Receive_of_passes s packet hdr rv hp, ht]
    rfl
  · rw [Receive_of_not_passes s packet hdr rv hp]
    split <;> rfl

/-- C13 as stated fails in (ii).  The sample station constructed with window 2147483648
and cwMax 4294967295 draws OBO 0 at its first trigger and, without acknowledgment,
doubles at the second: the window becomes 0, not min (2 * w, cwMax) = 4294967295.
The sample station constructed with window 15 and cwMax 0 likewise gets window
min (30, 0) = 0 at its second trigger, and the OBO drawn with raw draw 5 is 5, outside
the empty range [0, newWindow - 1]. -/
theorem C13_doubling_wraps_or_draws_outside :
    ((receiveAll sampleHalfSta [(sampleTf [] 1, sampleGroupHdr WifiMacType.TF, 0)]).m_firstTf
        = false ∧
      (receiveAll sampleHalfSta [(sampleTf [] 1, sampleGroupHdr WifiMacType.TF, 0)]).m_noSlots
        = 0 ∧
      (receiveAll sampleHalfSta
        [(sampleTf [] 1, sampleGroupHdr WifiMacType.TF, 0)]).m_bsrAckRecvd = false ∧
      (receiveAll sampleHalfSta [(sampleTf [] 1, sampleGroupHdr WifiMacType.TF, 0)]).tfCw
        = 2147483648 ∧
      (receiveAll sampleHalfSta [(sampleTf [] 1, sampleGroupHdr WifiMacType.TF, 0)]).tfCwMax
        = 4294967295 ∧
      (receiveAll sampleHalfSta
        [(sampleTf [] 1, sampleGroupHdr WifiMacType.TF, 0),
         (sampleTf [] 1, sampleGroupHdr WifiMacType.TF, 0)]).tfCw = 0 ∧
      min (2 * 2147483648) 4294967295 ≠ 0) ∧
    ((receiveAll sampleZeroMaxSta
        [(sampleTf [] 1, sampleGroupHdr WifiMacType.TF, 0)]).m_firstTf = false ∧
      (receiveAll sampleZeroMaxSta
        [(sampleTf [] 1, sampleGroupHdr WifiMacType.TF, 0)]).m_noSlots = 0 ∧
      (receiveAll sampleZeroMaxSta
        [(sampleTf [] 1, sampleGroupHdr WifiMacType.TF, 0)]).m_bsrAckRecvd = false ∧
      (receiveAll sampleZeroMaxSta
        [(sampleTf [] 1, sampleGroupHdr WifiMacType.TF, 0)]).tfCw = 15 ∧
      (receiveAll sampleZeroMaxSta
        [(sampleTf [] 1, sampleGroupHdr WifiMacType.TF, 0),
         (sampleTf [] 1, sampleGroupHdr WifiMacType.TF, 5)]).tfCw = 0 ∧
      (receiveAll sampleZeroMaxSta
        [(sampleTf [] 1, sampleGroupHdr WifiMacType.TF, 0),
         (sampleTf [] 1, sampleGroupHdr WifiMacType.TF, 5)]).m_noSlots = 5) := by
  refine ⟨⟨by decide, by decide, by decide, by decide, by decide, by decide, by decide⟩,
    ⟨by decide, by decide, by decide, by decide, by decide, by decide⟩⟩

/-- Reduction to 32 bits of the double of a natural number, when the double is below
2^32. -/
theorem toUint32_natCast_double (n : Nat) (h : 2 * n < 4294967296) :
    StaWifiMac.toUint32 (2 * (n : Int)) = 2 * n := by
  have := toUint32_natCast (2 * n) h
  rw [← this]
  congr 1

/-- C13 (amended): window and OBO update at a trigger that reaches the trigger branch of
`Receive`, for every window 1 ≤ w < 2^32.  (i) On the first trigger the window is
unchanged and OBO is drawn in [0, w - 1].  (ii) On a later trigger with OBO = 0 and no
acknowledgment since the previous trigger, provided 2 * w < 2^32 and cwMax ≥ 1, the
window becomes min (2 * w, cwMax) and OBO is drawn in [0, newWindow - 1].  (iii) On a
later trigger with OBO = 0 and an acknowledgment received, the window is unchanged
and OBO is drawn in [0, w - 1]; the acknowledgment itself set the window to cwMin and
the flag.  (iv) On a later trigger with OBO ≠ 0 neither window nor OBO changes.  The
'acked' flag is false afterwards.  Scenario: the sample station (cwMin 15, cwMax 1023)
draws OBO 0 at its first trigger; at the next trigger, without acknowledgment, its
window is 30 and its OBO is below 30. -/
theorem C13_window_and_obo_update (s : StaWifiMac) (packet : Packet) (hdr : WifiMacHeader)
    (rv : Nat) (ht : hdr.type = WifiMacType.TF) (hp : passesAddressFilter s hdr)
    (hw1 : 1 ≤ s.tfCw) (hw2 : s.tfCw < 4294967296) :
    (s.m_firstTf = true →
      (s.Receive packet hdr rv).tfCw = s.tfCw ∧
      (s.Receive packet hdr rv).m_noSlots = StaWifiMac.GetInteger rv 0 (s.tfCw - 1) ∧
      (s.Receive packet hdr rv).m_noSlots < s.tfCw) ∧
    (s.m_firstTf = false → s.m_noSlots = 0 → s.m_bsrAckRecvd = false →
      2 * s.tfCw < 4294967296 → 1 ≤ s.tfCwMax →
      (s.Receive packet hdr rv).tfCw = min (2 * s.tfCw) s.tfCwMax ∧
      (s.Receive packet hdr rv).m_noSlots =
        StaWifiMac.GetInteger rv 0 ((s.Receive packet hdr rv).tfCw - 1) ∧
      (s.Receive packet hdr rv).m_noSlots < (s.Receive packet hdr rv).tfCw) ∧
    (s.m_firstTf = false → s.m_noSlots = 0 → s.m_bsrAckRecvd = true →
      (s.Receive packet hdr rv).tfCw = s.tfCw ∧
      (s.Receive packet hdr rv).m_noSlots = StaWifiMac.GetInteger rv 0 (s.tfCw - 1) ∧
      (s.Receive packet hdr rv).m_noSlots < s.tfCw) ∧
    (∀ ackPacket ackHdr, ackHdr.type = WifiMacType.BSR_ACK → passesAddressFilter s ackHdr →
      (s.Receive ackPacket ackHdr rv).tfCw = s.tfCwMin ∧
      (s.Receive ackPacket ackHdr rv).m_bsrAckRecvd = true ∧
      (s.Receive ackPacket ackHdr rv).m_noSlots = s.m_noSlots ∧
      (s.Receive ackPacket ackHdr rv).m_firstTf = s.m_firstTf) ∧
    (s.m_firstTf = false → s.m_noSlots ≠ 0 →
      (s.Receive packet hdr rv).tfCw = s.tfCw ∧
      (s.Receive packet hdr rv).m_noSlots = s.m_noSlots) ∧
    (s.Receive packet hdr rv).m_bsrAckRecvd = false ∧
    ((sampleSta.Receive (sampleTf [] 1) (sampleGroupHdr WifiMacType.TF) 0).m_noSlots = 0 ∧
      ((sampleSta.Receive (sampleTf [] 1) (sampleGroupHdr WifiMacType.TF) 0).Receive
        (sampleTf [] 1) (sampleGroupHdr WifiMacType.TF) rv).tfCw = 30 ∧
      ((sampleSta.Receive (sampleTf [] 1) (sampleGroupHdr WifiMacType.TF) 0).Receive
        (sampleTf [] 1) (sampleGroupHdr WifiMacType.TF) rv).m_noSlots < 30) := by
  obtain ⟨e1, _, _, e4, _, e6⟩ := Receive_TF_contention s packet hdr rv ht hp
  refine ⟨?_, ?_, ?_, ?_, ?_, e6, ?_⟩
  · intro hf
    have hc : s.cwAfterDraw = s.tfCw := by
      unfold StaWifiMac.cwAfterDraw
      rw [if_neg (by simp [hf])]
    have hs : s.slotsAfterDraw rv =
        StaWifiMac.GetInteger rv 0 (StaWifiMac.toUint32 ((s.tfCw : Int) - 1)) := by
      unfold StaWifiMac.slotsAfterDraw
      rw [if_pos (Or.inl hf), hc]
    obtain ⟨g1, g2⟩ := GetInteger_window rv s.tfCw hw1 hw2
    rw [e1, e4, hc, hs, g1]
    exact ⟨rfl, rfl, g2⟩
  · intro hf hn ha h2w hmax
    have hc : s.cwAfterDraw = min (2 * s.tfCw) s.tfCwMax := by
      unfold StaWifiMac.cwAfterDraw
      rw [if_pos ⟨hf, hn, ha⟩, toUint32_natCast_double s.tfCw h2w]
      split <;> omega
    have hs : s.slotsAfterDraw rv =
        StaWifiMac.GetInteger rv 0 (StaWifiMac.toUint32 ((s.cwAfterDraw : Int) - 1)) := by
      unfold StaWifiMac.slotsAfterDraw
      rw [if_pos (Or.inr hn)]
    obtain ⟨g1, g2⟩ := GetInteger_window rv s.cwAfterDraw (by rw [hc]; omega)
      (by rw [hc]; omega)
    rw [e1, e4, hs, g1]
    exact ⟨hc, rfl, g2⟩
  · intro hf hn ha
    have hc : s.cwAfterDraw = s.tfCw := by
      unfold StaWifiMac.cwAfterDraw
      rw [if_neg (by simp [ha])]
    have hs : s.slotsAfterDraw rv =
        StaWifiMac.GetInteger rv 0 (StaWifiMac.toUint32 ((s.tfCw : Int) - 1)) := by
      unfold StaWifiMac.slotsAfterDraw
      rw [if_pos (Or.inr hn), hc]
    obtain ⟨g1, g2⟩ := GetInteger_window rv s.tfCw hw1 hw2
    rw [e1, e4, hc, hs, g1]
    exact ⟨rfl, rfl, g2⟩
  · intro ackPacket ackHdr hta hpa
    obtain ⟨a1, _, _, a4, a5, a6⟩ :=
      Receive_BSR_ACK_contention s ackPacket ackHdr rv hta hpa
    exact ⟨a1, a6, a4, a5⟩
  · intro hf hn
    have hc : s.cwAfterDraw = s.tfCw := by
      unfold StaWifiMac.cwAfterDraw
      rw [if_neg (by simp [hn])]
    have hs : s.slotsAfterDraw rv = s.m_noSlots := by
      unfold StaWifiMac.slotsAfterDraw
      rw [if_neg (by simp [hf, hn])]
    rw [e1, e4, hc, hs]
    exact ⟨rfl, rfl⟩
  · have hp1 : passesAddressFilter
        (sampleSta.Receive (sampleTf [] 1) (sampleGroupHdr WifiMacType.TF) 0)
        (sampleGroupHdr WifiMacType.TF) := by decide
    obtain ⟨c1, _, _, c4, _, _⟩ := Receive_TF_contention
      (sampleSta.Receive (sampleTf [] 1) (sampleGroupHdr WifiMacType.TF) 0)
      (sampleTf [] 1) (sampleGroupHdr WifiMacType.TF) rv rfl hp1
    have hc : (sampleSta.Receive (sampleTf [] 1)
        (sampleGroupHdr WifiMacType.TF) 0).cwAfterDraw = 30 := by decide
    have hs : (sampleSta.Receive (sampleTf [] 1)
        (sampleGroupHdr WifiMacType.TF) 0).slotsAfterDraw rv =
        StaWifiMac.GetInteger rv 0 (StaWifiMac.toUint32 (((30 : Nat) : Int) - 1)) := by
      unfold StaWifiMac.slotsAfterDraw
      rw [if_pos (Or.inr (by decide)), hc]
    obtain ⟨g1, g2⟩ := GetInteger_window rv 30 (by omega) (by omega)
    rw [c1, c4, hc, hs, g1]
    exact ⟨by decide, rfl, g2⟩

/-- Witness of C13: the sample station (window 15) at its first trigger, raw draw 7. -/
theorem C13_window_and_obo_update_witness :
    (sampleGroupHdr WifiMacType.TF).type = WifiMacType.TF ∧
    passesAddressFilter sampleSta (sampleGroupHdr WifiMacType.TF) ∧
    1 ≤ sampleSta.tfCw ∧ sampleSta.tfCw < 4294967296 ∧ sampleSta.m_firstTf = true ∧
    (sampleSta.Receive (sampleTf [] 1) (sampleGroupHdr WifiMacType.TF) 7).tfCw
      = sampleSta.tfCw ∧
    (sampleSta.Receive (sampleTf [] 1) (sampleGroupHdr WifiMacType.TF) 7).m_noSlots
      < sampleSta.tfCw :=
  ⟨rfl, by decide, by decide, by decide, by decide,
    ((C13_window_and_obo_update sampleSta (sampleTf [] 1) (sampleGroupHdr WifiMacType.TF) 7
      rfl (by decide) (by decide) (by decide)).1 (by decide)).1,
    ((C13_window_and_obo_update sampleSta (sampleTf [] 1) (sampleGroupHdr WifiMacType.TF) 7
      rfl (by decide) (by decide) (by decide)).1 (by decide)).2.2⟩

/-- The loop over the RU allocations does nothing when no entry names the station or
the broadcast address. -/
theorem tfAllocLoop_of_unassigned (ulFlag : Nat) (alloc : List (Mac48Address × Nat))
    (s : StaWifiMac) (h : ∀ x ∈ alloc, x.1 ≠ s.address ∧ x.1 ≠ GetBroadcast) :
    s.tfAllocLoop ulFlag alloc = (s, false) := by
  induction alloc with
  | nil => rfl
  | cons x rest ih =>
    obtain ⟨a, ru⟩ := x
    have hx := h (a, ru) (List.mem_cons_self _ _)
    unfold StaWifiMac.tfAllocLoop
    rw [if_neg (fun hc => hx.1 hc.1), if_neg hx.2]
    exact ih (fun y hy => h y (List.mem_cons_of_mem _ hy))

/-- A trigger that reaches the trigger branch of `Receive` and assigns the station no
RU: the station after the start of the branch, with the call to the base class
logged. -/
theorem Receive_TF_of_unassigned (s : StaWifiMac) (packet : Packet) (hdr : WifiMacHeader)
    (rv : Nat) (ht : hdr.type = WifiMacType.TF) (hp : passesAddressFilter s hdr)
    (h : ∀ x ∈ packet.tf.ruAllocations, x.1 ≠ s.address ∧ x.1 ≠ GetBroadcast) :
    s.Receive packet hdr rv =
      (s.tfStart packet rv).emit (Effect.RegularWifiMacReceive packet.uid) := by
  rw [Receive_of_passes s packet hdr rv hp, ht]
  have ha : (s.tfStart packet rv).address = s.address := by rw [tfStart_eq]
  have := tfAllocLoop_of_unassigned packet.tf.uplinkFlag packet.tf.ruAllocations
    (s.tfStart packet rv) (by rw [ha]; exact h)
  simp only [this]
  rfl

/-- C16 as stated fails: the sample station, as constructed (OBO 0, window 15), receives
its first trigger, whose allocation map names only station 5, with raw draw 7: its OBO
becomes 7.  At the next such trigger, after a first one that drew OBO 0, the window
becomes 30 as well. -/
theorem C16_unassigned_station_redraws :
    (∀ x ∈ (sampleTf [(5, 3)] 1).tf.ruAllocations,
      x.1 ≠ sampleSta.address ∧ x.1 ≠ GetBroadcast) ∧
    sampleSta.m_noSlots = 0 ∧
    (sampleSta.Receive (sampleTf [(5, 3)] 1) (sampleGroupHdr WifiMacType.TF) 7).m_noSlots
      = 7 ∧
    (receiveAll sampleSta
      [(sampleTf [(5, 3)] 1, sampleGroupHdr WifiMacType.TF, 0)]).m_noSlots = 0 ∧
    (receiveAll sampleSta
      [(sampleTf [(5, 3)] 1, sampleGroupHdr WifiMacType.TF, 0)]).tfCw = 15 ∧
    (receiveAll sampleSta
      [(sampleTf [(5, 3)] 1, sampleGroupHdr WifiMacType.TF, 0),
       (sampleTf [(5, 3)] 1, sampleGroupHdr WifiMacType.TF, 7)]).m_noSlots = 7 ∧
    (receiveAll sampleSta
      [(sampleTf [(5, 3)] 1, sampleGroupHdr WifiMacType.TF, 0),
       (sampleTf [(5, 3)] 1, sampleGroupHdr WifiMacType.TF, 7)]).tfCw = 30 := by
  refine ⟨by decide, by decide, by decide, by decide, by decide, by decide, by decide⟩

/-- C16 (amended): for every trigger handed to `Receive` whose allocation map contains
neither the station's own address nor a broadcast entry, processing the trigger
schedules no cancel-check and no candidate transmission (when the trigger reaches the
trigger branch, the only event it schedules is the end of the multi-user period), and
it leaves the OBO counter and the contention window as they were when this is not
the first trigger ever received and OBO is not 0. -/
theorem C16_unassigned_station (s : StaWifiMac) (packet : Packet) (hdr : WifiMacHeader)
    (rv : Nat) (ht : hdr.type = WifiMacType.TF)
    (h : ∀ x ∈ packet.tf.ruAllocations, x.1 ≠ s.address ∧ x.1 ≠ GetBroadcast) :
    (s.Receive packet hdr rv).contentionEvents = s.contentionEvents ∧
    (passesAddressFilter s hdr →
      (s.Receive packet hdr rv).events = s.events ++ [⟨s.nextUid,
        s.now + ((packet.tf.tfDuration : Int) * s.slot - packet.tfBeaconDuration),
        Callback.StopMuMode⟩]) ∧
    (s.m_firstTf = false → s.m_noSlots ≠ 0 →
      (s.Receive packet hdr rv).m_noSlots = s.m_noSlots ∧
      (s.Receive packet hdr rv).tfCw = s.tfCw) := by
  by_cases hp : passesAddressFilter s hdr
  · have hr := Receive_TF_of_unassigned s packet hdr rv ht hp h
    have he : (s.Receive packet hdr rv).events = s.events ++ [⟨s.nextUid,
        s.now + ((packet.tf.tfDuration : Int) * s.slot - packet.tfBeaconDuration),
        Callback.StopMuMode⟩] := by
      rw [hr, tfStart_eq]
      rfl
    refine ⟨?_, fun _ => he, ?_⟩
    · unfold StaWifiMac.contentionEvents
      rw [he, List.filter_append]
      simp [Callback.isContention]
    · intro hf hn
      obtain ⟨e1, _, _, e4, _, _⟩ := Receive_TF_contention s packet hdr rv ht hp
      have hc : s.cwAfterDraw = s.tfCw := by
        unfold StaWifiMac.cwAfterDraw
        rw [if_neg (by simp [hn])]
      have hs : s.slotsAfterDraw rv = s.m_noSlots := by
        unfold StaWifiMac.slotsAfterDraw
        rw [if_neg (by simp [hf, hn])]
      rw [e1, e4, hc, hs]
      exact ⟨rfl, rfl⟩
  · have hr := Receive_of_not_passes s packet hdr rv hp
    refine ⟨?_, fun hc => absurd hc hp, ?_⟩
    · rw [hr]
      split <;> rfl
    · intro _ _
      rw [hr]
      split <;> exact ⟨rfl, rfl⟩

/-- Witness of C16: the sample station, after a first trigger that drew OBO 3, receives
a trigger whose allocation map names only station 5. -/
theorem C16_unassigned_station_witness :
    (sampleGroupHdr WifiMacType.TF).type = WifiMacType.TF ∧
    (∀ x ∈ (sampleTf [(5, 3)] 1).tf.ruAllocations,
      x.1 ≠ (sampleSta.Receive (sampleTf [(5, 3)] 1)
        (sampleGroupHdr WifiMacType.TF) 3).address ∧ x.1 ≠ GetBroadcast) ∧
    (sampleSta.Receive (sampleTf [(5, 3)] 1) (sampleGroupHdr WifiMacType.TF) 3).m_noSlots
      = 3 ∧
    ((sampleSta.Receive (sampleTf [(5, 3)] 1) (sampleGroupHdr WifiMacType.TF) 3).Receive
      (sampleTf [(5, 3)] 1) (sampleGroupHdr WifiMacType.TF) 7).contentionEvents =
      (sampleSta.Receive (sampleTf [(5, 3)] 1)
        (sampleGroupHdr WifiMacType.TF) 3).contentionEvents :=
  ⟨rfl, by decide, by decide,
    (C16_unassigned_station
      (sampleSta.Receive (sampleTf [(5, 3)] 1) (sampleGroupHdr WifiMacType.TF) 3)
      (sampleTf [(5, 3)] 1) (sampleGroupHdr WifiMacType.TF) 7 rfl (by decide)).1⟩

/-- What is done for a broadcast allocation entry leaves the multi-user mode and the
address unchanged. -/
theorem tfBroadcastEntry_muMode (s : StaWifiMac) :
    s.tfBroadcastEntry.muMode = s.muMode ∧ s.tfBroadcastEntry.address = s.address := by
  unfold StaWifiMac.tfBroadcastEntry
  simp only
  split <;> exact ⟨rfl, rfl⟩

/-- With the uplink flag cleared, the loop over the RU allocations runs to its end and
leaves the multi-user mode unchanged. -/
theorem tfAllocLoop_downlink (alloc : List (Mac48Address × Nat)) :
    ∀ s : StaWifiMac, (s.tfAllocLoop 0 alloc).1.muMode = s.muMode ∧
      (s.tfAllocLoop 0 alloc).2 = false := by
  induction alloc with
  | nil => intro s; exact ⟨rfl, rfl⟩
  | cons x rest ih =>
    intro s
    obtain ⟨a, ru⟩ := x
    unfold StaWifiMac.tfAllocLoop
    rw [if_neg (fun hc => hc.2 rfl)]
    by_cases hb : a = GetBroadcast
    · simp only [if_pos hb]
      rw [(ih s.tfBroadcastEntry).1, (ih s.tfBroadcastEntry).2,
        (tfBroadcastEntry_muMode s).1]
      exact ⟨rfl, rfl⟩
    · simp only [if_neg hb]
      exact ih s

/-- With the uplink flag cleared, the loop over the RU allocations does nothing when no
entry names the broadcast address. -/
theorem tfAllocLoop_downlink_of_no_broadcast (alloc : List (Mac48Address × Nat))
    (s : StaWifiMac) (h : ∀ x ∈ alloc, x.1 ≠ GetBroadcast) :
    s.tfAllocLoop 0 alloc = (s, false) := by
  induction alloc with
  | nil => rfl
  | cons x rest ih =>
    obtain ⟨a, ru⟩ := x
    have hx := h (a, ru) (List.mem_cons_self _ _)
    unfold StaWifiMac.tfAllocLoop
    rw [if_neg (fun hc => hc.2 rfl), if_neg hx]
    exact ih (fun y hy => h y (List.mem_cons_of_mem _ hy))

/-- C17 as stated fails: the sample station receives its first trigger, a downlink one
(uplink flag 0) whose allocation map has a broadcast entry, with raw draw 3: a
cancel-check and a candidate report transmission are scheduled at 3 slots of 13
microseconds. -/
theorem C17_downlink_broadcast_entry_contends :
    (sampleTf [(GetBroadcast, 0)] 0).tf.uplinkFlag = 0 ∧
    sampleSta.contentionEvents = [] ∧
    (sampleSta.Receive (sampleTf [(GetBroadcast, 0)] 0)
      (sampleGroupHdr WifiMacType.TF) 3).contentionEvents =
      [⟨1, 39, Callback.CheckAndCancel 0⟩, ⟨2, 39, Callback.SendTriggerFrameResp 0⟩] := by
  refine ⟨by decide, by decide, by decide⟩

/-- C17 (amended): for every trigger handed to `Receive` whose uplink flag is false,
whatever its allocation map, processing the trigger does not switch the station into
multi-user mode; and when the map has no broadcast entry (it may contain the station's
address), it schedules no cancel-check and no candidate report transmission. -/
theorem C17_downlink_trigger (s : StaWifiMac) (packet : Packet) (hdr : WifiMacHeader)
    (rv : Nat) (ht : hdr.type = WifiMacType.TF) (hdl : packet.tf.uplinkFlag = 0) :
    (s.Receive packet hdr rv).muMode = s.muMode ∧
    ((∀ x ∈ packet.tf.ruAllocations, x.1 ≠ GetBroadcast) →
      (s.Receive packet hdr rv).contentionEvents = s.contentionEvents) := by
  by_cases hp : passesAddressFilter s hdr
  · have hr : s.Receive packet hdr rv =
        ((s.tfStart packet rv).tfAllocLoop 0 packet.tf.ruAllocations).1.emit
          (Effect.RegularWifiMacReceive packet.uid) := by
      rw [Receive_of_passes s packet hdr rv hp, ht]
      simp only [hdl]
      rw [(tfAllocLoop_downlink packet.tf.ruAllocations (s.tfStart packet rv)).2]
      rfl
    have hm : (s.tfStart packet rv).muMode = s.muMode := by rw [tfStart_eq]
    refine ⟨?_, ?_⟩
    · rw [hr]
      exact ((tfAllocLoop_downlink packet.tf.ruAllocations (s.tfStart packet rv)).1).trans hm
    · intro hnb
      rw [hr, tfAllocLoop_downlink_of_no_broadcast packet.tf.ruAllocations _ hnb, tfStart_eq]
      unfold StaWifiMac.contentionEvents
      show List.filter _ (s.events ++ [_]) = _
      rw [List.filter_append]
      simp [Callback.isContention]
  · have hr := Receive_of_not_passes s packet hdr rv hp
    refine ⟨?_, fun _ => ?_⟩
    · rw [hr]
      split <;> rfl
    · rw [hr]
      split <;> rfl

/-- Witness of C17: the sample station receives a downlink trigger whose allocation map
names the station itself. -/
theorem C17_downlink_trigger_witness :
    (sampleGroupHdr WifiMacType.TF).type = WifiMacType.TF ∧
    (sampleTf [(1, 3)] 0).tf.uplinkFlag = 0 ∧
    (sampleSta.Receive (sampleTf [(1, 3)] 0) (sampleGroupHdr WifiMacType.TF) 3).muMode =
      sampleSta.muMode ∧
    (sampleSta.Receive (sampleTf [(1, 3)] 0)
      (sampleGroupHdr WifiMacType.TF) 3).contentionEvents = sampleSta.contentionEvents :=
  ⟨rfl, rfl,
    (C17_downlink_trigger sampleSta (sampleTf [(1, 3)] 0) (sampleGroupHdr WifiMacType.TF) 3
      rfl rfl).1,
    (C17_downlink_trigger sampleSta (sampleTf [(1, 3)] 0) (sampleGroupHdr WifiMacType.TF) 3
      rfl rfl).2 (by decide)⟩

/-- `CancelExpiredEvents` as one record update. -/
theorem CancelExpiredEvents_eq (s : StaWifiMac) :
    s.CancelExpiredEvents = { s with
      trace := s.trace ++ [Effect.CancelTFRespIfNotSent s.ruBits],
      m_noSlots :=
        if s.GetBsrTx s.ruBits = false then
          StaWifiMac.toUint32 ((s.m_noSlots : Int) -
            (StaWifiMac.toUint32 ((s.maxTfSlots : Int) - 1) : Int))
        else s.m_noSlots } := by
  unfold StaWifiMac.CancelExpiredEvents
  simp only
  by_cases h : s.GetBsrTx s.ruBits = true
  · have h1 : (s.emit (Effect.CancelTFRespIfNotSent s.GetRuBits)).GetBsrTx
        (s.emit (Effect.CancelTFRespIfNotSent s.GetRuBits)).GetRuBits = true := h
    simp only [h1, h]
    rfl
  · have h0 : s.GetBsrTx s.ruBits = false := by simpa using h
    have h1 : (s.emit (Effect.CancelTFRespIfNotSent s.GetRuBits)).GetBsrTx
        (s.emit (Effect.CancelTFRespIfNotSent s.GetRuBits)).GetRuBits = false := h0
    simp only [h1, h0]
    rfl

/-- C18 as stated fails: with OBO 3, max-slots 16 and the flag of the station's RU
false, `CancelExpiredEvents` leaves OBO 4294967284 (the subtraction of 15 wraps in
32-bit unsigned arithmetic), not an OBO decreased by 15. -/
theorem C18_residual_decrement_wraps :
    sampleLowObo.m_noSlots = 3 ∧ sampleLowObo.maxTfSlots = 16 ∧
    sampleLowObo.GetBsrTx sampleLowObo.ruBits = false ∧
    sampleLowObo.CancelExpiredEvents.m_noSlots = 4294967284 ∧
    ((sampleLowObo.CancelExpiredEvents.m_noSlots : Int) ≠
      (sampleLowObo.m_noSlots : Int) - ((sampleLowObo.maxTfSlots : Int) - 1)) := by
  refine ⟨by decide, by decide, by decide, by decide, by decide⟩

/-- C18 (amended): when 1 ≤ max-slots ≤ OBO + 1 (OBO a 32-bit unsigned value),
`CancelExpiredEvents` decreases the OBO by exactly max-slots - 1 if the shared flag of
the station's RU is false; it leaves the OBO unchanged if that flag is true; it changes
neither the contention window and its bounds nor any shared flag. -/
theorem C18_residual_decrement (s : StaWifiMac) (h1 : 1 ≤ s.maxTfSlots)
    (h2 : s.maxTfSlots ≤ s.m_noSlots + 1) (h3 : s.m_noSlots < 4294967296) :
    (s.GetBsrTx s.ruBits = false →
      s.CancelExpiredEvents.m_noSlots = s.m_noSlots - (s.maxTfSlots - 1) ∧
      s.CancelExpiredEvents.m_noSlots + (s.maxTfSlots - 1) = s.m_noSlots) ∧
    (s.GetBsrTx s.ruBits = true → s.CancelExpiredEvents.m_noSlots = s.m_noSlots) ∧
    s.CancelExpiredEvents.tfCw = s.tfCw ∧
    s.CancelExpiredEvents.tfCwMin = s.tfCwMin ∧
    s.CancelExpiredEvents.tfCwMax = s.tfCwMax ∧
    (∀ ru, s.CancelExpiredEvents.GetBsrTx ru = s.GetBsrTx ru) := by
  rw [CancelExpiredEvents_eq]
  refine ⟨?_, ?_, rfl, rfl, rfl, fun _ => rfl⟩
  · intro hf
    simp only [hf, if_true]
    have e1 : StaWifiMac.toUint32 ((s.maxTfSlots : Int) - 1) = s.maxTfSlots - 1 := by
      have := toUint32_natCast (s.maxTfSlots - 1) (by omega)
      rw [← this]
      congr 1
      omega
    have e2 : StaWifiMac.toUint32 ((s.m_noSlots : Int) - ((s.maxTfSlots - 1 : Nat) : Int)) =
        s.m_noSlots - (s.maxTfSlots - 1) := by
      have := toUint32_natCast (s.m_noSlots - (s.maxTfSlots - 1)) (by omega)
      rw [← this]
      congr 1
      omega
    rw [e1, e2]
    exact ⟨rfl, by omega⟩
  · intro hf
    simp only [hf]
    rfl

/-- Witness of C18: OBO 20, max-slots 16, flag false: the OBO becomes 5. -/
theorem C18_residual_decrement_witness :
    1 ≤ ({ sampleSta with m_noSlots := 20 } : StaWifiMac).maxTfSlots ∧
    ({ sampleSta with m_noSlots := 20 } : StaWifiMac).GetBsrTx
      ({ sampleSta with m_noSlots := 20 } : StaWifiMac).ruBits = false ∧
    ({ sampleSta with m_noSlots := 20 } : StaWifiMac).CancelExpiredEvents.m_noSlots =
      ({ sampleSta with m_noSlots := 20 } : StaWifiMac).m_noSlots -
        (({ sampleSta with m_noSlots := 20 } : StaWifiMac).maxTfSlots - 1) :=
  ⟨by decide, by decide,
    ((C18_residual_decrement { sampleSta with m_noSlots := 20 } (by decide) (by decide)
      (by decide)).1 (by decide)).1⟩

/-- Reduction to 32 bits of an integer that is a 32-bit unsigned value already. -/
theorem toUint32_of_range (x : Int) (h0 : 0 ≤ x) (h1 : x < 4294967296) :
    ((StaWifiMac.toUint32 x : Nat) : Int) = x := by
  unfold StaWifiMac.toUint32
  rw [Int.emod_eq_of_lt h0 h1]
  exact Int.toNat_of_nonneg h0

/-- Reduction to `int` of an integer that fits in 32 signed bits. -/
theorem toInt32_of_range (x : Int) (h0 : -2147483648 ≤ x) (h1 : x < 2147483648) :
    StaWifiMac.toInt32 x = x := by
  unfold StaWifiMac.toInt32
  rw [Int.emod_eq_of_lt (by omega) (by omega)]
  omega

/-- When its guard holds, `UpdateSlots` cancels `m_cancelEvent`, subtracts the elapsed
slots from the OBO and sets the flag. -/
theorem UpdateSlots_of_guard (s : StaWifiMac) (ru : Nat)
    (hg : ru = s.ruBits ∧ s.m_noSlots ≠ 0 ∧ s.m_updatedOnce = false) :
    s.UpdateSlots ru = { s with
      events := cancelIn s.events s.m_cancelEvent,
      m_noSlots := StaWifiMac.toUint32 ((s.m_noSlots : Int) -
        (StaWifiMac.toUint32 (Int.tdiv
          (if Int.tmod (StaWifiMac.toInt32 (s.now - s.m_lastTfRespRecv)) s.slot ≠ 0 then
            StaWifiMac.toInt32 (StaWifiMac.toInt32 (s.now - s.m_lastTfRespRecv) - s.sifs)
           else StaWifiMac.toInt32 (s.now - s.m_lastTfRespRecv)) s.slot) : Int)),
      m_updatedOnce := true } := by
  unfold StaWifiMac.UpdateSlots
  rw [if_pos (show ru = s.GetRuBits ∧ s.m_noSlots ≠ 0 ∧ s.m_updatedOnce = false from hg)]
  rfl

/-- When its guard fails, `UpdateSlots` does nothing. -/
theorem UpdateSlots_of_not_guard (s : StaWifiMac) (ru : Nat)
    (hg : ¬ (ru = s.ruBits ∧ s.m_noSlots ≠ 0 ∧ s.m_updatedOnce = false)) :
    s.UpdateSlots ru = s := by
  unfold StaWifiMac.UpdateSlots
  rw [if_neg (show ¬ (ru = s.GetRuBits ∧ s.m_noSlots ≠ 0 ∧ s.m_updatedOnce = false) from hg)]

/-- A call of `UpdateSlots` that follows one for the same RU, at any later time, does
nothing. -/
theorem UpdateSlots_again (s : StaWifiMac) (ru : Nat) (t : Time) :
    ({ s.UpdateSlots ru with now := t } : StaWifiMac).UpdateSlots ru =
      { s.UpdateSlots ru with now := t } := by
  by_cases hg : ru = s.ruBits ∧ s.m_noSlots ≠ 0 ∧ s.m_updatedOnce = false
  · apply UpdateSlots_of_not_guard
    rw [UpdateSlots_of_guard s ru hg]
    intro hc
    exact Bool.noConfusion hc.2.2
  · apply UpdateSlots_of_not_guard
    rw [UpdateSlots_of_not_guard s ru hg]
    exact hg

/-- Calling `UpdateSlots` for the same RU any number of times equals calling it once. -/
theorem UpdateSlots_iterate (s : StaWifiMac) (ru : Nat) (n : Nat) :
    (fun x : StaWifiMac => x.UpdateSlots ru)^[n + 1] s = s.UpdateSlots ru := by
  induction n with
  | zero => rfl
  | succ k ih =>
    rw [Function.iterate_succ_apply', ih]
    have := UpdateSlots_again s ru (s.UpdateSlots ru).now
    exact this

/-- C19 as stated fails: with OBO 1, a slot of 13 microseconds and e = 26 microseconds
since the last trigger receipt, `UpdateSlots` for the station's RU subtracts
e / slot = 2 in 32-bit unsigned arithmetic and leaves OBO 4294967295, not an OBO
decreased by 2. -/
theorem C19_elapsed_slot_decrement_wraps :
    sampleTwoSlotsLate.ruBits = 0 ∧ sampleTwoSlotsLate.m_noSlots = 1 ∧
    sampleTwoSlotsLate.m_updatedOnce = false ∧ sampleTwoSlotsLate.slot = 13 ∧
    sampleTwoSlotsLate.now - sampleTwoSlotsLate.m_lastTfRespRecv = 26 ∧
    sampleTwoSlotsLate.elapsedSlots = 2 ∧
    (sampleTwoSlotsLate.UpdateSlots 0).m_noSlots = 4294967295 ∧
    (((sampleTwoSlotsLate.UpdateSlots 0).m_noSlots : Int) ≠
      (sampleTwoSlotsLate.m_noSlots : Int) - sampleTwoSlotsLate.elapsedSlots) := by
  refine ⟨by decide, by decide, by decide, by decide, by decide, by decide, by decide,
    by decide⟩

/-- C19 (amended): `UpdateSlots (ru)` changes the station only when `ru` is the
station's own RU, OBO ≠ 0 and no decrement has yet been applied in this cycle.  In that
case, with a positive slot duration, with e = now - lastTriggerReceipt and e - SIFS
fitting in a signed 32-bit integer, and with k = e / slot when e is a multiple of the
slot duration and k = (e - SIFS) / slot (quotient truncated towards zero) otherwise,
provided 0 ≤ k ≤ OBO (OBO a 32-bit unsigned value), the OBO decreases by exactly k and
the 'updated once' flag is set.  A second call for the same RU, at any later time,
changes nothing, so calling it any number of times equals calling it once. -/
theorem C19_elapsed_slot_decrement (s : StaWifiMac) (ru : Nat) (_hslot : 0 < s.slot)
    (he1 : (-2147483648 : Int) ≤ s.now - s.m_lastTfRespRecv)
    (he2 : s.now - s.m_lastTfRespRecv < (2147483648 : Int))
    (hs1 : (-2147483648 : Int) ≤ s.now - s.m_lastTfRespRecv - s.sifs)
    (hs2 : s.now - s.m_lastTfRespRecv - s.sifs < (2147483648 : Int))
    (hk1 : 0 ≤ s.elapsedSlots) (hk2 : s.elapsedSlots ≤ (s.m_noSlots : Int))
    (h3 : s.m_noSlots < 4294967296) :
    (ru = s.ruBits → s.m_noSlots ≠ 0 → s.m_updatedOnce = false →
      ((s.UpdateSlots ru).m_noSlots : Int) = (s.m_noSlots : Int) - s.elapsedSlots ∧
      (s.UpdateSlots ru).m_updatedOnce = true) ∧
    (¬ (ru = s.ruBits ∧ s.m_noSlots ≠ 0 ∧ s.m_updatedOnce = false) →
      s.UpdateSlots ru = s) ∧
    (∀ t : Time, ({ s.UpdateSlots ru with now := t } : StaWifiMac).UpdateSlots ru =
      { s.UpdateSlots ru with now := t }) ∧
    (∀ n : Nat, (fun x : StaWifiMac => x.UpdateSlots ru)^[n + 1] s = s.UpdateSlots ru) := by
  refine ⟨?_, UpdateSlots_of_not_guard s ru, UpdateSlots_again s ru,
    UpdateSlots_iterate s ru⟩
  intro hru hn hu
  rw [UpdateSlots_of_guard s ru ⟨hru, hn, hu⟩]
  refine ⟨?_, rfl⟩
  show ((StaWifiMac.toUint32 _ : Nat) : Int) = _
  rw [toInt32_of_range _ he1 he2, toInt32_of_range _ hs1 hs2]
  have hk : Int.tdiv
      (if Int.tmod (s.now - s.m_lastTfRespRecv) s.slot ≠ 0 then
        s.now - s.m_lastTfRespRecv - s.sifs
       else s.now - s.m_lastTfRespRecv) s.slot = s.elapsedSlots := by
    unfold StaWifiMac.elapsedSlots
    by_cases hm : Int.tmod (s.now - s.m_lastTfRespRecv) s.slot = 0
    · rw [if_neg (by simpa using hm), if_pos hm]
    · rw [if_pos hm, if_neg hm]
  rw [hk, toUint32_of_range s.elapsedSlots hk1 (by omega),
    toUint32_of_range _ (by omega) (by omega)]

/-- Witness of C19: OBO 5, a slot of 13 microseconds, 26 microseconds after the last
trigger receipt: the OBO becomes 3. -/
theorem C19_elapsed_slot_decrement_witness :
    ((({ sampleSta with m_noSlots := 5, now := 26 } : StaWifiMac).UpdateSlots 0).m_noSlots
      : Int) =
      (({ sampleSta with m_noSlots := 5, now := 26 } : StaWifiMac).m_noSlots : Int) -
        ({ sampleSta with m_noSlots := 5, now := 26 } : StaWifiMac).elapsedSlots ∧
    ({ sampleSta with m_noSlots := 5, now := 26 } : StaWifiMac).elapsedSlots = 2 :=
  ⟨((C19_elapsed_slot_decrement { sampleSta with m_noSlots := 5, now := 26 } 0
      (by decide) (by decide) (by decide) (by decide) (by decide) (by decide) (by decide)
      (by decide)).1 (by decide) (by decide) (by decide)).1, by decide⟩

/-- C20 as stated fails: the sample station, waiting for a probe response, receives a
probe response addressed to it that announces another network: `Receive` returns
without any receive-drop notification (the effect log is unchanged).  The same
happens for an association response received while waiting for a probe response. -/
theorem C20_ignored_without_notification :
    sampleProbing.m_state = MacState.WAIT_PROBE_RESP ∧
    StaWifiMac.SsidIsEqual sampleForeignPacket.probeResp.ssid sampleProbing.ssid = false ∧
    (sampleProbing.Receive sampleForeignPacket (sampleHdr WifiMacType.PROBE_RESP) 0).trace =
      sampleProbing.trace ∧
    (emitted sampleProbing (sampleProbing.Receive sampleForeignPacket
      (sampleHdr WifiMacType.PROBE_RESP) 0)).countP Effect.isRxDrop = 0 ∧
    (emitted sampleProbing (sampleProbing.Receive (samplePacket true)
      (sampleHdr WifiMacType.ASSOC_RESP) 0)).countP Effect.isRxDrop = 0 := by
  refine ⟨by decide, by decide, by decide, by decide, by decide⟩

/-- C20 (amended): for every received frame whose addr3 is not the station's address,
`Receive` changes nothing but the effect log (so the association state and all timers
are unchanged, no frame is sent and nothing is forwarded up) in each of these cases,
and it logs exactly one receive-drop notification in the first two and nothing in the
last two: the frame is unicast to another address; the frame is a data frame received
while not Associated, or from another network; the frame is a probe response that
reaches its branch in a state other than WaitProbeResponse or for a different SSID;
the frame is an association response that reaches its branch in a state other than
WaitAssociationResponse. -/
theorem C20_irrelevant_frames (s : StaWifiMac) (packet : Packet) (hdr : WifiMacHeader)
    (rv : Nat) (h3 : hdr.addr3 ≠ s.address) :
    (hdr.addr1 ≠ s.address → hdr.addr1IsGroup = false →
      s.Receive packet hdr rv = s.emit (Effect.NotifyRxDrop packet.uid)) ∧
    ((hdr.type = WifiMacType.DATA ∨ hdr.type = WifiMacType.QOSDATA) →
      (s.m_state ≠ MacState.ASSOCIATED ∨ hdr.addr2 ≠ s.bssid) →
      s.Receive packet hdr rv = s.emit (Effect.NotifyRxDrop packet.uid)) ∧
    (hdr.type = WifiMacType.PROBE_RESP → (hdr.addr1 = s.address ∨ hdr.addr1IsGroup = true) →
      (s.m_state ≠ MacState.WAIT_PROBE_RESP ∨
        StaWifiMac.SsidIsEqual packet.probeResp.ssid s.ssid = false) →
      s.Receive packet hdr rv = s) ∧
    (hdr.type = WifiMacType.ASSOC_RESP → (hdr.addr1 = s.address ∨ hdr.addr1IsGroup = true) →
      s.m_state ≠ MacState.WAIT_ASSOC_RESP →
      s.Receive packet hdr rv = s) ∧
    (s.emit (Effect.NotifyRxDrop packet.uid)).m_state = s.m_state ∧
    (s.emit (Effect.NotifyRxDrop packet.uid)).events = s.events ∧
    (s.emit (Effect.NotifyRxDrop packet.uid)).trace =
      s.trace ++ [Effect.NotifyRxDrop packet.uid] := by
  have hunicast : hdr.addr1 ≠ s.address → hdr.addr1IsGroup = false →
      s.Receive packet hdr rv = s.emit (Effect.NotifyRxDrop packet.uid) := by
    intro h1 hg
    have hnp : ¬ passesAddressFilter s hdr := by
      intro hp
      rcases hp.2 with h | h
      · exact h1 h
      · rw [hg] at h
        exact Bool.noConfusion h
    rw [Receive_of_not_passes s packet hdr rv hnp, if_neg h3]
  refine ⟨hunicast, ?_, ?_, ?_, rfl, rfl, rfl⟩
  · intro ht hcase
    by_cases hp : passesAddressFilter s hdr
    · have hd : s.receiveData packet hdr = s.emit (Effect.NotifyRxDrop packet.uid) := by
        unfold StaWifiMac.receiveData
        by_cases ha : s.m_state = MacState.ASSOCIATED
        · have hb : hdr.addr2 ≠ s.bssid := by
            rcases hcase with h | h
            · exact absurd ha h
            · exact h
          by_cases hds : (hdr.fromDs && !hdr.toDs) = true
          · simp [StaWifiMac.IsAssociated, StaWifiMac.GetBssid, ha, hds, hb]
          · simp [StaWifiMac.IsAssociated, ha, hds]
        · simp [StaWifiMac.IsAssociated, ha]
      rw [Receive_of_passes s packet hdr rv hp]
      rcases ht with ht | ht
      · rw [ht]; exact hd
      · rw [ht]; exact hd
    · have h1 : hdr.addr1 ≠ s.address := fun h => hp ⟨h3, Or.inl h⟩
      have hg : hdr.addr1IsGroup = false := by
        cases hgv : hdr.addr1IsGroup
        · rfl
        · exact absurd ⟨h3, Or.inr hgv⟩ hp
      exact hunicast h1 hg
  · intro ht ha hcase
    rw [Receive_of_passes s packet hdr rv ⟨h3, ha⟩, ht]
    unfold StaWifiMac.receiveProbeResp
    rcases hcase with h | h
    · simp only [if_neg h]
    · by_cases hs : s.m_state = MacState.WAIT_PROBE_RESP
      · simp [hs, h]
      · simp only [if_neg hs]
  · intro ht ha hs
    rw [Receive_of_passes s packet hdr rv ⟨h3, ha⟩, ht]
    unfold StaWifiMac.receiveAssocResp
    simp only [if_neg hs]

/-- Witness of C20: the sample station, not associated, receives a data frame. -/
theorem C20_irrelevant_frames_witness :
    (sampleHdr WifiMacType.DATA).addr3 ≠ sampleSta.address ∧
    sampleSta.m_state ≠ MacState.ASSOCIATED ∧
    sampleSta.Receive (samplePacket false) (sampleHdr WifiMacType.DATA) 0 =
      sampleSta.emit (Effect.NotifyRxDrop (samplePacket false).uid) :=
  ⟨by decide, by decide,
    (C20_irrelevant_frames sampleSta (samplePacket false) (sampleHdr WifiMacType.DATA) 0
      (by decide)).2.1 (Or.inl rfl) (Or.inl (by decide))⟩

theorem notAfter_iff (e e' : Event) :
    e.notAfter e' = true ↔ e.ts < e'.ts ∨ (e.ts = e'.ts ∧ e.uid ≤ e'.uid) := by
  unfold Event.notAfter
  simp

theorem notAfter_refl (e : Event) : e.notAfter e = true := by
  rw [notAfter_iff]
  exact Or.inr ⟨rfl, le_refl _⟩

theorem notAfter_total (e e' : Event) (h : ¬ e.notAfter e' = true) : e'.notAfter e = true := by
  rw [notAfter_iff] at h ⊢
  push_neg at h
  rcases lt_trichotomy e.ts e'.ts with h1 | h1 | h1
  · exact absurd h1 (not_lt.mpr h.1)
  · exact Or.inr ⟨h1.symm, le_of_lt (h.2 h1)⟩
  · exact Or.inl h1

theorem notAfter_trans (a b c : Event) (h1 : a.notAfter b = true) (h2 : b.notAfter c = true) :
    a.notAfter c = true := by
  rw [notAfter_iff] at h1 h2 ⊢
  rcases h1 with h1 | ⟨h1, h1'⟩
  · rcases h2 with h2 | ⟨h2, _⟩
    · exact Or.inl (lt_trans h1 h2)
    · exact Or.inl (h2 ▸ h1)
  · rcases h2 with h2 | ⟨h2, h2'⟩
    · exact Or.inl (h1 ▸ h2)
    · exact Or.inr ⟨h1.trans h2, le_trans h1' h2'⟩

/-- The event the simulator runs next is pending and no pending event is before it. -/
theorem earliest_some (l : List (Nat × Event)) (x : Nat × Event) (h : earliest l = some x) :
    x ∈ l ∧ ∀ y ∈ l, x.2.notAfter y.2 = true := by
  induction l generalizing x with
  | nil => simp [earliest] at h
  | cons a rest ih =>
    unfold earliest at h
    cases hr : earliest rest with
    | none =>
      rw [hr] at h
      simp only [Option.some.injEq] at h
      subst h
      have hnil : rest = [] := by
        cases rest with
        | nil => rfl
        | cons b r2 =>
          unfold earliest at hr
          cases h2 : earliest r2 <;> rw [h2] at hr
          · simp at hr
          · simp only at hr
            split at hr <;> simp at hr
      subst hnil
      refine ⟨List.mem_cons_self _ _, ?_⟩
      intro y hy
      simp only [List.mem_singleton] at hy
      subst hy
      exact notAfter_refl _
    | some y =>
      rw [hr] at h
      simp only at h
      obtain ⟨hy1, hy2⟩ := ih y hr
      by_cases hc : a.2.notAfter y.2 = true
      · rw [if_pos hc] at h
        simp only [Option.some.injEq] at h
        subst h
        refine ⟨List.mem_cons_self _ _, ?_⟩
        intro z hz
        rcases List.mem_cons.mp hz with hz | hz
        · subst hz; exact notAfter_refl _
        · exact notAfter_trans _ _ _ hc (hy2 z hz)
      · rw [if_neg hc] at h
        simp only [Option.some.injEq] at h
        subst h
        refine ⟨List.mem_cons_of_mem _ hy1, ?_⟩
        intro z hz
        rcases List.mem_cons.mp hz with hz | hz
        · subst hz; exact notAfter_total _ _ hc
        · exact hy2 z hz

/-- Membership in the list of pending events of the stations. -/
theorem mem_pendingFrom (l : List StaWifiMac) (k i : Nat) (e : Event) :
    (i, e) ∈ pendingFrom k l ↔ k ≤ i ∧ ∃ s, l[i - k]? = some s ∧ e ∈ s.events := by
  induction l generalizing k with
  | nil => simp [pendingFrom]
  | cons a rest ih =>
    unfold pendingFrom
    rw [List.mem_append, ih]
    constructor
    · rintro (h | ⟨hk, s, hs, he⟩)
      · simp only [List.mem_map, Prod.mk.injEq] at h
        obtain ⟨e', he', hi, hee⟩ := h
        subst hi; subst hee
        exact ⟨le_refl _, a, by simp, he'⟩
      · refine ⟨by omega, s, ?_, he⟩
        have : i - k = (i - (k + 1)) + 1 := by omega
        rw [this]
        simpa using hs
    · rintro ⟨hk, s, hs, he⟩
      by_cases hik : i = k
      · subst hik
        simp only [Nat.sub_self, List.getElem?_cons_zero, Option.some.injEq] at hs
        subst hs
        exact Or.inl (List.mem_map.mpr ⟨e, he, rfl⟩)
      · right
        refine ⟨by omega, s, ?_, he⟩
        have : i - k = (i - (k + 1)) + 1 := by omega
        rw [this] at hs
        simpa using hs
/-- Membership in an event list from which the events of one registration number were
removed. -/
theorem mem_rm (E : List Event) (u : Nat) (x : Event) :
    x ∈ E.filter (fun y => y.uid != u) ↔ x ∈ E ∧ x.uid ≠ u := by
  simp [List.mem_filter]

/-- Two pending events of a station with the same registration number are the same. -/
theorem eq_of_uid_eq {E : List Event} (hnd : (E.map Event.uid).Nodup) {a b : Event}
    (ha : a ∈ E) (hb : b ∈ E) (h : a.uid = b.uid) : a = b :=
  List.inj_on_of_nodup_map hnd ha hb h

/-- Removing the fired event leaves every pending event with another callback. -/
theorem mem_rm_of_cb_ne {E : List Event} (hnd : (E.map Event.uid).Nodup) {e x : Event}
    (he : e ∈ E) (hx : x ∈ E) (hne : x.cb ≠ e.cb) :
    x ∈ E.filter (fun y => y.uid != e.uid) := by
  rw [mem_rm]
  refine ⟨hx, fun hu => hne ?_⟩
  rw [eq_of_uid_eq hnd hx he hu]

/-- The world after the simulator fired the pending event `e` of station `i`. -/
theorem World_fire_eq (w : World) (i : Nat) (e : Event) (s : StaWifiMac)
    (hs : w.stas[i]? = some s) :
    w.fire i e =
      { shared := ((s.withShared w.shared).Fire e).shared,
        stas := w.stas.set i ((s.withShared w.shared).Fire e),
        log := w.log ++ [(i, e)] } := by
  simp only [World.fire, World.act, hs]

/-- The candidate transmissions that ran, after one more event fired. -/
theorem transmissions_append (w w2 : World) (i : Nat) (e : Event)
    (hl : w2.log = w.log ++ [(i, e)]) (k : Nat) :
    w2.transmissions k =
      w.transmissions k ++ (if k = i ∧ e.cb.isTx = true then [e] else []) := by
  unfold World.transmissions
  rw [hl, List.filter_append, List.map_append]
  congr 1
  by_cases hc : k = i ∧ e.cb.isTx = true
  · rw [if_pos hc]
    simp [List.filter, hc.1, hc.2]
  · rw [if_neg hc]
    have : (decide (i = k) && e.cb.isTx) = false := by
      by_cases hik : i = k
      · have : e.cb.isTx = false := by
          cases hx : e.cb.isTx
          · rfl
          · exact absurd ⟨hik.symm, hx⟩ hc
        simp [this]
      · simp [hik]
    simp [List.filter, this]

/-- The cancel-checks that ran, after one more event fired. -/
theorem checks_append (w w2 : World) (i : Nat) (e : Event)
    (hl : w2.log = w.log ++ [(i, e)]) (k : Nat) :
    w2.checks k =
      w.checks k ++ (if k = i ∧ e.cb.isCheck = true then [e] else []) := by
  unfold World.checks
  rw [hl, List.filter_append, List.map_append]
  congr 1
  by_cases hc : k = i ∧ e.cb.isCheck = true
  · rw [if_pos hc]
    simp [List.filter, hc.1, hc.2]
  · rw [if_neg hc]
    have : (decide (i = k) && e.cb.isCheck) = false := by
      by_cases hik : i = k
      · have : e.cb.isCheck = false := by
          cases hx : e.cb.isCheck
          · rfl
          · exact absurd ⟨hik.symm, hx⟩ hc
        simp [this]
      · simp [hik]
    simp [List.filter, this]

/-- An event that is not after another one is due no later. -/
theorem ts_le_of_notAfter {e y : Event} (h : e.notAfter y = true) : e.ts ≤ y.ts := by
  rw [notAfter_iff] at h
  rcases h with h | ⟨h, _⟩
  · exact le_of_lt h
  · exact le_of_eq h

theorem World_step_length (w : World) : w.step.stas.length = w.stas.length := by
  unfold World.step
  cases hE : earliest (pendingFrom 0 w.stas) with
  | none => rfl
  | some x =>
    show (w.fire x.1 x.2).stas.length = _
    unfold World.fire World.act
    cases hs : w.stas[x.1]? <;> simp

/-- No flag is set in a shared part whose flags are all false. -/
theorem Shared_GetBsrTx_clear (t : Time) (n ru : Nat) :
    (⟨t, n, false, false, false, false, false, false, false, false, false⟩ :
      Shared).GetBsrTx ru = false := by
  unfold Shared.GetBsrTx
  split_ifs <;> rfl
theorem World_act_eq (w : World) (i : Nat) (f : StaWifiMac → StaWifiMac) (s : StaWifiMac)
    (hs : w.stas[i]? = some s) :
    w.act i f =
      { w with
        shared := (f (s.withShared w.shared)).shared,
        stas := w.stas.set i (f (s.withShared w.shared)) } := by
  simp only [World.act, hs]

theorem obo_time_lt (a b : Nat) (slot : Time) (h : a < b) (hs : 2 ≤ slot) (now : Time) :
    now + (a : Int) * slot + 2 ≤ now + (b : Int) * slot := by
  have h1 : ((a : Int) + 1) * slot ≤ (b : Int) * slot :=
    mul_le_mul_of_nonneg_right (by exact_mod_cast h) (by linarith)
  have h2 : ((a : Int) + 1) * slot = (a : Int) * slot + slot := by ring
  linarith

/-- A beacon for the station's network (or any network when the configured name is the
wildcard) that carries one of the station's BSS membership selectors, if it has any, is
accepted by a station that is neither waiting for an association response nor
associated. -/
theorem goodBeacon_of_valid (s : StaWifiMac) (beacon : MgtProbeResponseHeader)
    (hdr : WifiMacHeader)
    (hs : s.m_state ≠ MacState.WAIT_ASSOC_RESP ∧ s.m_state ≠ MacState.ASSOCIATED)
    (hssid : (StaWifiMac.SsidIsBroadcast s.ssid ||
      StaWifiMac.SsidIsEqual beacon.ssid s.ssid) = true)
    (hsel : s.bssMembershipSelectors = [] ∨ ∃ selector ∈ s.bssMembershipSelectors,
      StaWifiMac.IsBssMembershipSelectorRate beacon.rates selector = true) :
    s.goodBeacon beacon hdr = true := by
  unfold StaWifiMac.goodBeacon
  have h1 : (s.IsWaitAssocResp || s.IsAssociated) = false := by
    simp [StaWifiMac.IsWaitAssocResp, StaWifiMac.IsAssociated, hs.1, hs.2]
  have h2 : ¬ (s.bssMembershipSelectors.length > 0 ∧
      (s.bssMembershipSelectors.any fun selector =>
        StaWifiMac.IsBssMembershipSelectorRate beacon.rates selector) = false) := by
    rintro ⟨hlen, hany⟩
    rcases hsel with hnil | ⟨selector, hmem, hrate⟩
    · rw [hnil] at hlen
      exact absurd hlen (by simp)
    · have : (s.bssMembershipSelectors.any fun selector =>
          StaWifiMac.IsBssMembershipSelectorRate beacon.rates selector) = true :=
        List.any_eq_true.mpr ⟨selector, hmem, hrate⟩
      rw [this] at hany
      exact Bool.noConfusion hany
  simp only [h1, Bool.false_eq_true, false_and, if_false, if_neg h2]
  exact hssid

/-- The beacon branch for an accepted beacon in BeaconMissed. -/
theorem receiveBeacon_of_missed (s : StaWifiMac) (packet : Packet) (hdr : WifiMacHeader)
    (hs : s.m_state = MacState.BEACON_MISSED) (hg : s.goodBeacon packet.beacon hdr = true) :
    s.receiveBeacon packet hdr =
      ((s.beaconAccept packet.beacon hdr).SetState
        MacState.WAIT_ASSOC_RESP).SendAssociationRequest := by
  unfold StaWifiMac.receiveBeacon
  have hst : (s.beaconAccept packet.beacon hdr).m_state = MacState.BEACON_MISSED := by
    rw [beaconAccept_eq, RestartBeaconWatchdog_eq]
    exact hs
  simp only [hg, if_true, true_and, hst]

/-- C21: a beacon that reaches the beacon branch of `Receive`.  In BeaconMissed, a beacon
for the station's network (or for any network when the configured name is the
wildcard) that carries at least one of the station's BSS membership selectors, if the
station has any, makes the station adopt the sender (addr3) as BSSID, move to
WaitAssociationResponse and log exactly one association request, to that BSSID, and no
other call; in a station with well-formed timer bookkeeping exactly one association
retry event is then pending, at `now + m_assocRequestTimeout`, named by the association
handle.  In every other state a beacon logs nothing and leaves the association state
unchanged.  In WaitAssociationResponse and in Associated a beacon whose sender is not
the current BSSID leaves the whole station unchanged, in particular the watchdog
deadline and the BSSID. -/
theorem C21_beacon_substitutes_probe_response (s : StaWifiMac) (packet : Packet)
    (hdr : WifiMacHeader) (rv : Nat) (ht : hdr.type = WifiMacType.BEACON)
    (hp : passesAddressFilter s hdr) :
    (s.m_state = MacState.BEACON_MISSED →
      (StaWifiMac.SsidIsBroadcast s.ssid ||
        StaWifiMac.SsidIsEqual packet.beacon.ssid s.ssid) = true →
      (s.bssMembershipSelectors = [] ∨ ∃ selector ∈ s.bssMembershipSelectors,
        StaWifiMac.IsBssMembershipSelectorRate packet.beacon.rates selector = true) →
      (s.Receive packet hdr rv).bssid = hdr.addr3 ∧
      (s.Receive packet hdr rv).m_state = MacState.WAIT_ASSOC_RESP ∧
      (s.Receive packet hdr rv).trace = s.trace ++ [Effect.QueueAssocRequest hdr.addr3] ∧
      (s.TimersWF →
        ∃ u, (s.Receive packet hdr rv).pending Callback.AssocRequestTimeout =
            [⟨u, s.now + s.m_assocRequestTimeout, Callback.AssocRequestTimeout⟩] ∧
          (s.Receive packet hdr rv).m_assocRequestEvent = some u)) ∧
    (s.m_state ≠ MacState.BEACON_MISSED →
      (s.Receive packet hdr rv).m_state = s.m_state ∧
      (s.Receive packet hdr rv).trace = s.trace) ∧
    ((s.m_state = MacState.WAIT_ASSOC_RESP ∨ s.m_state = MacState.ASSOCIATED) →
      hdr.addr3 ≠ s.bssid →
      s.Receive packet hdr rv = s) := by
  rw [Receive_of_passes s packet hdr rv hp, ht]
  refine ⟨?_, ?_, ?_⟩
  · intro hs hssid hsel
    have hg := goodBeacon_of_valid s packet.beacon hdr
      (by rw [hs]; exact ⟨by decide, by decide⟩) hssid hsel
    have hr : s.receiveBeacon packet hdr =
        ((s.beaconAccept packet.beacon hdr).SetState
          MacState.WAIT_ASSOC_RESP).SendAssociationRequest :=
      receiveBeacon_of_missed s packet hdr hs hg
    have hba := beaconAccept_eq s packet.beacon hdr
    have hrw := RestartBeaconWatchdog_eq s (s.watchdogDelay packet.beacon.beaconIntervalUs)
    have hst : setStateEffects (s.beaconAccept packet.beacon hdr)
        MacState.WAIT_ASSOC_RESP = [] := by
      unfold setStateEffects
      rw [hba, hrw]
      simp [hs]
    show (s.receiveBeacon packet hdr).bssid = _ ∧ _
    rw [hr, SendAssociationRequest_eq, SetState_eq, hst]
    refine ⟨?_, rfl, ?_, ?_⟩
    · rw [hba]
    · rw [hba, hrw]
      simp
    · intro hwf
      have hwfp : (s.beaconAccept packet.beacon hdr).TimersWF :=
        TimersWF_of_Extends (Extends_beaconAccept s _ _) hwf
      have h2 := pending_assoc_after_cancel _ hwfp
      refine ⟨(s.beaconAccept packet.beacon hdr).nextUid, ?_, rfl⟩
      simp only [StaWifiMac.pending, List.filter_append]
      rw [h2]
      have e1 : (s.beaconAccept packet.beacon hdr).now = s.now := by rw [hba, hrw]
      have e2 : (s.beaconAccept packet.beacon hdr).m_assocRequestTimeout =
          s.m_assocRequestTimeout := by rw [hba, hrw]
      simp [e1, e2]
  · intro hs
    obtain ⟨h1, h2, _⟩ := receiveBeacon_of_not_missed s packet hdr hs
    exact ⟨h1, h2⟩
  · intro hs hne
    show s.receiveBeacon packet hdr = s
    have hg : s.goodBeacon packet.beacon hdr = false := by
      unfold StaWifiMac.goodBeacon
      have h1 : (s.IsWaitAssocResp || s.IsAssociated) = true := by
        rcases hs with h | h <;> simp [StaWifiMac.IsWaitAssocResp, StaWifiMac.IsAssociated, h]
      simp [h1, StaWifiMac.GetBssid, hne]
    unfold StaWifiMac.receiveBeacon
    simp [hg]

/-- Witness of C21: the sample station with active probing disabled, in BeaconMissed,
receives a beacon of the sample coordinator. -/
theorem C21_beacon_substitutes_probe_response_witness :
    (sampleHdr WifiMacType.BEACON).type = WifiMacType.BEACON ∧
    passesAddressFilter samplePassive (sampleHdr WifiMacType.BEACON) ∧
    samplePassive.m_state = MacState.BEACON_MISSED ∧
    (samplePassive.Receive (samplePacket false) (sampleHdr WifiMacType.BEACON) 0).m_state =
      MacState.WAIT_ASSOC_RESP ∧
    (samplePassive.Receive (samplePacket false) (sampleHdr WifiMacType.BEACON) 0).bssid = 2 :=
  ⟨rfl, by decide, by decide,
    ((C21_beacon_substitutes_probe_response samplePassive (samplePacket false)
      (sampleHdr WifiMacType.BEACON) 0 rfl (by decide)).1 (by decide) (by decide)
      (Or.inl rfl)).2.1,
    ((C21_beacon_substitutes_probe_response samplePassive (samplePacket false)
      (sampleHdr WifiMacType.BEACON) 0 rfl (by decide)).1 (by decide) (by decide)
      (Or.inl rfl)).1⟩

/-- Reading a flag is reading the list of flags; outside the nine RUs the answer is
`false`. -/
theorem GetBsrTx_eq_getD (s : StaWifiMac) (ru : Nat) :
    s.GetBsrTx ru = s.bsrTx.getD ru false := by
  unfold StaWifiMac.GetBsrTx StaWifiMac.bsrTx
  rcases ru with _ | _ | _ | _ | _ | _ | _ | _ | _ | n
  all_goals rfl

/-- Records with the same flags answer `GetBsrTx` alike. -/
theorem GetBsrTx_congr {s s' : StaWifiMac} (h : s'.bsrTx = s.bsrTx) (ru : Nat) :
    s'.GetBsrTx ru = s.GetBsrTx ru := by
  rw [GetBsrTx_eq_getD, GetBsrTx_eq_getD, h]

theorem bsrTx_SetState (s : StaWifiMac) (value : MacState) :
    (s.SetState value).bsrTx = s.bsrTx := by
  rw [SetState_eq]; rfl

theorem bsrTx_SendProbeRequest (s : StaWifiMac) : s.SendProbeRequest.bsrTx = s.bsrTx := by
  rw [SendProbeRequest_eq]; rfl

theorem bsrTx_SendAssociationRequest (s : StaWifiMac) :
    s.SendAssociationRequest.bsrTx = s.bsrTx := by
  rw [SendAssociationRequest_eq]; rfl

theorem bsrTx_RestartBeaconWatchdog (s : StaWifiMac) (delay : Time) :
    (s.RestartBeaconWatchdog delay).bsrTx = s.bsrTx := by
  rw [RestartBeaconWatchdog_eq]; rfl

theorem bsrTx_TryToEnsureAssociated (s : StaWifiMac) :
    s.TryToEnsureAssociated.bsrTx = s.bsrTx := by
  rw [TryToEnsureAssociated_eq]
  split_ifs <;> rfl

theorem bsrTx_ProbeRequestTimeout (s : StaWifiMac) :
    s.ProbeRequestTimeout.bsrTx = s.bsrTx := by
  unfold StaWifiMac.ProbeRequestTimeout
  rw [bsrTx_SendProbeRequest, bsrTx_SetState]

theorem bsrTx_AssocRequestTimeout (s : StaWifiMac) :
    s.AssocRequestTimeout.bsrTx = s.bsrTx := by
  unfold StaWifiMac.AssocRequestTimeout
  rw [bsrTx_SendAssociationRequest, bsrTx_SetState]

theorem bsrTx_MissedBeacons (s : StaWifiMac) : s.MissedBeacons.bsrTx = s.bsrTx := by
  by_cases h : s.now < s.m_beaconWatchdogEnd
  · rw [MissedBeacons_eq_of_lt s h]; rfl
  · rw [MissedBeacons_eq_of_le s (not_lt.mp h), bsrTx_TryToEnsureAssociated, bsrTx_SetState]

theorem bsrTx_CheckAndCancel (s : StaWifiMac) (ru : Nat) :
    (s.CheckAndCancel ru).bsrTx = s.bsrTx := by
  unfold StaWifiMac.CheckAndCancel
  split_ifs <;> rfl

theorem bsrTx_CancelExpiredEvents (s : StaWifiMac) : s.CancelExpiredEvents.bsrTx = s.bsrTx := by
  rw [CancelExpiredEvents_eq]
  split_ifs <;> rfl

theorem bsrTx_UpdateSlots (s : StaWifiMac) (ru : Nat) : (s.UpdateSlots ru).bsrTx = s.bsrTx := by
  unfold StaWifiMac.UpdateSlots
  split_ifs <;> rfl

/-- `UpdateBsrTx` outside the nine RUs does nothing. -/
theorem UpdateBsrTx_of_ge (s : StaWifiMac) (ru : Nat) (h : 9 ≤ ru) : s.UpdateBsrTx ru = s := by
  obtain ⟨n, hn⟩ : ∃ n, ru = n + 9 := ⟨ru - 9, by omega⟩
  rw [hn]
  rfl

/-- `UpdateBsrTx` on one of the nine RUs sets that entry of the flag list. -/
theorem bsrTx_UpdateBsrTx (s : StaWifiMac) (ru : Nat) (h : ru ≤ 8) :
    (s.UpdateBsrTx ru).bsrTx = s.bsrTx.set ru true := by
  interval_cases ru <;> rfl

/-- The flag list has nine entries. -/
theorem bsrTx_length (s : StaWifiMac) : s.bsrTx.length = 9 := rfl

/-- `UpdateBsrTx` sets the flag of its RU and leaves the other flags. -/
theorem GetBsrTx_UpdateBsrTx (s : StaWifiMac) (ru r : Nat) (h : ru ≤ 8) :
    (s.UpdateBsrTx ru).GetBsrTx r = if r = ru then true else s.GetBsrTx r := by
  rw [GetBsrTx_eq_getD, GetBsrTx_eq_getD, bsrTx_UpdateBsrTx s ru h,
    List.getD_eq_getElem?_getD, List.getD_eq_getElem?_getD, List.getElem?_set]
  have hl : ru < s.bsrTx.length := by rw [bsrTx_length]; omega
  by_cases hr : r = ru
  · rw [if_pos hr.symm, if_pos hl, if_pos hr]; rfl
  · rw [if_neg (fun e => hr e.symm), if_neg hr]

/-- `UpdateBsrTx` never clears a flag. -/
theorem GetBsrTx_UpdateBsrTx_mono (s : StaWifiMac) (ru r : Nat) (h : s.GetBsrTx r = true) :
    (s.UpdateBsrTx ru).GetBsrTx r = true := by
  by_cases hru : ru ≤ 8
  · rw [GetBsrTx_UpdateBsrTx s ru r hru]
    split_ifs
    · rfl
    · exact h
  · rw [UpdateBsrTx_of_ge s ru (by omega)]
    exact h
/-- No callback clears a flag. -/
theorem GetBsrTx_Dispatch_mono (s : StaWifiMac) (cb : Callback) (r : Nat)
    (h : s.GetBsrTx r = true) : (s.Dispatch cb).GetBsrTx r = true := by
  cases cb with
  | TryToEnsureAssociated => exact (GetBsrTx_congr (bsrTx_TryToEnsureAssociated s) r).trans h
  | ProbeRequestTimeout => exact (GetBsrTx_congr (bsrTx_ProbeRequestTimeout s) r).trans h
  | AssocRequestTimeout => exact (GetBsrTx_congr (bsrTx_AssocRequestTimeout s) r).trans h
  | MissedBeacons => exact (GetBsrTx_congr (bsrTx_MissedBeacons s) r).trans h
  | StopMuMode => exact h
  | CheckAndCancel ru => exact (GetBsrTx_congr (bsrTx_CheckAndCancel s ru) r).trans h
  | SendTriggerFrameResp ru => exact h
  | CancelExpiredEvents => exact (GetBsrTx_congr (bsrTx_CancelExpiredEvents s) r).trans h
  | UpdateBsrTx ru => exact GetBsrTx_UpdateBsrTx_mono s ru r h
  | NotifyMaybeCcaBusyStartNow ru d => exact h

/-- Firing an event clears no flag. -/
theorem GetBsrTx_Fire_mono (s : StaWifiMac) (e : Event) (r : Nat)
    (h : s.GetBsrTx r = true) : (s.Fire e).GetBsrTx r = true :=
  GetBsrTx_Dispatch_mono _ e.cb r h

theorem bsrTx_tfBeaconLoop (l : List (Mac48Address × Nat)) (s : StaWifiMac) :
    (s.tfBeaconLoop l).bsrTx = s.bsrTx := by
  induction l generalizing s with
  | nil => rfl
  | cons x rest ih =>
    obtain ⟨a, ru⟩ := x
    unfold StaWifiMac.tfBeaconLoop
    rw [ih]
    split_ifs <;> rfl

theorem bsrTx_tfBroadcastEntry (s : StaWifiMac) : s.tfBroadcastEntry.bsrTx = s.bsrTx := by
  unfold StaWifiMac.tfBroadcastEntry
  by_cases h : s.m_noSlots < s.maxTfSlots
  · simp only [h, if_true]; rfl
  · simp only [h, if_false]; rfl

theorem bsrTx_tfAllocLoop (ulFlag : Nat) (l : List (Mac48Address × Nat)) (s : StaWifiMac) :
    (s.tfAllocLoop ulFlag l).1.bsrTx = s.bsrTx := by
  induction l generalizing s with
  | nil => rfl
  | cons x rest ih =>
    obtain ⟨a, ru⟩ := x
    unfold StaWifiMac.tfAllocLoop
    by_cases h : a = s.GetAddress ∧ ulFlag ≠ 0
    · rw [if_pos h]; rfl
    · rw [if_neg h, ih]
      split_ifs
      · exact bsrTx_tfBroadcastEntry s
      · rfl

theorem bsrTx_receiveData (s : StaWifiMac) (packet : Packet) (hdr : WifiMacHeader) :
    (s.receiveData packet hdr).bsrTx = s.bsrTx := by
  unfold StaWifiMac.receiveData
  split_ifs <;> rfl

theorem bsrTx_receiveBeacon (s : StaWifiMac) (packet : Packet) (hdr : WifiMacHeader) :
    (s.receiveBeacon packet hdr).bsrTx = s.bsrTx := by
  have hb : (s.beaconAccept packet.beacon hdr).bsrTx = s.bsrTx := by
    rw [beaconAccept_eq, RestartBeaconWatchdog_eq]; rfl
  unfold StaWifiMac.receiveBeacon
  by_cases hg : s.goodBeacon packet.beacon hdr = true
  · simp only [hg, if_true, true_and]
    split_ifs
    · rw [bsrTx_SendAssociationRequest, bsrTx_SetState, hb]
    · exact hb
  · simp only [hg, if_false, false_and]
    rfl

theorem bsrTx_erpUpdate (s : StaWifiMac) (rates : SupportedRates) :
    (s.erpUpdate rates).bsrTx = s.bsrTx := by
  rw [erpUpdate_eq]; rfl

theorem bsrTx_receiveProbeResp (s : StaWifiMac) (packet : Packet) (hdr : WifiMacHeader) :
    (s.receiveProbeResp packet hdr).bsrTx = s.bsrTx := by
  by_cases hs : s.m_state = MacState.WAIT_PROBE_RESP
  · by_cases h1 : (!StaWifiMac.SsidIsEqual packet.probeResp.ssid s.ssid) = true
    · unfold StaWifiMac.receiveProbeResp
      simp only [if_pos hs, if_pos h1]
    · by_cases h2 : (s.bssMembershipSelectors.any fun selector =>
          !(StaWifiMac.IsSupportedRate packet.probeResp.rates selector)) = true
      · unfold StaWifiMac.receiveProbeResp
        simp only [if_pos hs, if_neg h1, if_pos h2]
      · have hr : s.receiveProbeResp packet hdr =
            ((s.probeRespAccept packet hdr).SetState
              MacState.WAIT_ASSOC_RESP).SendAssociationRequest := by
          unfold StaWifiMac.receiveProbeResp StaWifiMac.probeRespAccept
          simp only [if_pos hs, if_neg h1, if_neg h2]
        rw [hr, bsrTx_SendAssociationRequest, bsrTx_SetState, probeRespAccept_eq]
        rfl
  · unfold StaWifiMac.receiveProbeResp
    rw [if_neg hs]

theorem bsrTx_receiveAssocResp (s : StaWifiMac) (packet : Packet) (hdr : WifiMacHeader) :
    (s.receiveAssocResp packet hdr).bsrTx = s.bsrTx := by
  by_cases hs : s.m_state = MacState.WAIT_ASSOC_RESP
  · rw [receiveAssocResp_eq s packet hdr hs]
    split_ifs <;> rfl
  · unfold StaWifiMac.receiveAssocResp
    rw [if_neg hs]

theorem bsrTx_Enqueue (s : StaWifiMac) (packet : Packet) (dest : Mac48Address) :
    (s.Enqueue packet dest).bsrTx = s.bsrTx := by
  unfold StaWifiMac.Enqueue
  by_cases ha : (!s.IsAssociated) = true
  · rw [if_pos ha, bsrTx_TryToEnsureAssociated]; rfl
  · rw [if_neg ha]
    simp only []
    split_ifs <;> rfl

theorem bsrTx_SetActiveProbing (s : StaWifiMac) (enable : Bool) :
    (s.SetActiveProbing enable).bsrTx = s.bsrTx := by
  unfold StaWifiMac.SetActiveProbing
  cases enable <;> rfl

/-- A frame other than a trigger that reaches the trigger branch leaves the flags as
they are. -/
theorem bsrTx_Receive (s : StaWifiMac) (packet : Packet) (hdr : WifiMacHeader) (rv : Nat)
    (h : hdr.type = WifiMacType.TF → ¬ passesAddressFilter s hdr) :
    (s.Receive packet hdr rv).bsrTx = s.bsrTx := by
  by_cases hp : passesAddressFilter s hdr
  · rw [Receive_of_passes s packet hdr rv hp]
    cases ht : hdr.type with
    | TF => exact absurd hp (h ht)
    | DATA => exact bsrTx_receiveData s packet hdr
    | QOSDATA => exact bsrTx_receiveData s packet hdr
    | TF_BEACON =>
      show (StaWifiMac.tfBeaconLoop _ _).bsrTx = _
      rw [bsrTx_tfBeaconLoop]; rfl
    | BEACON => exact bsrTx_receiveBeacon s packet hdr
    | PROBE_RESP => exact bsrTx_receiveProbeResp s packet hdr
    | ASSOC_RESP => exact bsrTx_receiveAssocResp s packet hdr
    | _ => rfl
  · rw [Receive_of_not_passes s packet hdr rv hp]
    split_ifs <;> rfl
/-- The start of the trigger branch is the same on the station as it stands and on the
station with the flags reset. -/
theorem tfStart_ResetBsrTx (s : StaWifiMac) (packet : Packet) (rv : Nat) :
    s.ResetBsrTx.tfStart packet rv = s.tfStart packet rv := by
  rw [tfStart_eq, tfStart_eq]
  rfl

/-- C22: the shared "report transmitted" flags.  After `ResetBsrTx` the flag of every
RU reads false, and a second `ResetBsrTx` changes nothing.  For an RU from 0 to 8
`UpdateBsrTx` makes the flag of that RU read true and leaves the flag of every other RU
as it was; for an RU of 9 or more `UpdateBsrTx` changes nothing and the flag reads
false.  A flag that reads true still reads true after every reaction of the station
(the clock advancing, any event firing, any frame received, a packet enqueued, the
start of active association, a change of active probing) other than the receipt of a
trigger that reaches the trigger branch, and after `UpdateSlots`.  A trigger that
reaches the trigger branch is processed as it would be on the station with all flags
reset, and every flag reads false afterwards. -/
theorem C22_shared_flags (s : StaWifiMac) :
    (∀ ru, s.ResetBsrTx.GetBsrTx ru = false) ∧
    s.ResetBsrTx.ResetBsrTx = s.ResetBsrTx ∧
    (∀ ru, ru ≤ 8 → (s.UpdateBsrTx ru).GetBsrTx ru = true ∧
      ∀ r, r ≠ ru → (s.UpdateBsrTx ru).GetBsrTx r = s.GetBsrTx r) ∧
    (∀ ru, 9 ≤ ru → s.UpdateBsrTx ru = s ∧ s.GetBsrTx ru = false) ∧
    (∀ st : Stimulus,
      (∀ packet hdr rv, st = Stimulus.receive packet hdr rv → hdr.type = WifiMacType.TF →
        ¬ passesAddressFilter s hdr) →
      ∀ r, s.GetBsrTx r = true → (step s st).GetBsrTx r = true) ∧
    (∀ ru r, s.GetBsrTx r = true → (s.UpdateSlots ru).GetBsrTx r = true) ∧
    (∀ packet hdr rv, hdr.type = WifiMacType.TF → passesAddressFilter s hdr →
      s.Receive packet hdr rv = s.ResetBsrTx.Receive packet hdr rv ∧
      ∀ ru, (s.Receive packet hdr rv).GetBsrTx ru = false) := by
  have hreset : ∀ ru, s.ResetBsrTx.GetBsrTx ru = false := by
    intro ru
    rw [GetBsrTx_eq_getD]
    show [false, false, false, false, false, false, false, false, false].getD ru false = false
    rcases ru with _ | _ | _ | _ | _ | _ | _ | _ | _ | n <;> rfl
  refine ⟨hreset, rfl, ?_, ?_, ?_, ?_, ?_⟩
  · intro ru hru
    refine ⟨?_, ?_⟩
    · rw [GetBsrTx_UpdateBsrTx s ru ru hru, if_pos rfl]
    · intro r hr
      rw [GetBsrTx_UpdateBsrTx s ru r hru, if_neg hr]
  · intro ru hru
    refine ⟨UpdateBsrTx_of_ge s ru hru, ?_⟩
    rw [GetBsrTx_eq_getD]
    exact List.getD_eq_default _ _ (by rw [bsrTx_length]; exact hru)
  · intro st hst r hr
    cases st with
    | advance t => exact hr
    | fire e => exact GetBsrTx_Fire_mono s e r hr
    | receive packet hdr rv =>
      exact (GetBsrTx_congr (bsrTx_Receive s packet hdr rv (hst packet hdr rv rfl)) r).trans hr
    | enqueue packet dest => exact (GetBsrTx_congr (bsrTx_Enqueue s packet dest) r).trans hr
    | startActiveAssociation =>
      exact (GetBsrTx_congr (bsrTx_TryToEnsureAssociated s) r).trans hr
    | setActiveProbing enable =>
      exact (GetBsrTx_congr (bsrTx_SetActiveProbing s enable) r).trans hr
  · intro ru r hr
    exact (GetBsrTx_congr (bsrTx_UpdateSlots s ru) r).trans hr
  · intro packet hdr rv ht hp
    have hp2 : passesAddressFilter s.ResetBsrTx hdr := hp
    have e1 : s.Receive packet hdr rv = s.ResetBsrTx.Receive packet hdr rv := by
      rw [Receive_of_passes s packet hdr rv hp, Receive_of_passes _ packet hdr rv hp2, ht]
      simp only []
      rw [tfStart_ResetBsrTx]
    refine ⟨e1, ?_⟩
    intro ru
    have hb : (s.Receive packet hdr rv).bsrTx = s.ResetBsrTx.bsrTx := by
      rw [Receive_of_passes s packet hdr rv hp, ht]
      simp only []
      have h2 := bsrTx_tfAllocLoop packet.tf.uplinkFlag packet.tf.ruAllocations
        (s.tfStart packet rv)
      have h3 : (s.tfStart packet rv).bsrTx = s.ResetBsrTx.bsrTx := by
        rw [tfStart_eq]; rfl
      split_ifs
      · exact h2.trans h3
      · exact h2.trans h3
    exact (GetBsrTx_congr hb ru).trans (hreset ru)

/-- When the guard of `UpdateSlots` holds and nothing leaves its 32-bit range, the OBO
decreases by the elapsed slot count. -/
theorem UpdateSlots_sub_elapsed (s : StaWifiMac) (ru : Nat)
    (hg : ru = s.ruBits ∧ s.m_noSlots ≠ 0 ∧ s.m_updatedOnce = false)
    (he1 : (-2147483648 : Int) ≤ s.now - s.m_lastTfRespRecv)
    (he2 : s.now - s.m_lastTfRespRecv < (2147483648 : Int))
    (hs1 : (-2147483648 : Int) ≤ s.now - s.m_lastTfRespRecv - s.sifs)
    (hs2 : s.now - s.m_lastTfRespRecv - s.sifs < (2147483648 : Int))
    (hk1 : 0 ≤ s.elapsedSlots) (hk2 : s.elapsedSlots ≤ (s.m_noSlots : Int))
    (h3 : s.m_noSlots < 4294967296) :
    ((s.UpdateSlots ru).m_noSlots : Int) = (s.m_noSlots : Int) - s.elapsedSlots := by
  rw [UpdateSlots_of_guard s ru hg]
  show ((StaWifiMac.toUint32 _ : Nat) : Int) = _
  rw [toInt32_of_range _ he1 he2, toInt32_of_range _ hs1 hs2]
  have hq : Int.tdiv
      (if Int.tmod (s.now - s.m_lastTfRespRecv) s.slot ≠ 0 then
        s.now - s.m_lastTfRespRecv - s.sifs
       else s.now - s.m_lastTfRespRecv) s.slot = s.elapsedSlots := by
    unfold StaWifiMac.elapsedSlots
    by_cases hm : Int.tmod (s.now - s.m_lastTfRespRecv) s.slot = 0
    · rw [if_neg (not_not.mpr hm), if_pos hm]
    · rw [if_pos hm, if_neg hm]
  rw [hq, toUint32_of_range s.elapsedSlots hk1 (by omega),
    toUint32_of_range _ (by omega) (by omega)]

/-- C25 as stated fails, in both ways it names.  With OBO 2, a slot of 13 microseconds
and 39 microseconds elapsed, `UpdateSlots` subtracts three slots in 32-bit unsigned
arithmetic: the OBO wraps below zero to 4294967295.  With OBO 5, a slot of 13
microseconds, a SIFS of 16 microseconds and 1 microsecond elapsed, the adjusted time is
-15 microseconds, the slot count -1 becomes 4294967295 as an unsigned value, and the
OBO after `UpdateSlots` is 6: one was added to the counter. -/
theorem C25_update_slots_increases_obo :
    (0 < sampleThreeSlotsLate.slot ∧ 0 ≤ sampleThreeSlotsLate.sifs ∧
      0 ≤ sampleThreeSlotsLate.now - sampleThreeSlotsLate.m_lastTfRespRecv ∧
      sampleThreeSlotsLate.m_noSlots = 2 ∧
      (sampleThreeSlotsLate.UpdateSlots 0).m_noSlots = 4294967295 ∧
      ¬ (sampleThreeSlotsLate.UpdateSlots 0).m_noSlots ≤ sampleThreeSlotsLate.m_noSlots) ∧
    (0 < sampleJustAfterTrigger.slot ∧ 0 ≤ sampleJustAfterTrigger.sifs ∧
      0 ≤ sampleJustAfterTrigger.now - sampleJustAfterTrigger.m_lastTfRespRecv ∧
      sampleJustAfterTrigger.m_noSlots = 5 ∧
      (sampleJustAfterTrigger.UpdateSlots 0).m_noSlots = 6 ∧
      ¬ (sampleJustAfterTrigger.UpdateSlots 0).m_noSlots ≤ sampleJustAfterTrigger.m_noSlots) := by
  refine ⟨⟨by decide, by decide, by decide, by decide, by decide, by decide⟩,
    ⟨by decide, by decide, by decide, by decide, by decide, by decide⟩⟩

/-- C25 (amended): `UpdateSlots` does not increase the backoff counter when the elapsed
slot count lies between 0 and the OBO.  For every RU argument, every OBO (a 32-bit
unsigned value), every slot duration > 0, every SIFS ≥ 0 and every elapsed time
e = now - lastTriggerReceipt ≥ 0 such that e and e - SIFS fit in a signed 32-bit integer
and k (e / slot when e is a multiple of the slot duration, (e - SIFS) / slot truncated
towards zero otherwise) satisfies 0 ≤ k ≤ OBO, the OBO after `UpdateSlots` is less than
or equal to the OBO before it. -/
theorem C25_update_slots_never_increases (s : StaWifiMac) (ru : Nat) (_hslot : 0 < s.slot)
    (hsifs : 0 ≤ s.sifs) (he1 : 0 ≤ s.now - s.m_lastTfRespRecv)
    (he2 : s.now - s.m_lastTfRespRecv < (2147483648 : Int))
    (hs1 : (-2147483648 : Int) ≤ s.now - s.m_lastTfRespRecv - s.sifs)
    (hk1 : 0 ≤ s.elapsedSlots) (hk2 : s.elapsedSlots ≤ (s.m_noSlots : Int))
    (h3 : s.m_noSlots < 4294967296) :
    (s.UpdateSlots ru).m_noSlots ≤ s.m_noSlots := by
  by_cases hg : ru = s.ruBits ∧ s.m_noSlots ≠ 0 ∧ s.m_updatedOnce = false
  · have h := UpdateSlots_sub_elapsed s ru hg (by linarith) he2 hs1 (by linarith) hk1 hk2 h3
    omega
  · rw [UpdateSlots_of_not_guard s ru hg]

/-- Witness of C25: OBO 4, a slot of 13 microseconds, 39 microseconds after the last
trigger receipt: the OBO becomes 1. -/
theorem C25_update_slots_never_increases_witness :
    sampleThreeSlotsIn.elapsedSlots = 3 ∧
    (sampleThreeSlotsIn.UpdateSlots 0).m_noSlots = 1 ∧
    (sampleThreeSlotsIn.UpdateSlots 0).m_noSlots ≤ sampleThreeSlotsIn.m_noSlots :=
  ⟨by decide, by decide,
    C25_update_slots_never_increases sampleThreeSlotsIn 0 (by decide) (by decide)
      (by decide) (by decide) (by decide) (by decide) (by decide) (by decide)⟩

/-- What is done for a broadcast allocation entry when the OBO is below max-slots: the
cancel-check, the candidate transmission and the cycle-end check are registered, in
this order. -/
theorem tfBroadcastEntry_of_lt (s : StaWifiMac) (h : s.m_noSlots < s.maxTfSlots) :
    s.tfBroadcastEntry.events = s.events ++
      [⟨s.nextUid, s.now + (s.m_noSlots : Int) * s.slot, Callback.CheckAndCancel s.ruBits⟩,
        ⟨s.nextUid + 1, s.now + (s.m_noSlots : Int) * s.slot,
          Callback.SendTriggerFrameResp s.ruBits⟩,
        ⟨s.nextUid + 2, s.now + ((s.maxTfSlots : Int) * s.slot + s.sifs),
          Callback.CancelExpiredEvents⟩] ∧
    s.tfBroadcastEntry.nextUid = s.nextUid + 3 := by
  unfold StaWifiMac.tfBroadcastEntry
  have h' : ({ s with m_lastTfRespRecv := s.now, m_muModeToStart := true } :
      StaWifiMac).m_noSlots < ({ s with m_lastTfRespRecv := s.now, m_muModeToStart := true } :
      StaWifiMac).maxTfSlots := h
  simp only [if_pos h']
  refine ⟨?_, rfl⟩
  show s.events ++ [_] ++ [_] ++ [_] = _
  simp only [List.append_assoc, List.singleton_append]
  rfl

/-- What is done for a broadcast allocation entry when the OBO is not below max-slots:
only the cycle-end check is registered. -/
theorem tfBroadcastEntry_of_not_lt (s : StaWifiMac) (h : ¬ s.m_noSlots < s.maxTfSlots) :
    s.tfBroadcastEntry.events = s.events ++
      [⟨s.nextUid, s.now + ((s.maxTfSlots : Int) * s.slot + s.sifs),
          Callback.CancelExpiredEvents⟩] ∧
    s.tfBroadcastEntry.nextUid = s.nextUid + 1 := by
  unfold StaWifiMac.tfBroadcastEntry
  have h' : ¬ ({ s with m_lastTfRespRecv := s.now, m_muModeToStart := true } :
      StaWifiMac).m_noSlots < ({ s with m_lastTfRespRecv := s.now, m_muModeToStart := true } :
      StaWifiMac).maxTfSlots := h
  simp only [if_neg h']
  exact ⟨rfl, rfl⟩

/-- What is done for a broadcast allocation entry leaves the clock, the OBO, the slot
duration, the SIFS, max-slots, the RU and the address. -/
theorem tfBroadcastEntry_frame (s : StaWifiMac) :
    s.tfBroadcastEntry.now = s.now ∧ s.tfBroadcastEntry.m_noSlots = s.m_noSlots ∧
    s.tfBroadcastEntry.slot = s.slot ∧ s.tfBroadcastEntry.sifs = s.sifs ∧
    s.tfBroadcastEntry.maxTfSlots = s.maxTfSlots ∧ s.tfBroadcastEntry.ruBits = s.ruBits ∧
    s.tfBroadcastEntry.address = s.address := by
  unfold StaWifiMac.tfBroadcastEntry
  simp only
  split <;> exact ⟨rfl, rfl, rfl, rfl, rfl, rfl, rfl⟩

/-- The loop over the RU allocations only registers events behind those pending, under
registration numbers not below the next one, and leaves the clock, the OBO, the slot
duration, the SIFS, max-slots and the address; every cancel-check and candidate
transmission it registers is due OBO slots after the present time, and when the OBO is
not below max-slots it registers none. -/
theorem tfAllocLoop_frame (ulFlag : Nat) (l : List (Mac48Address × Nat)) :
    ∀ s : StaWifiMac,
      (∃ rest, (s.tfAllocLoop ulFlag l).1.events = s.events ++ rest ∧
        (∀ e ∈ rest, e.cb.isContention = true →
          e.ts = s.now + (s.m_noSlots : Int) * s.slot) ∧
        (¬ s.m_noSlots < s.maxTfSlots → ∀ e ∈ rest, e.cb.isContention = false)) ∧
      (s.tfAllocLoop ulFlag l).1.now = s.now ∧
      (s.tfAllocLoop ulFlag l).1.m_noSlots = s.m_noSlots ∧
      (s.tfAllocLoop ulFlag l).1.slot = s.slot ∧
      (s.tfAllocLoop ulFlag l).1.sifs = s.sifs ∧
      (s.tfAllocLoop ulFlag l).1.maxTfSlots = s.maxTfSlots ∧
      (s.tfAllocLoop ulFlag l).1.address = s.address ∧
      s.nextUid ≤ (s.tfAllocLoop ulFlag l).1.nextUid := by
  induction l with
  | nil =>
    intro s
    exact ⟨⟨[], (List.append_nil _).symm, fun e he => absurd he (List.not_mem_nil e),
      fun _ e he => absurd he (List.not_mem_nil e)⟩, rfl, rfl, rfl, rfl, rfl, rfl, le_refl _⟩
  | cons x rest ih =>
    intro s
    obtain ⟨a, ru⟩ := x
    unfold StaWifiMac.tfAllocLoop
    by_cases hc : a = s.GetAddress ∧ ulFlag ≠ 0
    · rw [if_pos hc]
      refine ⟨⟨[⟨s.nextUid, s.now + MicroSeconds 17,
        Callback.NotifyMaybeCcaBusyStartNow ru (StaWifiMac.Seconds 1)⟩], rfl, ?_, ?_⟩,
        rfl, rfl, rfl, rfl, rfl, rfl, Nat.le_succ _⟩
      · intro e he hcb
        rw [List.mem_singleton] at he
        rw [he] at hcb
        exact Bool.noConfusion hcb
      · intro _ e he
        rw [List.mem_singleton] at he
        rw [he]
        rfl
    · rw [if_neg hc]
      by_cases hb : a = GetBroadcast
      · rw [if_pos hb]
        obtain ⟨⟨tl, htl, hts, hcont⟩, h1, h2, h3, h4, h5, h6, h7⟩ := ih s.tfBroadcastEntry
        obtain ⟨f1, f2, f3, f4, f5, _, f7⟩ := tfBroadcastEntry_frame s
        rw [f1, f2, f3] at hts
        rw [f2, f5] at hcont
        refine ⟨?_, h1.trans f1, h2.trans f2, h3.trans f3, h4.trans f4, h5.trans f5,
          h6.trans f7, ?_⟩
        · by_cases hlt : s.m_noSlots < s.maxTfSlots
          · have he := (tfBroadcastEntry_of_lt s hlt).1
            rw [he, List.append_assoc] at htl
            refine ⟨_, htl, ?_, fun hn => (hn hlt).elim⟩
            intro e he hcb
            rcases List.mem_append.mp he with he | he
            · simp only [List.mem_cons, List.mem_singleton, List.not_mem_nil, or_false] at he
              rcases he with he | he | he
              · rw [he]
              · rw [he]
              · rw [he] at hcb
                exact Bool.noConfusion hcb
            · exact hts e he hcb
          · have he := (tfBroadcastEntry_of_not_lt s hlt).1
            rw [he, List.append_assoc] at htl
            have hnone : ∀ e ∈ [(⟨s.nextUid, s.now + ((s.maxTfSlots : Int) * s.slot + s.sifs),
                Callback.CancelExpiredEvents⟩ : Event)] ++ tl, e.cb.isContention = false := by
              intro e he
              rcases List.mem_append.mp he with he | he
              · rw [List.mem_singleton] at he
                rw [he]
                rfl
              · exact hcont hlt e he
            refine ⟨_, htl, ?_, fun _ => hnone⟩
            intro e he hcb
            rw [hnone e he] at hcb
            exact Bool.noConfusion hcb
        · by_cases hlt : s.m_noSlots < s.maxTfSlots
          · have := (tfBroadcastEntry_of_lt s hlt).2
            omega
          · have := (tfBroadcastEntry_of_not_lt s hlt).2
            omega
      · rw [if_neg hb]
        exact ih s

/-- The loop over the RU allocations runs through a part of the allocation map that
cannot make it return (the trigger is downlink, or the part does not name the
station): the RU is left as it was and the loop goes on with what follows. -/
theorem tfAllocLoop_append (ulFlag : Nat) (pre l : List (Mac48Address × Nat)) :
    ∀ s : StaWifiMac, (ulFlag = 0 ∨ ∀ x ∈ pre, x.1 ≠ s.address) →
      (s.tfAllocLoop ulFlag pre).1.ruBits = s.ruBits ∧
      s.tfAllocLoop ulFlag (pre ++ l) = (s.tfAllocLoop ulFlag pre).1.tfAllocLoop ulFlag l := by
  induction pre with
  | nil => intro s _; exact ⟨rfl, rfl⟩
  | cons x rest ih =>
    intro s h
    obtain ⟨a, ru⟩ := x
    have hc : ¬ (a = s.GetAddress ∧ ulFlag ≠ 0) := by
      rintro ⟨ha, hu⟩
      rcases h with h | h
      · exact hu h
      · exact h (a, ru) (List.mem_cons_self _ _) ha
    have hstep : ∀ l2, s.tfAllocLoop ulFlag ((a, ru) :: l2) =
        (if a = GetBroadcast then s.tfBroadcastEntry else s).tfAllocLoop ulFlag l2 := by
      intro l2
      rw [StaWifiMac.tfAllocLoop, if_neg hc]
    rw [List.cons_append, hstep, hstep]
    have hnext : ulFlag = 0 ∨
        ∀ x ∈ rest, x.1 ≠ (if a = GetBroadcast then s.tfBroadcastEntry else s).address := by
      rcases h with h | h
      · exact Or.inl h
      · refine Or.inr fun x hx => ?_
        have ha : (if a = GetBroadcast then s.tfBroadcastEntry else s).address = s.address := by
          split_ifs
          · exact (tfBroadcastEntry_frame s).2.2.2.2.2.2
          · rfl
        rw [ha]
        exact h x (List.mem_cons_of_mem _ hx)
    obtain ⟨i1, i2⟩ := ih _ hnext
    refine ⟨i1.trans ?_, i2⟩
    split_ifs
    · exact (tfBroadcastEntry_frame s).2.2.2.2.2.1
    · rfl
/-- C23 as stated fails: the sample station (OBO drawn 3, max-slots 16) receives an
uplink trigger whose allocation map has an entry for the station's own address before
the broadcast entry.  The loop over the map returns at the station's own entry: no
cancel-check, no candidate transmission and no cycle-end check is scheduled, although
the trigger carries a broadcast entry and the OBO is below max-slots. -/
theorem C23_own_entry_hides_broadcast_entry :
    (sampleGroupHdr WifiMacType.TF).type = WifiMacType.TF ∧
    passesAddressFilter sampleSta (sampleGroupHdr WifiMacType.TF) ∧
    (GetBroadcast, 0) ∈ (sampleTf [(1, 3), (GetBroadcast, 0)] 1).tf.ruAllocations ∧
    (sampleSta.Receive (sampleTf [(1, 3), (GetBroadcast, 0)] 1)
      (sampleGroupHdr WifiMacType.TF) 3).m_noSlots = 3 ∧
    (sampleSta.Receive (sampleTf [(1, 3), (GetBroadcast, 0)] 1)
      (sampleGroupHdr WifiMacType.TF) 3).maxTfSlots = 16 ∧
    (sampleSta.Receive (sampleTf [(1, 3), (GetBroadcast, 0)] 1)
      (sampleGroupHdr WifiMacType.TF) 3).contentionEvents = [] ∧
    (sampleSta.Receive (sampleTf [(1, 3), (GetBroadcast, 0)] 1)
      (sampleGroupHdr WifiMacType.TF) 3).pending Callback.CancelExpiredEvents = [] := by
  refine ⟨rfl, by decide, by decide, by decide, by decide, by decide, by decide⟩

/-- C23 (amended): a trigger that reaches the trigger branch of `Receive`, with OBO the
backoff counter after the draw of this trigger.  Every event the receipt registers
comes behind the pending ones; every cancel-check and candidate transmission among
them is due at `now + OBO * slot` (at once when OBO = 0), and there is none when OBO is
not below max-slots.  For every broadcast entry of the allocation map that the loop
over the map reaches (the trigger is downlink, or neither that entry nor an entry
before it names the station's own address), the receipt registers, consecutively and
under fresh
registration numbers: when OBO < max-slots the cancel-check and then the candidate
transmission, both for the station's RU and both at `now + OBO * slot`, and then the
cycle-end check at `now + max-slots * slot + SIFS`; when OBO is not below max-slots the
cycle-end check only.  Of two events at the same time the timer service runs the one
registered first, so the cancel-check runs before the transmission. -/
theorem C23_contention_events_scheduled (s : StaWifiMac) (packet : Packet)
    (hdr : WifiMacHeader) (rv : Nat) (ht : hdr.type = WifiMacType.TF)
    (hp : passesAddressFilter s hdr) :
    (∃ added, (s.Receive packet hdr rv).events = s.events ++ added ∧
      (∀ e ∈ added, e.cb.isContention = true →
        e.ts = s.now + (s.slotsAfterDraw rv : Int) * s.slot) ∧
      (¬ s.slotsAfterDraw rv < s.maxTfSlots → ∀ e ∈ added, e.cb.isContention = false)) ∧
    (∀ pre r post, packet.tf.ruAllocations = pre ++ (GetBroadcast, r) :: post →
      (packet.tf.uplinkFlag = 0 ∨
        (s.address ≠ GetBroadcast ∧ ∀ x ∈ pre, x.1 ≠ s.address)) →
      ∃ mid u rest, s.nextUid < u ∧
        (s.Receive packet hdr rv).events = s.events ++ mid ++
          (if s.slotsAfterDraw rv < s.maxTfSlots then
            [⟨u, s.now + (s.slotsAfterDraw rv : Int) * s.slot,
                Callback.CheckAndCancel s.ruBits⟩,
              ⟨u + 1, s.now + (s.slotsAfterDraw rv : Int) * s.slot,
                Callback.SendTriggerFrameResp s.ruBits⟩,
              ⟨u + 2, s.now + ((s.maxTfSlots : Int) * s.slot + s.sifs),
                Callback.CancelExpiredEvents⟩]
           else
            [⟨u, s.now + ((s.maxTfSlots : Int) * s.slot + s.sifs),
                Callback.CancelExpiredEvents⟩]) ++ rest) ∧
    (∀ (u ru : Nat) (t : Time),
      Event.notAfter ⟨u, t, Callback.CheckAndCancel ru⟩
        ⟨u + 1, t, Callback.SendTriggerFrameResp ru⟩ = true ∧
      Event.notAfter ⟨u + 1, t, Callback.SendTriggerFrameResp ru⟩
        ⟨u, t, Callback.CheckAndCancel ru⟩ = false) := by
  have hev : (s.Receive packet hdr rv).events =
      ((s.tfStart packet rv).tfAllocLoop packet.tf.uplinkFlag
        packet.tf.ruAllocations).1.events := by
    rw [Receive_of_passes s packet hdr rv hp, ht]
    simp only []
    split_ifs <;> rfl
  have e0 : (s.tfStart packet rv).events = s.events ++ [⟨s.nextUid,
      s.now + ((packet.tf.tfDuration : Int) * s.slot - packet.tfBeaconDuration),
      Callback.StopMuMode⟩] := by rw [tfStart_eq]
  have e1 : (s.tfStart packet rv).now = s.now := by rw [tfStart_eq]
  have e2 : (s.tfStart packet rv).m_noSlots = s.slotsAfterDraw rv := by rw [tfStart_eq]
  have e3 : (s.tfStart packet rv).slot = s.slot := by rw [tfStart_eq]
  have e4 : (s.tfStart packet rv).sifs = s.sifs := by rw [tfStart_eq]
  have e5 : (s.tfStart packet rv).maxTfSlots = s.maxTfSlots := by rw [tfStart_eq]
  have e6 : (s.tfStart packet rv).address = s.address := by rw [tfStart_eq]
  have e7 : (s.tfStart packet rv).nextUid = s.nextUid + 1 := by rw [tfStart_eq]
  have e8 : (s.tfStart packet rv).ruBits = s.ruBits := by rw [tfStart_eq]
  refine ⟨?_, ?_, ?_⟩
  · obtain ⟨⟨tl, htl, hts, hnone⟩, _⟩ :=
      tfAllocLoop_frame packet.tf.uplinkFlag packet.tf.ruAllocations (s.tfStart packet rv)
    rw [e1, e2, e3] at hts
    rw [e2, e5] at hnone
    rw [e0, List.append_assoc] at htl
    refine ⟨_, hev.trans htl, ?_, ?_⟩
    · intro e he hcb
      rcases List.mem_append.mp he with he | he
      · rw [List.mem_singleton] at he
        rw [he] at hcb
        exact Bool.noConfusion hcb
      · exact hts e he hcb
    · intro hn e he
      rcases List.mem_append.mp he with he | he
      · rw [List.mem_singleton] at he
        rw [he]
        rfl
      · exact hnone hn e he
  · intro pre r post halloc hreach
    have hpre : packet.tf.uplinkFlag = 0 ∨ ∀ x ∈ pre, x.1 ≠ (s.tfStart packet rv).address := by
      rcases hreach with h | h
      · exact Or.inl h
      · exact Or.inr (by rw [e6]; exact h.2)
    obtain ⟨a1, a2⟩ := tfAllocLoop_append packet.tf.uplinkFlag pre ((GetBroadcast, r) :: post)
      (s.tfStart packet rv) hpre
    obtain ⟨⟨mid, hmid, _, _⟩, b1, b2, b3, b4, b5, b6, b7⟩ :=
      tfAllocLoop_frame packet.tf.uplinkFlag pre (s.tfStart packet rv)
    generalize hs1 : ((s.tfStart packet rv).tfAllocLoop packet.tf.uplinkFlag pre).1 = s1
      at a1 a2 hmid b1 b2 b3 b4 b5 b6 b7
    have hc : ¬ (GetBroadcast = s1.GetAddress ∧ packet.tf.uplinkFlag ≠ 0) := by
      rintro ⟨ha, hu⟩
      rcases hreach with h | h
      · exact hu h
      · apply h.1
        have : s1.address = s.address := b6.trans e6
        rw [← this]
        exact ha.symm
    have hstep : s1.tfAllocLoop packet.tf.uplinkFlag ((GetBroadcast, r) :: post) =
        s1.tfBroadcastEntry.tfAllocLoop packet.tf.uplinkFlag post := by
      rw [StaWifiMac.tfAllocLoop, if_neg hc, if_pos rfl]
    obtain ⟨⟨rest, hrest, _, _⟩, _⟩ :=
      tfAllocLoop_frame packet.tf.uplinkFlag post s1.tfBroadcastEntry
    rw [halloc, a2, hstep] at hev
    rw [hev, hrest]
    refine ⟨[⟨s.nextUid,
      s.now + ((packet.tf.tfDuration : Int) * s.slot - packet.tfBeaconDuration),
      Callback.StopMuMode⟩] ++ mid, s1.nextUid, rest, by omega, ?_⟩
    have k1 : s1.now = s.now := b1.trans e1
    have k2 : s1.m_noSlots = s.slotsAfterDraw rv := b2.trans e2
    have k3 : s1.slot = s.slot := b3.trans e3
    have k4 : s1.sifs = s.sifs := b4.trans e4
    have k5 : s1.maxTfSlots = s.maxTfSlots := b5.trans e5
    have k6 : s1.ruBits = s.ruBits := a1.trans e8
    by_cases hlt : s.slotsAfterDraw rv < s.maxTfSlots
    · rw [if_pos hlt, (tfBroadcastEntry_of_lt s1 (by rw [k2, k5]; exact hlt)).1, hmid, e0,
        k1, k2, k3, k4, k5, k6]
      simp only [List.append_assoc]
    · rw [if_neg hlt, (tfBroadcastEntry_of_not_lt s1 (by rw [k2, k5]; exact hlt)).1, hmid, e0,
        k1, k3, k4, k5]
      simp only [List.append_assoc]
  · intro u ru t
    unfold Event.notAfter
    simp

/-- Witness of C23: the sample station receives its first trigger, whose allocation map
is one broadcast entry, with raw draw 3: the cancel-check and the candidate
transmission are registered at 39 microseconds, the cycle-end check at 224. -/
theorem C23_contention_events_scheduled_witness :
    (sampleGroupHdr WifiMacType.TF).type = WifiMacType.TF ∧
    passesAddressFilter sampleSta (sampleGroupHdr WifiMacType.TF) ∧
    (sampleSta.Receive (sampleTf [(GetBroadcast, 0)] 1)
      (sampleGroupHdr WifiMacType.TF) 3).contentionEvents =
      [⟨1, 39, Callback.CheckAndCancel 0⟩, ⟨2, 39, Callback.SendTriggerFrameResp 0⟩] ∧
    (sampleSta.Receive (sampleTf [(GetBroadcast, 0)] 1)
      (sampleGroupHdr WifiMacType.TF) 3).pending Callback.CancelExpiredEvents =
      [⟨3, 224, Callback.CancelExpiredEvents⟩] ∧
    ∃ added, (sampleSta.Receive (sampleTf [(GetBroadcast, 0)] 1)
        (sampleGroupHdr WifiMacType.TF) 3).events = sampleSta.events ++ added ∧
      (∀ e ∈ added, e.cb.isContention = true →
        e.ts = sampleSta.now + (sampleSta.slotsAfterDraw 3 : Int) * sampleSta.slot) ∧
      (¬ sampleSta.slotsAfterDraw 3 < sampleSta.maxTfSlots →
        ∀ e ∈ added, e.cb.isContention = false) :=
  ⟨rfl, by decide, by decide, by decide,
    (C23_contention_events_scheduled sampleSta (sampleTf [(GetBroadcast, 0)] 1)
      (sampleGroupHdr WifiMacType.TF) 3 rfl (by decide)).1⟩

/-- A run of stimuli, each enabled where it occurs, leads from a reachable state to a
reachable state. -/
theorem Reachable_runStimuli (l : List Stimulus) :
    ∀ s s' : StaWifiMac, Reachable s → runStimuli s l = some s' → Reachable s' := by
  induction l with
  | nil =>
    intro s s' hr h
    have hs : s = s' := Option.some.inj h
    rw [← hs]
    exact hr
  | cons st rest ih =>
    intro s s' hr h
    unfold runStimuli at h
    by_cases he : enabled s st
    · rw [if_pos he] at h
      exact ih (step s st) s' (Reachable.step s st hr he) h
    · rw [if_neg he] at h
      exact Option.noConfusion h

/-- C24 (the code at the failing input): the sample station, constructed with active
probing and the default timeouts, reaches Associated with a probe retry timer still
pending.  The run: probing starts at time 0; the probe response arrives at 1 ms; the
coordinator then falls silent, the association retry timer fires at 0.501 s and
1.001 s, the beacon watchdog fires at 1.025 s in WaitAssociationResponse and the
station probes again, the probe retry timer firing every 50 ms; the association retry
timer, left pending, fires at 1.501 s and moves the station back to
WaitAssociationResponse; the association response arrives at 1.51 s.  Every stimulus of
the run can occur where it does (the timer service fires the earliest pending event).
In Associated the probe retry timer registered at 1.475 s is pending; it is the next
event, and when it fires `ProbeRequestTimeout` moves the station from Associated to
WaitProbeResponse, with the "disassociated" notification and a probe request. -/
theorem C24_stale_probe_timer_leaves_associated :
    Reachable sampleStaleProbe ∧
    sampleStaleProbe.m_state = MacState.ASSOCIATED ∧
    sampleStaleProbe.pending Callback.ProbeRequestTimeout =
      [⟨14, 1525000, Callback.ProbeRequestTimeout⟩] ∧
    sampleStaleProbe.pending Callback.AssocRequestTimeout = [] ∧
    enabled sampleStaleProbe (Stimulus.fire ⟨14, 1525000, Callback.ProbeRequestTimeout⟩) ∧
    (step sampleStaleProbe
      (Stimulus.fire ⟨14, 1525000, Callback.ProbeRequestTimeout⟩)).m_state =
      MacState.WAIT_PROBE_RESP ∧
    emitted sampleStaleProbe (step sampleStaleProbe
      (Stimulus.fire ⟨14, 1525000, Callback.ProbeRequestTimeout⟩)) =
      [Effect.deAssocLogger 2, Effect.QueueProbeRequest] := by
  refine ⟨?_, by decide, by decide, by decide, by decide, by decide, by decide⟩
  have h : (runStimuli sampleSta staleProbeRun).isSome = true := by decide
  obtain ⟨s', hs'⟩ := Option.isSome_iff_exists.mp h
  have he : sampleStaleProbe = s' := by
    unfold sampleStaleProbe
    rw [hs']
    rfl
  rw [he]
  exact Reachable_runStimuli staleProbeRun sampleSta s' (Reachable.init sampleCfg) hs'

/-- The bookkeeping of a cycle survives the removal of pending events. -/
theorem CycleGuard_sublist {ru : Nat} {Ti : Time} {n : Nat} {E E' : List Event}
    {hp ha hw : EventId} (h : CycleGuard ru Ti n E hp ha hw) (hsub : E'.Sublist E) :
    CycleGuard ru Ti n E' hp ha hw := by
  obtain ⟨h1, h2, h3, h4, h5, h6, h7⟩ := h
  exact ⟨fun e he => h1 e (hsub.subset he), h2.sublist (hsub.map Event.uid), h3,
    fun e he => h4 e (hsub.subset he), fun e he => h5 e (hsub.subset he),
    fun e he => h6 e (hsub.subset he), fun e he => h7 e (hsub.subset he)⟩

/-- The bookkeeping of a cycle survives a growing registration counter. -/
theorem CycleGuard_mono {ru : Nat} {Ti : Time} {n m : Nat} {E : List Event}
    {hp ha hw : EventId} (h : CycleGuard ru Ti n E hp ha hw) (hn : n ≤ m) :
    CycleGuard ru Ti m E hp ha hw := by
  obtain ⟨h1, h2, h3, h4, h5, h6, h7⟩ := h
  exact ⟨fun e he => lt_of_lt_of_le (h1 e he) hn, h2,
    fun u hu => lt_of_lt_of_le (h3 u hu) hn, h4, h5, h6, h7⟩

/-- The events left by "cancel the handle if it is running" are among the pending
ones, in their order. -/
theorem eventsAfterCancel_sublist (E : List Event) (id : EventId) :
    (eventsAfterCancel E id).Sublist E := by
  unfold eventsAfterCancel
  split
  · cases id with
    | none => exact List.Sublist.refl _
    | some u => exact List.filter_sublist _
  · exact List.Sublist.refl _

/-- The events left by a cancellation are among the pending ones, in their order. -/
theorem cancelIn_sublist (E : List Event) (id : EventId) : (cancelIn E id).Sublist E := by
  cases id with
  | none => exact List.Sublist.refl _
  | some u => exact List.filter_sublist _

/-- The bookkeeping of a cycle when one more event is registered under the counter: if
it is a cancel-check it is for the station's RU and due at `Ti`, if it is a flag update
it is for the station's RU and due one microsecond later, if it is a cycle-end check it
is due later still; the handles stay, or they name the new event, which is then neither
a cancel-check nor a flag update. -/
theorem CycleGuard_append {ru : Nat} {Ti : Time} {n : Nat} {E : List Event}
    {hp ha hw hp' ha' hw' : EventId} (h : CycleGuard ru Ti n E hp ha hw) (t : Time)
    (cb : Callback) (hc : cb.isCheck = true → cb = Callback.CheckAndCancel ru ∧ t = Ti)
    (hu : cb.isUpdate = true → cb = Callback.UpdateBsrTx ru ∧ t = Ti + 1)
    (hce : cb = Callback.CancelExpiredEvents → Ti + 1 < t)
    (h1 : hp' = hp ∨ (hp' = some n ∧ cb.isCheck = false ∧ cb.isUpdate = false))
    (h2 : ha' = ha ∨ (ha' = some n ∧ cb.isCheck = false ∧ cb.isUpdate = false))
    (h3 : hw' = hw ∨ (hw' = some n ∧ cb.isCheck = false ∧ cb.isUpdate = false)) :
    CycleGuard ru Ti (n + 1) (E ++ [⟨n, t, cb⟩]) hp' ha' hw' := by
  obtain ⟨g1, g2, g3, g4, g5, g6, g7⟩ := h
  have hb : ∀ (x x' : EventId),
      (x' = x ∨ (x' = some n ∧ cb.isCheck = false ∧ cb.isUpdate = false)) →
      (∀ u, x = some u → u < n) → ∀ u, x' = some u → u < n + 1 := by
    intro x x' hx hlt u hxu
    rcases hx with hx | ⟨hx, _⟩
    · rw [hx] at hxu
      exact Nat.lt_succ_of_lt (hlt u hxu)
    · rw [hx] at hxu
      have : n = u := Option.some.inj hxu
      omega
  have hne : ∀ (x x' : EventId),
      (x' = x ∨ (x' = some n ∧ cb.isCheck = false ∧ cb.isUpdate = false)) →
      ∀ e ∈ E, x ≠ some e.uid → x' ≠ some e.uid := by
    intro x x' hx e he hxe
    rcases hx with hx | ⟨hx, _⟩
    · rw [hx]
      exact hxe
    · rw [hx]
      intro hh
      have : n = e.uid := Option.some.inj hh
      have := g1 e he
      omega
  have hnew : ∀ (x x' : EventId),
      (x' = x ∨ (x' = some n ∧ cb.isCheck = false ∧ cb.isUpdate = false)) →
      (∀ u, x = some u → u < n) → (cb.isCheck = true ∨ cb.isUpdate = true) →
      x' ≠ some n := by
    intro x x' hx hlt hpr
    rcases hx with hx | ⟨_, hx1, hx2⟩
    · rw [hx]
      intro hh
      have := hlt n hh
      omega
    · rcases hpr with hpr | hpr
      · rw [hx1] at hpr
        exact Bool.noConfusion hpr
      · rw [hx2] at hpr
        exact Bool.noConfusion hpr
  refine ⟨?_, ?_, ?_, ?_, ?_, ?_, ?_⟩
  · intro e he
    rcases List.mem_append.mp he with he | he
    · exact Nat.lt_succ_of_lt (g1 e he)
    · rw [List.mem_singleton] at he
      rw [he]
      exact Nat.lt_succ_self n
  · rw [List.map_append, List.nodup_append]
    refine ⟨g2, by simp, ?_⟩
    intro u hu hu'
    simp only [List.map_cons, List.map_nil, List.mem_singleton] at hu'
    obtain ⟨e, he, heu⟩ := List.mem_map.mp hu
    have := g1 e he
    omega
  · intro u hu
    rcases hu with hu | hu | hu
    · exact hb hp hp' h1 (fun v hv => g3 v (Or.inl hv)) u hu
    · exact hb ha ha' h2 (fun v hv => g3 v (Or.inr (Or.inl hv))) u hu
    · exact hb hw hw' h3 (fun v hv => g3 v (Or.inr (Or.inr hv))) u hu
  · intro e he hchk
    rcases List.mem_append.mp he with he | he
    · exact g4 e he hchk
    · rw [List.mem_singleton] at he
      rw [he] at hchk ⊢
      exact hc hchk
  · intro e he hupd
    rcases List.mem_append.mp he with he | he
    · exact g5 e he hupd
    · rw [List.mem_singleton] at he
      rw [he] at hupd ⊢
      exact hu hupd
  · intro e he hpr
    rcases List.mem_append.mp he with he | he
    · obtain ⟨k1, k2, k3⟩ := g6 e he hpr
      exact ⟨hne hp hp' h1 e he k1, hne ha ha' h2 e he k2, hne hw hw' h3 e he k3⟩
    · rw [List.mem_singleton] at he
      rw [he] at hpr ⊢
      exact ⟨hnew hp hp' h1 (fun v hv => g3 v (Or.inl hv)) hpr,
        hnew ha ha' h2 (fun v hv => g3 v (Or.inr (Or.inl hv))) hpr,
        hnew hw hw' h3 (fun v hv => g3 v (Or.inr (Or.inr hv))) hpr⟩
  · intro e he hcee
    rcases List.mem_append.mp he with he | he
    · exact g7 e he hcee
    · rw [List.mem_singleton] at he
      rw [he] at hcee ⊢
      exact hce hcee

/-- A pending cancel-check or flag update stays pending when an event with another
callback is removed. -/
theorem CycleLive_rm {ru : Nat} {flag : Bool} {E : List Event} {e : Event}
    (hnd : (E.map Event.uid).Nodup) (he : e ∈ E) (h : CycleLive ru flag E)
    (h1 : e.cb ≠ Callback.CheckAndCancel ru) (h2 : e.cb ≠ Callback.UpdateBsrTx ru) :
    CycleLive ru flag (E.filter (fun y => y.uid != e.uid)) := by
  rcases h with ⟨x, hx, hxc⟩ | h | ⟨x, hx, hxc⟩
  · exact Or.inl ⟨x, mem_rm_of_cb_ne hnd he hx (by rw [hxc]; exact fun hh => h1 hh.symm), hxc⟩
  · exact Or.inr (Or.inl h)
  · exact Or.inr (Or.inr
      ⟨x, mem_rm_of_cb_ne hnd he hx (by rw [hxc]; exact fun hh => h2 hh.symm), hxc⟩)

/-- A pending cancel-check or flag update stays pending through "cancel the handle if
it is running" when the handle names neither. -/
theorem CycleLive_eventsAfterCancel {ru : Nat} {flag : Bool} {E : List Event} {hd : EventId}
    (h : CycleLive ru flag E)
    (hne : ∀ e ∈ E, e.cb.isCheck = true ∨ e.cb.isUpdate = true → hd ≠ some e.uid) :
    CycleLive ru flag (eventsAfterCancel E hd) := by
  rcases h with ⟨x, hx, hxc⟩ | h | ⟨x, hx, hxc⟩
  · exact Or.inl ⟨x, mem_eventsAfterCancel_of_ne E hd x hx
      (hne x hx (Or.inl (by rw [hxc]; rfl))), hxc⟩
  · exact Or.inr (Or.inl h)
  · exact Or.inr (Or.inr ⟨x, mem_eventsAfterCancel_of_ne E hd x hx
      (hne x hx (Or.inr (by rw [hxc]; rfl))), hxc⟩)

/-- A pending cancel-check or flag update stays pending when events are registered. -/
theorem CycleLive_append {ru : Nat} {flag : Bool} {E : List Event} (l : List Event)
    (h : CycleLive ru flag E) : CycleLive ru flag (E ++ l) := by
  rcases h with ⟨x, hx, hxc⟩ | h | ⟨x, hx, hxc⟩
  · exact Or.inl ⟨x, List.mem_append_left _ hx, hxc⟩
  · exact Or.inr (Or.inl h)
  · exact Or.inr (Or.inr ⟨x, List.mem_append_left _ hx, hxc⟩)

/-- The flag is set or about to be also when it is set by someone else. -/
theorem CycleLive_mono {ru : Nat} {flag flag2 : Bool} {E : List Event}
    (h : CycleLive ru flag E) (hf : flag = true → flag2 = true) : CycleLive ru flag2 E := by
  rcases h with h | h | h
  · exact Or.inl h
  · exact Or.inr (Or.inl (hf h))
  · exact Or.inr (Or.inr h)
theorem TimerStep_refl (s : StaWifiMac) : TimerStep s s :=
  Or.inl ⟨rfl, rfl, rfl, rfl, rfl⟩

/-- Re-evaluation is a timer step that leaves the RU. -/
theorem TimerStep_TryToEnsureAssociated (s : StaWifiMac) :
    TimerStep s s.TryToEnsureAssociated ∧ s.TryToEnsureAssociated.ruBits = s.ruBits := by
  rw [TryToEnsureAssociated_eq]
  by_cases hs : s.m_state = MacState.BEACON_MISSED
  · rw [if_pos hs]
    by_cases ha : s.m_activeProbing = true
    · rw [if_pos ha]
      refine ⟨Or.inr ⟨s.m_probeRequestEvent, s.now + s.m_probeRequestTimeout,
        Callback.ProbeRequestTimeout, Or.inl rfl, rfl, rfl, fun h => Callback.noConfusion h,
        rfl, rfl, Or.inr rfl, Or.inl rfl, Or.inl rfl⟩, rfl⟩
    · rw [if_neg ha]
      exact ⟨Or.inl ⟨rfl, rfl, rfl, rfl, rfl⟩, rfl⟩
  · rw [if_neg hs]
    exact ⟨TimerStep_refl s, rfl⟩

/-- The probe retry timeout is a timer step that leaves the RU. -/
theorem TimerStep_ProbeRequestTimeout (s : StaWifiMac) :
    TimerStep s s.ProbeRequestTimeout ∧ s.ProbeRequestTimeout.ruBits = s.ruBits := by
  unfold StaWifiMac.ProbeRequestTimeout
  rw [SendProbeRequest_eq, SetState_eq]
  exact ⟨Or.inr ⟨s.m_probeRequestEvent, s.now + s.m_probeRequestTimeout,
    Callback.ProbeRequestTimeout, Or.inl rfl, rfl, rfl, fun h => Callback.noConfusion h,
    rfl, rfl, Or.inr rfl, Or.inl rfl, Or.inl rfl⟩, rfl⟩

/-- The association retry timeout is a timer step that leaves the RU. -/
theorem TimerStep_AssocRequestTimeout (s : StaWifiMac) :
    TimerStep s s.AssocRequestTimeout ∧ s.AssocRequestTimeout.ruBits = s.ruBits := by
  unfold StaWifiMac.AssocRequestTimeout
  rw [SendAssociationRequest_eq, SetState_eq]
  exact ⟨Or.inr ⟨s.m_assocRequestEvent, s.now + s.m_assocRequestTimeout,
    Callback.AssocRequestTimeout, Or.inr (Or.inl rfl), rfl, rfl,
    fun h => Callback.noConfusion h, rfl, rfl, Or.inl rfl, Or.inr rfl, Or.inl rfl⟩, rfl⟩

/-- The beacon watchdog is a timer step that leaves the RU. -/
theorem TimerStep_MissedBeacons (s : StaWifiMac) :
    TimerStep s s.MissedBeacons ∧ s.MissedBeacons.ruBits = s.ruBits := by
  by_cases h : s.now < s.m_beaconWatchdogEnd
  · rw [MissedBeacons_eq_of_lt s h]
    exact ⟨Or.inr ⟨s.m_beaconWatchdog, s.m_beaconWatchdogEnd, Callback.MissedBeacons,
      Or.inr (Or.inr rfl), rfl, rfl, fun h => Callback.noConfusion h, rfl, rfl,
      Or.inl rfl, Or.inl rfl, Or.inr rfl⟩, rfl⟩
  · rw [MissedBeacons_eq_of_le s (not_lt.mp h)]
    have e1 : (s.SetState MacState.BEACON_MISSED).events = s.events := by rw [SetState_eq]
    have e2 : (s.SetState MacState.BEACON_MISSED).nextUid = s.nextUid := by rw [SetState_eq]
    have e3 : (s.SetState MacState.BEACON_MISSED).m_probeRequestEvent =
        s.m_probeRequestEvent := by rw [SetState_eq]
    have e4 : (s.SetState MacState.BEACON_MISSED).m_assocRequestEvent =
        s.m_assocRequestEvent := by rw [SetState_eq]
    have e5 : (s.SetState MacState.BEACON_MISSED).m_beaconWatchdog = s.m_beaconWatchdog := by
      rw [SetState_eq]
    have e6 : (s.SetState MacState.BEACON_MISSED).ruBits = s.ruBits := by rw [SetState_eq]
    obtain ⟨ht, hr⟩ := TimerStep_TryToEnsureAssociated (s.SetState MacState.BEACON_MISSED)
    unfold TimerStep at ht ⊢
    rw [e1, e2, e3, e4, e5] at ht
    exact ⟨ht, hr.trans e6⟩

/-- A timer step keeps the invariant of the cycle, under the counter it leaves. -/
theorem CycleEnd_TimerStep {ru : Nat} {Ti : Time} {flag : Bool} {s s' : StaWifiMac}
    (h : CycleEnd ru Ti s.nextUid flag s) (ht : TimerStep s s') (hr : s'.ruBits = s.ruBits) :
    CycleEnd ru Ti s'.nextUid flag s' := by
  obtain ⟨h1, h2, h3⟩ := h
  rcases ht with ⟨a1, a2, a3, a4, a5⟩ | ⟨hd, t, cb, b1, b2, b3, b4, b5, b6, b7, b8, b9⟩
  · unfold CycleEnd
    rw [a1, a2, a3, a4, a5, hr]
    exact ⟨h1, h2, h3⟩
  · have hsafe : ∀ e ∈ s.events, e.cb.isCheck = true ∨ e.cb.isUpdate = true →
        hd ≠ some e.uid := by
      intro e he hpr
      obtain ⟨k1, k2, k3⟩ := h2.2.2.2.2.2.1 e he hpr
      rcases b1 with b1 | b1 | b1 <;> rw [b1]
      · exact k1
      · exact k2
      · exact k3
    have hconv : ∀ (x x' : EventId), (x' = x ∨ x' = some s.nextUid) →
        (x' = x ∨ (x' = some s.nextUid ∧ cb.isCheck = false ∧ cb.isUpdate = false)) := by
      intro x x' hx
      rcases hx with hx | hx
      · exact Or.inl hx
      · exact Or.inr ⟨hx, b2, b3⟩
    unfold CycleEnd
    rw [b5, b6, hr]
    refine ⟨h1, ?_, CycleLive_append _ (CycleLive_eventsAfterCancel h3 hsafe)⟩
    exact CycleGuard_append (CycleGuard_sublist h2 (eventsAfterCancel_sublist _ _)) t cb
      (fun hc => by rw [b2] at hc; exact Bool.noConfusion hc)
      (fun hu => by rw [b3] at hu; exact Bool.noConfusion hu)
      (fun hce => absurd hce b4)
      (hconv _ _ b7) (hconv _ _ b8) (hconv _ _ b9)
/-- A timer step does not decrease the registration counter. -/
theorem TimerStep_nextUid {s s' : StaWifiMac} (h : TimerStep s s') : s.nextUid ≤ s'.nextUid := by
  rcases h with ⟨_, a2, _⟩ | ⟨_, _, _, _, _, _, _, _, b6, _⟩
  · exact le_of_eq a2.symm
  · omega

/-- Every callback but the cancel-check and the flag update is a timer step that leaves
the RU and the flags. -/
theorem TimerStep_Dispatch (s : StaWifiMac) (cb : Callback) (h1 : cb.isCheck = false)
    (h2 : cb.isUpdate = false) :
    TimerStep s (s.Dispatch cb) ∧ (s.Dispatch cb).ruBits = s.ruBits ∧
      (s.Dispatch cb).bsrTx = s.bsrTx := by
  cases cb with
  | TryToEnsureAssociated =>
    exact ⟨(TimerStep_TryToEnsureAssociated s).1, (TimerStep_TryToEnsureAssociated s).2,
      bsrTx_TryToEnsureAssociated s⟩
  | ProbeRequestTimeout =>
    exact ⟨(TimerStep_ProbeRequestTimeout s).1, (TimerStep_ProbeRequestTimeout s).2,
      bsrTx_ProbeRequestTimeout s⟩
  | AssocRequestTimeout =>
    exact ⟨(TimerStep_AssocRequestTimeout s).1, (TimerStep_AssocRequestTimeout s).2,
      bsrTx_AssocRequestTimeout s⟩
  | MissedBeacons =>
    exact ⟨(TimerStep_MissedBeacons s).1, (TimerStep_MissedBeacons s).2, bsrTx_MissedBeacons s⟩
  | StopMuMode => exact ⟨Or.inl ⟨rfl, rfl, rfl, rfl, rfl⟩, rfl, rfl⟩
  | CheckAndCancel ru => exact Bool.noConfusion h1
  | SendTriggerFrameResp ru => exact ⟨Or.inl ⟨rfl, rfl, rfl, rfl, rfl⟩, rfl, rfl⟩
  | CancelExpiredEvents =>
    show TimerStep s s.CancelExpiredEvents ∧ s.CancelExpiredEvents.ruBits = s.ruBits ∧
      s.CancelExpiredEvents.bsrTx = s.bsrTx
    rw [CancelExpiredEvents_eq]
    exact ⟨Or.inl ⟨rfl, rfl, rfl, rfl, rfl⟩, rfl, rfl⟩
  | UpdateBsrTx ru => exact Bool.noConfusion h2
  | NotifyMaybeCcaBusyStartNow ru d => exact ⟨Or.inl ⟨rfl, rfl, rfl, rfl, rfl⟩, rfl, rfl⟩

/-- A flag update writes nothing but the flags. -/
theorem UpdateBsrTx_frame (s : StaWifiMac) (ru : Nat) :
    (s.UpdateBsrTx ru).events = s.events ∧ (s.UpdateBsrTx ru).nextUid = s.nextUid ∧
    (s.UpdateBsrTx ru).m_probeRequestEvent = s.m_probeRequestEvent ∧
    (s.UpdateBsrTx ru).m_assocRequestEvent = s.m_assocRequestEvent ∧
    (s.UpdateBsrTx ru).m_beaconWatchdog = s.m_beaconWatchdog ∧
    (s.UpdateBsrTx ru).ruBits = s.ruBits := by
  by_cases h : ru ≤ 8
  · interval_cases ru <;> exact ⟨rfl, rfl, rfl, rfl, rfl, rfl⟩
  · rw [UpdateBsrTx_of_ge s ru (by omega)]
    exact ⟨rfl, rfl, rfl, rfl, rfl, rfl⟩

/-- No callback decreases the registration counter. -/
theorem Dispatch_nextUid (s : StaWifiMac) (cb : Callback) : s.nextUid ≤ (s.Dispatch cb).nextUid := by
  by_cases h1 : cb.isCheck = true
  · cases cb with
    | CheckAndCancel ru =>
      show s.nextUid ≤ (s.CheckAndCancel ru).nextUid
      unfold StaWifiMac.CheckAndCancel
      split
      · exact le_refl _
      · exact Nat.le_succ _
    | _ => exact Bool.noConfusion h1
  · by_cases h2 : cb.isUpdate = true
    · cases cb with
      | UpdateBsrTx ru => exact le_of_eq (UpdateBsrTx_frame s ru).2.1.symm
      | _ => exact Bool.noConfusion h2
    · exact TimerStep_nextUid
        (TimerStep_Dispatch s cb (Bool.eq_false_iff.mpr h1) (Bool.eq_false_iff.mpr h2)).1

/-- The invariant of the cycle is kept by the callback of an event of the station, run
on the station without that event: a cancel-check runs at the time it is due. -/
theorem CycleEnd_Dispatch {ru : Nat} (hru : ru ≤ 8) {Ti : Time} (s : StaWifiMac)
    (cb : Callback) (hr : s.ruBits = ru)
    (hg : CycleGuard ru Ti s.nextUid s.events s.m_probeRequestEvent s.m_assocRequestEvent
      s.m_beaconWatchdog)
    (hc : cb.isCheck = true → cb = Callback.CheckAndCancel ru ∧ s.now = Ti)
    (hu : cb.isUpdate = true → cb = Callback.UpdateBsrTx ru)
    (hl : CycleLive ru (s.GetBsrTx ru) s.events ∨ cb.isCheck = true ∨ cb.isUpdate = true) :
    CycleEnd ru Ti (s.Dispatch cb).nextUid ((s.Dispatch cb).GetBsrTx ru) (s.Dispatch cb) := by
  by_cases h1 : cb.isCheck = true
  · obtain ⟨hcb, hnow⟩ := hc h1
    rw [hcb]
    show CycleEnd ru Ti (s.CheckAndCancel ru).nextUid ((s.CheckAndCancel ru).GetBsrTx ru)
      (s.CheckAndCancel ru)
    unfold StaWifiMac.CheckAndCancel
    by_cases hf : s.GetBsrTx ru = true
    · rw [if_pos hf]
      exact ⟨hr, CycleGuard_sublist hg (cancelIn_sublist _ _), Or.inr (Or.inl hf)⟩
    · rw [if_neg hf]
      refine ⟨hr, ?_, Or.inr (Or.inr ⟨_, List.mem_append_right _ (List.mem_singleton.mpr rfl),
        rfl⟩)⟩
      refine CycleGuard_append hg _ _ (fun h => Bool.noConfusion h) ?_
        (fun h => Callback.noConfusion h) (Or.inl rfl) (Or.inl rfl) (Or.inl rfl)
      intro _
      refine ⟨rfl, ?_⟩
      show s.now + MicroSeconds 1 = Ti + 1
      rw [hnow]
      rfl
  · by_cases h2 : cb.isUpdate = true
    · rw [hu h2]
      show CycleEnd ru Ti (s.UpdateBsrTx ru).nextUid ((s.UpdateBsrTx ru).GetBsrTx ru)
        (s.UpdateBsrTx ru)
      obtain ⟨f1, f2, f3, f4, f5, f6⟩ := UpdateBsrTx_frame s ru
      unfold CycleEnd
      rw [f1, f2, f3, f4, f5, f6, GetBsrTx_UpdateBsrTx s ru ru hru, if_pos rfl]
      exact ⟨hr, hg, Or.inr (Or.inl rfl)⟩
    · obtain ⟨t1, t2, t3⟩ := TimerStep_Dispatch s cb (Bool.eq_false_iff.mpr h1)
        (Bool.eq_false_iff.mpr h2)
      have hlive : CycleLive ru (s.GetBsrTx ru) s.events := by
        rcases hl with hl | hl | hl
        · exact hl
        · exact absurd hl h1
        · exact absurd hl h2
      rw [GetBsrTx_congr t3 ru]
      exact CycleEnd_TimerStep ⟨hr, hg, hlive⟩ t1 t2
/-- The invariant of the cycle survives a growing registration counter and a flag set
by someone else. -/
theorem CycleEnd_mono {ru : Nat} {Ti : Time} {n m : Nat} {flag flag2 : Bool} {s : StaWifiMac}
    (h : CycleEnd ru Ti n flag s) (hn : n ≤ m) (hf : flag = true → flag2 = true) :
    CycleEnd ru Ti m flag2 s :=
  ⟨h.1, CycleGuard_mono h.2.1 hn, CycleLive_mono h.2.2 hf⟩

/-- A station that fires any event leaves the shared registration counter no smaller
and clears no flag. -/
theorem Fire_shared_mono (s : StaWifiMac) (h : Shared) (e : Event) :
    h.nextUid ≤ ((s.withShared h).Fire e).shared.nextUid ∧
    ∀ ru, h.GetBsrTx ru = true → ((s.withShared h).Fire e).shared.GetBsrTx ru = true := by
  refine ⟨Dispatch_nextUid
    { s.withShared h with now := e.ts, events := s.events.filter fun x => x.uid != e.uid }
    e.cb, ?_⟩
  intro ru hf
  exact GetBsrTx_Dispatch_mono
    { s.withShared h with now := e.ts, events := s.events.filter fun x => x.uid != e.uid }
    e.cb ru hf

/-- The invariant of the cycle is kept when the station fires one of its events. -/
theorem CycleEnd_fire_own {ru : Nat} (hru : ru ≤ 8) {Ti : Time} (s : StaWifiMac) (h : Shared)
    (e : Event) (hinv : CycleEnd ru Ti h.nextUid (h.GetBsrTx ru) s) (he : e ∈ s.events) :
    CycleEnd ru Ti ((s.withShared h).Fire e).shared.nextUid
      (((s.withShared h).Fire e).shared.GetBsrTx ru) ((s.withShared h).Fire e) := by
  obtain ⟨hr, hg, hl⟩ := hinv
  refine CycleEnd_Dispatch hru
    { s.withShared h with now := e.ts, events := s.events.filter fun x => x.uid != e.uid }
    e.cb hr (CycleGuard_sublist hg (List.filter_sublist _)) ?_ ?_ ?_
  · intro hc
    exact hg.2.2.2.1 e he hc
  · intro hu
    exact (hg.2.2.2.2.1 e he hu).1
  · by_cases h1 : e.cb.isCheck = true
    · exact Or.inr (Or.inl h1)
    · by_cases h2 : e.cb.isUpdate = true
      · exact Or.inr (Or.inr h2)
      · refine Or.inl (CycleLive_rm hg.2.1 he hl ?_ ?_)
        · intro hh
          rw [hh] at h1
          exact h1 rfl
        · intro hh
          rw [hh] at h2
          exact h2 rfl

/-- The invariant of station `i` is kept by a step of the simulator, whichever station
runs. -/
theorem World_step_CycleEnd {ru : Nat} (hru : ru ≤ 8) {Ti : Time} (i : Nat) (w : World)
    (h : ∃ s, w.stas[i]? = some s ∧
      CycleEnd ru Ti w.shared.nextUid (w.shared.GetBsrTx ru) s) :
    ∃ s, w.step.stas[i]? = some s ∧
      CycleEnd ru Ti w.step.shared.nextUid (w.step.shared.GetBsrTx ru) s := by
  obtain ⟨s, hs, hinv⟩ := h
  unfold World.step
  cases hE : earliest (pendingFrom 0 w.stas) with
  | none => exact ⟨s, hs, hinv⟩
  | some x =>
    obtain ⟨j, e⟩ := x
    obtain ⟨hmem, _⟩ := earliest_some _ _ hE
    obtain ⟨_, sj, hsj, hej⟩ := (mem_pendingFrom w.stas 0 j e).mp hmem
    rw [Nat.sub_zero] at hsj
    show ∃ s, (w.fire j e).stas[i]? = some s ∧
      CycleEnd ru Ti (w.fire j e).shared.nextUid ((w.fire j e).shared.GetBsrTx ru) s
    rw [World_fire_eq w j e sj hsj]
    have hjlt : j < w.stas.length := (List.getElem?_eq_some_iff.mp hsj).1
    by_cases hji : j = i
    · subst hji
      have hsj2 : sj = s := Option.some.inj (hsj.symm.trans hs)
      subst hsj2
      exact ⟨_, List.getElem?_set_self hjlt, CycleEnd_fire_own hru sj w.shared e hinv hej⟩
    · refine ⟨s, ?_, ?_⟩
      · show (w.stas.set j _)[i]? = some s
        rw [List.getElem?_set_ne hji]
        exact hs
      · obtain ⟨m1, m2⟩ := Fire_shared_mono sj w.shared e
        exact CycleEnd_mono hinv m1 (m2 ru)

/-- When the cycle-end check of a station is the next of its events, the flag of its RU
is set. -/
theorem CycleEnd_flag_set {ru : Nat} {Ti : Time} {n : Nat} {flag : Bool} {s : StaWifiMac}
    (h : CycleEnd ru Ti n flag s) {e : Event} (he : e ∈ s.events)
    (hcb : e.cb = Callback.CancelExpiredEvents)
    (hmin : ∀ y ∈ s.events, e.notAfter y = true) : flag = true := by
  obtain ⟨_, hg, hl⟩ := h
  have hlate : Ti + 1 < e.ts := hg.2.2.2.2.2.2 e he hcb
  rcases hl with ⟨x, hx, hxc⟩ | hl | ⟨x, hx, hxc⟩
  · exfalso
    have h1 := (hg.2.2.2.1 x hx (by rw [hxc]; rfl)).2
    have h2 := ts_le_of_notAfter (hmin x hx)
    linarith
  · exact hl
  · exfalso
    have h1 := (hg.2.2.2.2.1 x hx (by rw [hxc]; rfl)).2
    have h2 := ts_le_of_notAfter (hmin x hx)
    linarith

/-- A cycle-end check that finds the flag of the station's RU set leaves the OBO. -/
theorem Fire_cycle_end_of_flag (s : StaWifiMac) (h : Shared) (e : Event)
    (hcb : e.cb = Callback.CancelExpiredEvents) (hf : h.GetBsrTx s.ruBits = true) :
    ((s.withShared h).Fire e).m_noSlots = s.m_noSlots := by
  unfold StaWifiMac.Fire
  rw [hcb]
  show (StaWifiMac.CancelExpiredEvents _).m_noSlots = _
  rw [CancelExpiredEvents_eq]
  have hg : StaWifiMac.GetBsrTx
      { s.withShared h with
        now := e.ts,
        events := (s.withShared h).events.filter (fun x => x.uid != e.uid) } s.ruBits = true := hf
  show (if StaWifiMac.GetBsrTx _ s.ruBits = false then _ else s.m_noSlots) = s.m_noSlots
  rw [hg]
  rfl
/-- What is done for a broadcast allocation entry leaves the probe, association and
watchdog handles. -/
theorem tfBroadcastEntry_handles (s : StaWifiMac) :
    s.tfBroadcastEntry.m_probeRequestEvent = s.m_probeRequestEvent ∧
    s.tfBroadcastEntry.m_assocRequestEvent = s.m_assocRequestEvent ∧
    s.tfBroadcastEntry.m_beaconWatchdog = s.m_beaconWatchdog := by
  unfold StaWifiMac.tfBroadcastEntry
  simp only
  split <;> exact ⟨rfl, rfl, rfl⟩

/-- The cycle-end check is due more than one microsecond after the cancel-check when
the OBO is below max-slots, the slot lasts a microsecond at least and slot and SIFS
together two. -/
theorem cycle_end_late (obo m : Nat) (slot sifs now : Time) (h : obo < m) (hs : 1 ≤ slot)
    (hg : 2 ≤ slot + sifs) :
    now + (obo : Int) * slot + 1 < now + ((m : Int) * slot + sifs) := by
  have h1 : ((obo : Int) + 1) * slot ≤ (m : Int) * slot :=
    mul_le_mul_of_nonneg_right (by exact_mod_cast h) (by linarith)
  have h2 : ((obo : Int) + 1) * slot = (obo : Int) * slot + slot := by ring
  linarith

/-- The loop over the RU allocations, when it cannot return (no entry of an uplink
trigger names the station) and the OBO is below max-slots, keeps the RU and the
bookkeeping of the cycle, and leaves a cancel-check pending when the allocation map has
a broadcast entry. -/
theorem tfAllocLoop_CycleGuard (ulFlag : Nat) (l : List (Mac48Address × Nat)) :
    ∀ (s : StaWifiMac) (ru : Nat) (Ti : Time), s.ruBits = ru →
      Ti = s.now + (s.m_noSlots : Int) * s.slot →
      (∀ x ∈ l, x.1 = s.address → ulFlag = 0) →
      s.m_noSlots < s.maxTfSlots →
      Ti + 1 < s.now + ((s.maxTfSlots : Int) * s.slot + s.sifs) →
      CycleGuard ru Ti s.nextUid s.events s.m_probeRequestEvent s.m_assocRequestEvent
        s.m_beaconWatchdog →
      (s.tfAllocLoop ulFlag l).1.ruBits = ru ∧
      CycleGuard ru Ti (s.tfAllocLoop ulFlag l).1.nextUid (s.tfAllocLoop ulFlag l).1.events
        (s.tfAllocLoop ulFlag l).1.m_probeRequestEvent
        (s.tfAllocLoop ulFlag l).1.m_assocRequestEvent
        (s.tfAllocLoop ulFlag l).1.m_beaconWatchdog ∧
      (((∃ x ∈ l, x.1 = GetBroadcast) ∨ ∃ e ∈ s.events, e.cb = Callback.CheckAndCancel ru) →
        ∃ e ∈ (s.tfAllocLoop ulFlag l).1.events, e.cb = Callback.CheckAndCancel ru) := by
  induction l with
  | nil =>
    intro s ru Ti hr _ _ _ _ hg
    refine ⟨hr, hg, ?_⟩
    rintro (⟨x, hx, _⟩ | h)
    · exact absurd hx (List.not_mem_nil x)
    · exact h
  | cons p rest ih =>
    intro s ru Ti hr hTi hkeep hlt hlate hg
    obtain ⟨a, r⟩ := p
    have hc : ¬ (a = s.GetAddress ∧ ulFlag ≠ 0) := by
      rintro ⟨ha, hu⟩
      exact hu (hkeep (a, r) (List.mem_cons_self _ _) ha)
    rw [StaWifiMac.tfAllocLoop, if_neg hc]
    by_cases hb : a = GetBroadcast
    · rw [if_pos hb]
      obtain ⟨f1, f2, f3, f4, f5, f6, f7⟩ := tfBroadcastEntry_frame s
      obtain ⟨k1, k2, k3⟩ := tfBroadcastEntry_handles s
      obtain ⟨he, hn⟩ := tfBroadcastEntry_of_lt s hlt
      have hg1 : CycleGuard ru Ti (s.nextUid + 1)
          (s.events ++ [⟨s.nextUid, s.now + (s.m_noSlots : Int) * s.slot,
            Callback.CheckAndCancel s.ruBits⟩])
          s.m_probeRequestEvent s.m_assocRequestEvent s.m_beaconWatchdog :=
        CycleGuard_append hg _ _ (fun _ => ⟨by rw [hr], hTi.symm⟩)
          (fun h => Bool.noConfusion h) (fun h => Callback.noConfusion h)
          (Or.inl rfl) (Or.inl rfl) (Or.inl rfl)
      have hg2 : CycleGuard ru Ti (s.nextUid + 1 + 1)
          (s.events ++ [⟨s.nextUid, s.now + (s.m_noSlots : Int) * s.slot,
            Callback.CheckAndCancel s.ruBits⟩] ++
            [⟨s.nextUid + 1, s.now + (s.m_noSlots : Int) * s.slot,
              Callback.SendTriggerFrameResp s.ruBits⟩])
          s.m_probeRequestEvent s.m_assocRequestEvent s.m_beaconWatchdog :=
        CycleGuard_append hg1 _ _ (fun h => Bool.noConfusion h)
          (fun h => Bool.noConfusion h) (fun h => Callback.noConfusion h)
          (Or.inl rfl) (Or.inl rfl) (Or.inl rfl)
      have hg3 : CycleGuard ru Ti (s.nextUid + 1 + 1 + 1)
          (s.events ++ [⟨s.nextUid, s.now + (s.m_noSlots : Int) * s.slot,
            Callback.CheckAndCancel s.ruBits⟩] ++
            [⟨s.nextUid + 1, s.now + (s.m_noSlots : Int) * s.slot,
              Callback.SendTriggerFrameResp s.ruBits⟩] ++
            [⟨s.nextUid + 1 + 1, s.now + ((s.maxTfSlots : Int) * s.slot + s.sifs),
              Callback.CancelExpiredEvents⟩])
          s.m_probeRequestEvent s.m_assocRequestEvent s.m_beaconWatchdog :=
        CycleGuard_append hg2 _ _ (fun h => Bool.noConfusion h)
          (fun h => Bool.noConfusion h) (fun _ => hlate)
          (Or.inl rfl) (Or.inl rfl) (Or.inl rfl)
      have hev : s.tfBroadcastEntry.events =
          s.events ++ [⟨s.nextUid, s.now + (s.m_noSlots : Int) * s.slot,
            Callback.CheckAndCancel s.ruBits⟩] ++
            [⟨s.nextUid + 1, s.now + (s.m_noSlots : Int) * s.slot,
              Callback.SendTriggerFrameResp s.ruBits⟩] ++
            [⟨s.nextUid + 1 + 1, s.now + ((s.maxTfSlots : Int) * s.slot + s.sifs),
              Callback.CancelExpiredEvents⟩] := by
        rw [he]
        simp only [List.append_assoc, List.singleton_append]
        rfl
      have hgb : CycleGuard ru Ti s.tfBroadcastEntry.nextUid s.tfBroadcastEntry.events
          s.tfBroadcastEntry.m_probeRequestEvent s.tfBroadcastEntry.m_assocRequestEvent
          s.tfBroadcastEntry.m_beaconWatchdog := by
        rw [hev, hn, k1, k2, k3]
        exact hg3
      obtain ⟨i1, i2, i3⟩ := ih s.tfBroadcastEntry ru Ti (f6.trans hr)
        (by rw [f1, f2, f3]; exact hTi)
        (fun x hx => by rw [f7]; exact hkeep x (List.mem_cons_of_mem _ hx))
        (by rw [f2, f5]; exact hlt) (by rw [f1, f5, f3, f4]; exact hlate) hgb
      refine ⟨i1, i2, fun _ => i3 (Or.inr ⟨⟨s.nextUid, s.now + (s.m_noSlots : Int) * s.slot,
        Callback.CheckAndCancel s.ruBits⟩, ?_, by rw [hr]⟩)⟩
      rw [he]
      exact List.mem_append_right _ (List.mem_cons_self _ _)
    · rw [if_neg hb]
      obtain ⟨i1, i2, i3⟩ := ih s ru Ti hr hTi
        (fun x hx => hkeep x (List.mem_cons_of_mem _ hx)) hlt hlate hg
      refine ⟨i1, i2, ?_⟩
      rintro (⟨x, hx, hxb⟩ | h)
      · rcases List.mem_cons.mp hx with hx | hx
        · rw [hx] at hxb
          exact absurd hxb hb
        · exact i3 (Or.inl ⟨x, hx, hxb⟩)
      · exact i3 (Or.inr h)

/-- A trigger moves neither the clock nor the registration counter backwards, whatever
the station does with it. -/
theorem Receive_TF_frame (s : StaWifiMac) (packet : Packet) (hdr : WifiMacHeader) (rv : Nat)
    (ht : hdr.type = WifiMacType.TF) :
    (s.Receive packet hdr rv).now = s.now ∧ s.nextUid ≤ (s.Receive packet hdr rv).nextUid := by
  by_cases hp : passesAddressFilter s hdr
  · rw [Receive_of_passes s packet hdr rv hp, ht]
    simp only []
    obtain ⟨_, h1, _, _, _, _, _, h7⟩ :=
      tfAllocLoop_frame packet.tf.uplinkFlag packet.tf.ruAllocations (s.tfStart packet rv)
    have e1 : (s.tfStart packet rv).now = s.now := by rw [tfStart_eq]
    have e2 : (s.tfStart packet rv).nextUid = s.nextUid + 1 := by rw [tfStart_eq]
    rw [e1] at h1
    rw [e2] at h7
    split_ifs
    · exact ⟨h1, by omega⟩
    · exact ⟨h1, by
        show s.nextUid ≤ ((s.tfStart packet rv).tfAllocLoop packet.tf.uplinkFlag
          packet.tf.ruAllocations).1.nextUid
        omega⟩
  · rw [Receive_of_not_passes s packet hdr rv hp]
    split_ifs <;> exact ⟨rfl, le_refl _⟩

/-- A station with its bookkeeping in order and no event of a cycle pending receives a
trigger that reaches the trigger branch, with a broadcast entry in the allocation map
and no entry that makes the loop return, and draws an OBO below max-slots: afterwards
the station is on the same RU, the bookkeeping of the cycle is in order for a
cancel-check due at `now + OBO * slot`, and a cancel-check is pending. -/
theorem Receive_TF_CycleGuard (s : StaWifiMac) (packet : Packet) (hdr : WifiMacHeader)
    (rv : Nat) (ht : hdr.type = WifiMacType.TF) (hp : passesAddressFilter s hdr)
    (hw1 : ∀ e ∈ s.events, e.uid < s.nextUid) (hw2 : (s.events.map Event.uid).Nodup)
    (hw3 : ∀ u, s.m_probeRequestEvent = some u ∨ s.m_assocRequestEvent = some u ∨
      s.m_beaconWatchdog = some u → u < s.nextUid)
    (hq : ∀ e ∈ s.events, e.cb.isCheck = false ∧ e.cb.isUpdate = false ∧
      e.cb ≠ Callback.CancelExpiredEvents)
    (hb : ∃ x ∈ packet.tf.ruAllocations, x.1 = GetBroadcast)
    (hkeep : ∀ x ∈ packet.tf.ruAllocations, x.1 = s.address → packet.tf.uplinkFlag = 0)
    (hslot : 1 ≤ s.slot) (hgap : 2 ≤ s.slot + s.sifs)
    (hobo : s.slotsAfterDraw rv < s.maxTfSlots) :
    (s.Receive packet hdr rv).ruBits = s.ruBits ∧
    CycleGuard s.ruBits (s.now + (s.slotsAfterDraw rv : Int) * s.slot)
      (s.Receive packet hdr rv).nextUid (s.Receive packet hdr rv).events
      (s.Receive packet hdr rv).m_probeRequestEvent
      (s.Receive packet hdr rv).m_assocRequestEvent
      (s.Receive packet hdr rv).m_beaconWatchdog ∧
    ∃ e ∈ (s.Receive packet hdr rv).events, e.cb = Callback.CheckAndCancel s.ruBits := by
  have hg0 : CycleGuard s.ruBits (s.now + (s.slotsAfterDraw rv : Int) * s.slot) s.nextUid
      s.events s.m_probeRequestEvent s.m_assocRequestEvent s.m_beaconWatchdog := by
    refine ⟨hw1, hw2, hw3, ?_, ?_, ?_, ?_⟩
    · intro e he hc
      rw [(hq e he).1] at hc
      exact Bool.noConfusion hc
    · intro e he hc
      rw [(hq e he).2.1] at hc
      exact Bool.noConfusion hc
    · intro e he hc
      rcases hc with hc | hc
      · rw [(hq e he).1] at hc
        exact Bool.noConfusion hc
      · rw [(hq e he).2.1] at hc
        exact Bool.noConfusion hc
    · intro e he hc
      exact absurd hc (hq e he).2.2
  have hg1 : CycleGuard s.ruBits (s.now + (s.slotsAfterDraw rv : Int) * s.slot)
      (s.tfStart packet rv).nextUid (s.tfStart packet rv).events
      (s.tfStart packet rv).m_probeRequestEvent (s.tfStart packet rv).m_assocRequestEvent
      (s.tfStart packet rv).m_beaconWatchdog := by
    rw [tfStart_eq]
    exact CycleGuard_append hg0 _ Callback.StopMuMode (fun h => Bool.noConfusion h)
      (fun h => Bool.noConfusion h) (fun h => Callback.noConfusion h)
      (Or.inl rfl) (Or.inl rfl) (Or.inl rfl)
  have e1 : (s.tfStart packet rv).now = s.now := by rw [tfStart_eq]
  have e2 : (s.tfStart packet rv).m_noSlots = s.slotsAfterDraw rv := by rw [tfStart_eq]
  have e3 : (s.tfStart packet rv).slot = s.slot := by rw [tfStart_eq]
  have e4 : (s.tfStart packet rv).sifs = s.sifs := by rw [tfStart_eq]
  have e5 : (s.tfStart packet rv).maxTfSlots = s.maxTfSlots := by rw [tfStart_eq]
  have e6 : (s.tfStart packet rv).address = s.address := by rw [tfStart_eq]
  have e8 : (s.tfStart packet rv).ruBits = s.ruBits := by rw [tfStart_eq]
  obtain ⟨i1, i2, i3⟩ := tfAllocLoop_CycleGuard packet.tf.uplinkFlag packet.tf.ruAllocations
    (s.tfStart packet rv) s.ruBits (s.now + (s.slotsAfterDraw rv : Int) * s.slot) e8
    (by rw [e1, e2, e3]) (by rw [e6]; exact hkeep) (by rw [e2, e5]; exact hobo)
    (by rw [e1, e5, e3, e4]; exact cycle_end_late _ _ _ _ _ hobo hslot hgap) hg1
  rw [Receive_of_passes s packet hdr rv hp, ht]
  simp only []
  split_ifs
  · exact ⟨i1, i2, i3 (Or.inl hb)⟩
  · exact ⟨i1, i2, i3 (Or.inl hb)⟩
/-- The property survives every change that registers no cycle-end check and leaves
the OBO. -/
theorem CycleOne_of_subset {obo : Nat} {s s2 : StaWifiMac} (h : CycleOne obo s)
    (he : ∀ e ∈ s2.events, e.cb = Callback.CancelExpiredEvents → e ∈ s.events)
    (hn : s2.m_noSlots = s.m_noSlots) : CycleOne obo s2 := by
  obtain ⟨h1, h2⟩ := h
  refine ⟨fun e he1 e2 he2 hc hc2 => h1 e (he e he1 hc) e2 (he e2 he2 hc2) hc hc2, ?_⟩
  rintro ⟨e, he1, hc⟩
  rw [hn]
  exact h2 ⟨e, he e he1 hc, hc⟩

/-- The property holds when no cycle-end check is pending. -/
theorem CycleOne_of_none {obo : Nat} {s : StaWifiMac}
    (h : ∀ e ∈ s.events, e.cb ≠ Callback.CancelExpiredEvents) : CycleOne obo s :=
  ⟨fun e he _ _ hc _ => absurd hc (h e he), fun ⟨e, he, hc⟩ => absurd hc (h e he)⟩

/-- No callback registers a cycle-end check. -/
theorem Dispatch_no_cycle_end (s : StaWifiMac) (cb : Callback) :
    ∀ e ∈ (s.Dispatch cb).events, e.cb = Callback.CancelExpiredEvents → e ∈ s.events := by
  intro e he hc
  by_cases h1 : cb.isCheck = true
  · cases cb with
    | CheckAndCancel ru =>
      have he2 : e ∈ (s.CheckAndCancel ru).events := he
      unfold StaWifiMac.CheckAndCancel at he2
      split at he2
      · exact (cancelIn_sublist _ _).subset he2
      · rcases List.mem_append.mp he2 with h | h
        · exact h
        · rw [List.mem_singleton] at h
          rw [h] at hc
          exact Callback.noConfusion hc
    | _ => exact Bool.noConfusion h1
  · by_cases h2 : cb.isUpdate = true
    · cases cb with
      | UpdateBsrTx ru =>
        have he2 : e ∈ (s.UpdateBsrTx ru).events := he
        rw [(UpdateBsrTx_frame s ru).1] at he2
        exact he2
      | _ => exact Bool.noConfusion h2
    · obtain ⟨t1, _, _⟩ := TimerStep_Dispatch s cb (Bool.eq_false_iff.mpr h1)
        (Bool.eq_false_iff.mpr h2)
      rcases t1 with ⟨a1, _⟩ | ⟨hd, t, cb2, _, _, _, b4, b5, _⟩
      · rw [a1] at he
        exact he
      · rw [b5] at he
        rcases List.mem_append.mp he with h | h
        · exact mem_of_mem_eventsAfterCancel _ _ _ h
        · rw [List.mem_singleton] at h
          rw [h] at hc
          exact absurd hc b4

/-- Only the cycle-end check writes the OBO. -/
theorem Dispatch_noSlots (s : StaWifiMac) (cb : Callback)
    (h : cb ≠ Callback.CancelExpiredEvents) : (s.Dispatch cb).m_noSlots = s.m_noSlots := by
  cases cb with
  | TryToEnsureAssociated =>
    show s.TryToEnsureAssociated.m_noSlots = _
    rw [TryToEnsureAssociated_eq]
    split_ifs <;> rfl
  | ProbeRequestTimeout =>
    show s.ProbeRequestTimeout.m_noSlots = _
    unfold StaWifiMac.ProbeRequestTimeout
    rw [SendProbeRequest_eq, SetState_eq]
  | AssocRequestTimeout =>
    show s.AssocRequestTimeout.m_noSlots = _
    unfold StaWifiMac.AssocRequestTimeout
    rw [SendAssociationRequest_eq, SetState_eq]
  | MissedBeacons =>
    show s.MissedBeacons.m_noSlots = _
    by_cases hlt : s.now < s.m_beaconWatchdogEnd
    · rw [MissedBeacons_eq_of_lt s hlt]
    · rw [MissedBeacons_eq_of_le s (not_lt.mp hlt), TryToEnsureAssociated_eq]
      split_ifs <;> rw [SetState_eq]
  | StopMuMode => rfl
  | CheckAndCancel ru =>
    show (s.CheckAndCancel ru).m_noSlots = _
    unfold StaWifiMac.CheckAndCancel
    split <;> rfl
  | SendTriggerFrameResp ru => rfl
  | CancelExpiredEvents => exact absurd rfl h
  | UpdateBsrTx ru =>
    show (s.UpdateBsrTx ru).m_noSlots = _
    by_cases hru : ru ≤ 8
    · interval_cases ru <;> rfl
    · rw [UpdateBsrTx_of_ge s ru (by omega)]
  | NotifyMaybeCcaBusyStartNow ru d => rfl

/-- The property is kept when the station fires one of its events. -/
theorem CycleOne_fire_own {obo : Nat} (s : StaWifiMac) (h : Shared) (e : Event)
    (hinv : CycleOne obo s) (he : e ∈ s.events) :
    CycleOne obo ((s.withShared h).Fire e) := by
  by_cases hc : e.cb = Callback.CancelExpiredEvents
  · apply CycleOne_of_none
    intro x hx hxc
    have hx2 := Dispatch_no_cycle_end
      { s.withShared h with now := e.ts, events := s.events.filter fun y => y.uid != e.uid }
      e.cb x hx hxc
    have hx3 : x ∈ s.events.filter fun y => y.uid != e.uid := hx2
    rw [mem_rm] at hx3
    have hxe : x = e := hinv.1 x hx3.1 e he hxc hc
    exact hx3.2 (by rw [hxe])
  · have h0 : CycleOne obo
        { s.withShared h with now := e.ts, events := s.events.filter fun y => y.uid != e.uid } :=
      CycleOne_of_subset hinv (fun x hx _ => List.mem_of_mem_filter hx) rfl
    exact CycleOne_of_subset h0 (Dispatch_no_cycle_end _ e.cb) (Dispatch_noSlots _ e.cb hc)

/-- The property of station `i` is kept by a step of the simulator. -/
theorem World_step_CycleOne {obo : Nat} (i : Nat) (w : World)
    (h : ∃ s, w.stas[i]? = some s ∧ CycleOne obo s) :
    ∃ s, w.step.stas[i]? = some s ∧ CycleOne obo s := by
  obtain ⟨s, hs, hinv⟩ := h
  unfold World.step
  cases hE : earliest (pendingFrom 0 w.stas) with
  | none => exact ⟨s, hs, hinv⟩
  | some x =>
    obtain ⟨j, e⟩ := x
    obtain ⟨hmem, _⟩ := earliest_some _ _ hE
    obtain ⟨_, sj, hsj, hej⟩ := (mem_pendingFrom w.stas 0 j e).mp hmem
    rw [Nat.sub_zero] at hsj
    show ∃ s, (w.fire j e).stas[i]? = some s ∧ CycleOne obo s
    rw [World_fire_eq w j e sj hsj]
    have hjlt : j < w.stas.length := (List.getElem?_eq_some_iff.mp hsj).1
    by_cases hji : j = i
    · subst hji
      have hsj2 : sj = s := Option.some.inj (hsj.symm.trans hs)
      subst hsj2
      exact ⟨_, List.getElem?_set_self hjlt, CycleOne_fire_own sj w.shared e hinv hej⟩
    · refine ⟨s, ?_, hinv⟩
      show (w.stas.set j _)[i]? = some s
      rw [List.getElem?_set_ne hji]
      exact hs

/-- The loop over an allocation map that names every address once at most registers at
most one cycle-end check. -/
theorem tfAllocLoop_one_cycle_end (ulFlag : Nat) (l : List (Mac48Address × Nat)) :
    ∀ s : StaWifiMac, (l.map Prod.fst).Nodup →
      (∀ e ∈ s.events, ∀ e2 ∈ s.events, e.cb = Callback.CancelExpiredEvents →
        e2.cb = Callback.CancelExpiredEvents → e = e2) →
      ((∃ e ∈ s.events, e.cb = Callback.CancelExpiredEvents) →
        ∀ x ∈ l, x.1 ≠ GetBroadcast) →
      ∀ e ∈ (s.tfAllocLoop ulFlag l).1.events, ∀ e2 ∈ (s.tfAllocLoop ulFlag l).1.events,
        e.cb = Callback.CancelExpiredEvents → e2.cb = Callback.CancelExpiredEvents →
        e = e2 := by
  induction l with
  | nil => intro s _ h _; exact h
  | cons p rest ih =>
    intro s hnd hone hnb
    obtain ⟨a, r⟩ := p
    rw [List.map_cons, List.nodup_cons] at hnd
    unfold StaWifiMac.tfAllocLoop
    by_cases hc : a = s.GetAddress ∧ ulFlag ≠ 0
    · rw [if_pos hc]
      intro e he e2 he2 hce hce2
      have hmem : ∀ x, x ∈ s.events ++ [(⟨s.nextUid, s.now + MicroSeconds 17,
          Callback.NotifyMaybeCcaBusyStartNow r (StaWifiMac.Seconds 1)⟩ : Event)] →
          x.cb = Callback.CancelExpiredEvents → x ∈ s.events := by
        intro x hx hxc
        rcases List.mem_append.mp hx with h | h
        · exact h
        · rw [List.mem_singleton] at h
          rw [h] at hxc
          exact Callback.noConfusion hxc
      exact hone e (hmem e he hce) e2 (hmem e2 he2 hce2) hce hce2
    · rw [if_neg hc]
      by_cases hb : a = GetBroadcast
      · rw [if_pos hb]
        have hnone : ∀ e ∈ s.events, e.cb ≠ Callback.CancelExpiredEvents := by
          intro e he hce
          exact hnb ⟨e, he, hce⟩ (a, r) (List.mem_cons_self _ _) hb
        have hrest : ∀ x ∈ rest, x.1 ≠ GetBroadcast := by
          intro x hx hxb
          apply hnd.1
          exact List.mem_map.mpr ⟨x, hx, hxb.trans hb.symm⟩
        have hone1 : ∀ e ∈ s.tfBroadcastEntry.events, ∀ e2 ∈ s.tfBroadcastEntry.events,
            e.cb = Callback.CancelExpiredEvents → e2.cb = Callback.CancelExpiredEvents →
            e = e2 := by
          by_cases hlt : s.m_noSlots < s.maxTfSlots
          · rw [(tfBroadcastEntry_of_lt s hlt).1]
            intro e he e2 he2 hce hce2
            have hmem : ∀ x, x ∈ s.events ++
                [(⟨s.nextUid, s.now + (s.m_noSlots : Int) * s.slot,
                    Callback.CheckAndCancel s.ruBits⟩ : Event),
                  ⟨s.nextUid + 1, s.now + (s.m_noSlots : Int) * s.slot,
                    Callback.SendTriggerFrameResp s.ruBits⟩,
                  ⟨s.nextUid + 2, s.now + ((s.maxTfSlots : Int) * s.slot + s.sifs),
                    Callback.CancelExpiredEvents⟩] →
                x.cb = Callback.CancelExpiredEvents →
                x = ⟨s.nextUid + 2, s.now + ((s.maxTfSlots : Int) * s.slot + s.sifs),
                  Callback.CancelExpiredEvents⟩ := by
              intro x hx hxc
              rcases List.mem_append.mp hx with h | h
              · exact absurd hxc (hnone x h)
              · simp only [List.mem_cons, List.mem_singleton, List.not_mem_nil, or_false] at h
                rcases h with h | h | h
                · rw [h] at hxc
                  exact Callback.noConfusion hxc
                · rw [h] at hxc
                  exact Callback.noConfusion hxc
                · exact h
            rw [hmem e he hce, hmem e2 he2 hce2]
          · rw [(tfBroadcastEntry_of_not_lt s hlt).1]
            intro e he e2 he2 hce hce2
            have hmem : ∀ x, x ∈ s.events ++
                [(⟨s.nextUid, s.now + ((s.maxTfSlots : Int) * s.slot + s.sifs),
                    Callback.CancelExpiredEvents⟩ : Event)] →
                x.cb = Callback.CancelExpiredEvents →
                x = ⟨s.nextUid, s.now + ((s.maxTfSlots : Int) * s.slot + s.sifs),
                  Callback.CancelExpiredEvents⟩ := by
              intro x hx hxc
              rcases List.mem_append.mp hx with h | h
              · exact absurd hxc (hnone x h)
              · exact List.mem_singleton.mp h
            rw [hmem e he hce, hmem e2 he2 hce2]
        exact ih s.tfBroadcastEntry hnd.2 hone1 (fun _ => hrest)
      · rw [if_neg hb]
        exact ih s hnd.2 hone (fun h x hx => hnb h x (List.mem_cons_of_mem _ hx))

/-- A station without a pending cycle-end check that receives a trigger reaching the
trigger branch, with an allocation map that names every address once at most, has at
most one cycle-end check pending afterwards and holds the OBO it drew. -/
theorem Receive_TF_CycleOne (s : StaWifiMac) (packet : Packet) (hdr : WifiMacHeader)
    (rv : Nat) (ht : hdr.type = WifiMacType.TF) (hp : passesAddressFilter s hdr)
    (hq : ∀ e ∈ s.events, e.cb ≠ Callback.CancelExpiredEvents)
    (hnd : (packet.tf.ruAllocations.map Prod.fst).Nodup) :
    CycleOne (s.slotsAfterDraw rv) (s.Receive packet hdr rv) := by
  have hq1 : ∀ e ∈ (s.tfStart packet rv).events, e.cb ≠ Callback.CancelExpiredEvents := by
    rw [tfStart_eq]
    intro e he hce
    rcases List.mem_append.mp he with h | h
    · exact hq e h hce
    · rw [List.mem_singleton] at h
      rw [h] at hce
      exact Callback.noConfusion hce
  have hone := tfAllocLoop_one_cycle_end packet.tf.uplinkFlag packet.tf.ruAllocations
    (s.tfStart packet rv) hnd (fun e he _ _ hce _ => absurd hce (hq1 e he))
    (fun ⟨e, he, hce⟩ => absurd hce (hq1 e he))
  obtain ⟨_, _, h2, _⟩ :=
    tfAllocLoop_frame packet.tf.uplinkFlag packet.tf.ruAllocations (s.tfStart packet rv)
  have e2 : (s.tfStart packet rv).m_noSlots = s.slotsAfterDraw rv := by rw [tfStart_eq]
  rw [e2] at h2
  rw [Receive_of_passes s packet hdr rv hp, ht]
  simp only []
  split_ifs
  · exact ⟨hone, fun _ => h2⟩
  · exact ⟨hone, fun _ => h2⟩

/-- The idiom "cancel the handle if it is running" leaves the events a cancellation
leaves. -/
theorem eventsAfterCancel_eq_cancelIn (E : List Event) (id : EventId) :
    eventsAfterCancel E id = cancelIn E id := by
  unfold eventsAfterCancel
  cases id with
  | none => simp [cancelIn]
  | some u =>
    by_cases h : expiredIn E (some u) = true
    · simp only [h, Bool.not_true, Bool.false_eq_true, if_false]
      unfold cancelIn
      symm
      rw [List.filter_eq_self]
      intro e he
      simp only [expiredIn, Bool.not_eq_true', List.any_eq_false, beq_iff_eq] at h
      simpa using h e he
    · simp only [h, Bool.not_false, if_true]

/-- Handle steps compose. -/
theorem HandleStep.hcomp {n1 n2 n3 : Nat} {a b c : EventId} (h12 : n1 ≤ n2) (h23 : n2 ≤ n3)
    (h1 : HandleStep n1 n2 a b) (h2 : HandleStep n2 n3 b c) : HandleStep n1 n3 a c := by
  rcases h2 with h2 | ⟨u, hu, hl, hr⟩
  · rw [h2]
    rcases h1 with h1 | ⟨u, hu, hl, hr⟩
    · exact Or.inl h1
    · exact Or.inr ⟨u, hu, hl, lt_of_lt_of_le hr h23⟩
  · exact Or.inr ⟨u, hu, le_trans h12 hl, hr⟩

/-- Every state is related to itself. -/
theorem OffCycle.orefl (s : StaWifiMac) : OffCycle s s :=
  ⟨rfl, rfl, rfl, rfl, rfl, le_refl _, fun _ he => Or.inl he, fun _ he => Or.inl he,
    fun _ h => h, Or.inl rfl, Or.inl rfl, Or.inl rfl⟩

/-- Reactions outside the trigger cycle compose. -/
theorem OffCycle.ocomp {a b c : StaWifiMac} (h1 : OffCycle a b) (h2 : OffCycle b c) :
    OffCycle a c := by
  obtain ⟨a1, a2, a3, a4, a5, a6, a7, a8, a9, a10, a11, a12⟩ := h1
  obtain ⟨b1, b2, b3, b4, b5, b6, b7, b8, b9, b10, b11, b12⟩ := h2
  have hold : ∀ (x y : EventId) (e : Event), HandleStep a.nextUid b.nextUid x y →
      y = some e.uid → x = some e.uid ∨ a.nextUid ≤ e.uid := by
    intro x y e hxy hy
    rcases hxy with hxy | ⟨u, hu, hl, _⟩
    · rw [hxy] at hy
      exact Or.inl hy
    · rw [hu] at hy
      have : u = e.uid := Option.some.inj hy
      exact Or.inr (this ▸ hl)
  refine ⟨b1.trans a1, b2.trans a2, b3.trans a3, b4.trans a4, b5.trans a5, le_trans a6 b6,
    ?_, ?_, ?_, HandleStep.hcomp a6 b6 a10 b10, HandleStep.hcomp a6 b6 a11 b11,
    HandleStep.hcomp a6 b6 a12 b12⟩
  · intro e he
    rcases b7 e he with h | ⟨hl, hu, hc⟩
    · rcases a7 e h with h' | ⟨hl', hu', hc'⟩
      · exact Or.inl h'
      · exact Or.inr ⟨hl', lt_of_lt_of_le hu' b6, hc'⟩
    · exact Or.inr ⟨le_trans a6 hl, hu, hc⟩
  · intro e he
    rcases a8 e he with h | h
    · rcases b8 e h with h' | h' | h' | h' | h'
      · exact Or.inl h'
      · exact Or.inr (Or.inl (le_trans a6 h'))
      · rcases hold _ _ e a10 h' with k | k
        · exact Or.inr (Or.inr (Or.inl k))
        · exact Or.inr (Or.inl k)
      · rcases hold _ _ e a11 h' with k | k
        · exact Or.inr (Or.inr (Or.inr (Or.inl k)))
        · exact Or.inr (Or.inl k)
      · rcases hold _ _ e a12 h' with k | k
        · exact Or.inr (Or.inr (Or.inr (Or.inr k)))
        · exact Or.inr (Or.inl k)
    · exact Or.inr h
  · intro hlt hnd
    refine b9 ?_ (a9 hlt hnd)
    intro e he
    rcases a7 e he with h | ⟨_, hu, _⟩
    · exact lt_of_lt_of_le (hlt e h) a6
    · exact hu

/-- A reaction that cancels at most one of the probe, association and watchdog handles
and registers at most one event, which is no callback of the cycle, is a reaction
outside the trigger cycle. -/
theorem OffCycle.of_timer {s s' : StaWifiMac} (hd : EventId) (A : List Event)
    (h1 : s'.now = s.now) (h2 : s'.bsrTx = s.bsrTx) (h3 : s'.m_noSlots = s.m_noSlots)
    (h4 : s'.m_triggerFrameRespEvent = s.m_triggerFrameRespEvent)
    (h5 : ∃ l, s'.trace = s.trace ++ l ∧ l.filter Effect.isTfResp = [])
    (hhd : hd = none ∨ hd = s.m_probeRequestEvent ∨ hd = s.m_assocRequestEvent ∨
      hd = s.m_beaconWatchdog)
    (hev : s'.events = cancelIn s.events hd ++ A)
    (hA : (A = [] ∧ s'.nextUid = s.nextUid) ∨
      ∃ t cb, A = [⟨s.nextUid, t, cb⟩] ∧ cb.isCycle = false ∧ s'.nextUid = s.nextUid + 1)
    (hp : s'.m_probeRequestEvent = s.m_probeRequestEvent ∨
      (s'.m_probeRequestEvent = some s.nextUid ∧ s'.nextUid = s.nextUid + 1))
    (ha : s'.m_assocRequestEvent = s.m_assocRequestEvent ∨
      (s'.m_assocRequestEvent = some s.nextUid ∧ s'.nextUid = s.nextUid + 1))
    (hw : s'.m_beaconWatchdog = s.m_beaconWatchdog ∨
      (s'.m_beaconWatchdog = some s.nextUid ∧ s'.nextUid = s.nextUid + 1)) :
    OffCycle s s' := by
  have hstep : ∀ (x y : EventId), (y = x ∨ (y = some s.nextUid ∧ s'.nextUid = s.nextUid + 1)) →
      HandleStep s.nextUid s'.nextUid x y := by
    intro x y hxy
    rcases hxy with hxy | ⟨hxy, hn⟩
    · exact Or.inl hxy
    · exact Or.inr ⟨s.nextUid, hxy, le_refl _, by omega⟩
  have hn : s.nextUid ≤ s'.nextUid := by
    rcases hA with ⟨_, hn⟩ | ⟨_, _, _, _, hn⟩ <;> omega
  have hA2 : ∀ e ∈ A, s.nextUid ≤ e.uid ∧ e.uid < s'.nextUid ∧ e.cb.isCycle = false := by
    intro e he
    rcases hA with ⟨hA, _⟩ | ⟨t, cb, hA, hcb, hn⟩
    · rw [hA] at he
      exact absurd he (List.not_mem_nil e)
    · rw [hA, List.mem_singleton] at he
      rw [he, hn]
      exact ⟨le_refl _, Nat.lt_succ_self _, hcb⟩
  obtain ⟨l, hl1, hl2⟩ := h5
  refine ⟨h1, h2, h3, h4, ?_, hn, ?_, ?_, ?_, hstep _ _ hp, hstep _ _ ha, hstep _ _ hw⟩
  · unfold StaWifiMac.tfResps
    rw [hl1, List.filter_append, hl2, List.append_nil]
  · intro e he
    rw [hev] at he
    rcases List.mem_append.mp he with h | h
    · exact Or.inl ((cancelIn_sublist _ _).subset h)
    · exact Or.inr (hA2 e h)
  · intro e he
    by_cases hne : hd = some e.uid
    · right; right
      rcases hhd with hhd | hhd | hhd | hhd
      · rw [hhd] at hne
        exact Option.noConfusion hne
      · exact Or.inl (hhd ▸ hne)
      · exact Or.inr (Or.inl (hhd ▸ hne))
      · exact Or.inr (Or.inr (hhd ▸ hne))
    · left
      rw [hev]
      apply List.mem_append_left
      rw [← eventsAfterCancel_eq_cancelIn]
      exact mem_eventsAfterCancel_of_ne _ _ _ he hne
  · intro hlt hnd
    rw [hev, List.map_append, List.nodup_append]
    refine ⟨hnd.sublist ((cancelIn_sublist _ _).map Event.uid), ?_, ?_⟩
    · rcases hA with ⟨hA, _⟩ | ⟨t, cb, hA, _, _⟩
      · rw [hA]
        exact List.nodup_nil
      · rw [hA]
        exact List.nodup_singleton _
    · intro u hu hu'
      obtain ⟨e, he, heu⟩ := List.mem_map.mp hu
      obtain ⟨e', he', heu'⟩ := List.mem_map.mp hu'
      have k1 := hlt e ((cancelIn_sublist _ _).subset he)
      have k2 := (hA2 e' he').1
      omega

/-- A reaction that touches neither the timers nor the fields of the cycle is a reaction
outside the trigger cycle. -/
theorem OffCycle.of_same {s s' : StaWifiMac}
    (h1 : s'.now = s.now) (h2 : s'.bsrTx = s.bsrTx) (h3 : s'.m_noSlots = s.m_noSlots)
    (h4 : s'.m_triggerFrameRespEvent = s.m_triggerFrameRespEvent)
    (h5 : ∃ l, s'.trace = s.trace ++ l ∧ l.filter Effect.isTfResp = [])
    (hev : s'.events = s.events) (hn : s'.nextUid = s.nextUid)
    (hp : s'.m_probeRequestEvent = s.m_probeRequestEvent)
    (ha : s'.m_assocRequestEvent = s.m_assocRequestEvent)
    (hw : s'.m_beaconWatchdog = s.m_beaconWatchdog) : OffCycle s s' :=
  OffCycle.of_timer none [] h1 h2 h3 h4 h5 (Or.inl rfl)
    (by rw [hev, List.append_nil]; rfl) (Or.inl ⟨rfl, hn⟩) (Or.inl hp) (Or.inl ha) (Or.inl hw)

/-- Logging a call that hands no report to a queue. -/
theorem OffCycle_emit (s : StaWifiMac) (e : Effect) (h : e.isTfResp = false) :
    OffCycle s (s.emit e) :=
  OffCycle.of_same rfl rfl rfl rfl ⟨[e], rfl, by simp [List.filter, h]⟩ rfl rfl rfl rfl rfl

/-- Logging calls that hand no report to a queue. -/
theorem OffCycle_emitAll (s : StaWifiMac) (es : List Effect)
    (h : es.filter Effect.isTfResp = []) : OffCycle s (s.emitAll es) :=
  OffCycle.of_same rfl rfl rfl rfl ⟨es, rfl, h⟩ rfl rfl rfl rfl rfl

/-- The notification of `SetState` hands no report to a queue. -/
theorem setStateEffects_no_report (s : StaWifiMac) (v : MacState) :
    (setStateEffects s v).filter Effect.isTfResp = [] := by
  unfold setStateEffects
  split_ifs <;> rfl

/-- The calls of the ERP update hand no report to a queue. -/
theorem erpEffects_no_report (s : StaWifiMac) (rates : SupportedRates) :
    (erpEffects s rates).filter Effect.isTfResp = [] := by
  unfold erpEffects
  split_ifs <;> rfl

/-- `SetState` is a reaction outside the trigger cycle. -/
theorem OffCycle_SetState (s : StaWifiMac) (v : MacState) : OffCycle s (s.SetState v) := by
  rw [SetState_eq]
  exact OffCycle.of_same rfl rfl rfl rfl ⟨_, rfl, setStateEffects_no_report s v⟩ rfl rfl rfl rfl rfl

/-- `SendProbeRequest` is a reaction outside the trigger cycle. -/
theorem OffCycle_SendProbeRequest (s : StaWifiMac) : OffCycle s s.SendProbeRequest := by
  rw [SendProbeRequest_eq, eventsAfterCancel_eq_cancelIn]
  exact OffCycle.of_timer s.m_probeRequestEvent
    [⟨s.nextUid, s.now + s.m_probeRequestTimeout, Callback.ProbeRequestTimeout⟩]
    rfl rfl rfl rfl ⟨[Effect.QueueProbeRequest], rfl, rfl⟩ (Or.inr (Or.inl rfl)) rfl
    (Or.inr ⟨_, _, rfl, rfl, rfl⟩) (Or.inr ⟨rfl, rfl⟩) (Or.inl rfl) (Or.inl rfl)

/-- `SendAssociationRequest` is a reaction outside the trigger cycle. -/
theorem OffCycle_SendAssociationRequest (s : StaWifiMac) :
    OffCycle s s.SendAssociationRequest := by
  rw [SendAssociationRequest_eq, eventsAfterCancel_eq_cancelIn]
  exact OffCycle.of_timer s.m_assocRequestEvent
    [⟨s.nextUid, s.now + s.m_assocRequestTimeout, Callback.AssocRequestTimeout⟩]
    rfl rfl rfl rfl ⟨[Effect.QueueAssocRequest s.bssid], rfl, rfl⟩ (Or.inr (Or.inr (Or.inl rfl)))
    rfl (Or.inr ⟨_, _, rfl, rfl, rfl⟩) (Or.inl rfl) (Or.inr ⟨rfl, rfl⟩) (Or.inl rfl)

/-- `RestartBeaconWatchdog` is a reaction outside the trigger cycle. -/
theorem OffCycle_RestartBeaconWatchdog (s : StaWifiMac) (delay : Time) :
    OffCycle s (s.RestartBeaconWatchdog delay) := by
  rw [RestartBeaconWatchdog_eq]
  by_cases h : watchdogRearms s delay
  · simp only [if_pos h]
    exact OffCycle.of_timer none [⟨s.nextUid, s.now + delay, Callback.MissedBeacons⟩]
      rfl rfl rfl rfl ⟨[], (List.append_nil _).symm, rfl⟩ (Or.inl rfl) rfl
      (Or.inr ⟨_, _, rfl, rfl, rfl⟩) (Or.inl rfl) (Or.inl rfl) (Or.inr ⟨rfl, rfl⟩)
  · simp only [if_neg h, List.append_nil]
    exact OffCycle.of_same rfl rfl rfl rfl ⟨[], (List.append_nil _).symm, rfl⟩ rfl rfl rfl rfl rfl

/-- Re-evaluation is a reaction outside the trigger cycle. -/
theorem OffCycle_TryToEnsureAssociated (s : StaWifiMac) :
    OffCycle s s.TryToEnsureAssociated := by
  rw [TryToEnsureAssociated_eq]
  by_cases hs : s.m_state = MacState.BEACON_MISSED
  · rw [if_pos hs]
    by_cases ha : s.m_activeProbing = true
    · rw [if_pos ha, eventsAfterCancel_eq_cancelIn]
      exact OffCycle.of_timer s.m_probeRequestEvent
        [⟨s.nextUid, s.now + s.m_probeRequestTimeout, Callback.ProbeRequestTimeout⟩]
        rfl rfl rfl rfl ⟨[Effect.linkDown, Effect.QueueProbeRequest], rfl, rfl⟩
        (Or.inr (Or.inl rfl)) rfl (Or.inr ⟨_, _, rfl, rfl, rfl⟩) (Or.inr ⟨rfl, rfl⟩)
        (Or.inl rfl) (Or.inl rfl)
    · rw [if_neg ha]
      exact OffCycle.of_same rfl rfl rfl rfl ⟨[Effect.linkDown], rfl, rfl⟩ rfl rfl rfl rfl rfl
  · rw [if_neg hs]
    exact OffCycle.orefl s

/-- The probe retry timeout is a reaction outside the trigger cycle. -/
theorem OffCycle_ProbeRequestTimeout (s : StaWifiMac) : OffCycle s s.ProbeRequestTimeout :=
  OffCycle.ocomp (OffCycle_SetState s _) (OffCycle_SendProbeRequest _)

/-- The association retry timeout is a reaction outside the trigger cycle. -/
theorem OffCycle_AssocRequestTimeout (s : StaWifiMac) : OffCycle s s.AssocRequestTimeout :=
  OffCycle.ocomp (OffCycle_SetState s _) (OffCycle_SendAssociationRequest _)

/-- The beacon watchdog is a reaction outside the trigger cycle. -/
theorem OffCycle_MissedBeacons (s : StaWifiMac) : OffCycle s s.MissedBeacons := by
  by_cases h : s.now < s.m_beaconWatchdogEnd
  · rw [MissedBeacons_eq_of_lt s h, eventsAfterCancel_eq_cancelIn]
    exact OffCycle.of_timer s.m_beaconWatchdog
      [⟨s.nextUid, s.m_beaconWatchdogEnd, Callback.MissedBeacons⟩]
      rfl rfl rfl rfl ⟨[], (List.append_nil _).symm, rfl⟩ (Or.inr (Or.inr (Or.inr rfl))) rfl
      (Or.inr ⟨_, _, rfl, rfl, rfl⟩) (Or.inl rfl) (Or.inl rfl) (Or.inr ⟨rfl, rfl⟩)
  · rw [MissedBeacons_eq_of_le s (not_lt.mp h)]
    exact OffCycle.ocomp (OffCycle_SetState s _) (OffCycle_TryToEnsureAssociated _)

/-- The calls of `PrepareForTx` hand no report to a queue. -/
theorem PrepareForTx_no_report (ru : Nat) :
    ((((List.range 8).map fun ac => Effect.SetMuEdca ru (StaWifiMac.QosUtilsMapTidToAc ac)) ++
      [Effect.UpdateBusyDuration ru] ++
      ((List.range 8).map fun i =>
        Effect.StartAccessIfNeeded ru (StaWifiMac.QosUtilsMapTidToAc i))).filter
      Effect.isTfResp) = [] := by
  rw [List.filter_eq_nil_iff]
  intro x hx
  simp only [List.mem_append, List.mem_map, List.mem_singleton] at hx
  rcases hx with (⟨a, _, rfl⟩ | rfl) | ⟨a, _, rfl⟩ <;> simp [Effect.isTfResp]

/-- Every callback of the timer service that is no callback of the trigger cycle is a
reaction outside the cycle. -/
theorem OffCycle_Dispatch (s : StaWifiMac) (cb : Callback) (h : cb.isCycle = false) :
    OffCycle s (s.Dispatch cb) := by
  cases cb with
  | TryToEnsureAssociated => exact OffCycle_TryToEnsureAssociated s
  | ProbeRequestTimeout => exact OffCycle_ProbeRequestTimeout s
  | AssocRequestTimeout => exact OffCycle_AssocRequestTimeout s
  | MissedBeacons => exact OffCycle_MissedBeacons s
  | StopMuMode =>
    exact OffCycle.of_same rfl rfl rfl rfl ⟨_, rfl, by decide⟩ rfl rfl rfl rfl rfl
  | CheckAndCancel ru => exact Bool.noConfusion h
  | SendTriggerFrameResp ru => exact Bool.noConfusion h
  | CancelExpiredEvents => exact Bool.noConfusion h
  | UpdateBsrTx ru => exact Bool.noConfusion h
  | NotifyMaybeCcaBusyStartNow ru d => exact OffCycle_emit s _ rfl

/-- The data branch of `Receive` is a reaction outside the trigger cycle. -/
theorem OffCycle_receiveData (s : StaWifiMac) (packet : Packet) (hdr : WifiMacHeader) :
    OffCycle s (s.receiveData packet hdr) := by
  unfold StaWifiMac.receiveData
  repeat' split
  all_goals exact OffCycle_emit _ _ rfl

/-- The loop of the trigger-cycle-beacon branch leaves everything but the RU. -/
theorem OffCycle_tfBeaconLoop (l : List (Mac48Address × Nat)) :
    ∀ s : StaWifiMac, OffCycle s (s.tfBeaconLoop l) := by
  induction l with
  | nil => exact fun s => OffCycle.orefl s
  | cons p l ih =>
    intro s
    obtain ⟨a, ru⟩ := p
    unfold StaWifiMac.tfBeaconLoop
    refine OffCycle.ocomp ?_ (ih _)
    split
    · exact OffCycle.of_same rfl rfl rfl rfl ⟨[], (List.append_nil _).symm, rfl⟩ rfl rfl rfl rfl
        rfl
    · exact OffCycle.orefl s

/-- The ERP update is a reaction outside the trigger cycle. -/
theorem OffCycle_erpUpdate (s : StaWifiMac) (rates : SupportedRates) :
    OffCycle s (s.erpUpdate rates) := by
  rw [erpUpdate_eq]
  exact OffCycle.of_same rfl rfl rfl rfl ⟨_, rfl, erpEffects_no_report s rates⟩ rfl rfl rfl rfl rfl

/-- The idiom "cancel the handle if it is running", for one of the three handles. -/
theorem OffCycle_cancel_if_running (s : StaWifiMac) (id : EventId)
    (h : id = s.m_probeRequestEvent ∨ id = s.m_assocRequestEvent ∨ id = s.m_beaconWatchdog) :
    OffCycle s (if s.IsRunning id then s.Cancel id else s) := by
  rw [cancel_if_running_eq, eventsAfterCancel_eq_cancelIn]
  exact OffCycle.of_timer id [] rfl rfl rfl rfl ⟨[], (List.append_nil _).symm, rfl⟩ (Or.inr h)
    (List.append_nil _).symm (Or.inl ⟨rfl, rfl⟩) (Or.inl rfl) (Or.inl rfl) (Or.inl rfl)

/-- A reaction that writes none of the fields of the timers and of the cycle. -/
theorem OffCycle.of_fields {s s' : StaWifiMac}
    (h1 : s'.now = s.now) (h2 : s'.bsrTx = s.bsrTx) (h3 : s'.m_noSlots = s.m_noSlots)
    (h4 : s'.m_triggerFrameRespEvent = s.m_triggerFrameRespEvent)
    (h5 : s'.trace = s.trace)
    (hev : s'.events = s.events) (hn : s'.nextUid = s.nextUid)
    (hp : s'.m_probeRequestEvent = s.m_probeRequestEvent)
    (ha : s'.m_assocRequestEvent = s.m_assocRequestEvent)
    (hw : s'.m_beaconWatchdog = s.m_beaconWatchdog) : OffCycle s s' :=
  OffCycle.of_same h1 h2 h3 h4 ⟨[], by rw [h5, List.append_nil], rfl⟩ hev hn hp ha hw

/-- Scheduling a callback that is none of the cycle is a reaction outside the cycle. -/
theorem OffCycle_Schedule (s : StaWifiMac) (delay : Time) (cb : Callback)
    (h : cb.isCycle = false) : OffCycle s (s.Schedule delay cb) :=
  OffCycle.of_timer none [⟨s.nextUid, s.now + delay, cb⟩] rfl rfl rfl rfl
    ⟨[], (List.append_nil _).symm, rfl⟩ (Or.inl rfl) rfl (Or.inr ⟨_, _, rfl, h, rfl⟩)
    (Or.inl rfl) (Or.inl rfl) (Or.inl rfl)

/-- What is done for an accepted beacon is a reaction outside the trigger cycle. -/
theorem OffCycle_beaconAccept (s : StaWifiMac) (beacon : MgtProbeResponseHeader)
    (hdr : WifiMacHeader) : OffCycle s (s.beaconAccept beacon hdr) := by
  rw [beaconAccept_eq]
  exact OffCycle.ocomp (OffCycle_RestartBeaconWatchdog s _)
    (OffCycle.of_fields rfl rfl rfl rfl rfl rfl rfl rfl rfl rfl)

/-- The beacon branch of `Receive` is a reaction outside the trigger cycle. -/
theorem OffCycle_receiveBeacon (s : StaWifiMac) (packet : Packet) (hdr : WifiMacHeader) :
    OffCycle s (s.receiveBeacon packet hdr) := by
  unfold StaWifiMac.receiveBeacon
  simp only
  by_cases hg : s.goodBeacon packet.beacon hdr = true
  · simp only [hg, if_true, true_and]
    split
    · exact OffCycle.ocomp (OffCycle_beaconAccept s _ _)
        (OffCycle.ocomp (OffCycle_SetState _ _) (OffCycle_SendAssociationRequest _))
    · exact OffCycle_beaconAccept s _ _
  · simp only [hg, Bool.false_eq_true, if_false, false_and]
    exact OffCycle.orefl s

/-- The probe-response branch of `Receive` is a reaction outside the trigger cycle. -/
theorem OffCycle_receiveProbeResp (s : StaWifiMac) (packet : Packet) (hdr : WifiMacHeader) :
    OffCycle s (s.receiveProbeResp packet hdr) := by
  unfold StaWifiMac.receiveProbeResp
  simp only
  split
  · split
    · exact OffCycle.orefl s
    · split
      · exact OffCycle.orefl s
      · refine OffCycle.ocomp ?_ (OffCycle_SendAssociationRequest _)
        refine OffCycle.ocomp ?_ (OffCycle_SetState _ _)
        refine OffCycle.ocomp ?_ (OffCycle_cancel_if_running _ _ (Or.inl rfl))
        refine OffCycle.ocomp ?_ (OffCycle_RestartBeaconWatchdog _ _)
        refine OffCycle.ocomp (OffCycle_erpUpdate s packet.probeResp.rates) ?_
        exact OffCycle.of_fields rfl rfl rfl rfl rfl rfl rfl rfl rfl rfl
  · exact OffCycle.orefl s

/-- The association-response branch of `Receive` is a reaction outside the trigger
cycle. -/
theorem OffCycle_receiveAssocResp (s : StaWifiMac) (packet : Packet) (hdr : WifiMacHeader) :
    OffCycle s (s.receiveAssocResp packet hdr) := by
  by_cases hs : s.m_state = MacState.WAIT_ASSOC_RESP
  · rw [receiveAssocResp_eq s packet hdr hs, eventsAfterCancel_eq_cancelIn]
    split
    · refine OffCycle.of_timer s.m_assocRequestEvent [] rfl rfl rfl rfl
        ⟨_, rfl, ?_⟩ (Or.inr (Or.inr (Or.inl rfl))) (List.append_nil _).symm
        (Or.inl ⟨rfl, rfl⟩) (Or.inl rfl) (Or.inl rfl) (Or.inl rfl)
      unfold assocSuccessEffects
      rw [List.filter_append, List.filter_append, erpEffects_no_report]
      split <;> rfl
    · exact OffCycle.of_timer s.m_assocRequestEvent [] rfl rfl rfl rfl
        ⟨[], (List.append_nil _).symm, rfl⟩ (Or.inr (Or.inr (Or.inl rfl)))
        (List.append_nil _).symm (Or.inl ⟨rfl, rfl⟩) (Or.inl rfl) (Or.inl rfl) (Or.inl rfl)
  · unfold StaWifiMac.receiveAssocResp
    simp only [if_neg hs]
    exact OffCycle.orefl s

/-- `Receive` is a reaction outside the trigger cycle unless the frame is a trigger that
passes the address filter. -/
theorem OffCycle_Receive (s : StaWifiMac) (packet : Packet) (hdr : WifiMacHeader) (rv : Nat)
    (h : ¬ (hdr.type = WifiMacType.TF ∧ passesAddressFilter s hdr)) :
    OffCycle s (s.Receive packet hdr rv) := by
  by_cases hp : passesAddressFilter s hdr
  · rw [Receive_of_passes s packet hdr rv hp]
    cases ht : hdr.type with
    | DATA => exact OffCycle_receiveData _ _ _
    | QOSDATA => exact OffCycle_receiveData _ _ _
    | PROBE_REQ => exact OffCycle_emit _ _ rfl
    | ASSOC_REQ => exact OffCycle_emit _ _ rfl
    | TF_BEACON =>
      simp only
      refine OffCycle.ocomp ?_ (OffCycle_emit _ _ rfl)
      refine OffCycle.ocomp ?_ (OffCycle_tfBeaconLoop _ _)
      exact OffCycle.of_fields rfl rfl rfl rfl rfl rfl rfl rfl rfl rfl
    | BSR_ACK =>
      simp only
      refine OffCycle.ocomp ?_ (OffCycle_emit _ _ rfl)
      refine OffCycle.ocomp ?_ (OffCycle_Schedule _ _ _ rfl)
      refine OffCycle.ocomp ?_ (OffCycle_emitAll _ _ (PrepareForTx_no_report _))
      exact OffCycle.of_fields rfl rfl rfl rfl rfl rfl rfl rfl rfl rfl
    | TF => exact absurd ⟨ht, hp⟩ h
    | BEACON => exact OffCycle_receiveBeacon _ _ _
    | PROBE_RESP => exact OffCycle_receiveProbeResp _ _ _
    | ASSOC_RESP => exact OffCycle_receiveAssocResp _ _ _
    | OTHER => exact OffCycle_emit _ _ rfl
  · rw [Receive_of_not_passes s packet hdr rv hp]
    split
    · exact OffCycle.orefl s
    · exact OffCycle_emit _ _ rfl

/-- `Enqueue` is a reaction outside the trigger cycle. -/
theorem OffCycle_Enqueue (s : StaWifiMac) (packet : Packet) (dest : Mac48Address) :
    OffCycle s (s.Enqueue packet dest) := by
  unfold StaWifiMac.Enqueue
  split
  · exact OffCycle.ocomp (OffCycle_emit s (Effect.NotifyTxDrop packet.uid) rfl)
      (OffCycle_TryToEnsureAssociated _)
  · simp only
    repeat' split
    all_goals first
      | exact OffCycle_emit _ _ rfl
      | exact OffCycle.ocomp (OffCycle_emitAll _ _ (by
          rw [List.filter_eq_nil_iff]
          intro x hx
          obtain ⟨a, _, rfl⟩ := List.mem_map.mp hx
          simp [Effect.isTfResp])) (OffCycle_emit _ _ rfl)

/-- `SetActiveProbing` is a reaction outside the trigger cycle. -/
theorem OffCycle_SetActiveProbing (s : StaWifiMac) (enable : Bool) :
    OffCycle s (s.SetActiveProbing enable) := by
  unfold StaWifiMac.SetActiveProbing
  simp only
  cases enable with
  | true =>
    exact OffCycle.ocomp (OffCycle_Schedule s 0 Callback.TryToEnsureAssociated rfl)
      (OffCycle.of_fields rfl rfl rfl rfl rfl rfl rfl rfl rfl rfl)
  | false =>
    refine OffCycle.ocomp ?_ (OffCycle.of_fields (s := s.Cancel s.m_probeRequestEvent)
      rfl rfl rfl rfl rfl rfl rfl rfl rfl rfl)
    exact OffCycle.of_timer s.m_probeRequestEvent [] rfl rfl rfl rfl
      ⟨[], (List.append_nil _).symm, rfl⟩ (Or.inr (Or.inl rfl)) (List.append_nil _).symm
      (Or.inl ⟨rfl, rfl⟩) (Or.inl rfl) (Or.inl rfl) (Or.inl rfl)

/-- The reaction to a stimulus from outside the timer service is a reaction outside the
trigger cycle unless it is the processing of a trigger. -/
theorem OffCycle_step (s : StaWifiMac) (st : Stimulus) (hx : st.external = true)
    (h : ¬ processesTrigger s st) : OffCycle s (step s st) := by
  cases st with
  | advance t => exact Bool.noConfusion hx
  | fire e => exact Bool.noConfusion hx
  | receive packet hdr rv => exact OffCycle_Receive s packet hdr rv h
  | enqueue packet dest => exact OffCycle_Enqueue s packet dest
  | startActiveAssociation => exact OffCycle_TryToEnsureAssociated s
  | setActiveProbing enable => exact OffCycle_SetActiveProbing s enable

/-- A cancel-check is a callback of the cycle. -/
theorem isCycle_of_isCheck {cb : Callback} (h : cb.isCheck = true) : cb.isCycle = true := by
  cases cb <;> first | rfl | exact Bool.noConfusion h

/-- A flag update is a callback of the cycle. -/
theorem isCycle_of_isUpdate {cb : Callback} (h : cb.isUpdate = true) : cb.isCycle = true := by
  cases cb <;> first | rfl | exact Bool.noConfusion h

/-- A candidate transmission is a callback of the cycle. -/
theorem isCycle_of_isTx {cb : Callback} (h : cb.isTx = true) : cb.isCycle = true := by
  cases cb <;> first | rfl | exact Bool.noConfusion h

/-- An event that is pending after a reaction outside the cycle and runs a callback of
the cycle was pending before. -/
theorem OffCycle.mem_of_isCycle {s s' : StaWifiMac} (h : OffCycle s s') {e : Event}
    (he : e ∈ s'.events) (hc : e.cb.isCycle = true) : e ∈ s.events := by
  rcases h.2.2.2.2.2.2.1 e he with h1 | ⟨_, _, h1⟩
  · exact h1
  · rw [hc] at h1
    exact Bool.noConfusion h1

/-- A reaction outside the trigger cycle keeps the invariant of the cycle, under the
counter it leaves, when it leaves the RU. -/
theorem CycleEnd_OffCycle {ru : Nat} {Ti : Time} {flag : Bool} {s s' : StaWifiMac}
    (h : CycleEnd ru Ti s.nextUid flag s) (ht : OffCycle s s') (hr : s'.ruBits = s.ruBits) :
    CycleEnd ru Ti s'.nextUid flag s' := by
  obtain ⟨h1, ⟨g1, g2, g3, g4, g5, g6, g7⟩, h3⟩ := h
  have hall := ht
  obtain ⟨_, _, _, _, _, a6, a7, a8, a9, a10, a11, a12⟩ := ht
  have hkeep : ∀ e ∈ s.events, e.cb.isCheck = true ∨ e.cb.isUpdate = true → e ∈ s'.events := by
    intro e he hpr
    obtain ⟨k1, k2, k3⟩ := g6 e he hpr
    rcases a8 e he with k | k | k | k | k
    · exact k
    · exact absurd (g1 e he) (not_lt.mpr k)
    · exact absurd k k1
    · exact absurd k k2
    · exact absurd k k3
  have hnew : ∀ (x y : EventId), HandleStep s.nextUid s'.nextUid x y →
      (∀ u, x = some u → u < s.nextUid) →
      (∀ u, y = some u → u < s'.nextUid) ∧
      ∀ e ∈ s.events, x ≠ some e.uid → y ≠ some e.uid := by
    intro x y hxy hx
    rcases hxy with hxy | ⟨u, hu, hl, hr⟩
    · rw [hxy]
      exact ⟨fun v hv => lt_of_lt_of_le (hx v hv) a6, fun _ _ hne => hne⟩
    · rw [hu]
      refine ⟨fun v hv => ?_, fun e he _ hh => ?_⟩
      · rw [← Option.some.inj hv]
        exact hr
      · have h1 := g1 e he
        have h2 : u = e.uid := Option.some.inj hh
        omega
  obtain ⟨p1, p2⟩ := hnew _ _ a10 (fun u hu => g3 u (Or.inl hu))
  obtain ⟨q1, q2⟩ := hnew _ _ a11 (fun u hu => g3 u (Or.inr (Or.inl hu)))
  obtain ⟨r1, r2⟩ := hnew _ _ a12 (fun u hu => g3 u (Or.inr (Or.inr hu)))
  refine ⟨hr.trans h1, ⟨?_, a9 g1 g2, ?_, ?_, ?_, ?_, ?_⟩, ?_⟩
  · intro e he
    rcases a7 e he with k | ⟨_, k, _⟩
    · exact lt_of_lt_of_le (g1 e k) a6
    · exact k
  · rintro u (hu | hu | hu)
    · exact p1 u hu
    · exact q1 u hu
    · exact r1 u hu
  · intro e he hc
    exact g4 e (hall.mem_of_isCycle he (isCycle_of_isCheck hc)) hc
  · intro e he hc
    exact g5 e (hall.mem_of_isCycle he (isCycle_of_isUpdate hc)) hc
  · intro e he hpr
    have hcy : e.cb.isCycle = true := by
      rcases hpr with k | k
      · exact isCycle_of_isCheck k
      · exact isCycle_of_isUpdate k
    have hold := hall.mem_of_isCycle he hcy
    obtain ⟨k1, k2, k3⟩ := g6 e hold hpr
    exact ⟨p2 e hold k1, q2 e hold k2, r2 e hold k3⟩
  · intro e he hc
    exact g7 e (hall.mem_of_isCycle he (by rw [hc]; rfl)) hc
  · rcases h3 with ⟨x, hx, hxc⟩ | h3 | ⟨x, hx, hxc⟩
    · exact Or.inl ⟨x, hkeep x hx (Or.inl (by rw [hxc]; rfl)), hxc⟩
    · exact Or.inr (Or.inl h3)
    · exact Or.inr (Or.inr ⟨x, hkeep x hx (Or.inr (by rw [hxc]; rfl)), hxc⟩)

/-- A reaction outside the trigger cycle registers no cycle-end check and leaves the
OBO. -/
theorem CycleOne_OffCycle {obo : Nat} {s s' : StaWifiMac} (h : CycleOne obo s)
    (ht : OffCycle s s') : CycleOne obo s' :=
  CycleOne_of_subset h (fun _ he hc => ht.mem_of_isCycle he (by rw [hc]; rfl)) ht.2.2.1

/-- The static flags read through the shared part of a station record. -/
theorem shared_GetBsrTx (s : StaWifiMac) (ru : Nat) : s.shared.GetBsrTx ru = s.GetBsrTx ru :=
  rfl

/-- A pending cancel-check of a station, from the test `checkPending`. -/
theorem checkPending_iff (w : World) (i : Nat) :
    w.checkPending i = true ↔ ∃ s, w.stas[i]? = some s ∧ ∃ e ∈ s.events, e.cb.isCheck = true := by
  unfold World.checkPending
  cases h : w.stas[i]? with
  | none => simp
  | some s => simp [List.any_eq_true]

/-- No stimulus moves the registration counter backwards. -/
theorem step_nextUid (s : StaWifiMac) (st : Stimulus) (hx : st.external = true) :
    s.nextUid ≤ (step s st).nextUid := by
  by_cases h : processesTrigger s st
  · cases st with
    | receive packet hdr rv => exact (Receive_TF_frame s packet hdr rv h.1).2
    | _ => exact absurd h id
  · exact (OffCycle_step s st hx h).2.2.2.2.2.1

/-- The invariant of station `i` is kept by every move that can occur and that spares
the cycle of the station. -/
theorem World_move_CycleEnd {ru : Nat} (hru : ru ≤ 8) {Ti : Time} (i : Nat) (w : World)
    (m : Move) (hen : m.enabled w) (hok : w.sparesCycle i false m)
    (h : ∃ s, w.stas[i]? = some s ∧
      CycleEnd ru Ti w.shared.nextUid (w.shared.GetBsrTx ru) s) :
    ∃ s, (w.move m).stas[i]? = some s ∧
      CycleEnd ru Ti (w.move m).shared.nextUid ((w.move m).shared.GetBsrTx ru) s := by
  cases m with
  | run => exact World_step_CycleEnd hru i w h
  | advance t => exact h
  | act j st =>
    obtain ⟨s, hs, hinv⟩ := h
    show ∃ s, (w.act j (fun x => step x st)).stas[i]? = some s ∧
      CycleEnd ru Ti (w.act j (fun x => step x st)).shared.nextUid
        ((w.act j (fun x => step x st)).shared.GetBsrTx ru) s
    cases hsj : w.stas[j]? with
    | none =>
      have hw : w.act j (fun x => step x st) = w := by simp only [World.act, hsj]
      rw [hw]
      exact ⟨s, hs, hinv⟩
    | some sj =>
      have hok2 : (j = i → ¬ processesTrigger sj st ∧
          (step (sj.withShared w.shared) st).ruBits = sj.ruBits) ∧
          (j ≠ i → processesTrigger sj st → false = true ∨ w.checkPending i = true) := by
        exact hok sj (by rw [hsj]; exact List.mem_singleton.mpr rfl)
      rw [World_act_eq w j _ sj hsj]
      have hjlt : j < w.stas.length := (List.getElem?_eq_some_iff.mp hsj).1
      by_cases hji : j = i
      · subst hji
        have hsj2 : sj = s := Option.some.inj (hsj.symm.trans hs)
        subst hsj2
        obtain ⟨hnt, hrk⟩ := hok2.1 rfl
        have hoff := OffCycle_step (sj.withShared w.shared) st hen hnt
        refine ⟨_, List.getElem?_set_self hjlt, ?_⟩
        have hinv2 : CycleEnd ru Ti (sj.withShared w.shared).nextUid (w.shared.GetBsrTx ru)
            (sj.withShared w.shared) := hinv
        have hgo := CycleEnd_OffCycle hinv2 hoff hrk
        have hfl : (step (sj.withShared w.shared) st).shared.GetBsrTx ru =
            w.shared.GetBsrTx ru := by
          rw [shared_GetBsrTx, GetBsrTx_congr hoff.2.1 ru]
          rfl
        rw [hfl]
        exact hgo
      · refine ⟨s, ?_, ?_⟩
        · show (w.stas.set j _)[i]? = some s
          rw [List.getElem?_set_ne hji]
          exact hs
        · have hn : w.shared.nextUid ≤ (step (sj.withShared w.shared) st).shared.nextUid :=
            step_nextUid (sj.withShared w.shared) st hen
          by_cases hpt : processesTrigger sj st
          · rcases hok2.2 hji hpt with hf | hc
            · exact Bool.noConfusion hf
            · obtain ⟨si, hsi, e, he, hec⟩ := (checkPending_iff w i).mp hc
              have hsi2 : si = s := Option.some.inj (hsi.symm.trans hs)
              rw [hsi2] at he
              exact ⟨hinv.1, CycleGuard_mono hinv.2.1 hn,
                Or.inl ⟨e, he, (hinv.2.1.2.2.2.1 e he hec).1⟩⟩
          · have hoff := OffCycle_step (sj.withShared w.shared) st hen hpt
            have hfl : (step (sj.withShared w.shared) st).shared.GetBsrTx ru =
                w.shared.GetBsrTx ru := by
              rw [shared_GetBsrTx, GetBsrTx_congr hoff.2.1 ru]
              rfl
            rw [hfl]
            exact CycleEnd_mono hinv hn (fun hh => hh)

/-- The property "at most one cycle-end check is pending, with the OBO of the draw" of
station `i` is kept by every move that can occur and that spares the cycle of the
station. -/
theorem World_move_CycleOne {obo : Nat} (i : Nat) (free : Bool) (w : World) (m : Move)
    (hen : m.enabled w) (hok : w.sparesCycle i free m)
    (h : ∃ s, w.stas[i]? = some s ∧ CycleOne obo s) :
    ∃ s, (w.move m).stas[i]? = some s ∧ CycleOne obo s := by
  cases m with
  | run => exact World_step_CycleOne i w h
  | advance t => exact h
  | act j st =>
    obtain ⟨s, hs, hinv⟩ := h
    show ∃ s, (w.act j (fun x => step x st)).stas[i]? = some s ∧ CycleOne obo s
    cases hsj : w.stas[j]? with
    | none =>
      have hw : w.act j (fun x => step x st) = w := by simp only [World.act, hsj]
      rw [hw]
      exact ⟨s, hs, hinv⟩
    | some sj =>
      have hok2 : (j = i → ¬ processesTrigger sj st ∧
          (step (sj.withShared w.shared) st).ruBits = sj.ruBits) ∧
          (j ≠ i → processesTrigger sj st → free = true ∨ w.checkPending i = true) := by
        exact hok sj (by rw [hsj]; exact List.mem_singleton.mpr rfl)
      rw [World_act_eq w j _ sj hsj]
      have hjlt : j < w.stas.length := (List.getElem?_eq_some_iff.mp hsj).1
      by_cases hji : j = i
      · subst hji
        have hsj2 : sj = s := Option.some.inj (hsj.symm.trans hs)
        subst hsj2
        obtain ⟨hnt, _⟩ := hok2.1 rfl
        have hoff := OffCycle_step (sj.withShared w.shared) st hen hnt
        refine ⟨_, List.getElem?_set_self hjlt, ?_⟩
        have hinv2 : CycleOne obo (sj.withShared w.shared) := hinv
        exact CycleOne_OffCycle hinv2 hoff
      · refine ⟨s, ?_, hinv⟩
        show (w.stas.set j _)[i]? = some s
        rw [List.getElem?_set_ne hji]
        exact hs

/-- The invariant of station `i` is kept by a run of moves that spare its cycle. -/
theorem World_moves_CycleEnd {ru : Nat} (hru : ru ≤ 8) {Ti : Time} (i : Nat)
    (ms : List Move) :
    ∀ w : World, World.Allowed (World.sparesCycle i false) w ms →
      (∃ s, w.stas[i]? = some s ∧ CycleEnd ru Ti w.shared.nextUid (w.shared.GetBsrTx ru) s) →
      ∃ s, (w.moves ms).stas[i]? = some s ∧
        CycleEnd ru Ti (w.moves ms).shared.nextUid ((w.moves ms).shared.GetBsrTx ru) s := by
  induction ms with
  | nil => intro w _ h; exact h
  | cons m ms ih =>
    intro w hal h
    obtain ⟨h1, h2, h3⟩ := hal
    exact ih (w.move m) h3 (World_move_CycleEnd hru i w m h1 h2 h)

/-- The property of station `i` is kept by a run of moves that spare its cycle. -/
theorem World_moves_CycleOne {obo : Nat} (i : Nat) (free : Bool) (ms : List Move) :
    ∀ w : World, World.Allowed (World.sparesCycle i free) w ms →
      (∃ s, w.stas[i]? = some s ∧ CycleOne obo s) →
      ∃ s, (w.moves ms).stas[i]? = some s ∧ CycleOne obo s := by
  induction ms with
  | nil => intro w _ h; exact h
  | cons m ms ih =>
    intro w hal h
    obtain ⟨h1, h2, h3⟩ := hal
    exact ih (w.move m) h3 (World_move_CycleOne i free w m h1 h2 h)

/-- The bound a handle below the counter gives for the number it names. -/
theorem handleBelow_iff (n : Nat) (h : EventId) : handleBelow n h ↔ ∀ u, h = some u → u < n := by
  cases h with
  | none => simp [handleBelow]
  | some v => simp [handleBelow]

/-- The numbers the three handles of a station with well-formed bookkeeping name. -/
theorem Booked_handles {s : StaWifiMac} (h : s.Booked) :
    ∀ u, s.m_probeRequestEvent = some u ∨ s.m_assocRequestEvent = some u ∨
      s.m_beaconWatchdog = some u → u < s.nextUid := by
  obtain ⟨_, _, h3, h4, h5⟩ := h
  rintro u (hu | hu | hu)
  · exact (handleBelow_iff _ _).mp h3 u hu
  · exact (handleBelow_iff _ _).mp h4 u hu
  · exact (handleBelow_iff _ _).mp h5 u hu

/-- A candidate transmission is no cancel-check and no flag update. -/
theorem isTx_cases {cb : Callback} (h : cb.isTx = true) :
    cb.isCheck = false ∧ cb.isUpdate = false := by
  cases cb <;> first | exact ⟨rfl, rfl⟩ | exact Bool.noConfusion h

/-- Removing the fired event leaves every other pending event. -/
theorem mem_rm_of_ne {E : List Event} (hnd : (E.map Event.uid).Nodup) {e x : Event}
    (he : e ∈ E) (hx : x ∈ E) (hne : x ≠ e) : x ∈ E.filter (fun y => y.uid != e.uid) := by
  rw [mem_rm]
  exact ⟨hx, fun hu => hne (eq_of_uid_eq hnd hx he hu)⟩

/-- The bookkeeping of a cycle survives the removal of pending events. -/
theorem RaceBase_sublist {n : Nat} {E E' : List Event} {hp ha hw : EventId}
    (h : RaceBase n E hp ha hw) (hsub : E'.Sublist E) : RaceBase n E' hp ha hw :=
  ⟨fun e he => h.1 e (hsub.subset he), h.2.1.sublist (hsub.map Event.uid), h.2.2.1,
    fun e he => h.2.2.2 e (hsub.subset he)⟩

/-- The bookkeeping of a cycle survives a growing registration counter. -/
theorem RaceBase_mono {n m : Nat} {E : List Event} {hp ha hw : EventId}
    (h : RaceBase n E hp ha hw) (hn : n ≤ m) : RaceBase m E hp ha hw :=
  ⟨fun e he => lt_of_lt_of_le (h.1 e he) hn, h.2.1,
    fun u hu => lt_of_lt_of_le (h.2.2.1 u hu) hn, h.2.2.2⟩

/-- The bookkeeping of a cycle when one more event is registered under the counter and
the three handles stay. -/
theorem RaceBase_append {n : Nat} {E : List Event} {hp ha hw : EventId}
    (h : RaceBase n E hp ha hw) (t : Time) (cb : Callback) :
    RaceBase (n + 1) (E ++ [⟨n, t, cb⟩]) hp ha hw := by
  obtain ⟨g1, g2, g3, g4⟩ := h
  refine ⟨?_, ?_, fun u hu => Nat.lt_succ_of_lt (g3 u hu), ?_⟩
  · intro e he
    rcases List.mem_append.mp he with he | he
    · exact Nat.lt_succ_of_lt (g1 e he)
    · rw [List.mem_singleton] at he
      rw [he]
      exact Nat.lt_succ_self n
  · rw [List.map_append, List.nodup_append]
    refine ⟨g2, by simp, ?_⟩
    intro u hu hu'
    simp only [List.map_cons, List.map_nil, List.mem_singleton] at hu'
    obtain ⟨e, he, heu⟩ := List.mem_map.mp hu
    have := g1 e he
    omega
  · intro e he hpr
    rcases List.mem_append.mp he with he | he
    · exact g4 e he hpr
    · rw [List.mem_singleton] at he
      rw [he]
      have hlt : ∀ x : EventId, (∀ u, x = some u → u < n) → x ≠ some n := by
        intro x hx hh
        have := hx n hh
        omega
      exact ⟨hlt hp (fun u hu => g3 u (Or.inl hu)),
        hlt ha (fun u hu => g3 u (Or.inr (Or.inl hu))),
        hlt hw (fun u hu => g3 u (Or.inr (Or.inr hu)))⟩

/-- A station keeps its invariant when the shared counter grows, the flag is set no
earlier than allowed and the clock does not pass its pending cancel-check and
candidate transmission. -/
theorem RaceCore_env {ru : Nat} {Tstar Ti now now2 : Time} {n m : Nat} {flag flag2 : Bool}
    {chks txs cb0 tb0 : List Event} {resp base : List Effect} {E : List Event}
    {handle hp ha hw : EventId}
    (hs : RaceCore ru Tstar Ti now n flag chks txs cb0 tb0 resp base E handle hp ha hw) (hn : n ≤ m)
    (hf : flag = true → flag2 = true)
    (hf2 : flag2 = true → flag = false → ∀ e ∈ E, e.cb.isCheck = true → Tstar < e.ts)
    (hnow : now2 = now ∨ ∀ e ∈ E, e.cb.isCheck = true ∨ e.cb.isTx = true → now2 ≤ e.ts) :
    RaceCore ru Tstar Ti now2 m flag2 chks txs cb0 tb0 resp base E handle hp ha hw := by
  obtain ⟨hb, hT, hst⟩ := hs
  refine ⟨RaceBase_mono hb hn, hT, ?_⟩
  rcases hst with hw | hw | hl
  · left
    obtain ⟨c, x, hcx, hh, hc, hx, huc, hux, hnu, hch, htx, hrs, hfl, hnw⟩ := hw
    refine ⟨c, x, hcx, hh, hc, hx, huc, hux, hnu, hch, htx, hrs, ?_, ?_⟩
    · intro h2
      cases hflag : flag
      · exact hf2 h2 hflag _ hc rfl
      · exact hfl hflag
    · rcases hnow with hnow | hnow
      · rw [hnow]
        exact hnw
      · exact hnow _ hc (Or.inl rfl)
  · right; left
    obtain ⟨h1, h2, h3, h4, h5, h6⟩ := hw
    refine ⟨h1, h2, h3, h4, ?_, ?_⟩
    · rcases h5 with h5 | h5
      · exact Or.inl (hf h5)
      · exact Or.inr h5
    · rcases h6 with ⟨x, hx, hux, htx, hrs, hnw⟩ | h6
      · refine Or.inl ⟨x, hx, hux, htx, hrs, ?_⟩
        rcases hnow with hnow | hnow
        · rw [hnow]
          exact hnw
        · exact hnow _ hx (Or.inr rfl)
      · exact Or.inr h6
  · right; right
    exact hl

/-- A station keeps its invariant when one of its events that is no cancel-check, no
candidate transmission and no flag update is removed. -/
theorem RaceCore_rm {ru : Nat} {Tstar Ti now : Time} {n : Nat} {flag : Bool}
    {chks txs cb0 tb0 : List Event} {resp base : List Effect} {E : List Event}
    {handle hp ha hw : EventId} {e : Event}
    (hs : RaceCore ru Tstar Ti now n flag chks txs cb0 tb0 resp base E handle hp ha hw) (he : e ∈ E)
    (h1 : e.cb.isCheck = false) (h2 : e.cb.isTx = false) (h3 : e.cb.isUpdate = false) :
    RaceCore ru Tstar Ti now n flag chks txs cb0 tb0 resp base (E.filter (fun y => y.uid != e.uid))
      handle hp ha hw := by
  obtain ⟨hb, hT, hst⟩ := hs
  have hnd := hb.2.1
  have hne : ∀ x ∈ E, (x.cb.isCheck = true ∨ x.cb.isTx = true ∨ x.cb.isUpdate = true) →
      x ∈ E.filter (fun y => y.uid != e.uid) := by
    intro x hx hxc
    apply mem_rm_of_ne hnd he hx
    intro hh
    rw [hh, h1, h2, h3] at hxc
    rcases hxc with k | k | k <;> exact Bool.noConfusion k
  refine ⟨RaceBase_sublist hb (List.filter_sublist _), hT, ?_⟩
  rcases hst with hw | hw | hl
  · left
    obtain ⟨c, x, hcx, hh, hc, hx, huc, hux, hnu, hch, htx, hrs, hfl, hnw⟩ := hw
    exact ⟨c, x, hcx, hh, hne _ hc (Or.inl rfl), hne _ hx (Or.inr (Or.inl rfl)),
      fun y hy => huc y (List.mem_of_mem_filter hy),
      fun y hy => hux y (List.mem_of_mem_filter hy),
      fun y hy => hnu y (List.mem_of_mem_filter hy), hch, htx, hrs, hfl, hnw⟩
  · right; left
    obtain ⟨k1, k2, k3, k4, k5, k6⟩ := hw
    refine ⟨k1, k2, fun y hy => k3 y (List.mem_of_mem_filter hy),
      fun y hy => k4 y (List.mem_of_mem_filter hy), ?_, ?_⟩
    · rcases k5 with k5 | ⟨y, hy, hyc⟩
      · exact Or.inl k5
      · exact Or.inr ⟨y, hne y hy (Or.inr (Or.inr hyc)), hyc⟩
    · rcases k6 with ⟨x, hx, hux, htx, hrs, hnw⟩ | ⟨hno, htx⟩
      · exact Or.inl ⟨x, hne _ hx (Or.inr (Or.inl rfl)),
          fun y hy => hux y (List.mem_of_mem_filter hy), htx, hrs, hnw⟩
      · exact Or.inr ⟨fun y hy => hno y (List.mem_of_mem_filter hy), htx⟩
  · right; right
    obtain ⟨k1, k2, k3, k4⟩ := hl
    exact ⟨k1, k2, fun y hy => k3 y (List.mem_of_mem_filter hy), k4⟩

/-- The invariant of a station when its candidate transmission fires: the station had
won, the transmission ran at the earliest check time for the RU of the cycle and
handed one report to the queue of that RU. -/
theorem RaceCore_tx {ru : Nat} {Tstar Ti now : Time} {n : Nat} {flag : Bool}
    {chks txs cb0 tb0 : List Event} {resp base : List Effect} {E : List Event}
    {handle hp ha hw : EventId} {e : Event}
    (hs : RaceCore ru Tstar Ti now n flag chks txs cb0 tb0 resp base E handle hp ha hw) (he : e ∈ E)
    (hcb : e.cb.isTx = true) (hmin : ∀ y ∈ E, e.notAfter y = true) (b : Nat) :
    e.cb = Callback.SendTriggerFrameResp ru ∧
    RaceCore ru Tstar Ti now n flag chks (txs ++ [e]) cb0 tb0
      (resp ++ [Effect.QueueTFResp ru b]) base
      (E.filter (fun y => y.uid != e.uid)) handle hp ha hw := by
  obtain ⟨hb, hT, hst⟩ := hs
  have hnd := hb.2.1
  rcases hst with hw | hw | hl
  · exfalso
    obtain ⟨c, x, hcx, hh, hc, hx, huc, hux, hnu, hch, htx, hrs, hfl, hnw⟩ := hw
    have heq : e = ⟨x, Ti, Callback.SendTriggerFrameResp ru⟩ :=
      eq_of_uid_eq hnd he hx (hux e he hcb)
    have hm := hmin _ hc
    rw [notAfter_iff, heq] at hm
    rcases hm with hm | ⟨_, hm⟩
    · exact lt_irrefl _ hm
    · exact absurd hcx (not_lt.mpr hm)
  · obtain ⟨k1, k2, k3, k4, k5, k6⟩ := hw
    rcases k6 with ⟨x, hx, hux, htx, hrs, hnw⟩ | ⟨hno, _⟩
    · have heq : e = ⟨x, Tstar, Callback.SendTriggerFrameResp ru⟩ :=
        eq_of_uid_eq hnd he hx (hux e he hcb)
      refine ⟨by rw [heq], RaceBase_sublist hb (List.filter_sublist _), hT, Or.inr (Or.inl ?_)⟩
      refine ⟨k1, k2, fun y hy => k3 y (List.mem_of_mem_filter hy),
        fun y hy => k4 y (List.mem_of_mem_filter hy), ?_, Or.inr ⟨?_, ⟨x, ?_⟩, b, ?_⟩⟩
      · rcases k5 with k5 | ⟨y, hy, hyc⟩
        · exact Or.inl k5
        · refine Or.inr ⟨y, mem_rm_of_ne hnd he hy ?_, hyc⟩
          intro hh
          rw [hh, (isTx_cases hcb).2] at hyc
          exact Bool.noConfusion hyc
      · intro y hy
        rw [mem_rm] at hy
        cases hyt : y.cb.isTx
        · rfl
        · exact absurd ((hux y hy.1 hyt).trans (hux e he hcb).symm) hy.2
      · rw [htx, heq]
      · rw [hrs]
    · rw [hno e he] at hcb
      exact Bool.noConfusion hcb
  · exfalso
    rw [(hl.2.2.1 e he).2.1] at hcb
    exact Bool.noConfusion hcb

/-- The invariant of a station when its flag update fires: the station had won, the
update is for the RU of the cycle and due one microsecond after the earliest check
time, and the flag is set. -/
theorem RaceCore_upd {ru : Nat} {Tstar Ti now : Time} {n : Nat} {flag : Bool}
    {chks txs cb0 tb0 : List Event} {resp base : List Effect} {E : List Event}
    {handle hp ha hw : EventId} {e : Event}
    (hs : RaceCore ru Tstar Ti now n flag chks txs cb0 tb0 resp base E handle hp ha hw) (he : e ∈ E)
    (hcb : e.cb.isUpdate = true) :
    RaceCore ru Tstar Ti now n true chks txs cb0 tb0 resp base (E.filter (fun y => y.uid != e.uid))
      handle hp ha hw ∧
    e.cb = Callback.UpdateBsrTx ru ∧ e.ts = Tstar + 1 := by
  obtain ⟨hb, hT, hst⟩ := hs
  have hnd := hb.2.1
  rcases hst with hw | hw | hl
  · exfalso
    obtain ⟨c, x, hcx, hh, hc, hx, huc, hux, hnu, hch, htx, hrs, hfl, hnw⟩ := hw
    rw [hnu e he] at hcb
    exact Bool.noConfusion hcb
  · obtain ⟨k1, k2, k3, k4, k5, k6⟩ := hw
    refine ⟨⟨RaceBase_sublist hb (List.filter_sublist _), hT, Or.inr (Or.inl ?_)⟩, k4 e he hcb⟩
    refine ⟨k1, k2, fun y hy => k3 y (List.mem_of_mem_filter hy),
      fun y hy => k4 y (List.mem_of_mem_filter hy), Or.inl rfl, ?_⟩
    rcases k6 with ⟨x, hx, hux, htx, hrs, hnw⟩ | ⟨hno, htx⟩
    · refine Or.inl ⟨x, mem_rm_of_ne hnd he hx ?_,
        fun y hy => hux y (List.mem_of_mem_filter hy), htx, hrs, hnw⟩
      intro hh
      rw [← hh] at hcb
      exact Bool.noConfusion hcb
    · exact Or.inr ⟨fun y hy => hno y (List.mem_of_mem_filter hy), htx⟩
  · exfalso
    rw [(hl.2.2.1 e he).2.2] at hcb
    exact Bool.noConfusion hcb

/-- A pending cancel-check of a contending station is the check of the cycle, due at the
station's check time, and the station is waiting for it. -/
theorem RaceCore_chk {ru : Nat} {Tstar Ti now : Time} {n : Nat} {flag : Bool}
    {chks txs cb0 tb0 : List Event} {resp base : List Effect} {E : List Event}
    {handle hp ha hw : EventId} {e : Event}
    (hs : RaceCore ru Tstar Ti now n flag chks txs cb0 tb0 resp base E handle hp ha hw) (he : e ∈ E)
    (hcb : e.cb.isCheck = true) :
    e.cb = Callback.CheckAndCancel ru ∧ e.ts = Ti ∧
    RaceWaiting ru Tstar Ti now flag chks txs cb0 tb0 resp base E handle := by
  obtain ⟨hb, hT, hst⟩ := hs
  rcases hst with hw | hw | hl
  · have hw2 := hw
    obtain ⟨c, x, hcx, hh, hc, hx, huc, hux, hnu, hch, htx, hrs, hfl, hnw⟩ := hw
    have heq : e = ⟨c, Ti, Callback.CheckAndCancel ru⟩ :=
      eq_of_uid_eq hb.2.1 he hc (huc e he hcb)
    rw [heq]
    exact ⟨rfl, rfl, hw2⟩
  · rw [hw.2.2.1 e he] at hcb
    exact Bool.noConfusion hcb
  · rw [(hl.2.2.1 e he).1] at hcb
    exact Bool.noConfusion hcb

/-- The invariant of a station when its cancel-check fires and finds the flag set: the
check was due after the earliest check time, the candidate transmission is cancelled. -/
theorem RaceCore_chk_set {ru : Nat} {Tstar Ti now : Time} {n : Nat} {flag : Bool}
    {chks txs cb0 tb0 : List Event} {resp base : List Effect} {E : List Event}
    {handle hp ha hw : EventId} {e : Event}
    (hs : RaceCore ru Tstar Ti now n flag chks txs cb0 tb0 resp base E handle hp ha hw) (he : e ∈ E)
    (hcb : e.cb.isCheck = true) (hf : flag = true) :
    RaceCore ru Tstar Ti now n flag (chks ++ [e]) txs cb0 tb0 resp base
      (cancelIn (E.filter (fun y => y.uid != e.uid)) handle) handle hp ha hw := by
  obtain ⟨_, _, hw⟩ := RaceCore_chk hs he hcb
  obtain ⟨hb, hT, _⟩ := hs
  have hnd := hb.2.1
  obtain ⟨c, x, hcx, hh, hc, hx, huc, hux, hnu, hch, htx, hrs, hfl, hnw⟩ := hw
  have heq : e = ⟨c, Ti, Callback.CheckAndCancel ru⟩ :=
    eq_of_uid_eq hnd he hc (huc e he hcb)
  rw [hh]
  refine ⟨RaceBase_sublist hb ((cancelIn_sublist _ _).trans (List.filter_sublist _)), hT,
    Or.inr (Or.inr ?_)⟩
  refine ⟨hfl hf, ⟨c, ?_⟩, ?_, htx, hrs⟩
  · rw [hch, heq]
  · intro y hy
    have hy1 : y ∈ E.filter (fun z => z.uid != e.uid) := List.mem_of_mem_filter hy
    have hy2 : y.uid ≠ x := by
      have := (List.mem_filter.mp hy).2
      simpa using this
    rw [mem_rm] at hy1
    refine ⟨?_, ?_, hnu y hy1.1⟩
    · cases hk : y.cb.isCheck
      · rfl
      · exact absurd ((huc y hy1.1 hk).trans (huc e he hcb).symm) hy1.2
    · cases hk : y.cb.isTx
      · rfl
      · exact absurd (hux y hy1.1 hk) hy2

/-- The invariant of a station when its cancel-check, due at the earliest check time,
fires and finds the flag clear: the flag update is scheduled one microsecond later and
the candidate transmission stays pending. -/
theorem RaceCore_chk_clear {ru : Nat} {Tstar Ti now : Time} {n : Nat} {flag : Bool}
    {chks txs cb0 tb0 : List Event} {resp base : List Effect} {E : List Event}
    {handle hp ha hw : EventId} {e : Event}
    (hs : RaceCore ru Tstar Ti now n flag chks txs cb0 tb0 resp base E handle hp ha hw) (he : e ∈ E)
    (hcb : e.cb.isCheck = true) (hTi : Ti = Tstar) :
    RaceCore ru Tstar Ti now (n + 1) flag (chks ++ [e]) txs cb0 tb0 resp base
      (E.filter (fun y => y.uid != e.uid) ++ [⟨n, e.ts + 1, Callback.UpdateBsrTx ru⟩])
      handle hp ha hw := by
  obtain ⟨_, _, hw⟩ := RaceCore_chk hs he hcb
  obtain ⟨hb, hT, _⟩ := hs
  have hnd := hb.2.1
  obtain ⟨c, x, hcx, hh, hc, hx, huc, hux, hnu, hch, htx, hrs, hfl, hnw⟩ := hw
  have heq : e = ⟨c, Ti, Callback.CheckAndCancel ru⟩ :=
    eq_of_uid_eq hnd he hc (huc e he hcb)
  have hets : e.ts = Tstar := by rw [heq]; exact hTi
  refine ⟨RaceBase_append (RaceBase_sublist hb (List.filter_sublist _)) _ _, hT,
    Or.inr (Or.inl ?_)⟩
  refine ⟨hTi, ⟨c, ?_⟩, ?_, ?_, Or.inr ⟨_, List.mem_append_right _ (List.mem_singleton_self _),
    rfl⟩, Or.inl ⟨x, ?_, ?_, htx, hrs, hTi ▸ hnw⟩⟩
  · rw [hch, heq, hTi]
  · intro y hy
    rcases List.mem_append.mp hy with hy | hy
    · rw [mem_rm] at hy
      cases hk : y.cb.isCheck
      · rfl
      · exact absurd ((huc y hy.1 hk).trans (huc e he hcb).symm) hy.2
    · rw [List.mem_singleton] at hy
      rw [hy]
      rfl
  · intro y hy hyc
    rcases List.mem_append.mp hy with hy | hy
    · rw [hnu y (List.mem_of_mem_filter hy)] at hyc
      exact Bool.noConfusion hyc
    · rw [List.mem_singleton] at hy
      rw [hy, hets]
      exact ⟨rfl, rfl⟩
  · apply List.mem_append_left
    rw [← hTi]
    apply mem_rm_of_ne hnd he hx
    intro hh2
    rw [← hh2] at hcb
    exact Bool.noConfusion hcb
  · intro y hy hyc
    rcases List.mem_append.mp hy with hy | hy
    · exact hux y (List.mem_of_mem_filter hy) hyc
    · rw [List.mem_singleton] at hy
      rw [hy] at hyc
      exact Bool.noConfusion hyc

/-- A callback that is none of the cycle is no cancel-check, no candidate transmission
and no flag update. -/
theorem not_cycle_cases {cb : Callback} (h : cb.isCycle = false) :
    cb.isCheck = false ∧ cb.isTx = false ∧ cb.isUpdate = false := by
  cases cb <;> first | exact ⟨rfl, rfl, rfl⟩ | exact Bool.noConfusion h

/-- After a reaction outside the cycle no event of a kind of cycle callbacks is pending
when none was pending before. -/
theorem OffCycle.none_of_none {s s' : StaWifiMac} (h : OffCycle s s') (P : Callback → Bool)
    (hP : ∀ cb, P cb = true → cb.isCycle = true) (hE : ∀ e ∈ s.events, P e.cb = false) :
    ∀ e ∈ s'.events, P e.cb = false := by
  intro e he
  cases hk : P e.cb
  · rfl
  · have := hE e (h.mem_of_isCycle he (hP _ hk))
    rw [hk] at this
    exact this

/-- A reaction outside the trigger cycle keeps the invariant of a contending station. -/
theorem RaceSta_OffCycle {ru : Nat} {Tstar Ti : Time} {base : List Effect}
    {chks txs cb0 tb0 : List Event} {s s' : StaWifiMac} (h : RaceSta ru Tstar Ti base cb0 tb0 chks txs s)
    (ht : OffCycle s s') : RaceSta ru Tstar Ti base cb0 tb0 chks txs s' := by
  obtain ⟨⟨g1, g2, g3, g4⟩, hT, hst⟩ := h
  have hall := ht
  obtain ⟨a1, a2, a3, a4, a5, a6, a7, a8, a9, a10, a11, a12⟩ := ht
  have hfl : s'.GetBsrTx ru = s.GetBsrTx ru := GetBsrTx_congr a2 ru
  have hcyc : ∀ cb : Callback, cb.isCheck = true ∨ cb.isTx = true ∨ cb.isUpdate = true →
      cb.isCycle = true := by
    rintro cb (k | k | k)
    · exact isCycle_of_isCheck k
    · exact isCycle_of_isTx k
    · exact isCycle_of_isUpdate k
  have hkeep : ∀ e ∈ s.events,
      e.cb.isCheck = true ∨ e.cb.isTx = true ∨ e.cb.isUpdate = true → e ∈ s'.events := by
    intro e he hpr
    obtain ⟨k1, k2, k3⟩ := g4 e he hpr
    rcases a8 e he with k | k | k | k | k
    · exact k
    · exact absurd (g1 e he) (not_lt.mpr k)
    · exact absurd k k1
    · exact absurd k k2
    · exact absurd k k3
  have hnew : ∀ (x y : EventId), HandleStep s.nextUid s'.nextUid x y →
      (∀ u, x = some u → u < s.nextUid) →
      (∀ u, y = some u → u < s'.nextUid) ∧
      ∀ e ∈ s.events, x ≠ some e.uid → y ≠ some e.uid := by
    intro x y hxy hx
    rcases hxy with hxy | ⟨u, hu, hl, hr⟩
    · rw [hxy]
      exact ⟨fun v hv => lt_of_lt_of_le (hx v hv) a6, fun _ _ hne => hne⟩
    · rw [hu]
      refine ⟨fun v hv => ?_, fun e he _ hh => ?_⟩
      · rw [← Option.some.inj hv]
        exact hr
      · have h1 := g1 e he
        have h2 : u = e.uid := Option.some.inj hh
        omega
  obtain ⟨p1, p2⟩ := hnew _ _ a10 (fun u hu => g3 u (Or.inl hu))
  obtain ⟨q1, q2⟩ := hnew _ _ a11 (fun u hu => g3 u (Or.inr (Or.inl hu)))
  obtain ⟨r1, r2⟩ := hnew _ _ a12 (fun u hu => g3 u (Or.inr (Or.inr hu)))
  unfold RaceSta RaceCore
  rw [a1, hfl, a4, a5]
  refine ⟨⟨?_, a9 g1 g2, ?_, ?_⟩, hT, ?_⟩
  · intro e he
    rcases a7 e he with k | ⟨_, k, _⟩
    · exact lt_of_lt_of_le (g1 e k) a6
    · exact k
  · rintro u (hu | hu | hu)
    · exact p1 u hu
    · exact q1 u hu
    · exact r1 u hu
  · intro e he hpr
    have hold := hall.mem_of_isCycle he (hcyc _ hpr)
    obtain ⟨k1, k2, k3⟩ := g4 e hold hpr
    exact ⟨p2 e hold k1, q2 e hold k2, r2 e hold k3⟩
  · rcases hst with hw | hw | hl
    · left
      obtain ⟨c, x, hcx, hh, hc, hx, huc, hux, hnu, hch, htx, hrs, hfl2, hnw⟩ := hw
      exact ⟨c, x, hcx, hh, hkeep _ hc (Or.inl rfl), hkeep _ hx (Or.inr (Or.inl rfl)),
        fun y hy hk => huc y (hall.mem_of_isCycle hy (isCycle_of_isCheck hk)) hk,
        fun y hy hk => hux y (hall.mem_of_isCycle hy (isCycle_of_isTx hk)) hk,
        hall.none_of_none Callback.isUpdate (fun _ => isCycle_of_isUpdate) hnu,
        hch, htx, hrs, hfl2, hnw⟩
    · right; left
      obtain ⟨k1, k2, k3, k4, k5, k6⟩ := hw
      refine ⟨k1, k2, hall.none_of_none Callback.isCheck (fun _ => isCycle_of_isCheck) k3,
        fun y hy hk => k4 y (hall.mem_of_isCycle hy (isCycle_of_isUpdate hk)) hk, ?_, ?_⟩
      · rcases k5 with k5 | ⟨y, hy, hyc⟩
        · exact Or.inl k5
        · exact Or.inr ⟨y, hkeep y hy (Or.inr (Or.inr hyc)), hyc⟩
      · rcases k6 with ⟨x, hx, hux, htx, hrs, hnw⟩ | ⟨hno, htx⟩
        · exact Or.inl ⟨x, hkeep _ hx (Or.inr (Or.inl rfl)),
            fun y hy hk => hux y (hall.mem_of_isCycle hy (isCycle_of_isTx hk)) hk,
            htx, hrs, hnw⟩
        · exact Or.inr ⟨hall.none_of_none Callback.isTx (fun _ => isCycle_of_isTx) hno, htx⟩
    · right; right
      obtain ⟨k1, k2, k3, k4⟩ := hl
      refine ⟨k1, k2, fun y hy => ⟨?_, ?_, ?_⟩, k4⟩
      · exact hall.none_of_none Callback.isCheck (fun _ => isCycle_of_isCheck)
          (fun z hz => (k3 z hz).1) y hy
      · exact hall.none_of_none Callback.isTx (fun _ => isCycle_of_isTx)
          (fun z hz => (k3 z hz).2.1) y hy
      · exact hall.none_of_none Callback.isUpdate (fun _ => isCycle_of_isUpdate)
          (fun z hz => (k3 z hz).2.2) y hy

/-- The reports handed to the queues once `SendTriggerFrameResp` ran: one more, for the
RU of the callback. -/
theorem tfResps_SendTriggerFrameResp (s : StaWifiMac) (ru : Nat) :
    (s.SendTriggerFrameResp ru).tfResps = s.tfResps ++ [Effect.QueueTFResp ru s.bsr] := by
  unfold StaWifiMac.tfResps StaWifiMac.SendTriggerFrameResp StaWifiMac.emitAll
  show (s.trace ++ _).filter _ = _
  rw [List.filter_append]
  rfl

/-- The cycle-end check hands no report to a queue. -/
theorem tfResps_CancelExpiredEvents (s : StaWifiMac) :
    s.CancelExpiredEvents.tfResps = s.tfResps := by
  rw [CancelExpiredEvents_eq]
  unfold StaWifiMac.tfResps
  show (s.trace ++ _).filter _ = _
  rw [List.filter_append]
  exact List.append_nil _

/-- The invariant of a contending station is kept when the simulator fires the next
event and it is one of the station's: the cancel-check runs at the station's check
time, and when it finds the flag clear that time is the earliest check time.  The flag
of the RU is not cleared, and it is set only by a flag update due one microsecond after
the earliest check time. -/
theorem RaceSta_Fire {ru : Nat} (hru : ru ≤ 8) {Tstar Ti : Time} {base : List Effect}
    {chks txs cb0 tb0 : List Event} {s : StaWifiMac} {e : Event}
    (h : RaceSta ru Tstar Ti base cb0 tb0 chks txs s) (he : e ∈ s.events)
    (hmin : ∀ y ∈ s.events, e.notAfter y = true)
    (hearly : e.cb.isCheck = true → s.GetBsrTx ru = false → Ti = Tstar) :
    RaceSta ru Tstar Ti base cb0 tb0 (chks ++ (if e.cb.isCheck = true then [e] else []))
      (txs ++ (if e.cb.isTx = true then [e] else [])) (s.Fire e) ∧
    (s.GetBsrTx ru = true → (s.Fire e).GetBsrTx ru = true) ∧
    ((s.Fire e).GetBsrTx ru = true → s.GetBsrTx ru = false → e.ts = Tstar + 1) := by
  have hcore0 : RaceCore ru Tstar Ti e.ts s.nextUid (s.GetBsrTx ru) chks txs cb0 tb0 s.tfResps base
      s.events s.m_triggerFrameRespEvent s.m_probeRequestEvent s.m_assocRequestEvent
      s.m_beaconWatchdog :=
    RaceCore_env h (le_refl _) (fun k => k)
      (fun k1 k2 => by rw [k2] at k1; exact Bool.noConfusion k1)
      (Or.inr fun y hy _ => ts_le_of_notAfter (hmin y hy))
  have hsame : ∀ s2 : StaWifiMac, s2.GetBsrTx ru = s.GetBsrTx ru →
      (s.GetBsrTx ru = true → s2.GetBsrTx ru = true) ∧
      (s2.GetBsrTx ru = true → s.GetBsrTx ru = false → e.ts = Tstar + 1) := by
    intro s2 h2
    rw [h2]
    exact ⟨fun k => k, fun k1 k2 => by rw [k2] at k1; exact Bool.noConfusion k1⟩
  by_cases hcy : e.cb.isCycle = true
  · cases hcb : e.cb with
    | CheckAndCancel r =>
      have hk : e.cb.isCheck = true := by rw [hcb]; rfl
      have hx : e.cb.isTx = false := by rw [hcb]; rfl
      obtain ⟨c1, c2, _⟩ := RaceCore_chk hcore0 he hk
      rw [hcb] at c1
      have hr : r = ru := by injection c1
      subst hr
      rw [← hcb, hk, hx]
      simp only [Bool.false_eq_true, if_false, if_true, List.append_nil]
      unfold StaWifiMac.Fire
      rw [hcb]
      show RaceSta r Tstar Ti base cb0 tb0 (chks ++ [e]) txs (StaWifiMac.CheckAndCancel _ r) ∧
        (s.GetBsrTx r = true → (StaWifiMac.CheckAndCancel _ r).GetBsrTx r = true) ∧
        ((StaWifiMac.CheckAndCancel _ r).GetBsrTx r = true → s.GetBsrTx r = false →
          e.ts = Tstar + 1)
      unfold StaWifiMac.CheckAndCancel
      by_cases hf : s.GetBsrTx r = true
      · have hg : StaWifiMac.GetBsrTx
            { s with now := e.ts, events := s.events.filter (fun x => x.uid != e.uid) } r =
            true := hf
        rw [if_pos hg]
        exact ⟨RaceCore_chk_set hcore0 he hk hf, hsame _ rfl⟩
      · have hg : ¬ StaWifiMac.GetBsrTx
            { s with now := e.ts, events := s.events.filter (fun x => x.uid != e.uid) } r =
            true := hf
        rw [if_neg hg]
        have hf2 : s.GetBsrTx r = false := by
          cases hv : s.GetBsrTx r
          · rfl
          · exact absurd hv hf
        exact ⟨RaceCore_chk_clear hcore0 he hk (hearly hk hf2), hsame _ rfl⟩
    | SendTriggerFrameResp r =>
      have hk : e.cb.isCheck = false := by rw [hcb]; rfl
      have hx : e.cb.isTx = true := by rw [hcb]; rfl
      obtain ⟨c1, c2⟩ := RaceCore_tx hcore0 he hx hmin s.bsr
      rw [hcb] at c1
      have hr : r = ru := by injection c1
      subst hr
      rw [← hcb, hk, hx]
      simp only [Bool.false_eq_true, if_false, if_true, List.append_nil]
      unfold StaWifiMac.Fire
      rw [hcb]
      show RaceSta r Tstar Ti base cb0 tb0 chks (txs ++ [e]) (StaWifiMac.SendTriggerFrameResp _ r) ∧
        (s.GetBsrTx r = true → (StaWifiMac.SendTriggerFrameResp _ r).GetBsrTx r = true) ∧
        ((StaWifiMac.SendTriggerFrameResp _ r).GetBsrTx r = true → s.GetBsrTx r = false →
          e.ts = Tstar + 1)
      refine ⟨?_, hsame _ rfl⟩
      unfold RaceSta
      rw [tfResps_SendTriggerFrameResp]
      exact c2
    | UpdateBsrTx r =>
      have hk : e.cb.isCheck = false := by rw [hcb]; rfl
      have hx : e.cb.isTx = false := by rw [hcb]; rfl
      have hu : e.cb.isUpdate = true := by rw [hcb]; rfl
      obtain ⟨c1, c2, c3⟩ := RaceCore_upd hcore0 he hu
      rw [hcb] at c2
      have hr : r = ru := by injection c2
      subst hr
      rw [← hcb, hk, hx]
      simp only [Bool.false_eq_true, if_false, List.append_nil]
      unfold StaWifiMac.Fire
      rw [hcb]
      show RaceSta r Tstar Ti base cb0 tb0 chks txs (StaWifiMac.UpdateBsrTx _ r) ∧
        (s.GetBsrTx r = true → (StaWifiMac.UpdateBsrTx _ r).GetBsrTx r = true) ∧
        ((StaWifiMac.UpdateBsrTx _ r).GetBsrTx r = true → s.GetBsrTx r = false →
          e.ts = Tstar + 1)
      refine ⟨?_, fun _ => ?_, fun _ _ => c3⟩
      · interval_cases r <;> exact c1
      · rw [GetBsrTx_UpdateBsrTx _ r r hru, if_pos rfl]
    | CancelExpiredEvents =>
      have hk : e.cb.isCheck = false := by rw [hcb]; rfl
      have hx : e.cb.isTx = false := by rw [hcb]; rfl
      have hu : e.cb.isUpdate = false := by rw [hcb]; rfl
      have h0 : RaceSta ru Tstar Ti base cb0 tb0 chks txs
          { s with now := e.ts, events := s.events.filter (fun x => x.uid != e.uid) } :=
        RaceCore_rm hcore0 he hk hx hu
      rw [← hcb, hk, hx]
      simp only [Bool.false_eq_true, if_false, List.append_nil]
      unfold StaWifiMac.Fire
      rw [hcb]
      show RaceSta ru Tstar Ti base cb0 tb0 chks txs (StaWifiMac.CancelExpiredEvents _) ∧
        (s.GetBsrTx ru = true → (StaWifiMac.CancelExpiredEvents _).GetBsrTx ru = true) ∧
        ((StaWifiMac.CancelExpiredEvents _).GetBsrTx ru = true → s.GetBsrTx ru = false →
          e.ts = Tstar + 1)
      refine ⟨?_, hsame _ (GetBsrTx_congr (bsrTx_CancelExpiredEvents _) ru)⟩
      unfold RaceSta at h0 ⊢
      rw [tfResps_CancelExpiredEvents, CancelExpiredEvents_eq]
      exact h0
    | _ => rw [hcb] at hcy; exact Bool.noConfusion hcy
  · have hcy2 : e.cb.isCycle = false := by
      cases hv : e.cb.isCycle
      · rfl
      · exact absurd hv hcy
    obtain ⟨hk, hx, hu⟩ := not_cycle_cases hcy2
    have h0 : RaceSta ru Tstar Ti base cb0 tb0 chks txs
        { s with now := e.ts, events := s.events.filter (fun x => x.uid != e.uid) } :=
      RaceCore_rm hcore0 he hk hx hu
    have hoff := OffCycle_Dispatch
      { s with now := e.ts, events := s.events.filter (fun x => x.uid != e.uid) } e.cb hcy2
    rw [hk, hx]
    simp only [Bool.false_eq_true, if_false, List.append_nil]
    exact ⟨RaceSta_OffCycle h0 hoff, hsame _ (GetBsrTx_congr hoff.2.1 ru)⟩

/-- A station stands by with fewer pending events. -/
theorem Bystander_of_sublist {ru : Nat} {E E2 : List Event} (h : Bystander ru E)
    (hs : E2.Sublist E) : Bystander ru E2 :=
  fun e he => h e (hs.subset he)

/-- A station that stands by still does after a reaction outside the trigger cycle. -/
theorem Bystander_OffCycle {ru : Nat} {s s2 : StaWifiMac} (h : Bystander ru s.events)
    (ho : OffCycle s s2) : Bystander ru s2.events := by
  intro e he
  rcases ho.2.2.2.2.2.2.1 e he with h1 | ⟨_, _, h3⟩
  · exact h e h1
  · constructor
    · intro hc
      rw [hc] at h3
      exact Bool.noConfusion h3
    · intro hc
      rw [hc] at h3
      exact Bool.noConfusion h3

/-- `UpdateBsrTx` leaves the flag of every other RU. -/
theorem GetBsrTx_UpdateBsrTx_ne (s : StaWifiMac) (r ru : Nat) (h : r ≠ ru) :
    (s.UpdateBsrTx r).GetBsrTx ru = s.GetBsrTx ru := by
  by_cases hr : r ≤ 8
  · rw [GetBsrTx_UpdateBsrTx s r ru hr, if_neg (fun k => h k.symm)]
  · rw [UpdateBsrTx_of_ge s r (by omega)]

/-- A station that stands by still does after a callback that is neither a cancel-check
nor a flag update for the RU, and the flag of the RU is as before. -/
theorem Bystander_Dispatch {ru : Nat} (s : StaWifiMac) (cb : Callback)
    (h1 : Bystander ru s.events)
    (hcb : cb ≠ Callback.CheckAndCancel ru ∧ cb ≠ Callback.UpdateBsrTx ru) :
    Bystander ru (s.Dispatch cb).events ∧ (s.Dispatch cb).GetBsrTx ru = s.GetBsrTx ru := by
  cases cb with
  | CheckAndCancel r =>
    have hr : r ≠ ru := by
      intro hc
      exact hcb.1 (by rw [hc])
    show Bystander ru (s.CheckAndCancel r).events ∧
      (s.CheckAndCancel r).GetBsrTx ru = s.GetBsrTx ru
    unfold StaWifiMac.CheckAndCancel
    split
    · exact ⟨Bystander_of_sublist h1 (cancelIn_sublist _ _), rfl⟩
    · refine ⟨?_, rfl⟩
      intro y hy
      rcases List.mem_append.mp hy with hy | hy
      · exact h1 y hy
      · rw [List.mem_singleton] at hy
        rw [hy]
        exact ⟨fun hc => Callback.noConfusion hc,
          fun hc => hr (Callback.UpdateBsrTx.inj hc)⟩
  | SendTriggerFrameResp r => exact ⟨h1, rfl⟩
  | UpdateBsrTx r =>
    have hr : r ≠ ru := by
      intro hc
      exact hcb.2 (by rw [hc])
    show Bystander ru (s.UpdateBsrTx r).events ∧
      (s.UpdateBsrTx r).GetBsrTx ru = s.GetBsrTx ru
    rw [(UpdateBsrTx_frame _ r).1, GetBsrTx_UpdateBsrTx_ne _ r ru hr]
    exact ⟨h1, rfl⟩
  | CancelExpiredEvents =>
    show Bystander ru s.CancelExpiredEvents.events ∧
      s.CancelExpiredEvents.GetBsrTx ru = s.GetBsrTx ru
    rw [CancelExpiredEvents_eq]
    exact ⟨h1, rfl⟩
  | TryToEnsureAssociated =>
    have ho := OffCycle_Dispatch s Callback.TryToEnsureAssociated rfl
    exact ⟨Bystander_OffCycle h1 ho, GetBsrTx_congr ho.2.1 ru⟩
  | ProbeRequestTimeout =>
    have ho := OffCycle_Dispatch s Callback.ProbeRequestTimeout rfl
    exact ⟨Bystander_OffCycle h1 ho, GetBsrTx_congr ho.2.1 ru⟩
  | AssocRequestTimeout =>
    have ho := OffCycle_Dispatch s Callback.AssocRequestTimeout rfl
    exact ⟨Bystander_OffCycle h1 ho, GetBsrTx_congr ho.2.1 ru⟩
  | MissedBeacons =>
    have ho := OffCycle_Dispatch s Callback.MissedBeacons rfl
    exact ⟨Bystander_OffCycle h1 ho, GetBsrTx_congr ho.2.1 ru⟩
  | StopMuMode =>
    have ho := OffCycle_Dispatch s Callback.StopMuMode rfl
    exact ⟨Bystander_OffCycle h1 ho, GetBsrTx_congr ho.2.1 ru⟩
  | NotifyMaybeCcaBusyStartNow r d =>
    have ho := OffCycle_Dispatch s (Callback.NotifyMaybeCcaBusyStartNow r d) rfl
    exact ⟨Bystander_OffCycle h1 ho, GetBsrTx_congr ho.2.1 ru⟩

/-- A station that stands by still does after the timer service fired one of its
events, and the flag of the RU is as before. -/
theorem Bystander_Fire {ru : Nat} (s : StaWifiMac) (e : Event) (h : Bystander ru s.events)
    (he : e ∈ s.events) :
    Bystander ru (s.Fire e).events ∧ (s.Fire e).GetBsrTx ru = s.GetBsrTx ru := by
  unfold StaWifiMac.Fire
  exact Bystander_Dispatch _ e.cb (Bystander_of_sublist h (List.filter_sublist _)) (h e he)

/-- What is done for a broadcast entry leaves a station standing by when it is on
another RU or its OBO is not below max-slots. -/
theorem tfBroadcastEntry_Bystander {ru : Nat} (s : StaWifiMac) (h : Bystander ru s.events)
    (hc : s.ruBits ≠ ru ∨ s.maxTfSlots ≤ s.m_noSlots) :
    Bystander ru s.tfBroadcastEntry.events := by
  by_cases hlt : s.m_noSlots < s.maxTfSlots
  · have hr : s.ruBits ≠ ru := by
      rcases hc with hc | hc
      · exact hc
      · omega
    rw [(tfBroadcastEntry_of_lt s hlt).1]
    intro y hy
    rcases List.mem_append.mp hy with hy | hy
    · exact h y hy
    · simp only [List.mem_cons, List.mem_singleton, List.not_mem_nil, or_false] at hy
      rcases hy with hy | hy | hy <;> rw [hy]
      · exact ⟨fun k => hr (Callback.CheckAndCancel.inj k), fun k => Callback.noConfusion k⟩
      · exact ⟨fun k => Callback.noConfusion k, fun k => Callback.noConfusion k⟩
      · exact ⟨fun k => Callback.noConfusion k, fun k => Callback.noConfusion k⟩
  · rw [(tfBroadcastEntry_of_not_lt s hlt).1]
    intro y hy
    rcases List.mem_append.mp hy with hy | hy
    · exact h y hy
    · rw [List.mem_singleton] at hy
      rw [hy]
      exact ⟨fun k => Callback.noConfusion k, fun k => Callback.noConfusion k⟩

/-- The loop over the RU allocations leaves a station standing by when it is on another
RU or its OBO is not below max-slots. -/
theorem tfAllocLoop_Bystander {ru : Nat} (ulFlag : Nat) (l : List (Mac48Address × Nat)) :
    ∀ s : StaWifiMac, Bystander ru s.events →
      (s.ruBits ≠ ru ∨ s.maxTfSlots ≤ s.m_noSlots) →
      Bystander ru (s.tfAllocLoop ulFlag l).1.events := by
  induction l with
  | nil => intro s h _; exact h
  | cons x rest ih =>
    intro s h hc
    obtain ⟨a, r⟩ := x
    unfold StaWifiMac.tfAllocLoop
    by_cases hown : a = s.GetAddress ∧ ulFlag ≠ 0
    · rw [if_pos hown]
      intro y hy
      rcases List.mem_append.mp hy with hy | hy
      · exact h y hy
      · rw [List.mem_singleton] at hy
        rw [hy]
        exact ⟨fun k => Callback.noConfusion k, fun k => Callback.noConfusion k⟩
    · rw [if_neg hown]
      by_cases hb : a = GetBroadcast
      · rw [if_pos hb]
        obtain ⟨_, f2, _, _, f5, f6, _⟩ := tfBroadcastEntry_frame s
        exact ih _ (tfBroadcastEntry_Bystander s h hc) (by rw [f2, f5, f6]; exact hc)
      · rw [if_neg hb]
        exact ih s h hc

/-- A station that processes a trigger while it is on another RU, or with an OBO after
the draw that is not below max-slots, stands by afterwards; every static flag is clear,
the clock is as before and the registration counter did not decrease. -/
theorem Receive_TF_Bystander {ru : Nat} (s : StaWifiMac) (packet : Packet)
    (hdr : WifiMacHeader) (rv : Nat) (ht : hdr.type = WifiMacType.TF)
    (hp : passesAddressFilter s hdr) (h : Bystander ru s.events)
    (hc : s.ruBits ≠ ru ∨ s.maxTfSlots ≤ s.slotsAfterDraw rv) :
    Bystander ru (s.Receive packet hdr rv).events ∧
    (∀ q, (s.Receive packet hdr rv).GetBsrTx q = false) := by
  have e1 : (s.tfStart packet rv).events = s.events ++ [⟨s.nextUid,
      s.now + ((packet.tf.tfDuration : Int) * s.slot - packet.tfBeaconDuration),
      Callback.StopMuMode⟩] := by
    rw [tfStart_eq]
  have e2 : (s.tfStart packet rv).ruBits = s.ruBits := by rw [tfStart_eq]
  have e3 : (s.tfStart packet rv).maxTfSlots = s.maxTfSlots := by rw [tfStart_eq]
  have e4 : (s.tfStart packet rv).m_noSlots = s.slotsAfterDraw rv := by rw [tfStart_eq]
  have e5 : (s.tfStart packet rv).bsrTx =
      [false, false, false, false, false, false, false, false, false] := by
    rw [tfStart_eq]
    rfl
  have hs : Bystander ru (s.tfStart packet rv).events := by
    rw [e1]
    intro y hy
    rcases List.mem_append.mp hy with hy | hy
    · exact h y hy
    · rw [List.mem_singleton] at hy
      rw [hy]
      exact ⟨fun k => Callback.noConfusion k, fun k => Callback.noConfusion k⟩
  have hloop := tfAllocLoop_Bystander packet.tf.uplinkFlag packet.tf.ruAllocations
    (s.tfStart packet rv) hs (by rw [e2, e3, e4]; exact hc)
  have hfl : ∀ q, ((s.tfStart packet rv).tfAllocLoop packet.tf.uplinkFlag
      packet.tf.ruAllocations).1.GetBsrTx q = false := by
    intro q
    rw [GetBsrTx_eq_getD, bsrTx_tfAllocLoop, e5]
    rcases q with _ | _ | _ | _ | _ | _ | _ | _ | _ | n <;> rfl
  rw [Receive_of_passes s packet hdr rv hp, ht]
  simp only []
  split_ifs
  · exact ⟨hloop, hfl⟩
  · exact ⟨hloop, hfl⟩

/-- A station record seen with its own shared part is the record itself. -/
theorem withShared_shared (s : StaWifiMac) : s.withShared s.shared = s := by
  cases s
  rfl

/-- After the timer service fired an event the clock shows the time of the event. -/
theorem Fire_now (s : StaWifiMac) (e : Event) : (s.Fire e).now = e.ts := by
  unfold StaWifiMac.Fire
  cases hcy : e.cb.isCycle
  · exact (OffCycle_Dispatch _ e.cb hcy).1
  · cases hcb : e.cb with
    | CheckAndCancel r =>
      show (StaWifiMac.CheckAndCancel _ r).now = e.ts
      unfold StaWifiMac.CheckAndCancel
      split <;> rfl
    | SendTriggerFrameResp r => rfl
    | UpdateBsrTx r =>
      show (StaWifiMac.UpdateBsrTx _ r).now = e.ts
      by_cases hr : r ≤ 8
      · interval_cases r <;> rfl
      · rw [UpdateBsrTx_of_ge _ r (by omega)]
    | CancelExpiredEvents =>
      show (StaWifiMac.CancelExpiredEvents _).now = e.ts
      rw [CancelExpiredEvents_eq]
    | _ => rw [hcb] at hcy; exact Bool.noConfusion hcy

/-- In a cycle whose flag is still clear, the cancel-check of a contending station that
the simulator runs next is due at the earliest check time. -/
theorem RaceInv_earliest {ru : Nat} {Tstar : Time} {T : Nat → Time} {base : Nat → List Effect}
    {c : Nat → Bool} {w0 w : World} (hinv : RaceInv ru Tstar T base c w0 w) {i : Nat}
    {s : StaWifiMac} {e : Event} (hs : w.stas[i]? = some s) (hci : c i = true)
    (he : e ∈ s.events) (hcb : e.cb.isCheck = true)
    (hmin : ∀ (k : Nat) (sk : StaWifiMac) (y : Event),
      w.stas[k]? = some sk → y ∈ sk.events → e.notAfter y = true)
    (hflag : w.shared.GetBsrTx ru = false) : T i = Tstar := by
  have hsta := (hinv.2 i s hs).1 hci
  obtain ⟨_, hts, _⟩ := RaceCore_chk hsta he hcb
  rcases hsta.2.1 with h | h
  · exact h
  · exfalso
    obtain ⟨j, hj, hcj, hTj⟩ := hinv.1
    obtain ⟨sj, hsj⟩ : ∃ sj, w.stas[j]? = some sj := ⟨w.stas[j], List.getElem?_eq_getElem hj⟩
    obtain ⟨_, _, hstj⟩ := (hinv.2 j sj hsj).1 hcj
    rcases hstj with hw | hw | hl
    · obtain ⟨c, x, hcx, hh, hc, hx, huc, hux, hnu, hch, htx, hrs, hfl, hnw⟩ := hw
      have := ts_le_of_notAfter (hmin j sj _ hsj hc)
      rw [hts, hTj] at this
      simp only at this
      linarith
    · obtain ⟨h1, h2, h3, h4, h5, h6⟩ := hw
      rcases h5 with h5 | ⟨y, hy, hyc⟩
      · have h5b : w.shared.GetBsrTx ru = true := h5
        rw [hflag] at h5b
        exact Bool.noConfusion h5b
      · have := ts_le_of_notAfter (hmin j sj y hsj hy)
        rw [hts, (h4 y hy hyc).2] at this
        linarith
    · have := hl.1
      rw [hTj] at this
      exact lt_irrefl _ this

/-- The invariant of a trigger cycle is kept by every move that can occur in which no
station processes a further trigger. -/
theorem RaceInv_move {ru : Nat} (hru : ru ≤ 8) {Tstar : Time} {T : Nat → Time}
    {base : Nat → List Effect} {c : Nat → Bool} {w0 w : World} (m : Move)
    (hen : m.enabled w) (hok : w.noTrigger m) (hinv : RaceInv ru Tstar T base c w0 w) :
    RaceInv ru Tstar T base c w0 (w.move m) := by
  cases m with
  | run =>
    show RaceInv ru Tstar T base c w0 w.step
    unfold World.step
    cases hE : earliest (pendingFrom 0 w.stas) with
    | none => exact hinv
    | some x =>
      obtain ⟨i, e⟩ := x
      obtain ⟨hmem, hmin0⟩ := earliest_some _ _ hE
      rw [mem_pendingFrom] at hmem
      obtain ⟨_, s, hs, he⟩ := hmem
      rw [Nat.sub_zero] at hs
      have hmin : ∀ (k : Nat) (sk : StaWifiMac) (y : Event),
          w.stas[k]? = some sk → y ∈ sk.events → e.notAfter y = true := by
        intro k sk y hk hy
        exact hmin0 (k, y)
          ((mem_pendingFrom _ _ _ _).mpr ⟨Nat.zero_le _, sk, by simpa using hk, hy⟩)
      have hn := (Fire_shared_mono s w.shared e).1
      have hnow := Fire_now (s.withShared w.shared) e
      have hlt : i < w.stas.length := (List.getElem?_eq_some_iff.mp hs).1
      have hfire : (c i = true →
            RaceSta ru Tstar (T i) (base i) (w0.checks i) (w0.transmissions i)
              (w.checks i ++ (if e.cb.isCheck = true then [e] else []))
              (w.transmissions i ++ (if e.cb.isTx = true then [e] else []))
              ((s.withShared w.shared).Fire e)) ∧
          (c i = false → Bystander ru ((s.withShared w.shared).Fire e).events) ∧
          (w.shared.GetBsrTx ru = true →
            ((s.withShared w.shared).Fire e).GetBsrTx ru = true) ∧
          (((s.withShared w.shared).Fire e).GetBsrTx ru = true →
            w.shared.GetBsrTx ru = false → e.ts = Tstar + 1) := by
        cases hci : c i with
        | true =>
          obtain ⟨h1, h2, h3⟩ := RaceSta_Fire hru ((hinv.2 i s hs).1 hci) he
            (fun y hy => hmin i s y hs hy)
            (fun hk hf => RaceInv_earliest hinv hs hci he hk hmin hf)
          exact ⟨fun _ => h1, fun k => Bool.noConfusion k, h2, h3⟩
        | false =>
          obtain ⟨h1, h2⟩ := Bystander_Fire (s.withShared w.shared) e
            ((hinv.2 i s hs).2 hci) he
          have h2b : ((s.withShared w.shared).Fire e).GetBsrTx ru = w.shared.GetBsrTx ru := h2
          refine ⟨fun k => Bool.noConfusion k, fun _ => h1, ?_, ?_⟩
          · intro hf
            rw [h2b]
            exact hf
          · intro hf1 hf2
            rw [h2b, hf2] at hf1
            exact Bool.noConfusion hf1
      obtain ⟨f1, f2, f3, f4⟩ := hfire
      show RaceInv ru Tstar T base c w0 (w.fire i e)
      rw [World_fire_eq w i e s hs]
      refine ⟨?_, ?_⟩
      · obtain ⟨j, hj, hcj, hTj⟩ := hinv.1
        exact ⟨j, by simpa using hj, hcj, hTj⟩
      · intro k sk hk
        simp only at hk
        have hT : ∀ (sh : Shared) (st : List StaWifiMac),
            (⟨sh, st, w.log ++ [(i, e)]⟩ : World).transmissions k =
              w.transmissions k ++ (if k = i ∧ e.cb.isTx = true then [e] else []) :=
          fun sh st => transmissions_append w ⟨sh, st, w.log ++ [(i, e)]⟩ i e rfl k
        have hC : ∀ (sh : Shared) (st : List StaWifiMac),
            (⟨sh, st, w.log ++ [(i, e)]⟩ : World).checks k =
              w.checks k ++ (if k = i ∧ e.cb.isCheck = true then [e] else []) :=
          fun sh st => checks_append w ⟨sh, st, w.log ++ [(i, e)]⟩ i e rfl k
        rw [hT, hC]
        by_cases hki : k = i
        · subst hki
          rw [List.getElem?_set_self hlt] at hk
          simp only [Option.some.injEq] at hk
          subst hk
          simp only [true_and]
          rw [withShared_shared]
          exact ⟨f1, f2⟩
        · rw [List.getElem?_set_ne (fun h => hki h.symm)] at hk
          have hif1 : ¬ (k = i ∧ e.cb.isCheck = true) := fun h => hki h.1
          have hif2 : ¬ (k = i ∧ e.cb.isTx = true) := fun h => hki h.1
          rw [if_neg hif1, if_neg hif2, List.append_nil, List.append_nil]
          refine ⟨fun hck => ?_, (hinv.2 k sk hk).2⟩
          refine RaceCore_env ((hinv.2 k sk hk).1 hck) hn f3 ?_ (Or.inr ?_)
          · intro hf1 hf2 y hy _
            have hts := f4 hf1 hf2
            have := ts_le_of_notAfter (hmin k sk y hk hy)
            rw [hts] at this
            linarith
          · intro y hy _
            show ((s.withShared w.shared).Fire e).now ≤ y.ts
            rw [hnow]
            exact ts_le_of_notAfter (hmin k sk y hk hy)
  | advance t =>
    refine ⟨hinv.1, ?_⟩
    intro k sk hk
    refine ⟨fun hck => ?_, (hinv.2 k sk hk).2⟩
    refine RaceCore_env ((hinv.2 k sk hk).1 hck) (le_refl _) (fun h => h)
      (fun h1 h2 => by
        have h1b : (sk.withShared w.shared).GetBsrTx ru = true := h1
        rw [h2] at h1b
        exact Bool.noConfusion h1b) (Or.inr ?_)
    intro y hy _
    exact hen.2 (k, y) ((mem_pendingFrom _ _ _ _).mpr ⟨Nat.zero_le _, sk, by simpa using hk, hy⟩)
  | act j st =>
    show RaceInv ru Tstar T base c w0 (w.act j (fun x => step x st))
    cases hsj : w.stas[j]? with
    | none =>
      have hw : w.act j (fun x => step x st) = w := by simp only [World.act, hsj]
      rw [hw]
      exact hinv
    | some sj =>
      have hnt : ¬ processesTrigger (sj.withShared w.shared) st :=
        hok sj (by rw [hsj]; exact List.mem_singleton.mpr rfl)
      have hoff := OffCycle_step (sj.withShared w.shared) st hen hnt
      rw [World_act_eq w j _ sj hsj]
      refine ⟨?_, ?_⟩
      · obtain ⟨k, hk, hck, hTk⟩ := hinv.1
        exact ⟨k, by simpa using hk, hck, hTk⟩
      · intro k sk hk
        simp only at hk
        have hlog : ∀ q, (({ w with
            shared := (step (sj.withShared w.shared) st).shared,
            stas := w.stas.set j (step (sj.withShared w.shared) st) } : World).checks q =
              w.checks q) ∧
            (({ w with
            shared := (step (sj.withShared w.shared) st).shared,
            stas := w.stas.set j (step (sj.withShared w.shared) st) } : World).transmissions q =
              w.transmissions q) := fun q => ⟨rfl, rfl⟩
        rw [(hlog k).1, (hlog k).2]
        by_cases hkj : k = j
        · subst hkj
          have hlt : k < w.stas.length := (List.getElem?_eq_some_iff.mp hsj).1
          rw [List.getElem?_set_self hlt] at hk
          simp only [Option.some.injEq] at hk
          subst hk
          rw [withShared_shared]
          exact ⟨fun hck => RaceSta_OffCycle ((hinv.2 k sj hsj).1 hck) hoff,
            fun hck => Bystander_OffCycle
              (show Bystander ru (sj.withShared w.shared).events from (hinv.2 k sj hsj).2 hck)
              hoff⟩
        · rw [List.getElem?_set_ne (fun h => hkj h.symm)] at hk
          have hfl : (step (sj.withShared w.shared) st).shared.GetBsrTx ru =
              w.shared.GetBsrTx ru := by
            rw [shared_GetBsrTx, GetBsrTx_congr hoff.2.1 ru]
            rfl
          refine ⟨fun hck => ?_, (hinv.2 k sk hk).2⟩
          refine RaceCore_env ((hinv.2 k sk hk).1 hck) hoff.2.2.2.2.2.1 ?_ ?_ (Or.inl hoff.1)
          · intro hf
            show (step (sj.withShared w.shared) st).shared.GetBsrTx ru = true
            rw [hfl]
            exact hf
          · intro hf1 hf2
            have hf1b : (step (sj.withShared w.shared) st).shared.GetBsrTx ru = true := hf1
            have hf2b : w.shared.GetBsrTx ru = false := hf2
            rw [hfl, hf2b] at hf1b
            exact Bool.noConfusion hf1b

/-- The invariant of a trigger cycle is kept by a run of moves in which no station
processes a further trigger. -/
theorem RaceInv_moves {ru : Nat} (hru : ru ≤ 8) {Tstar : Time} {T : Nat → Time}
    {base : Nat → List Effect} {c : Nat → Bool} {w0 : World} (ms : List Move) :
    ∀ w : World, World.Allowed World.noTrigger w ms → RaceInv ru Tstar T base c w0 w →
      RaceInv ru Tstar T base c w0 (w.moves ms) := by
  induction ms with
  | nil => intro w _ h; exact h
  | cons m ms ih =>
    intro w hal h
    obtain ⟨h1, h2, h3⟩ := hal
    exact ih (w.move m) h3 (RaceInv_move hru m h1 h2 h)

/-- The loop over the RU allocations does nothing on a part of the allocation map that
has no broadcast entry and cannot make it return. -/
theorem tfAllocLoop_skip (ulFlag : Nat) (l : List (Mac48Address × Nat)) :
    ∀ s : StaWifiMac, (∀ x ∈ l, x.1 ≠ GetBroadcast) →
      (∀ x ∈ l, x.1 = s.address → ulFlag = 0) → s.tfAllocLoop ulFlag l = (s, false) := by
  induction l with
  | nil => intro s _ _; rfl
  | cons p rest ih =>
    intro s hnb hkeep
    obtain ⟨a, r⟩ := p
    have hc : ¬ (a = s.GetAddress ∧ ulFlag ≠ 0) := by
      rintro ⟨ha, hu⟩
      exact hu (hkeep (a, r) (List.mem_cons_self _ _) ha)
    rw [StaWifiMac.tfAllocLoop, if_neg hc, if_neg (hnb (a, r) (List.mem_cons_self _ _))]
    exact ih s (fun x hx => hnb x (List.mem_cons_of_mem _ hx))
      (fun x hx => hkeep x (List.mem_cons_of_mem _ hx))

/-- The loop over an allocation map that names every address once at most, has a
broadcast entry and cannot make the loop return does what is done for a broadcast
entry, once. -/
theorem tfAllocLoop_one (ulFlag : Nat) (l : List (Mac48Address × Nat)) :
    ∀ s : StaWifiMac, (l.map Prod.fst).Nodup → (∀ x ∈ l, x.1 = s.address → ulFlag = 0) →
      (∃ x ∈ l, x.1 = GetBroadcast) →
      s.tfAllocLoop ulFlag l = (s.tfBroadcastEntry, false) := by
  induction l with
  | nil =>
    intro s _ _ hb
    obtain ⟨x, hx, _⟩ := hb
    exact absurd hx (List.not_mem_nil x)
  | cons p rest ih =>
    intro s hnd hkeep hb
    obtain ⟨a, r⟩ := p
    rw [List.map_cons, List.nodup_cons] at hnd
    have hc : ¬ (a = s.GetAddress ∧ ulFlag ≠ 0) := by
      rintro ⟨ha, hu⟩
      exact hu (hkeep (a, r) (List.mem_cons_self _ _) ha)
    rw [StaWifiMac.tfAllocLoop, if_neg hc]
    by_cases hab : a = GetBroadcast
    · rw [if_pos hab]
      refine tfAllocLoop_skip ulFlag rest _ ?_ ?_
      · intro x hx hxb
        exact hnd.1 (List.mem_map.mpr ⟨x, hx, hxb.trans hab.symm⟩)
      · intro x hx hxa
        rw [(tfBroadcastEntry_frame s).2.2.2.2.2.2] at hxa
        exact hkeep x (List.mem_cons_of_mem _ hx) hxa
    · rw [if_neg hab]
      refine ih s hnd.2 (fun x hx => hkeep x (List.mem_cons_of_mem _ hx)) ?_
      obtain ⟨x, hx, hxb⟩ := hb
      rcases List.mem_cons.mp hx with h | h
      · rw [h] at hxb
        exact absurd hxb hab
      · exact ⟨x, h, hxb⟩

/-- A station that processes a trigger whose allocation map names every address once at
most and has a broadcast entry, with no entry that makes the loop return, and whose OBO
after the draw is below max-slots: the four events it registers, the shared part it
leaves, its handles and the reports it handed to the queues. -/
theorem Receive_TF_one (s : StaWifiMac) (packet : Packet) (hdr : WifiMacHeader) (rv : Nat)
    (ht : hdr.type = WifiMacType.TF) (hp : passesAddressFilter s hdr)
    (hnd : (packet.tf.ruAllocations.map Prod.fst).Nodup)
    (hb : ∃ x ∈ packet.tf.ruAllocations, x.1 = GetBroadcast)
    (hkeep : ∀ x ∈ packet.tf.ruAllocations, x.1 = s.address → packet.tf.uplinkFlag = 0)
    (hobo : s.slotsAfterDraw rv < s.maxTfSlots) :
    (s.Receive packet hdr rv).events = s.events ++
      [⟨s.nextUid, s.now + ((packet.tf.tfDuration : Int) * s.slot - packet.tfBeaconDuration),
          Callback.StopMuMode⟩] ++
      [⟨s.nextUid + 1, s.now + (s.slotsAfterDraw rv : Int) * s.slot,
          Callback.CheckAndCancel s.ruBits⟩] ++
      [⟨s.nextUid + 1 + 1, s.now + (s.slotsAfterDraw rv : Int) * s.slot,
          Callback.SendTriggerFrameResp s.ruBits⟩] ++
      [⟨s.nextUid + 1 + 1 + 1, s.now + ((s.maxTfSlots : Int) * s.slot + s.sifs),
          Callback.CancelExpiredEvents⟩] ∧
    (s.Receive packet hdr rv).shared =
      ⟨s.now, s.nextUid + 1 + 1 + 1 + 1, false, false, false, false, false, false, false,
        false, false⟩ ∧
    (s.Receive packet hdr rv).m_triggerFrameRespEvent = some (s.nextUid + 1 + 1) ∧
    (s.Receive packet hdr rv).m_probeRequestEvent = s.m_probeRequestEvent ∧
    (s.Receive packet hdr rv).m_assocRequestEvent = s.m_assocRequestEvent ∧
    (s.Receive packet hdr rv).m_beaconWatchdog = s.m_beaconWatchdog ∧
    (s.Receive packet hdr rv).tfResps = s.tfResps := by
  have ha : (s.tfStart packet rv).address = s.address := by
    rw [tfStart_eq]
  have hloop : (s.tfStart packet rv).tfAllocLoop packet.tf.uplinkFlag
      packet.tf.ruAllocations = ((s.tfStart packet rv).tfBroadcastEntry, false) :=
    tfAllocLoop_one _ _ _ hnd (fun x hx hxa => hkeep x hx (hxa.trans ha)) hb
  have hr : s.Receive packet hdr rv =
      ((s.tfStart packet rv).tfBroadcastEntry).emit
        (Effect.RegularWifiMacReceive packet.uid) := by
    rw [Receive_of_passes _ packet hdr rv hp, ht]
    simp only [hloop]
    rfl
  have hlt : (s.tfStart packet rv).m_noSlots < (s.tfStart packet rv).maxTfSlots := by
    rw [tfStart_eq]
    exact hobo
  have hres : (((s.tfStart packet rv).tfBroadcastEntry).emit
      (Effect.RegularWifiMacReceive packet.uid)).tfResps = s.tfResps := by
    have e1 : (s.tfStart packet rv).tfBroadcastEntry.trace = (s.tfStart packet rv).trace := by
      unfold StaWifiMac.tfBroadcastEntry
      simp only
      split <;> rfl
    have e2 : (s.tfStart packet rv).trace = s.trace ++
        [Effect.DcfNotifyMaybeCcaBusyStartNow
          ((packet.tf.tfDuration : Int) * s.slot - packet.tfBeaconDuration)] := by
      rw [tfStart_eq]
    unfold StaWifiMac.tfResps StaWifiMac.emit
    show (_ ++ [_]).filter _ = _
    rw [e1, e2, List.filter_append, List.filter_append]
    simp [Effect.isTfResp]
  have k1 : (((s.tfStart packet rv).tfBroadcastEntry).emit
      (Effect.RegularWifiMacReceive packet.uid)).events = s.events ++
      [⟨s.nextUid, s.now + ((packet.tf.tfDuration : Int) * s.slot - packet.tfBeaconDuration),
          Callback.StopMuMode⟩] ++
      [⟨s.nextUid + 1, s.now + (s.slotsAfterDraw rv : Int) * s.slot,
          Callback.CheckAndCancel s.ruBits⟩] ++
      [⟨s.nextUid + 1 + 1, s.now + (s.slotsAfterDraw rv : Int) * s.slot,
          Callback.SendTriggerFrameResp s.ruBits⟩] ++
      [⟨s.nextUid + 1 + 1 + 1, s.now + ((s.maxTfSlots : Int) * s.slot + s.sifs),
          Callback.CancelExpiredEvents⟩] := by
    unfold StaWifiMac.tfBroadcastEntry
    simp only
    rw [if_pos hlt, tfStart_eq]
    rfl
  have k2 : (((s.tfStart packet rv).tfBroadcastEntry).emit
      (Effect.RegularWifiMacReceive packet.uid)).shared =
      ⟨s.now, s.nextUid + 1 + 1 + 1 + 1, false, false, false, false, false, false, false,
        false, false⟩ := by
    unfold StaWifiMac.tfBroadcastEntry
    simp only
    rw [if_pos hlt, tfStart_eq]
    rfl
  have k3 : (((s.tfStart packet rv).tfBroadcastEntry).emit
      (Effect.RegularWifiMacReceive packet.uid)).m_triggerFrameRespEvent = some (s.nextUid + 1 + 1) := by
    unfold StaWifiMac.tfBroadcastEntry
    simp only
    rw [if_pos hlt, tfStart_eq]
    rfl
  have k4 : (((s.tfStart packet rv).tfBroadcastEntry).emit
      (Effect.RegularWifiMacReceive packet.uid)).m_probeRequestEvent = s.m_probeRequestEvent := by
    unfold StaWifiMac.tfBroadcastEntry
    simp only
    rw [if_pos hlt, tfStart_eq]
    rfl
  have k5 : (((s.tfStart packet rv).tfBroadcastEntry).emit
      (Effect.RegularWifiMacReceive packet.uid)).m_assocRequestEvent = s.m_assocRequestEvent := by
    unfold StaWifiMac.tfBroadcastEntry
    simp only
    rw [if_pos hlt, tfStart_eq]
    rfl
  have k6 : (((s.tfStart packet rv).tfBroadcastEntry).emit
      (Effect.RegularWifiMacReceive packet.uid)).m_beaconWatchdog = s.m_beaconWatchdog := by
    have e1 : (s.tfStart packet rv).tfBroadcastEntry.m_beaconWatchdog =
        (s.tfStart packet rv).m_beaconWatchdog := by
      unfold StaWifiMac.tfBroadcastEntry
      simp only
      split <;> rfl
    have e2 : (s.tfStart packet rv).m_beaconWatchdog = s.m_beaconWatchdog := by
      rw [tfStart_eq]
    exact e1.trans e2
  rw [hr]
  exact ⟨k1, k2, k3, k4, k5, k6, hres⟩

/-- The four events a station registers when it processes a trigger with a broadcast
entry, behind the events that were pending, satisfy the invariant of a station that
waits for its cancel-check. -/
theorem race_initial {ru : Nat} {Tstar Ti now : Time} {n : Nat} {cb0 tb0 : List Event}
    {base : List Effect} {E : List Event} {hp ha hw : EventId} (t0 t1 : Time)
    (hb : RaceBase n E hp ha hw)
    (hq : ∀ e ∈ E, e.cb.isCheck = false ∧ e.cb.isTx = false ∧ e.cb.isUpdate = false)
    (hT : Ti = Tstar ∨ Tstar + 2 ≤ Ti) (hnow : now ≤ Ti) :
    RaceCore ru Tstar Ti now (n + 1 + 1 + 1 + 1) false cb0 tb0 cb0 tb0 base base
      (E ++ [(⟨n, t0, Callback.StopMuMode⟩ : Event)] ++
        [⟨n + 1, Ti, Callback.CheckAndCancel ru⟩] ++
        [⟨n + 1 + 1, Ti, Callback.SendTriggerFrameResp ru⟩] ++
        [⟨n + 1 + 1 + 1, t1, Callback.CancelExpiredEvents⟩])
      (some (n + 1 + 1)) hp ha hw := by
  have hmem : ∀ e, e ∈ E ++ [(⟨n, t0, Callback.StopMuMode⟩ : Event)] ++
        [⟨n + 1, Ti, Callback.CheckAndCancel ru⟩] ++
        [⟨n + 1 + 1, Ti, Callback.SendTriggerFrameResp ru⟩] ++
        [⟨n + 1 + 1 + 1, t1, Callback.CancelExpiredEvents⟩] →
      e ∈ E ∨ e = ⟨n, t0, Callback.StopMuMode⟩ ∨ e = ⟨n + 1, Ti, Callback.CheckAndCancel ru⟩ ∨
        e = ⟨n + 1 + 1, Ti, Callback.SendTriggerFrameResp ru⟩ ∨
        e = ⟨n + 1 + 1 + 1, t1, Callback.CancelExpiredEvents⟩ := by
    intro e he
    simp only [List.mem_append, List.mem_singleton] at he
    tauto
  refine ⟨RaceBase_append (RaceBase_append (RaceBase_append (RaceBase_append hb _ _) _ _) _ _)
    _ _, hT, Or.inl ⟨n + 1, n + 1 + 1, Nat.lt_succ_self _, rfl, ?_, ?_, ?_, ?_, ?_, rfl, rfl, rfl,
    fun h => Bool.noConfusion h, hnow⟩⟩
  · simp
  · simp
  · intro e he hc
    rcases hmem e he with h | h | h | h | h
    · rw [(hq e h).1] at hc
      exact Bool.noConfusion hc
    · rw [h] at hc
      exact Bool.noConfusion hc
    · rw [h]
    · rw [h] at hc
      exact Bool.noConfusion hc
    · rw [h] at hc
      exact Bool.noConfusion hc
  · intro e he hc
    rcases hmem e he with h | h | h | h | h
    · rw [(hq e h).2.1] at hc
      exact Bool.noConfusion hc
    · rw [h] at hc
      exact Bool.noConfusion hc
    · rw [h] at hc
      exact Bool.noConfusion hc
    · rw [h]
    · rw [h] at hc
      exact Bool.noConfusion hc
  · intro e he
    rcases hmem e he with h | h | h | h | h
    · exact (hq e h).2.2
    · rw [h]
      rfl
    · rw [h]
      rfl
    · rw [h]
      rfl
    · rw [h]
      rfl

/-- The bookkeeping of a cycle, from the well-formed bookkeeping of a station none of
whose pending events is a cancel-check, a candidate transmission or a flag update. -/
theorem RaceBase_of_Booked {s : StaWifiMac} (h : s.Booked)
    (hq : ∀ e ∈ s.events, e.cb.isCheck = false ∧ e.cb.isTx = false ∧ e.cb.isUpdate = false) :
    RaceBase s.nextUid s.events s.m_probeRequestEvent s.m_assocRequestEvent
      s.m_beaconWatchdog := by
  refine ⟨h.1, h.2.1, Booked_handles h, ?_⟩
  intro e he hpr
  obtain ⟨k1, k2, k3⟩ := hq e he
  rw [k1, k2, k3] at hpr
  rcases hpr with k | k | k <;> exact Bool.noConfusion k

/-- A station of a world, from the list of its stations with their indices. -/
theorem mem_enum_of_getElem? {w : World} {i : Nat} {s : StaWifiMac}
    (h : w.stas[i]? = some s) : (i, s) ∈ w.stas.enum :=
  (List.mk_mem_enum_iff_getElem? ).mpr h

/-- A handle that is below a counter is below every larger one. -/
theorem handleBelow_mono {n m : Nat} {h : EventId} (hn : n ≤ m) (hb : handleBelow n h) :
    handleBelow m h := by
  cases h with
  | none => trivial
  | some u => exact lt_of_lt_of_le hb hn

/-- Well-formed bookkeeping is kept when the shared registration counter grows. -/
theorem Booked_withShared_mono (s : StaWifiMac) (h h2 : Shared)
    (hn : h.nextUid ≤ h2.nextUid) (hb : (s.withShared h).Booked) :
    (s.withShared h2).Booked := by
  obtain ⟨b1, b2, b3, b4, b5⟩ := hb
  exact ⟨fun e he => lt_of_lt_of_le (b1 e he) hn, b2, handleBelow_mono hn b3,
    handleBelow_mono hn b4, handleBelow_mono hn b5⟩

/-- No move changes the number of stations. -/
theorem World_move_length (w : World) (m : Move) : (w.move m).stas.length = w.stas.length := by
  cases m with
  | run => exact World_step_length w
  | advance t => rfl
  | act j st =>
    show (w.act j (fun x => step x st)).stas.length = _
    unfold World.act
    cases hs : w.stas[j]? <;> simp

/-- No run of moves changes the number of stations. -/
theorem World_moves_length (ms : List Move) :
    ∀ w : World, (w.moves ms).stas.length = w.stas.length := by
  induction ms with
  | nil => intro w; rfl
  | cons m ms ih =>
    intro w
    show ((w.move m).moves ms).stas.length = _
    rw [ih, World_move_length]

/-- What the test `World.contender` says of a station. -/
theorem contender_iff (w : World) (ru : Nat) (hdr : WifiMacHeader) (rv : Nat → Nat) (i : Nat)
    (s : StaWifiMac) (hs : w.stas[i]? = some s) :
    w.contender ru hdr rv i = true ↔
      passesAddressFilter s hdr ∧ s.ruBits = ru ∧ s.slotsAfterDraw (rv i) < s.maxTfSlots := by
  unfold World.contender
  rw [hs]
  exact decide_eq_true_iff

/-- What a station of a world about to go through a trigger cycle does when the trigger
reaches it, `h` being the shared part as the stations before it left it: the clock
stays, the registration counter does not decrease, the flags are clear afterwards if
the station contends or they were clear before; a contending station then waits for its
cancel-check, any other station stands by. -/
theorem Receive_race {ru : Nat} {slot : Time} {packet : Packet} {hdr : WifiMacHeader}
    {rv : Nat → Nat} {w0 : World} (Tstar : Time)
    (hready : w0.Contends ru slot packet hdr rv) (ht : hdr.type = WifiMacType.TF)
    (hnd : (packet.tf.ruAllocations.map Prod.fst).Nodup)
    (hbc : ∃ x ∈ packet.tf.ruAllocations, x.1 = GetBroadcast)
    (hT : ∀ i, i < w0.stas.length → w0.contender ru hdr rv i = true →
      (w0.shared.now + (w0.obo rv i : Int) * slot = Tstar ∨
        Tstar + 2 ≤ w0.shared.now + (w0.obo rv i : Int) * slot) ∧
      w0.shared.now ≤ w0.shared.now + (w0.obo rv i : Int) * slot)
    (k : Nat) (sk : StaWifiMac) (hs0 : w0.stas[k]? = some sk) (h : Shared)
    (hnow : h.now = w0.shared.now) (hn : w0.shared.nextUid ≤ h.nextUid) :
    ((sk.withShared h).Receive packet hdr (rv k)).now = h.now ∧
    h.nextUid ≤ ((sk.withShared h).Receive packet hdr (rv k)).nextUid ∧
    (w0.contender ru hdr rv k = true ∨ (∀ q, h.GetBsrTx q = false) →
      ∀ q, ((sk.withShared h).Receive packet hdr (rv k)).GetBsrTx q = false) ∧
    (w0.contender ru hdr rv k = true →
      RaceSta ru Tstar (w0.shared.now + (w0.obo rv k : Int) * slot) (w0.reports k)
        (w0.checks k) (w0.transmissions k) (w0.checks k) (w0.transmissions k)
        ((sk.withShared h).Receive packet hdr (rv k))) ∧
    (w0.contender ru hdr rv k = false →
      Bystander ru ((sk.withShared h).Receive packet hdr (rv k)).events) := by
  have hklt : k < w0.stas.length := (List.getElem?_eq_some_iff.mp hs0).1
  obtain ⟨rc, rb⟩ := hready (k, sk) (mem_enum_of_getElem? hs0)
  simp only at rc rb
  have hfr := Receive_TF_frame (sk.withShared h) packet hdr (rv k) ht
  refine ⟨hfr.1, hfr.2, ?_, ?_, ?_⟩
  · intro hcase
    by_cases hp : passesAddressFilter (sk.withShared h) hdr
    · intro q
      have e5 : ((sk.withShared h).tfStart packet (rv k)).bsrTx =
          [false, false, false, false, false, false, false, false, false] := by
        rw [tfStart_eq]
        rfl
      rw [Receive_of_passes _ packet hdr (rv k) hp, ht]
      simp only []
      have hfl : (((sk.withShared h).tfStart packet (rv k)).tfAllocLoop packet.tf.uplinkFlag
          packet.tf.ruAllocations).1.GetBsrTx q = false := by
        rw [GetBsrTx_eq_getD, bsrTx_tfAllocLoop, e5]
        rcases q with _ | _ | _ | _ | _ | _ | _ | _ | _ | n <;> rfl
      split_ifs
      · exact hfl
      · exact hfl
    · have hnc : w0.contender ru hdr rv k = false := by
        cases hck : w0.contender ru hdr rv k with
        | false => rfl
        | true => exact absurd ((contender_iff w0 ru hdr rv k sk hs0).mp hck).1 hp
      rcases hcase with hcase | hcase
      · rw [hnc] at hcase
        exact Bool.noConfusion hcase
      · intro q
        have ho := OffCycle_Receive (sk.withShared h) packet hdr (rv k) (fun hc => hp hc.2)
        rw [GetBsrTx_congr ho.2.1 q]
        exact hcase q
  · intro hck
    obtain ⟨r4, r2, r6⟩ := (contender_iff w0 ru hdr rv k sk hs0).mp hck
    obtain ⟨r0, r1, r3, r5⟩ := rc hck
    have hbk : (sk.withShared h).Booked := Booked_withShared_mono _ _ _ hn r0
    have hobo : w0.obo rv k = sk.slotsAfterDraw (rv k) := by
      unfold World.obo
      rw [hs0]
    have hrep : w0.reports k = sk.tfResps := by
      unfold World.reports
      rw [hs0]
    obtain ⟨b1, b2, b3, b4, b5, b6, b7⟩ := Receive_TF_one (sk.withShared h) packet hdr (rv k)
      ht r4 hnd hbc r5 r6
    have c1 : ((sk.withShared h).Receive packet hdr (rv k)).events = sk.events ++
        [⟨h.nextUid, h.now + ((packet.tf.tfDuration : Int) * sk.slot - packet.tfBeaconDuration),
          Callback.StopMuMode⟩] ++
        [⟨h.nextUid + 1, h.now + (sk.slotsAfterDraw (rv k) : Int) * sk.slot,
          Callback.CheckAndCancel sk.ruBits⟩] ++
        [⟨h.nextUid + 1 + 1, h.now + (sk.slotsAfterDraw (rv k) : Int) * sk.slot,
          Callback.SendTriggerFrameResp sk.ruBits⟩] ++
        [⟨h.nextUid + 1 + 1 + 1, h.now + ((sk.maxTfSlots : Int) * sk.slot + sk.sifs),
          Callback.CancelExpiredEvents⟩] := b1
    have c2 : ((sk.withShared h).Receive packet hdr (rv k)).shared =
        ⟨h.now, h.nextUid + 1 + 1 + 1 + 1,
          false, false, false, false, false, false, false, false, false⟩ := b2
    have c3 : ((sk.withShared h).Receive packet hdr (rv k)).m_triggerFrameRespEvent =
        some (h.nextUid + 1 + 1) := b3
    have c4 : ((sk.withShared h).Receive packet hdr (rv k)).m_probeRequestEvent =
        sk.m_probeRequestEvent := b4
    have c5 : ((sk.withShared h).Receive packet hdr (rv k)).m_assocRequestEvent =
        sk.m_assocRequestEvent := b5
    have c6 : ((sk.withShared h).Receive packet hdr (rv k)).m_beaconWatchdog =
        sk.m_beaconWatchdog := b6
    have c7 : ((sk.withShared h).Receive packet hdr (rv k)).tfResps = sk.tfResps := b7
    have cnow : ((sk.withShared h).Receive packet hdr (rv k)).now = h.now :=
      congrArg Shared.now c2
    have cn : ((sk.withShared h).Receive packet hdr (rv k)).nextUid =
        h.nextUid + 1 + 1 + 1 + 1 := congrArg Shared.nextUid c2
    have cfl : ((sk.withShared h).Receive packet hdr (rv k)).shared.GetBsrTx ru = false := by
      rw [c2]
      exact Shared_GetBsrTx_clear _ _ ru
    unfold RaceSta
    rw [← shared_GetBsrTx, cfl, cnow, cn, c1, c3, c4, c5, c6, c7, r2, r3, hnow, hobo, hrep]
    obtain ⟨hT1, hT2⟩ := hT k hklt hck
    rw [hobo] at hT1 hT2
    exact race_initial _ _ (RaceBase_of_Booked hbk r1) r1 hT1 hT2
  · intro hck
    have hb0 : Bystander ru (sk.withShared h).events := rb hck
    by_cases hp : passesAddressFilter (sk.withShared h) hdr
    · refine (Receive_TF_Bystander (sk.withShared h) packet hdr (rv k) ht hp hb0 ?_).1
      by_contra hcon
      have hcon2 : sk.ruBits = ru ∧ sk.slotsAfterDraw (rv k) < sk.maxTfSlots := by
        constructor
        · by_contra h1
          exact hcon (Or.inl h1)
        · by_contra h1
          exact hcon (Or.inr (not_lt.mp h1))
      have := (contender_iff w0 ru hdr rv k sk hs0).mpr ⟨hp, hcon2.1, hcon2.2⟩
      rw [hck] at this
      exact Bool.noConfusion this
    · exact Bystander_OffCycle hb0
        (OffCycle_Receive (sk.withShared h) packet hdr (rv k) (fun hc => hp hc.2))

/-- The world after the first `k` stations were reached by a trigger whose allocation
map names every address once at most and has a broadcast entry: the log and the clock
are as before, the flags are clear once a contending station processed the trigger, the
other stations are as before, each contending station among the first `k` waits for its
cancel-check, due at its OBO times the slot duration, and every other station stands
by. -/
theorem receiveUpTo_race {ru : Nat} {slot : Time} {packet : Packet} {hdr : WifiMacHeader}
    {rv : Nat → Nat} {w0 : World} (Tstar : Time)
    (hready : w0.Contends ru slot packet hdr rv) (ht : hdr.type = WifiMacType.TF)
    (hnd : (packet.tf.ruAllocations.map Prod.fst).Nodup)
    (hbc : ∃ x ∈ packet.tf.ruAllocations, x.1 = GetBroadcast)
    (hT : ∀ i, i < w0.stas.length → w0.contender ru hdr rv i = true →
      (w0.shared.now + (w0.obo rv i : Int) * slot = Tstar ∨
        Tstar + 2 ≤ w0.shared.now + (w0.obo rv i : Int) * slot) ∧
      w0.shared.now ≤ w0.shared.now + (w0.obo rv i : Int) * slot) :
    ∀ k, k ≤ w0.stas.length →
      (World.receiveUpTo packet hdr rv k w0).stas.length = w0.stas.length ∧
      (World.receiveUpTo packet hdr rv k w0).log = w0.log ∧
      (World.receiveUpTo packet hdr rv k w0).shared.now = w0.shared.now ∧
      w0.shared.nextUid ≤ (World.receiveUpTo packet hdr rv k w0).shared.nextUid ∧
      ((∃ j, j < k ∧ w0.contender ru hdr rv j = true) →
        ∀ q, (World.receiveUpTo packet hdr rv k w0).shared.GetBsrTx q = false) ∧
      (∀ i, k ≤ i → (World.receiveUpTo packet hdr rv k w0).stas[i]? = w0.stas[i]?) ∧
      (∀ i s, i < k → (World.receiveUpTo packet hdr rv k w0).stas[i]? = some s →
        (w0.contender ru hdr rv i = true →
          RaceSta ru Tstar (w0.shared.now + (w0.obo rv i : Int) * slot) (w0.reports i)
            (w0.checks i) (w0.transmissions i) (w0.checks i) (w0.transmissions i)
            (s.withShared (World.receiveUpTo packet hdr rv k w0).shared)) ∧
        (w0.contender ru hdr rv i = false → Bystander ru s.events)) := by
  intro k
  induction k with
  | zero =>
    intro _
    exact ⟨rfl, rfl, rfl, le_refl _, fun ⟨j, hj, _⟩ => absurd hj (Nat.not_lt_zero j),
      fun _ _ => rfl, fun i _ hi => absurd hi (Nat.not_lt_zero i)⟩
  | succ k ih =>
    intro hk
    obtain ⟨a1, a2, a3, a4, a5, a6, a7⟩ := ih (by omega)
    have hklt : k < w0.stas.length := by omega
    have hs0 : w0.stas[k]? = some w0.stas[k] := List.getElem?_eq_getElem hklt
    have hsk : (World.receiveUpTo packet hdr rv k w0).stas[k]? = some w0.stas[k] := by
      rw [a6 k (le_refl _), hs0]
    obtain ⟨f1, f2, f3, f4, f5⟩ := Receive_race Tstar hready ht hnd hbc hT k w0.stas[k] hs0
      (World.receiveUpTo packet hdr rv k w0).shared a3 a4
    have hw : World.receiveUpTo packet hdr rv (k + 1) w0 =
        (World.receiveUpTo packet hdr rv k w0).act k (fun s => s.Receive packet hdr (rv k)) :=
      rfl
    have hflags : (∃ j, j < k + 1 ∧ w0.contender ru hdr rv j = true) →
        ∀ q, (((w0.stas[k]).withShared (World.receiveUpTo packet hdr rv k w0).shared).Receive
          packet hdr (rv k)).GetBsrTx q = false := by
      rintro ⟨j, hj, hcj⟩
      apply f3
      by_cases hjk : j = k
      · left
        rw [← hjk]
        exact hcj
      · right
        exact a5 ⟨j, by omega, hcj⟩
    rw [hw, World_act_eq _ k _ _ hsk]
    simp only
    refine ⟨?_, a2, ?_, ?_, hflags, ?_, ?_⟩
    · rw [List.length_set]
      exact a1
    · show (((w0.stas[k]).withShared (World.receiveUpTo packet hdr rv k w0).shared).Receive
        packet hdr (rv k)).now = w0.shared.now
      rw [f1]
      exact a3
    · exact le_trans a4 f2
    · intro i hi
      rw [List.getElem?_set_ne (by omega)]
      exact a6 i (by omega)
    · intro i s hi hs
      by_cases hik : i = k
      · subst hik
        rw [List.getElem?_set_self (by rw [a1]; exact hklt)] at hs
        simp only [Option.some.injEq] at hs
        rw [← hs, withShared_shared]
        exact ⟨f4, f5⟩
      · rw [List.getElem?_set_ne (fun h => hik h.symm)] at hs
        have hik2 : i < k := by omega
        refine ⟨fun hci => ?_, (a7 i s hik2 hs).2⟩
        have hold := a5 ⟨i, hik2, hci⟩
        refine RaceCore_env ((a7 i s hik2 hs).1 hci) f2 ?_ ?_ (Or.inl f1)
        · intro h
          have h2 : (World.receiveUpTo packet hdr rv k w0).shared.GetBsrTx ru = true := h
          rw [hold ru] at h2
          exact Bool.noConfusion h2
        · intro h
          have h2 : (((w0.stas[k]).withShared
            (World.receiveUpTo packet hdr rv k w0).shared).Receive
            packet hdr (rv k)).GetBsrTx ru = true := h
          rw [hflags ⟨i, by omega, hci⟩ ru] at h2
          exact Bool.noConfusion h2

/-- The world after all stations were reached by a trigger whose allocation map names
every address once at most and has a broadcast entry satisfies the invariant of the
cycle. -/
theorem receive_RaceInv {ru : Nat} {slot : Time} {packet : Packet} {hdr : WifiMacHeader}
    {rv : Nat → Nat} {w0 : World} (m : Nat)
    (hready : w0.Contends ru slot packet hdr rv) (ht : hdr.type = WifiMacType.TF)
    (hnd : (packet.tf.ruAllocations.map Prod.fst).Nodup)
    (hbc : ∃ x ∈ packet.tf.ruAllocations, x.1 = GetBroadcast) (hslot : 2 ≤ slot)
    (hmin : ∃ j, j < w0.stas.length ∧ w0.contender ru hdr rv j = true ∧ w0.obo rv j = m)
    (hle : ∀ i, i < w0.stas.length → w0.contender ru hdr rv i = true → m ≤ w0.obo rv i) :
    RaceInv ru (w0.shared.now + (m : Int) * slot)
      (fun i => w0.shared.now + (w0.obo rv i : Int) * slot) w0.reports
      (w0.contender ru hdr rv) w0 (w0.receive packet hdr rv) ∧
    (w0.receive packet hdr rv).stas.length = w0.stas.length := by
  have hT : ∀ i, i < w0.stas.length → w0.contender ru hdr rv i = true →
      (w0.shared.now + (w0.obo rv i : Int) * slot = w0.shared.now + (m : Int) * slot ∨
        w0.shared.now + (m : Int) * slot + 2 ≤ w0.shared.now + (w0.obo rv i : Int) * slot) ∧
      w0.shared.now ≤ w0.shared.now + (w0.obo rv i : Int) * slot := by
    intro i hi hci
    refine ⟨?_, ?_⟩
    · rcases Nat.eq_or_lt_of_le (hle i hi hci) with h | h
      · left
        rw [h]
      · right
        exact obo_time_lt m (w0.obo rv i) slot h hslot w0.shared.now
    · have : (0 : Int) ≤ (w0.obo rv i : Int) * slot :=
        mul_nonneg (Int.ofNat_nonneg _) (by linarith)
      linarith
  obtain ⟨a1, a2, a3, a4, a5, a6, a7⟩ := receiveUpTo_race (w0.shared.now + (m : Int) * slot)
    hready ht hnd hbc hT w0.stas.length (le_refl _)
  rw [show w0.receive packet hdr rv = World.receiveUpTo packet hdr rv w0.stas.length w0
    from rfl]
  obtain ⟨j, hj, hcj, hjm⟩ := hmin
  refine ⟨⟨⟨j, by rw [a1]; exact hj, hcj, by simp only [hjm]⟩, ?_⟩, a1⟩
  intro i s hs
  have hi : i < w0.stas.length := by
    have := (List.getElem?_eq_some_iff.mp hs).1
    rw [a1] at this
    exact this
  have hchk : (World.receiveUpTo packet hdr rv w0.stas.length w0).checks i = w0.checks i := by
    unfold World.checks
    rw [a2]
  have htx : (World.receiveUpTo packet hdr rv w0.stas.length w0).transmissions i =
      w0.transmissions i := by
    unfold World.transmissions
    rw [a2]
  rw [hchk, htx]
  exact a7 i s hi hs

/-- What the invariant of a trigger cycle says of a station.  A station whose check is
due at the earliest check time `Tstar` has its candidate transmission pending for
`Tstar` while the clock has not passed `Tstar`, or it ran its check and its transmission
at `Tstar` and handed one report to the queue of the RU.  A station whose check is due
later never runs a transmission nor hands over a report; its check is pending while the
clock has not passed its time, or it has run at that time and no candidate transmission
is pending. -/
theorem race_outcome {ru : Nat} {Tstar : Time} {T : Nat → Time} {base : Nat → List Effect}
    {c : Nat → Bool} {w0 w : World} (hinv : RaceInv ru Tstar T base c w0 w) {i : Nat}
    {s : StaWifiMac} (hs : w.stas[i]? = some s) (hci : c i = true) :
    (T i = Tstar →
      (∃ x, (⟨x, Tstar, Callback.SendTriggerFrameResp ru⟩ : Event) ∈ s.events ∧
        w.transmissions i = w0.transmissions i ∧ s.tfResps = base i ∧
        w.shared.now ≤ Tstar) ∨
      ((∃ c, w.checks i = w0.checks i ++ [⟨c, Tstar, Callback.CheckAndCancel ru⟩]) ∧
        (∃ x, w.transmissions i =
          w0.transmissions i ++ [⟨x, Tstar, Callback.SendTriggerFrameResp ru⟩]) ∧
        ∃ b, s.tfResps = base i ++ [Effect.QueueTFResp ru b])) ∧
    (Tstar < T i →
      w.transmissions i = w0.transmissions i ∧ s.tfResps = base i ∧
      ((∃ c, (⟨c, T i, Callback.CheckAndCancel ru⟩ : Event) ∈ s.events ∧
          w.checks i = w0.checks i ∧ w.shared.now ≤ T i) ∨
        ((∃ c, w.checks i = w0.checks i ++ [⟨c, T i, Callback.CheckAndCancel ru⟩]) ∧
          ∀ e ∈ s.events, e.cb.isTx = false))) := by
  obtain ⟨_, _, hst⟩ := (hinv.2 i s hs).1 hci
  refine ⟨?_, ?_⟩
  · intro hTi
    rcases hst with hw | hw | hl
    · obtain ⟨c, x, hcx, hh, hc, hx, huc, hux, hnu, hch, htx, hrs, hfl, hnw⟩ := hw
      left
      rw [hTi] at hx hnw
      exact ⟨x, hx, htx, hrs, hnw⟩
    · obtain ⟨_, hch, _, _, _, htx⟩ := hw
      rcases htx with ⟨x, hx, _, htx, hrs, hnw⟩ | ⟨_, htx, hrs⟩
      · left
        exact ⟨x, hx, htx, hrs, hnw⟩
      · right
        exact ⟨hch, htx, hrs⟩
    · exact absurd hTi (ne_of_gt hl.1)
  · intro hTi
    rcases hst with hw | hw | hl
    · obtain ⟨c, x, hcx, hh, hc, hx, huc, hux, hnu, hch, htx, hrs, hfl, hnw⟩ := hw
      exact ⟨htx, hrs, Or.inl ⟨c, hc, hch, hnw⟩⟩
    · exact absurd hw.1 (ne_of_gt hTi)
    · obtain ⟨_, hch, hq, htx, hrs⟩ := hl
      exact ⟨htx, hrs, Or.inr ⟨hch, fun e he => (hq e he).2.1⟩⟩

/-- A handle below the counter stays below it through a handle step. -/
theorem handleBelow_HandleStep {n n2 : Nat} {h h2 : EventId} (hn : n ≤ n2)
    (hb : handleBelow n h) (hs : HandleStep n n2 h h2) : handleBelow n2 h2 := by
  rcases hs with hs | ⟨u, hu, _, hlt⟩
  · rw [hs]
    exact handleBelow_mono hn hb
  · rw [hu]
    exact hlt

/-- Well-formed bookkeeping is kept by every reaction outside the trigger cycle. -/
theorem Booked_of_OffCycle {s s2 : StaWifiMac} (hb : s.Booked) (h : OffCycle s s2) :
    s2.Booked := by
  obtain ⟨b1, b2, b3, b4, b5⟩ := hb
  obtain ⟨_, _, _, _, _, a6, a7, _, a9, a10, a11, a12⟩ := h
  refine ⟨?_, a9 b1 b2, handleBelow_HandleStep a6 b3 a10, handleBelow_HandleStep a6 b4 a11,
    handleBelow_HandleStep a6 b5 a12⟩
  intro e he
  rcases a7 e he with h1 | ⟨_, h2, _⟩
  · exact lt_of_lt_of_le (b1 e h1) a6
  · exact h2

/-- Well-formed bookkeeping is kept by a reaction that removes pending events and
registers events under fresh, pairwise different numbers, each handle staying or naming
one of the new registrations. -/
theorem Booked_of_grow {s s2 : StaWifiMac} (hb : s.Booked) (E A : List Event)
    (hev : s2.events = E ++ A) (hE : E.Sublist s.events)
    (hA : ∀ e ∈ A, s.nextUid ≤ e.uid ∧ e.uid < s2.nextUid) (hnd : (A.map Event.uid).Nodup)
    (hn : s.nextUid ≤ s2.nextUid)
    (hp : HandleStep s.nextUid s2.nextUid s.m_probeRequestEvent s2.m_probeRequestEvent)
    (ha : HandleStep s.nextUid s2.nextUid s.m_assocRequestEvent s2.m_assocRequestEvent)
    (hw : HandleStep s.nextUid s2.nextUid s.m_beaconWatchdog s2.m_beaconWatchdog) :
    s2.Booked := by
  obtain ⟨b1, b2, b3, b4, b5⟩ := hb
  refine ⟨?_, ?_, handleBelow_HandleStep hn b3 hp, handleBelow_HandleStep hn b4 ha,
    handleBelow_HandleStep hn b5 hw⟩
  · intro e he
    rw [hev] at he
    rcases List.mem_append.mp he with h | h
    · exact lt_of_lt_of_le (b1 e (hE.subset h)) hn
    · exact (hA e h).2
  · rw [hev, List.map_append, List.nodup_append]
    refine ⟨b2.sublist (hE.map Event.uid), hnd, ?_⟩
    intro u hu hu2
    obtain ⟨e, he, heu⟩ := List.mem_map.mp hu
    obtain ⟨e2, he2, heu2⟩ := List.mem_map.mp hu2
    have k1 := b1 e (hE.subset he)
    have k2 := (hA e2 he2).1
    omega

/-- Well-formed bookkeeping is kept by a reaction that registers one event under the
next registration number and leaves the handles. -/
theorem Booked_of_one {s s2 : StaWifiMac} (hb : s.Booked) (t : Time) (cb : Callback)
    (hev : s2.events = s.events ++ [⟨s.nextUid, t, cb⟩]) (hn : s2.nextUid = s.nextUid + 1)
    (hp : s2.m_probeRequestEvent = s.m_probeRequestEvent)
    (ha : s2.m_assocRequestEvent = s.m_assocRequestEvent)
    (hw : s2.m_beaconWatchdog = s.m_beaconWatchdog) : s2.Booked := by
  refine Booked_of_grow hb s.events [⟨s.nextUid, t, cb⟩] hev (List.Sublist.refl _) ?_
    (List.nodup_singleton _) (by omega) (Or.inl hp) (Or.inl ha) (Or.inl hw)
  intro e he
  rw [List.mem_singleton] at he
  rw [he, hn]
  exact ⟨le_refl _, Nat.lt_succ_self _⟩

/-- Well-formed bookkeeping is kept by a reaction that only removes pending events. -/
theorem Booked_of_sublist {s s2 : StaWifiMac} (hb : s.Booked)
    (hev : s2.events.Sublist s.events) (hn : s2.nextUid = s.nextUid)
    (hp : s2.m_probeRequestEvent = s.m_probeRequestEvent)
    (ha : s2.m_assocRequestEvent = s.m_assocRequestEvent)
    (hw : s2.m_beaconWatchdog = s.m_beaconWatchdog) : s2.Booked :=
  Booked_of_grow hb s2.events [] (List.append_nil _).symm hev
    (fun e he => absurd he (List.not_mem_nil e)) List.nodup_nil (le_of_eq hn.symm)
    (Or.inl hp) (Or.inl ha) (Or.inl hw)

/-- Well-formed bookkeeping is kept by the timer callbacks of the association
machine. -/
theorem Booked_of_TimerStep {s s2 : StaWifiMac} (hb : s.Booked) (h : TimerStep s s2) :
    s2.Booked := by
  rcases h with ⟨a1, a2, a3, a4, a5⟩ | ⟨hd, t, cb, _, _, _, _, b5, b6, b7, b8, b9⟩
  · exact Booked_of_sublist hb (by rw [a1]) a2 a3 a4 a5
  · have hstep : ∀ x y : EventId, (y = x ∨ y = some s.nextUid) →
        HandleStep s.nextUid s2.nextUid x y := by
      intro x y hxy
      rcases hxy with hxy | hxy
      · exact Or.inl hxy
      · exact Or.inr ⟨s.nextUid, hxy, le_refl _, by omega⟩
    refine Booked_of_grow hb (eventsAfterCancel s.events hd) [⟨s.nextUid, t, cb⟩] b5
      (eventsAfterCancel_sublist _ _) ?_ (List.nodup_singleton _) (by omega)
      (hstep _ _ b7) (hstep _ _ b8) (hstep _ _ b9)
    intro e he
    rw [List.mem_singleton] at he
    rw [he, b6]
    exact ⟨le_refl _, Nat.lt_succ_self _⟩

/-- Well-formed bookkeeping is kept by every callback. -/
theorem Booked_Dispatch (s : StaWifiMac) (cb : Callback) (hb : s.Booked) :
    (s.Dispatch cb).Booked := by
  by_cases h1 : cb.isCheck = true
  · cases cb with
    | CheckAndCancel ru =>
      show (s.CheckAndCancel ru).Booked
      unfold StaWifiMac.CheckAndCancel
      split
      · exact Booked_of_sublist hb (cancelIn_sublist _ _) rfl rfl rfl rfl
      · exact Booked_of_one hb _ _ rfl rfl rfl rfl rfl
    | _ => exact Bool.noConfusion h1
  · by_cases h2 : cb.isUpdate = true
    · cases cb with
      | UpdateBsrTx ru =>
        show (s.UpdateBsrTx ru).Booked
        obtain ⟨a1, a2, a3, a4, a5, _⟩ := UpdateBsrTx_frame s ru
        exact Booked_of_sublist hb (by rw [a1]) a2 a3 a4 a5
      | _ => exact Bool.noConfusion h2
    · exact Booked_of_TimerStep hb
        (TimerStep_Dispatch s cb (Bool.eq_false_iff.mpr h1) (Bool.eq_false_iff.mpr h2)).1

/-- Well-formed bookkeeping is kept when the timer service fires an event. -/
theorem Booked_Fire (s : StaWifiMac) (e : Event) (hb : s.Booked) : (s.Fire e).Booked := by
  unfold StaWifiMac.Fire
  apply Booked_Dispatch
  exact Booked_of_sublist hb (List.filter_sublist _) rfl rfl rfl rfl

/-- Well-formed bookkeeping is kept by what is done for a broadcast entry. -/
theorem Booked_tfBroadcastEntry (s : StaWifiMac) (hb : s.Booked) :
    s.tfBroadcastEntry.Booked := by
  obtain ⟨k1, k2, k3⟩ := tfBroadcastEntry_handles s
  by_cases h : s.m_noSlots < s.maxTfSlots
  · obtain ⟨e1, e2⟩ := tfBroadcastEntry_of_lt s h
    refine Booked_of_grow hb s.events _ e1 (List.Sublist.refl _) ?_ ?_ (by omega)
      (Or.inl k1) (Or.inl k2) (Or.inl k3)
    · intro e he
      simp only [List.mem_cons, List.mem_singleton, List.not_mem_nil, or_false] at he
      rcases he with he | he | he <;> rw [he, e2] <;> constructor <;> simp
    · simp
  · obtain ⟨e1, e2⟩ := tfBroadcastEntry_of_not_lt s h
    exact Booked_of_one hb _ _ e1 e2 k1 k2 k3

/-- Well-formed bookkeeping is kept by the loop over the RU allocations. -/
theorem Booked_tfAllocLoop (ulFlag : Nat) (l : List (Mac48Address × Nat)) :
    ∀ s : StaWifiMac, s.Booked → (s.tfAllocLoop ulFlag l).1.Booked := by
  induction l with
  | nil => intro s hb; exact hb
  | cons x rest ih =>
    intro s hb
    obtain ⟨a, ru⟩ := x
    unfold StaWifiMac.tfAllocLoop
    by_cases hc : a = s.GetAddress ∧ ulFlag ≠ 0
    · rw [if_pos hc]
      exact Booked_of_one hb _ _ rfl rfl rfl rfl rfl
    · rw [if_neg hc]
      apply ih
      split
      · exact Booked_tfBroadcastEntry s hb
      · exact hb

/-- Well-formed bookkeeping is kept by the trigger branch up to the loop. -/
theorem Booked_tfStart (s : StaWifiMac) (packet : Packet) (rv : Nat) (hb : s.Booked) :
    (s.tfStart packet rv).Booked := by
  have e1 : (s.tfStart packet rv).events = s.events ++ [⟨s.nextUid,
      s.now + ((packet.tf.tfDuration : Int) * s.slot - packet.tfBeaconDuration),
      Callback.StopMuMode⟩] := by
    rw [tfStart_eq]
  have e2 : (s.tfStart packet rv).nextUid = s.nextUid + 1 := by rw [tfStart_eq]
  have e3 : (s.tfStart packet rv).m_probeRequestEvent = s.m_probeRequestEvent := by
    rw [tfStart_eq]
  have e4 : (s.tfStart packet rv).m_assocRequestEvent = s.m_assocRequestEvent := by
    rw [tfStart_eq]
  have e5 : (s.tfStart packet rv).m_beaconWatchdog = s.m_beaconWatchdog := by
    rw [tfStart_eq]
  exact Booked_of_one hb _ _ e1 e2 e3 e4 e5

/-- Well-formed bookkeeping is kept by every stimulus that reaches a station from
outside the timer service, the processing of a trigger included. -/
theorem Booked_step (s : StaWifiMac) (st : Stimulus) (hx : st.external = true)
    (hb : s.Booked) : (step s st).Booked := by
  by_cases h : processesTrigger s st
  · cases st with
    | receive packet hdr rv =>
      show (s.Receive packet hdr rv).Booked
      rw [Receive_of_passes s packet hdr rv h.2, h.1]
      simp only []
      have := Booked_tfAllocLoop packet.tf.uplinkFlag packet.tf.ruAllocations _
        (Booked_tfStart s packet rv hb)
      split_ifs
      · exact this
      · exact this
    | _ => exact absurd h id
  · exact Booked_of_OffCycle hb (OffCycle_step s st hx h)

/-- Every move that can occur keeps the timer bookkeeping of every station
well-formed. -/
theorem World_move_Booked (w : World) (m : Move) (hen : m.enabled w)
    (hb : ∀ (i : Nat) (s : StaWifiMac), w.stas[i]? = some s → (s.withShared w.shared).Booked) :
    ∀ (i : Nat) (s : StaWifiMac), (w.move m).stas[i]? = some s → (s.withShared (w.move m).shared).Booked := by
  cases m with
  | run =>
    show ∀ (i : Nat) (s : StaWifiMac), w.step.stas[i]? = some s → (s.withShared w.step.shared).Booked
    unfold World.step
    cases hE : earliest (pendingFrom 0 w.stas) with
    | none => exact hb
    | some x =>
      obtain ⟨j, e⟩ := x
      obtain ⟨hmem, _⟩ := earliest_some _ _ hE
      rw [mem_pendingFrom] at hmem
      obtain ⟨_, sj, hsj, _⟩ := hmem
      rw [Nat.sub_zero] at hsj
      show ∀ (i : Nat) (s : StaWifiMac), (w.fire j e).stas[i]? = some s → (s.withShared (w.fire j e).shared).Booked
      rw [World_fire_eq w j e sj hsj]
      intro i s hs
      simp only at hs ⊢
      by_cases hij : i = j
      · subst hij
        rw [List.getElem?_set_self (List.getElem?_eq_some_iff.mp hsj).1] at hs
        simp only [Option.some.injEq] at hs
        rw [← hs, withShared_shared]
        exact Booked_Fire _ e (hb i sj hsj)
      · rw [List.getElem?_set_ne (fun h => hij h.symm)] at hs
        exact Booked_withShared_mono s w.shared _ (Fire_shared_mono sj w.shared e).1
          (hb i s hs)
  | advance t =>
    intro i s hs
    exact hb i s hs
  | act j st =>
    show ∀ (i : Nat) (s : StaWifiMac), (w.act j (fun x => step x st)).stas[i]? = some s →
      (s.withShared (w.act j (fun x => step x st)).shared).Booked
    cases hsj : w.stas[j]? with
    | none =>
      have hw : w.act j (fun x => step x st) = w := by simp only [World.act, hsj]
      rw [hw]
      exact hb
    | some sj =>
      rw [World_act_eq w j _ sj hsj]
      intro i s hs
      simp only at hs ⊢
      by_cases hij : i = j
      · subst hij
        rw [List.getElem?_set_self (List.getElem?_eq_some_iff.mp hsj).1] at hs
        simp only [Option.some.injEq] at hs
        rw [← hs, withShared_shared]
        exact Booked_step _ st hen (hb i sj hsj)
      · rw [List.getElem?_set_ne (fun h => hij h.symm)] at hs
        exact Booked_withShared_mono s w.shared _
          (step_nextUid (sj.withShared w.shared) st hen) (hb i s hs)

/-- The timer bookkeeping of every station is well-formed in every world a simulation
reaches: the registration numbers of its pending events are below the counter of the
simulator and pairwise different, and so are the numbers its probe, association and
watchdog handles name. -/
theorem Booked_of_Reachable (w : World) (h : w.Reachable) :
    ∀ (i : Nat) (s : StaWifiMac), w.stas[i]? = some s → (s.withShared w.shared).Booked := by
  induction h with
  | init h cfgs =>
    intro i s hs
    have hmem : s ∈ cfgs.map StaWifiMac.init := by
      obtain ⟨hlt, heq⟩ := List.getElem?_eq_some_iff.mp hs
      rw [← heq]
      exact List.getElem_mem hlt
    obtain ⟨cfg, _, hcfg⟩ := List.mem_map.mp hmem
    rw [← hcfg]
    exact ⟨fun e he => absurd he (List.not_mem_nil e), List.nodup_nil, trivial, trivial,
      trivial⟩
  | move w m _ hen ih => exact World_move_Booked w m hen ih

/-- A run of enabled moves leads from a world a simulation reaches to another one. -/
theorem Reachable_moves (ms : List Move) :
    ∀ w : World, w.Reachable → World.Allowed (fun _ _ => True) w ms →
      (w.moves ms).Reachable := by
  induction ms with
  | nil => intro w h _; exact h
  | cons m ms ih =>
    intro w h hal
    exact ih (w.move m) (World.Reachable.move w m h hal.1) hal.2.2

/-- The sample world of three stations after two of them associated is a world a
simulation reaches. -/
theorem sampleBusyWorld_reachable : sampleBusyWorld.Reachable :=
  Reachable_moves sampleAssocRun sampleMixedWorld
    (World.Reachable.init (StaWifiMac.init sampleCfg).shared
      [{ sampleCfg with ruBits := 3 }, { sampleCfg with ruBits := 3, address := 4 },
        { sampleCfg with ruBits := 5, address := 6 }])
    (by decide)

/-- C14 as stated fails: the two stations of the sample world (RU 3, slot 13
microseconds, max-slots 16) receive a trigger with a broadcast entry and both draw
OBO 2.  Both cancel-checks run at 26 microseconds and find the flag false, because a
check only schedules the flag update for one microsecond later; both candidate
transmissions are left uncancelled and run at 26 microseconds, and both stations hand a
report to the queue of RU 3. -/
theorem C14_equal_draws_both_transmit :
    ((sampleWorld.receive (sampleTf [(GetBroadcast, 3)] 1) (sampleGroupHdr WifiMacType.TF)
      (fun _ => 2)).stas.map fun s => s.m_noSlots) = [2, 2] ∧
    (World.run 10 (sampleWorld.receive (sampleTf [(GetBroadcast, 3)] 1)
      (sampleGroupHdr WifiMacType.TF) (fun _ => 2))).transmissions 0 =
      [⟨2, 26, Callback.SendTriggerFrameResp 3⟩] ∧
    (World.run 10 (sampleWorld.receive (sampleTf [(GetBroadcast, 3)] 1)
      (sampleGroupHdr WifiMacType.TF) (fun _ => 2))).transmissions 1 =
      [⟨6, 26, Callback.SendTriggerFrameResp 3⟩] ∧
    (World.run 10 (sampleWorld.receive (sampleTf [(GetBroadcast, 3)] 1)
      (sampleGroupHdr WifiMacType.TF) (fun _ => 2))).reports 0 =
      [Effect.QueueTFResp 3 0] ∧
    (World.run 10 (sampleWorld.receive (sampleTf [(GetBroadcast, 3)] 1)
      (sampleGroupHdr WifiMacType.TF) (fun _ => 2))).reports 1 =
      [Effect.QueueTFResp 3 0] := by
  refine ⟨by decide, by decide, by decide, by decide, by decide⟩

/-- C14 (amended): stations share one simulation; those that contend on RU `ru` (0 to
8) in one trigger cycle are the stations on that RU that the trigger reaches and that
hold an OBO below max-slots after the draw; there are N ≥ 1 of them.  At the same time
every station is reached by the trigger, whose allocation map names every address once
at most and has a broadcast entry.  Of a contending station: the trigger, if it is an
uplink trigger, has no entry for it; its slot duration is `slot`, more than 1
microsecond; its timer bookkeeping is well-formed, and no cancel-check, candidate
transmission or flag update of an earlier cycle is pending (other timers may be).  Of
every other station (on another RU, not reached by the frame, or with an OBO of
max-slots or more): no cancel-check and no flag update for RU `ru` is pending.  Then
any moves follow in which no station processes a further trigger: the simulator runs
the next event of any station, the clock advances up to the next event, a station
receives another frame, is handed a packet or is told to probe.  Let `m` be the
smallest OBO of the contending stations and `i` one of them.  If the OBO of `i` is `m`,
its candidate transmission is never cancelled: it is pending for `m` slots after the
trigger while the clock has not passed that time, and otherwise its cancel-check and
its transmission have run at that time and it has handed exactly one report to the
queue of the RU.  If the OBO of `i` is larger, its transmission never runs and it hands
over no report; its cancel-check is pending while the clock has not passed its own OBO
slots, and otherwise the check has run at that time and no candidate transmission is
pending any more. -/
theorem C14_smallest_draws_win (w : World) (ru : Nat) (slot : Time) (packet : Packet)
    (hdr : WifiMacHeader) (rv : Nat → Nat) (m : Nat) (ms : List Move) (i : Nat)
    (hready : w.Contends ru slot packet hdr rv) (hru : ru ≤ 8)
    (ht : hdr.type = WifiMacType.TF)
    (hmap : (packet.tf.ruAllocations.map Prod.fst).Nodup)
    (hbc : ∃ x ∈ packet.tf.ruAllocations, x.1 = GetBroadcast) (hslot : 1 < slot)
    (hmin : ∃ j, j < w.stas.length ∧ w.contender ru hdr rv j = true ∧ w.obo rv j = m)
    (hle : ∀ j, j < w.stas.length → w.contender ru hdr rv j = true → m ≤ w.obo rv j)
    (hal : World.Allowed World.noTrigger (w.receive packet hdr rv) ms)
    (hi : i < w.stas.length) (hci : w.contender ru hdr rv i = true) :
    (∃ s, ((w.receive packet hdr rv).moves ms).stas[i]? = some s) ∧
    (w.obo rv i = m →
      ((∃ x s, ((w.receive packet hdr rv).moves ms).stas[i]? = some s ∧
          (⟨x, w.shared.now + (m : Int) * slot, Callback.SendTriggerFrameResp ru⟩ : Event) ∈
            s.events ∧
          ((w.receive packet hdr rv).moves ms).transmissions i = w.transmissions i ∧
          ((w.receive packet hdr rv).moves ms).reports i = w.reports i ∧
          ((w.receive packet hdr rv).moves ms).shared.now ≤ w.shared.now + (m : Int) * slot) ∨
        ((∃ c, ((w.receive packet hdr rv).moves ms).checks i =
            w.checks i ++ [⟨c, w.shared.now + (m : Int) * slot, Callback.CheckAndCancel ru⟩]) ∧
          (∃ x, ((w.receive packet hdr rv).moves ms).transmissions i =
            w.transmissions i ++
              [⟨x, w.shared.now + (m : Int) * slot, Callback.SendTriggerFrameResp ru⟩]) ∧
          ∃ b, ((w.receive packet hdr rv).moves ms).reports i =
            w.reports i ++ [Effect.QueueTFResp ru b]))) ∧
    (m < w.obo rv i →
      ((w.receive packet hdr rv).moves ms).transmissions i = w.transmissions i ∧
      ((w.receive packet hdr rv).moves ms).reports i = w.reports i ∧
      ((∃ c s, ((w.receive packet hdr rv).moves ms).stas[i]? = some s ∧
          (⟨c, w.shared.now + (w.obo rv i : Int) * slot, Callback.CheckAndCancel ru⟩ : Event) ∈
            s.events ∧
          ((w.receive packet hdr rv).moves ms).checks i = w.checks i ∧
          ((w.receive packet hdr rv).moves ms).shared.now ≤
            w.shared.now + (w.obo rv i : Int) * slot) ∨
        ((∃ c, ((w.receive packet hdr rv).moves ms).checks i =
            w.checks i ++
              [⟨c, w.shared.now + (w.obo rv i : Int) * slot, Callback.CheckAndCancel ru⟩]) ∧
          ∀ s, ((w.receive packet hdr rv).moves ms).stas[i]? = some s →
            ∀ e ∈ s.events, e.cb.isTx = false))) := by
  have hs2 : (2 : Time) ≤ slot := Int.add_one_le_iff.mpr hslot
  obtain ⟨hinv0, hlen0⟩ := receive_RaceInv m hready ht hmap hbc hs2 hmin hle
  have hinv := RaceInv_moves hru ms _ hal hinv0
  have hlen : ((w.receive packet hdr rv).moves ms).stas.length = w.stas.length := by
    rw [World_moves_length, hlen0]
  obtain ⟨s, hs⟩ : ∃ s, ((w.receive packet hdr rv).moves ms).stas[i]? = some s :=
    ⟨_, List.getElem?_eq_getElem (by rw [hlen]; exact hi)⟩
  have hrep : ((w.receive packet hdr rv).moves ms).reports i = s.tfResps := by
    unfold World.reports
    rw [hs]
  obtain ⟨o1, o2⟩ := race_outcome hinv hs hci
  refine ⟨⟨s, hs⟩, ?_, ?_⟩
  · intro hm
    rw [hrep]
    rcases o1 (by show w.shared.now + (w.obo rv i : Int) * slot = _; rw [hm]) with
      ⟨x, hx, h1, h2, h3⟩ | h
    · exact Or.inl ⟨x, s, hs, hx, h1, h2, h3⟩
    · exact Or.inr h
  · intro hm
    have hlt : w.shared.now + (m : Int) * slot < w.shared.now + (w.obo rv i : Int) * slot := by
      have := obo_time_lt m (w.obo rv i) slot hm hs2 w.shared.now
      linarith
    rw [hrep]
    obtain ⟨h1, h2, h3⟩ := o2 hlt
    refine ⟨h1, h2, ?_⟩
    rcases h3 with ⟨c, hc, h4, h5⟩ | ⟨h4, h5⟩
    · exact Or.inl ⟨c, s, hs, hc, h4, h5⟩
    · refine Or.inr ⟨h4, ?_⟩
      intro s2 hs2b
      rw [Option.some.inj (hs.symm.trans hs2b)] at h5
      exact h5

/-- Witness of C14: three stations share the simulation, two on RU 3, associated, with
their beacon watchdogs pending, and one on RU 5.  All process a trigger whose
allocation map has an entry for another station and a broadcast entry; they draw OBO
2, 5 and 5.  During the cycle a beacon reaches the second station and the station on
RU 5 runs its own cancel-check and transmission.  Once the clock shows 3066
microseconds the first station has handed one report to the queue of RU 3. -/
theorem C14_smallest_draws_win_witness :
    sampleBusyWorld.Contends 3 13 (sampleTf [(7, 2), (GetBroadcast, 0)] 1)
      (sampleGroupHdr WifiMacType.TF) sampleDraws ∧
    ([0, 1, 2].map (sampleBusyWorld.contender 3 (sampleGroupHdr WifiMacType.TF) sampleDraws)) =
      [true, true, false] ∧
    World.Allowed World.noTrigger (sampleBusyWorld.receive
      (sampleTf [(7, 2), (GetBroadcast, 0)] 1) (sampleGroupHdr WifiMacType.TF) sampleDraws)
      sampleContentionRun ∧
    ((sampleBusyWorld.receive (sampleTf [(7, 2), (GetBroadcast, 0)] 1)
      (sampleGroupHdr WifiMacType.TF) sampleDraws).moves sampleContentionRun).shared.now =
      3066 ∧
    ∃ b, ((sampleBusyWorld.receive (sampleTf [(7, 2), (GetBroadcast, 0)] 1)
      (sampleGroupHdr WifiMacType.TF) sampleDraws).moves sampleContentionRun).reports 0 =
      sampleBusyWorld.reports 0 ++ [Effect.QueueTFResp 3 b] :=
  ⟨by decide, by decide, by decide, by decide,
    (((C14_smallest_draws_win sampleBusyWorld 3 13 (sampleTf [(7, 2), (GetBroadcast, 0)] 1)
      (sampleGroupHdr WifiMacType.TF) sampleDraws 2 sampleContentionRun 0
      (by decide) (by decide) rfl (by decide) ⟨(GetBroadcast, 0), by decide, rfl⟩
      (by decide) ⟨0, by decide, by decide, by decide⟩ (by decide) (by decide) (by decide)
      (by decide)).2.1
      (by decide)).resolve_left
        (fun ⟨_, _, _, _, _, _, h5⟩ => absurd h5 (by decide))).2.2⟩

/-- C15: stations share one simulation; exactly two of them, `i` and `j`, contend on RU
`ru` (0 to 8) in one trigger cycle, that is, are on that RU, are reached by the trigger
and hold an OBO below max-slots after the draw.  At the same time every station is
reached by the trigger, whose allocation map names every address once at most and has a
broadcast entry.  Of the two: the trigger, if it is an uplink trigger, has no entry for
them; their slot duration is `slot`, more than 1 microsecond; their timer bookkeeping is
well-formed and no cancel-check, candidate transmission or flag update of an earlier
cycle is pending (other timers may be).  Of every other station: no cancel-check and no
flag update for RU `ru` is pending.  Then any moves follow in which no station processes
a further trigger.  If the OBO `a` of station `i` is smaller than the OBO `b` of station
`j`, the candidate transmission of station `i` is never cancelled: it is pending for `a`
slots after the trigger while the clock has not passed that time, and otherwise it has
run at that time, after the cancel-check, and the station has handed exactly one report
to the queue of the RU.  The transmission of station `j` never runs and it hands over no
report: its cancel-check is pending while the clock has not passed `b` slots, and
otherwise the check has run at `b` slots and no candidate transmission is pending any
more.  Scenario: RU 3, OBO 2 and 5, slot 13 microseconds, max-slots 16: the first
station transmits at 26 microseconds and hands over one report, the second runs its
check at 65 microseconds, does not transmit and hands over none. -/
theorem C15_earlier_slot_wins (w : World) (ru : Nat) (slot : Time) (packet : Packet)
    (hdr : WifiMacHeader) (rv : Nat → Nat) (i j : Nat) (ms : List Move)
    (hready : w.Contends ru slot packet hdr rv) (hru : ru ≤ 8)
    (ht : hdr.type = WifiMacType.TF)
    (hmap : (packet.tf.ruAllocations.map Prod.fst).Nodup)
    (hbc : ∃ x ∈ packet.tf.ruAllocations, x.1 = GetBroadcast) (hslot : 1 < slot)
    (hi : i < w.stas.length) (hj : j < w.stas.length)
    (hci : w.contender ru hdr rv i = true) (hcj : w.contender ru hdr rv j = true)
    (honly : ∀ k, k < w.stas.length → w.contender ru hdr rv k = true → k = i ∨ k = j)
    (hab : w.obo rv i < w.obo rv j)
    (hal : World.Allowed World.noTrigger (w.receive packet hdr rv) ms) :
    ((∃ x s, ((w.receive packet hdr rv).moves ms).stas[i]? = some s ∧
        (⟨x, w.shared.now + (w.obo rv i : Int) * slot,
          Callback.SendTriggerFrameResp ru⟩ : Event) ∈ s.events ∧
        ((w.receive packet hdr rv).moves ms).transmissions i = w.transmissions i ∧
        ((w.receive packet hdr rv).moves ms).reports i = w.reports i ∧
        ((w.receive packet hdr rv).moves ms).shared.now ≤
          w.shared.now + (w.obo rv i : Int) * slot) ∨
      ((∃ c, ((w.receive packet hdr rv).moves ms).checks i =
          w.checks i ++
            [⟨c, w.shared.now + (w.obo rv i : Int) * slot, Callback.CheckAndCancel ru⟩]) ∧
        (∃ x, ((w.receive packet hdr rv).moves ms).transmissions i =
          w.transmissions i ++
            [⟨x, w.shared.now + (w.obo rv i : Int) * slot,
              Callback.SendTriggerFrameResp ru⟩]) ∧
        ∃ b, ((w.receive packet hdr rv).moves ms).reports i =
          w.reports i ++ [Effect.QueueTFResp ru b])) ∧
    ((w.receive packet hdr rv).moves ms).transmissions j = w.transmissions j ∧
    ((w.receive packet hdr rv).moves ms).reports j = w.reports j ∧
    ((∃ c s, ((w.receive packet hdr rv).moves ms).stas[j]? = some s ∧
        (⟨c, w.shared.now + (w.obo rv j : Int) * slot, Callback.CheckAndCancel ru⟩ : Event) ∈
          s.events ∧
        ((w.receive packet hdr rv).moves ms).checks j = w.checks j ∧
        ((w.receive packet hdr rv).moves ms).shared.now ≤
          w.shared.now + (w.obo rv j : Int) * slot) ∨
      ((∃ c, ((w.receive packet hdr rv).moves ms).checks j =
          w.checks j ++
            [⟨c, w.shared.now + (w.obo rv j : Int) * slot, Callback.CheckAndCancel ru⟩]) ∧
        ∀ s, ((w.receive packet hdr rv).moves ms).stas[j]? = some s →
          ∀ e ∈ s.events, e.cb.isTx = false)) ∧
    ((World.run 10 (sampleWorld.receive (sampleTf [(GetBroadcast, 3)] 1)
        (sampleGroupHdr WifiMacType.TF) sampleDraws)).transmissions 0 =
        [⟨2, 26, Callback.SendTriggerFrameResp 3⟩] ∧
      (World.run 10 (sampleWorld.receive (sampleTf [(GetBroadcast, 3)] 1)
        (sampleGroupHdr WifiMacType.TF) sampleDraws)).reports 0 =
        [Effect.QueueTFResp 3 0] ∧
      (World.run 10 (sampleWorld.receive (sampleTf [(GetBroadcast, 3)] 1)
        (sampleGroupHdr WifiMacType.TF) sampleDraws)).checks 1 =
        [⟨5, 65, Callback.CheckAndCancel 3⟩] ∧
      (World.run 10 (sampleWorld.receive (sampleTf [(GetBroadcast, 3)] 1)
        (sampleGroupHdr WifiMacType.TF) sampleDraws)).transmissions 1 = [] ∧
      (World.run 10 (sampleWorld.receive (sampleTf [(GetBroadcast, 3)] 1)
        (sampleGroupHdr WifiMacType.TF) sampleDraws)).reports 1 = []) := by
  have hs2 : (2 : Time) ≤ slot := Int.add_one_le_iff.mpr hslot
  have hmin : ∃ k, k < w.stas.length ∧ w.contender ru hdr rv k = true ∧
      w.obo rv k = w.obo rv i := ⟨i, hi, hci, rfl⟩
  have hle : ∀ k, k < w.stas.length → w.contender ru hdr rv k = true →
      w.obo rv i ≤ w.obo rv k := by
    intro k hk hck
    rcases honly k hk hck with h | h
    · rw [h]
    · rw [h]; exact le_of_lt hab
  obtain ⟨hinv0, hlen0⟩ := receive_RaceInv (w.obo rv i) hready ht hmap hbc hs2 hmin hle
  have hinv := RaceInv_moves hru ms _ hal hinv0
  have hlen : ((w.receive packet hdr rv).moves ms).stas.length = w.stas.length := by
    rw [World_moves_length, hlen0]
  obtain ⟨si, hsi⟩ : ∃ s, ((w.receive packet hdr rv).moves ms).stas[i]? = some s :=
    ⟨_, List.getElem?_eq_getElem (by rw [hlen]; exact hi)⟩
  obtain ⟨sj, hsj⟩ : ∃ s, ((w.receive packet hdr rv).moves ms).stas[j]? = some s :=
    ⟨_, List.getElem?_eq_getElem (by rw [hlen]; exact hj)⟩
  have hrepi : ((w.receive packet hdr rv).moves ms).reports i = si.tfResps := by
    unfold World.reports
    rw [hsi]
  have hrepj : ((w.receive packet hdr rv).moves ms).reports j = sj.tfResps := by
    unfold World.reports
    rw [hsj]
  have hlt : w.shared.now + (w.obo rv i : Int) * slot <
      w.shared.now + (w.obo rv j : Int) * slot := by
    have := obo_time_lt (w.obo rv i) (w.obo rv j) slot hab hs2 w.shared.now
    linarith
  obtain ⟨h1, h2, h3⟩ := (race_outcome hinv hsj hcj).2 hlt
  refine ⟨?_, h1, by rw [hrepj]; exact h2, ?_, by decide, by decide, by decide, by decide,
    by decide⟩
  · rw [hrepi]
    rcases (race_outcome hinv hsi hci).1 rfl with ⟨x, hx, k1, k2, k3⟩ | h
    · exact Or.inl ⟨x, si, hsi, hx, k1, k2, k3⟩
    · exact Or.inr h
  · rcases h3 with ⟨c, hc, h4, h5⟩ | ⟨h4, h5⟩
    · exact Or.inl ⟨c, sj, hsj, hc, h4, h5⟩
    · refine Or.inr ⟨h4, ?_⟩
      intro s2 hs2b
      rw [Option.some.inj (hsj.symm.trans hs2b)] at h5
      exact h5

/-- Witness of C15: three stations share the simulation, two on RU 3, associated, with
their beacon watchdogs pending, and one on RU 5.  All process a trigger whose
allocation map has an entry for another station and a broadcast entry; they draw OBO
2, 5 and 5.  During the cycle a beacon reaches the second station and the station on
RU 5 runs its own cancel-check and transmission.  Once the clock shows 3066
microseconds the first station has transmitted at 3026 microseconds and the second has
run its cancel-check at 3065 microseconds. -/
theorem C15_earlier_slot_wins_witness :
    sampleBusyWorld.Contends 3 13 (sampleTf [(7, 2), (GetBroadcast, 0)] 1)
      (sampleGroupHdr WifiMacType.TF) sampleDraws ∧
    ([0, 1, 2].map (sampleBusyWorld.contender 3 (sampleGroupHdr WifiMacType.TF) sampleDraws)) =
      [true, true, false] ∧
    sampleBusyWorld.obo sampleDraws 0 = 2 ∧ sampleBusyWorld.obo sampleDraws 1 = 5 ∧
    sampleBusyWorld.shared.now = 3000 ∧
    World.Allowed World.noTrigger (sampleBusyWorld.receive
      (sampleTf [(7, 2), (GetBroadcast, 0)] 1) (sampleGroupHdr WifiMacType.TF) sampleDraws)
      sampleContentionRun ∧
    (∃ x, ((sampleBusyWorld.receive (sampleTf [(7, 2), (GetBroadcast, 0)] 1)
      (sampleGroupHdr WifiMacType.TF) sampleDraws).moves sampleContentionRun).transmissions 0 =
      sampleBusyWorld.transmissions 0 ++
        [⟨x, sampleBusyWorld.shared.now + (sampleBusyWorld.obo sampleDraws 0 : Int) * 13,
          Callback.SendTriggerFrameResp 3⟩]) ∧
    (∃ c, ((sampleBusyWorld.receive (sampleTf [(7, 2), (GetBroadcast, 0)] 1)
      (sampleGroupHdr WifiMacType.TF) sampleDraws).moves sampleContentionRun).checks 1 =
      sampleBusyWorld.checks 1 ++
        [⟨c, sampleBusyWorld.shared.now + (sampleBusyWorld.obo sampleDraws 1 : Int) * 13,
          Callback.CheckAndCancel 3⟩]) :=
  ⟨by decide, by decide, by decide, by decide, by decide, by decide,
    ((C15_earlier_slot_wins sampleBusyWorld 3 13 (sampleTf [(7, 2), (GetBroadcast, 0)] 1)
      (sampleGroupHdr WifiMacType.TF) sampleDraws 0 1 sampleContentionRun
      (by decide) (by decide) rfl (by decide) ⟨(GetBroadcast, 0), by decide, rfl⟩
      (by decide) (by decide) (by decide) (by decide) (by decide) (by decide) (by decide)
      (by decide)).1.resolve_left
        (fun ⟨_, _, _, _, _, _, h5⟩ => absurd h5 (by decide))).2.1,
    ((C15_earlier_slot_wins sampleBusyWorld 3 13 (sampleTf [(7, 2), (GetBroadcast, 0)] 1)
      (sampleGroupHdr WifiMacType.TF) sampleDraws 0 1 sampleContentionRun
      (by decide) (by decide) rfl (by decide) ⟨(GetBroadcast, 0), by decide, rfl⟩
      (by decide) (by decide) (by decide) (by decide) (by decide) (by decide) (by decide)
      (by decide)).2.2.2.1.resolve_left
        (fun ⟨_, _, _, _, _, h5⟩ => absurd h5 (by decide))).1⟩

/-- C26 as stated fails in two ways.  First, when a slot lasts one microsecond and the
SIFS is zero: one station (max-slots 3) receives a trigger with a broadcast entry at
time 0 and draws OBO 2, which is below max-slots.  Its cancel-check runs at 2
microseconds, finds the flag false and schedules the flag update for 3 microseconds; the
cycle-end check, due at max-slots * slot + SIFS = 3 microseconds as well, was registered
earlier and runs first: it is the next event after the cancel-check and the transmission
ran, it finds the flag false and applies the decrement, which leaves OBO 0.  Second, when
another station processes a trigger in between (slot 13 microseconds, SIFS 16, max-slots
16): the first station of the sample world processes a trigger with a broadcast entry at
time 0 and draws OBO 0; its cancel-check and its transmission run at time 0 and its flag
update sets the flag of RU 3 at 1 microsecond; at 2 microseconds the second station
processes a trigger addressed to it alone, which resets the static flags; the first
station saw no new trigger and kept its RU, yet its cycle-end check, the next event, due
at 224 microseconds, finds the flag false and computes 0 - 15, which wraps to
4294967281. -/
theorem C26_cycle_end_check_outruns_flag_update :
    (((sampleTightWorld.receive (sampleTf [(GetBroadcast, 0)] 1)
      (sampleGroupHdr WifiMacType.TF) (fun _ => 2)).stas.map fun s =>
        (s.slot, s.sifs, s.maxTfSlots, s.m_noSlots, s.ruBits)) = [(1, 0, 3, 2, 0)] ∧
    earliest (pendingFrom 0 (World.run 2 (sampleTightWorld.receive
      (sampleTf [(GetBroadcast, 0)] 1) (sampleGroupHdr WifiMacType.TF) (fun _ => 2))).stas) =
      some (0, ⟨3, 3, Callback.CancelExpiredEvents⟩) ∧
    (World.run 2 (sampleTightWorld.receive (sampleTf [(GetBroadcast, 0)] 1)
      (sampleGroupHdr WifiMacType.TF) (fun _ => 2))).shared.GetBsrTx 0 = false ∧
    (World.run 2 (sampleTightWorld.receive (sampleTf [(GetBroadcast, 0)] 1)
      (sampleGroupHdr WifiMacType.TF) (fun _ => 2))).log =
      [(0, ⟨1, 2, Callback.CheckAndCancel 0⟩), (0, ⟨2, 2, Callback.SendTriggerFrameResp 0⟩)] ∧
    ((World.run 3 (sampleTightWorld.receive (sampleTf [(GetBroadcast, 0)] 1)
      (sampleGroupHdr WifiMacType.TF) (fun _ => 2))).stas.map fun s => s.m_noSlots) = [0]) ∧
    (World.Allowed (fun _ _ => True) sampleWorld lateTriggerRun ∧
    ((sampleWorld.moves (lateTriggerRun.take 1)).stas.map fun s =>
      (s.slot, s.sifs, s.maxTfSlots, s.m_noSlots, s.ruBits)) =
      [(13, 16, 16, 0, 3), (13, 16, 16, 0, 3)] ∧
    (sampleWorld.moves (lateTriggerRun.take 4)).log =
      [(0, ⟨1, 0, Callback.CheckAndCancel 3⟩), (0, ⟨2, 0, Callback.SendTriggerFrameResp 3⟩),
        (0, ⟨4, 1, Callback.UpdateBsrTx 3⟩)] ∧
    (sampleWorld.moves (lateTriggerRun.take 4)).shared.GetBsrTx 3 = true ∧
    (sampleWorld.moves (lateTriggerRun.take 5)).shared.now = 2 ∧
    (sampleWorld.moves lateTriggerRun).shared.GetBsrTx 3 = false ∧
    earliest (pendingFrom 0 (sampleWorld.moves lateTriggerRun).stas) =
      some (0, ⟨3, 224, Callback.CancelExpiredEvents⟩) ∧
    ((sampleWorld.moves lateTriggerRun).stas.map fun s => (s.m_noSlots, s.ruBits)) =
      [(0, 3), (0, 3)] ∧
    ((sampleWorld.moves (lateTriggerRun ++ [Move.run])).stas.map fun s => s.m_noSlots) =
      [4294967281, 0]) := by
  refine ⟨⟨by decide, by decide, by decide, by decide, by decide⟩, by decide, by decide,
    by decide, by decide, by decide, by decide, by decide, by decide, by decide⟩

/-- C26 (amended): the flag is set when the cycle-end check runs, provided slot and SIFS
together last two microseconds at least and no station processes a trigger between the
cancel-check of the station and its cycle-end check.  Stations share one simulation.
Station `i` is on one of the nine RUs, its timer bookkeeping is well-formed, and none of
its cancel-checks, flag updates and cycle-end checks is pending (its earlier cycles are
over).  It processes a trigger: the frame reaches the trigger branch, carries a broadcast
entry and, if it is an uplink trigger, no entry for the station; a slot lasts a
microsecond at least.  Then any moves follow, `ms`: the simulator runs the next event,
of any station; the clock advances; a frame, an outbound packet or a probing call
reaches any station.  Station `i` processes no further trigger and no stimulus changes
its RU; if the OBO it drew is below max-slots, another station processes a trigger only
while a cancel-check of station `i` is still pending.  Whenever the next event to run is
then a cycle-end check of station `i`: if the shared flag of the station's RU is false,
the OBO the station held after the draw is at least max-slots; if that OBO is below
max-slots, the flag is true, the station is still on its RU and the check leaves the OBO
as it is (no decrement is applied); and when the allocation map names every address
once at most, the OBO the station holds when the check runs is still the OBO after the
draw, so that a decrement is only applied to an OBO of at least max-slots. -/
theorem C26_flag_set_at_cycle_end (w0 : World) (i : Nat) (s : StaWifiMac) (packet : Packet)
    (hdr : WifiMacHeader) (rv : Nat) (ms : List Move) (e : Event)
    (hs : w0.stas[i]? = some s) (hru : s.ruBits ≤ 8)
    (hbk : (s.withShared w0.shared).Booked)
    (hq : ∀ x ∈ s.events, x.cb.isCheck = false ∧ x.cb.isUpdate = false ∧
      x.cb ≠ Callback.CancelExpiredEvents)
    (ht : hdr.type = WifiMacType.TF) (hp : passesAddressFilter s hdr)
    (hb : ∃ x ∈ packet.tf.ruAllocations, x.1 = GetBroadcast)
    (hkeep : ∀ x ∈ packet.tf.ruAllocations, x.1 = s.address → packet.tf.uplinkFlag = 0)
    (hslot : 1 ≤ s.slot) (hgap : 2 ≤ s.slot + s.sifs)
    (hal : World.Allowed
      (World.sparesCycle i (decide (s.maxTfSlots ≤ s.slotsAfterDraw rv)))
      (w0.move (Move.act i (Stimulus.receive packet hdr rv))) ms)
    (hnext : earliest (pendingFrom 0
      ((w0.move (Move.act i (Stimulus.receive packet hdr rv))).moves ms).stas) = some (i, e))
    (hcb : e.cb = Callback.CancelExpiredEvents) :
    (((w0.move (Move.act i (Stimulus.receive packet hdr rv))).moves ms).shared.GetBsrTx
        s.ruBits = false → s.maxTfSlots ≤ s.slotsAfterDraw rv) ∧
    (s.slotsAfterDraw rv < s.maxTfSlots →
      ((w0.move (Move.act i (Stimulus.receive packet hdr rv))).moves ms).shared.GetBsrTx
        s.ruBits = true ∧
      ∃ si, ((w0.move (Move.act i (Stimulus.receive packet hdr rv))).moves ms).stas[i]? =
          some si ∧ si.ruBits = s.ruBits ∧
        ((si.withShared
          ((w0.move (Move.act i (Stimulus.receive packet hdr rv))).moves ms).shared).Fire
            e).m_noSlots = si.m_noSlots) ∧
    ((packet.tf.ruAllocations.map Prod.fst).Nodup →
      ∃ si, ((w0.move (Move.act i (Stimulus.receive packet hdr rv))).moves ms).stas[i]? =
          some si ∧ si.m_noSlots = s.slotsAfterDraw rv) := by
  have hilt : i < w0.stas.length := (List.getElem?_eq_some_iff.mp hs).1
  have hw1 : w0.move (Move.act i (Stimulus.receive packet hdr rv)) =
      { w0 with
        shared := ((s.withShared w0.shared).Receive packet hdr rv).shared,
        stas := w0.stas.set i ((s.withShared w0.shared).Receive packet hdr rv) } :=
    World_act_eq w0 i (fun x => step x (Stimulus.receive packet hdr rv)) s hs
  have hst : (w0.move (Move.act i (Stimulus.receive packet hdr rv))).stas[i]? =
      some ((s.withShared w0.shared).Receive packet hdr rv) := by
    rw [hw1]
    exact List.getElem?_set_self hilt
  obtain ⟨hmem, hmin⟩ := earliest_some _ _ hnext
  obtain ⟨_, sj, hsj, hej⟩ := (mem_pendingFrom _ 0 i e).mp hmem
  rw [Nat.sub_zero] at hsj
  have main : s.slotsAfterDraw rv < s.maxTfSlots →
      ((w0.move (Move.act i (Stimulus.receive packet hdr rv))).moves ms).shared.GetBsrTx
        s.ruBits = true ∧
      ∃ si, ((w0.move (Move.act i (Stimulus.receive packet hdr rv))).moves ms).stas[i]? =
          some si ∧ si.ruBits = s.ruBits ∧
        ((si.withShared
          ((w0.move (Move.act i (Stimulus.receive packet hdr rv))).moves ms).shared).Fire
            e).m_noSlots = si.m_noSlots := by
    intro hobo
    have hfree : decide (s.maxTfSlots ≤ s.slotsAfterDraw rv) = false :=
      decide_eq_false (not_le.mpr hobo)
    rw [hfree] at hal
    obtain ⟨c1, c2, c3⟩ := Receive_TF_CycleGuard (s.withShared w0.shared) packet hdr rv ht hp
      hbk.1 hbk.2.1 (Booked_handles hbk) hq hb hkeep hslot hgap hobo
    have hstart : ∃ st, (w0.move (Move.act i (Stimulus.receive packet hdr rv))).stas[i]? =
        some st ∧
        CycleEnd s.ruBits (w0.shared.now + (s.slotsAfterDraw rv : Int) * s.slot)
          (w0.move (Move.act i (Stimulus.receive packet hdr rv))).shared.nextUid
          ((w0.move (Move.act i (Stimulus.receive packet hdr rv))).shared.GetBsrTx s.ruBits)
          st := by
      refine ⟨_, hst, c1, ?_, Or.inl c3⟩
      rw [hw1]
      exact c2
    obtain ⟨si, d1, d2⟩ := World_moves_CycleEnd hru i ms _ hal hstart
    have hsji : sj = si := Option.some.inj (hsj.symm.trans d1)
    rw [hsji] at hej
    have hflag : ((w0.move (Move.act i (Stimulus.receive packet hdr rv))).moves
        ms).shared.GetBsrTx s.ruBits = true := by
      refine CycleEnd_flag_set d2 hej hcb ?_
      intro y hy
      exact hmin (i, y) ((mem_pendingFrom _ 0 i y).mpr ⟨Nat.zero_le _, si, by
        rw [Nat.sub_zero]; exact d1, hy⟩)
    refine ⟨hflag, si, d1, d2.1, ?_⟩
    refine Fire_cycle_end_of_flag si _ e hcb ?_
    rw [d2.1]
    exact hflag
  refine ⟨?_, main, ?_⟩
  · intro hf
    by_contra hlt
    have := (main (not_le.mp hlt)).1
    rw [hf] at this
    exact Bool.noConfusion this
  · intro hnd
    have hone := Receive_TF_CycleOne (s.withShared w0.shared) packet hdr rv ht hp
      (fun x hx => (hq x hx).2.2) hnd
    have hstart : ∃ st, (w0.move (Move.act i (Stimulus.receive packet hdr rv))).stas[i]? =
        some st ∧ CycleOne (s.slotsAfterDraw rv) st := ⟨_, hst, hone⟩
    obtain ⟨si, d1, d2⟩ := World_moves_CycleOne i _ ms _ hal hstart
    have hsji : sj = si := Option.some.inj (hsj.symm.trans d1)
    rw [hsji] at hej
    exact ⟨si, d1, d2.2 ⟨e, hej, hcb⟩⟩

/-- Witness of C26: in the sample world the first station processes a trigger with a
broadcast entry and draws OBO 2 (slot 13 microseconds, SIFS 16, max-slots 16); the
second station processes the same trigger right after it and draws OBO 5; the clock
advances to 10 microseconds, a beacon reaches the first station, and the simulator runs
four events.  The cycle-end check of the first station is then the next event; the flag
of RU 3 is set and the check leaves the OBO at 2. -/
theorem C26_flag_set_at_cycle_end_witness :
    earliest (pendingFrom 0 ((sampleWorld.move (Move.act 0 (Stimulus.receive
      (sampleTf [(GetBroadcast, 0)] 1) (sampleGroupHdr WifiMacType.TF) 2))).moves
        sampleCycleRun).stas) = some (0, ⟨3, 224, Callback.CancelExpiredEvents⟩) ∧
    (StaWifiMac.init { sampleCfg with ruBits := 3 }).slotsAfterDraw 2 = 2 ∧
    ((sampleWorld.move (Move.act 0 (Stimulus.receive (sampleTf [(GetBroadcast, 0)] 1)
      (sampleGroupHdr WifiMacType.TF) 2))).moves sampleCycleRun).shared.GetBsrTx 3 = true :=
  ⟨by decide, by decide,
    ((C26_flag_set_at_cycle_end sampleWorld 0 (StaWifiMac.init { sampleCfg with ruBits := 3 })
      (sampleTf [(GetBroadcast, 0)] 1) (sampleGroupHdr WifiMacType.TF) 2 sampleCycleRun
      ⟨3, 224, Callback.CancelExpiredEvents⟩ rfl (by decide) (by decide) (by decide) rfl
      (by decide) (by decide) (by decide) (by decide) (by decide) (by decide) (by decide)
      rfl).2.1 (by decide)).1⟩

end ns3
